import Mathlib

/-!
# ripugw: the inform protocol engine

A shallow embedding of the Go packages `inform`, `inform/binary`, `conf`, `pfconf`
and the parts of `svc` and `collect` that drive them, followed by theorems about the
packet envelope, the ciphers, keys and hardware addresses, the JSON documents of the
request, the replies of the controller, the configuration and the two builders of
the request.

Conventions of the embedding.

* A Go `[]byte` is a `List` of bytes; a byte is a `Fin 256`.  Where the program
  tests a slice against `nil` (the key of a packet) the slice is an `Option`.
* Go `uint16` / `uint32` / `uint` values are natural numbers; conversions that can
  truncate carry an explicit `%`.  `uint` and `int` are 64 bits wide.
* A Go `string` is a `String`.  The program reads a string byte by byte only where
  every byte it accepts is ASCII (hexadecimal and decimal digits, separators), so a
  character stands for a byte there.
* A function that returns `(T, error)` returns `Except Error T`, or a pair when the
  program uses the value next to a non-nil error.  A run-time panic (index or slice
  out of range, nil dereference) is the error `Error.panic`.
* Calls into libraries outside the repository (AES, Snappy, zlib, the JSON text
  codec) are fields of `Primitives`; every function that reaches one takes the
  primitives as its first argument.  `net.ParseIP` is a parameter of the one
  function that calls it.
-/

namespace Ripugw

/-! ## Bytes and errors -/

abbrev Byte := Fin 256
abbrev Bytes := List Byte

/-- A Go `string`. -/
abbrev Str := String

/-- Go conversion `byte(x)` of an unsigned integer: the low eight bits. -/
def byteOf (n : Nat) : Byte := ⟨n % 256, Nat.mod_lt n (by decide)⟩

/-- Go conversion `uint32(n)` of a non-negative integer: the low 32 bits. -/
def uint32 (n : Nat) : Nat := n % 2 ^ 32

/-- The result of an addition of `uint` values: the low 64 bits. -/
def uint (n : Nat) : Nat := n % 2 ^ 64

/-- The error values of the program; each constructor names the message of the
`errors.New` / `fmt.Errorf` call it stands for. -/
inductive Error where
  /-- "Invalid length of MAC address" -/
  | invalidMacLength
  /-- "Invalid packet length." -/
  | invalidPacketLength
  /-- "Invalid magic number at start of packet." -/
  | invalidMagic
  /-- "Unkwown inform version." -/
  | unknownInformVersion
  /-- "Unkwown data version." -/
  | unknownDataVersion
  /-- "Could not get enough randomness to generate IV" -/
  | notEnoughRandomness
  /-- "iv length must be 16 bytes [len(iv)==n]" -/
  | ivLength (n : Nat)
  /-- "key length must be 16 bytes [len(key)==n]" -/
  | keyLength (n : Nat)
  /-- "encrypted data must be a multiple of 16 bytes" -/
  | notBlockMultiple
  /-- "Invalid padding: padLen > 16 (blockSize)" -/
  | invalidPadding (padLen : Nat)
  /-- "cipher: message authentication failed", the error of `cipher.AEAD.Open` -/
  | gcmAuthFailed
  /-- The error of `hex.DecodeString` -/
  | hexDecode
  /-- "invalid key length" -/
  | invalidKeyLength
  /-- The `*strconv.NumError` of `strconv.Atoi` with `ErrSyntax` -/
  | atoiSyntax
  /-- The `*strconv.NumError` of `strconv.Atoi` with `ErrRange` -/
  | atoiRange
  /-- "not a string" -/
  | notAString
  /-- "not a float64" -/
  | notAFloat64
  /-- "cannot convert value" -/
  | cannotConvert
  /-- "invalid IP" -/
  | invalidIP
  /-- "invalid netmask" -/
  | invalidNetmask
  /-- "invalid gateway" -/
  | invalidGateway
  /-- An error value produced by a library or by a caller-supplied function. -/
  | lib (what : Str)
  /-- A run-time panic. -/
  | panic
  deriving DecidableEq, Repr

instance {ε α : Type} [DecidableEq ε] [DecidableEq α] : DecidableEq (Except ε α)
  | .ok a, .ok b =>
    if h : a = b then isTrue (congrArg Except.ok h)
    else isFalse (fun h1 => h (Except.ok.inj h1))
  | .error a, .error b =>
    if h : a = b then isTrue (congrArg Except.error h)
    else isFalse (fun h1 => h (Except.error.inj h1))
  | .ok _, .error _ => isFalse (fun h => Except.noConfusion h)
  | .error _, .ok _ => isFalse (fun h => Except.noConfusion h)

/-! ## inform/binary/buffer.go -/

/-- Go builtin `copy(dst, src)`: overwrites the first `min (len dst) (len src)`
elements of `dst`. -/
def copy (dst src : Bytes) : Bytes := src.take dst.length ++ dst.drop src.length

/-- `binary.NewBuffer`. -/
def NewBuffer (length : Nat) : Bytes := List.replicate length 0

/-- `Buffer.Write`: `copy(b[offset:], bytes)`; the slice expression panics when
`offset > len(b)`. -/
def Buffer.Write (b : Bytes) (offset : Nat) (bytes : Bytes) : Option Bytes :=
  if offset ≤ b.length then some (b.take offset ++ copy (b.drop offset) bytes) else none

/-- `Buffer.WriteUInt16BE`; an index out of range panics (`none`). -/
def Buffer.WriteUInt16BE (b : Bytes) (offset : Nat) (v : Nat) : Option Bytes :=
  if offset + 1 < b.length then
    some ((b.set offset (byteOf ((v &&& 0xff00) >>> 8))).set (offset + 1) (byteOf (v &&& 0x00ff)))
  else none

/-- `Buffer.WriteUInt32BE`; an index out of range panics (`none`). -/
def Buffer.WriteUInt32BE (b : Bytes) (offset : Nat) (v : Nat) : Option Bytes :=
  if offset + 3 < b.length then
    some ((((b.set offset (byteOf ((v &&& 0xff000000) >>> 24))).set (offset + 1)
      (byteOf ((v &&& 0x00ff0000) >>> 16))).set (offset + 2)
      (byteOf ((v &&& 0x0000ff00) >>> 8))).set (offset + 3) (byteOf (v &&& 0x000000ff)))
  else none

/-- `Buffer.Read`: the slice `b[offset:end]`; panics (`none`) unless
`offset ≤ end ≤ len(b)`. -/
def Buffer.Read (b : Bytes) (offset fin : Nat) : Option Bytes :=
  if offset ≤ fin ∧ fin ≤ b.length then some ((b.take fin).drop offset) else none

/-- `Buffer.ReadUInt16BE`; the sum stays below `2^16`, so the `uint16` addition does
not wrap. -/
def Buffer.ReadUInt16BE (b : Bytes) (offset : Nat) : Option Nat :=
  match b[offset]?, b[offset + 1]? with
  | some x, some y => some ((x.val <<< 8) + y.val)
  | _, _ => none

/-- `Buffer.ReadUInt32BE`; the sum stays below `2^32`, so the `uint32` addition does
not wrap. -/
def Buffer.ReadUInt32BE (b : Bytes) (offset : Nat) : Option Nat :=
  match b[offset]?, b[offset + 1]?, b[offset + 2]?, b[offset + 3]? with
  | some x, some y, some z, some w =>
    some ((x.val <<< 24) + (y.val <<< 16) + (z.val <<< 8) + w.val)
  | _, _, _, _ => none

/-! ## inform/key.go, inform/mac.go -/

/-- `inform.Key`: a byte slice that may be `nil` (`none`). -/
abbrev Key := Option Bytes

/-- `len(k)` of a key; a nil slice has length 0. -/
def Key.len (k : Key) : Nat := (k.getD []).length

/-- `DefaultKey`. -/
def DefaultKey : Key :=
  some [0xba, 0x86, 0xf2, 0xbb, 0xe1, 0x07, 0xc7, 0xc5,
        0x7e, 0xb5, 0xf2, 0x69, 0x07, 0x75, 0xc7, 0x12]

/-- `Key.IsValid`. -/
def Key.IsValid (k : Key) : Bool := k.len == DefaultKey.len

/-- `Key.IsDefault`: `bytes.Equal`, which does not tell nil from empty. -/
def Key.IsDefault (k : Key) : Bool := k.getD [] == DefaultKey.getD []

/-- One hexadecimal digit, as `encoding/hex` reads it. -/
def fromHexChar (c : Char) : Option Nat :=
  if '0' ≤ c ∧ c ≤ '9' then some (c.toNat - '0'.toNat)
  else if 'a' ≤ c ∧ c ≤ 'f' then some (c.toNat - 'a'.toNat + 10)
  else if 'A' ≤ c ∧ c ≤ 'F' then some (c.toNat - 'A'.toNat + 10)
  else none

/-- `hex.DecodeString` on the characters of the string: pairs of digits, an error
on an odd length or on a character that is no hexadecimal digit. -/
def hexDecode : List Char → Except Error Bytes
  | [] => .ok []
  | [_] => .error .hexDecode
  | a :: b :: rest =>
    match fromHexChar a, fromHexChar b with
    | some x, some y =>
      match hexDecode rest with
      | .ok bs => .ok (byteOf (x * 16 + y) :: bs)
      | .error e => .error e
    | _, _ => .error .hexDecode

/-- `KeyFromString`. -/
def KeyFromString (keyString : Str) : Except Error Key :=
  match hexDecode keyString.data with
  | .error e => .error e
  | .ok keyBytes =>
    let key : Key := some keyBytes
    if !key.IsValid then .error .invalidKeyLength else .ok key

/-- The digit characters of `encoding/hex` and of the `%02x` verb. -/
def hexDigit (n : Nat) : Char := "0123456789abcdef".data.getD n '0'

/-- Two lowercase hexadecimal digits of a byte. -/
def hexByte (b : Byte) : List Char := [hexDigit (b.val / 16), hexDigit (b.val % 16)]

/-- `hex.EncodeToString`. -/
def hexEncode (bs : Bytes) : Str := (bs.flatMap hexByte).asString

/-- `Key.String`. -/
def Key.String (k : Key) : Str := hexEncode (k.getD [])

/-- `inform.HardwareAddr`: a byte slice; only its length and its bytes are used. -/
abbrev HardwareAddr := Bytes

/-- `HardwareAddr.IsValid`. -/
def HardwareAddr.IsValid (m : HardwareAddr) : Bool := m.length == 6

/-- `HardwareAddr.String`. -/
def HardwareAddr.String (m : HardwareAddr) : Str :=
  if !HardwareAddr.IsValid m then ""
  else (List.intercalate [':'] (m.map hexByte)).asString

/-- `HardwareAddr.HexString`. -/
def HardwareAddr.HexString (m : HardwareAddr) : Str := hexEncode m

/-! ## Dynamic values and JSON documents -/

/-- A finite `float64`, as the rational number it denotes.  NaN and the infinities
do not occur: the JSON decoder cannot produce them. -/
structure Float64 where
  val : Rat
  deriving DecidableEq, Repr

/-- Go conversion `int(f)`: truncation toward zero; out of the `int64` range the
amd64 result `-2^63`. -/
def Float64.toInt (f : Float64) : Int :=
  let t := Int.tdiv f.val.num f.val.den
  if -(2 ^ 63) ≤ t ∧ t < 2 ^ 63 then t else -(2 ^ 63)

/-- The `float64` nearest to an integer, ties to even (what `strconv.ParseFloat`
stores for an integer literal). -/
def Float64.ofInt (n : Int) : Float64 :=
  let a := n.natAbs
  if a ≤ 2 ^ 53 then ⟨n⟩
  else
    let e := Nat.log2 a - 52
    let q := a / 2 ^ e
    let r := a % 2 ^ e
    let half := 2 ^ (e - 1)
    let q1 := if half < r ∨ (r = half ∧ q % 2 = 1) then q + 1 else q
    ⟨((Int.sign n * ((q1 * 2 ^ e : Nat) : Int) : Int) : Rat)⟩

/-- A JSON document as `json.Marshal` writes it: the tree before it is rendered
as text.  Object members are in the order they are written. -/
inductive JSON where
  | null
  | bool (b : Bool)
  | int (n : Int)
  | float (f : Float64)
  | str (s : Str)
  | arr (xs : List JSON)
  | obj (members : List (Str × JSON))

/-- A Go `interface{}` value as the program inspects it: the dynamic types it
asserts on, and `composite` for a `[]interface{}` or `map[string]interface{}`,
whose contents the program never reads. -/
inductive GoVal where
  | nil
  | bool (b : Bool)
  | int (n : Int)
  | float64 (f : Float64)
  | string (s : Str)
  | composite (doc : JSON)

/-- A `map[string]interface{}`: its entries, in the order `range` visits them. -/
abbrev GoMap := List (Str × GoVal)

/-- What `json.Unmarshal` stores in an `interface{}` for a document: every number
becomes a `float64`. -/
def GoVal.ofJSON : JSON → GoVal
  | .null => .nil
  | .bool b => .bool b
  | .int n => .float64 (Float64.ofInt n)
  | .float f => .float64 f
  | .str s => .string s
  | .arr xs => .composite (.arr xs)
  | .obj ms => .composite (.obj ms)

/-- The map `json.Unmarshal` fills from an object document (entries in member
order); `null` leaves the map nil, which reads like the empty map. -/
def GoMap.ofJSON : JSON → Option GoMap
  | .obj ms => some (ms.map fun kv => (kv.1, GoVal.ofJSON kv.2))
  | .null => some []
  | _ => none

/-- Calls into libraries outside the repository. -/
structure Primitives where
  /-- `snappy.Encode(nil, data)` -/
  snappyEncode : Bytes → Bytes
  /-- `snappy.Decode(nil, data)` -/
  snappyDecode : Bytes → Except Error Bytes
  /-- `zlib.NewWriter`, `Write`, `Close` on a `bytes.Buffer` -/
  zlibCompress : Bytes → Except Error Bytes
  /-- `zlib.NewReader`, `ioutil.ReadAll`, `Close` -/
  zlibDecompress : Bytes → Except Error Bytes
  /-- `cipher.NewCBCEncrypter(block, iv).CryptBlocks` for the AES block of `key` -/
  cbcEncryptBlocks : (key iv src : Bytes) → Bytes
  /-- `cipher.NewCBCDecrypter(block, iv).CryptBlocks` for the AES block of `key` -/
  cbcDecryptBlocks : (key iv src : Bytes) → Bytes
  /-- `aesgcm.Seal(nil, nonce, plaintext, aad)` with a 16-byte nonce -/
  gcmSeal : (key nonce plaintext aad : Bytes) → Bytes
  /-- `aesgcm.Open(nil, nonce, ciphertext, aad)`; `none` is its only error,
  "cipher: message authentication failed" -/
  gcmOpen : (key nonce ciphertext aad : Bytes) → Option Bytes
  /-- The text `json.Marshal` renders for a document -/
  jsonMarshal : JSON → Bytes
  /-- The text `json.MarshalIndent(_, "", "\t")` renders for a document -/
  jsonMarshalIndent : JSON → Bytes
  /-- `json.Unmarshal(data, &result)` for a `map[string]interface{}` -/
  jsonUnmarshal : Bytes → Except Error GoMap

/-! ## inform/response.go -/

/-- `httpResponse`. -/
structure httpResponse where
  code : Int
  deriving DecidableEq, Repr

/-- `ResponseFromHttpCode`. -/
def ResponseFromHttpCode (code : Int) : httpResponse := ⟨code⟩

/-- `httpResponse.IsSuccess`. -/
def httpResponse.IsSuccess (r : httpResponse) : Bool := r.code == 200

/-- `httpResponse.HttpCode`. -/
def httpResponse.HttpCode (r : httpResponse) : Int := r.code

/-- Value of a run of decimal digits, `none` when a character is no digit. -/
def digitsValue : List Char → Nat → Option Nat
  | [], acc => some acc
  | c :: cs, acc =>
    if '0' ≤ c ∧ c ≤ '9' then digitsValue cs (acc * 10 + (c.toNat - '0'.toNat)) else none

/-- The loop of `strconv.ParseUint(s, 10, 64)` over the text that is left, `n` being
the value so far.  A character that is no decimal digit is a syntax error with
value 0; at the digit where the value leaves 64 bits the loop returns a range error
with value 2^64 - 1, whatever follows. -/
def strconv.parseUintLoop : List Char → Nat → Nat × Option Error
  | [], n => (n, none)
  | c :: cs, n =>
    if '0' ≤ c ∧ c ≤ '9' then
      if n ≥ (2 ^ 64 - 1) / 10 + 1 then (2 ^ 64 - 1, some .atoiRange)
      else
        let n1 := n * 10 + (c.toNat - '0'.toNat)
        if n1 > 2 ^ 64 - 1 then (2 ^ 64 - 1, some .atoiRange)
        else strconv.parseUintLoop cs n1
    else (0, some .atoiSyntax)

/-- `strconv.ParseUint(s, 10, 64)`. -/
def strconv.ParseUint (s : List Char) : Nat × Option Error :=
  if s = [] then (0, some .atoiSyntax) else strconv.parseUintLoop s 0

/-- The end of `strconv.ParseInt`: the sign and the range of `int64` applied to
what `ParseUint` returned. -/
def strconv.ParseInt.signed (neg : Bool) (un : Nat) (err : Option Error) : Int × Option Error :=
  if err ≠ none ∧ err ≠ some .atoiRange then (0, err)
  else if neg = false ∧ un ≥ 2 ^ 63 then (2 ^ 63 - 1, some .atoiRange)
  else if neg = true ∧ un > 2 ^ 63 then (-(2 ^ 63), some .atoiRange)
  else if neg then (-(un : Int), none) else ((un : Int), none)

/-- `strconv.ParseInt(s, 10, 0)`, `int` being 64 bits wide. -/
def strconv.ParseInt (s : List Char) : Int × Option Error :=
  if s = [] then (0, some .atoiSyntax)
  else
    let (neg, ds) :=
      match s with
      | '+' :: rest => (false, rest)
      | '-' :: rest => (true, rest)
      | cs => (false, cs)
    let (un, err) := strconv.ParseUint ds
    strconv.ParseInt.signed neg un err

/-- `strconv.Atoi`, which is `ParseInt(s, 10, 0)` converted to `int`: an optional
sign and at least one decimal digit; on a syntax error the value is 0, on a range
error the nearest `int64`.  (The shortcut `Atoi` takes on a text of fewer than 19
bytes returns the same.) -/
def Atoi (s : Str) : Int × Option Error := strconv.ParseInt s.data

/-- The number a run of decimal digits denotes. -/
def decimalValue (ds : List Char) : Nat :=
  ds.foldl (fun acc c => acc * 10 + (c.toNat - '0'.toNat)) 0

/-- `ParseString`. -/
def ParseString (value : GoVal) : Str × Option Error :=
  match value with
  | .string result => (result, none)
  | _ => ("", some .notAString)

/-- `ParseFloat`. -/
def ParseFloat (value : GoVal) : Float64 × Option Error :=
  match value with
  | .float64 result => (result, none)
  | _ => (⟨0⟩, some .notAFloat64)

/-- `ParseInt`. -/
def ParseInt (value : GoVal) : Int × Option Error :=
  match value with
  | .int v => (v, none)
  | .float64 v => (v.toInt, none)
  | .string v => Atoi v
  | _ => (0, some .cannotConvert)

/-- `ParseBool`. -/
def ParseBool (value : GoVal) : Bool × Option Error :=
  match value with
  | .int v => (decide (v > 0), none)
  | .float64 v => (decide (v.toInt > 0), none)
  | .string v =>
    if v = "true" ∨ v = "True" ∨ v = "1" then (true, none)
    else if v = "false" ∨ v = "False" ∨ v = "0" then (false, none)
    else (false, some .cannotConvert)
  | .bool v => (v, none)
  | _ => (false, some .cannotConvert)

/-! ## inform/noop.go -/

/-- `Noop`; `code` is the field of the embedded `httpResponse`. -/
structure Noop where
  code : Int
  ServerTime : Int
  Interval : Int
  deriving DecidableEq, Repr

/-- `Noop.unmarshalMap`.  The returned error is always nil: the `err` assigned by
`strconv.Atoi` is a new variable of the inner block. -/
def Noop.unmarshalMap (msg : Noop) (data : GoMap) : Noop × Option Error :=
  let msg1 :=
    match data.lookup "server_time_in_utc" with
    | some (.string serverTimeString) =>
      match Atoi serverTimeString with
      | (serverTime, none) => { msg with ServerTime := serverTime }
      | (_, some _) => msg
    | _ => msg
  let msg2 :=
    match data.lookup "interval" with
    | some (.float64 intervalFloat) => { msg1 with Interval := intervalFloat.toInt }
    | _ => msg1
  (msg2, none)

/-- The document `json.Marshal` writes for a `*Noop`: the exported fields; the
embedded `httpResponse` has none. -/
def Noop.toJSON (msg : Noop) : JSON :=
  .obj [("server_time_in_utc", .int msg.ServerTime), ("interval", .int msg.Interval)]

/-! ## inform/cmd.go -/

/-- `Cmd`; `code` is the field of the embedded `httpResponse`. -/
structure Cmd where
  code : Int
  ServerTime : Int
  Command : Str
  UseAlert : Bool
  DeviceId : Str
  Time : Int
  CmdId : Str
  deriving DecidableEq, Repr

/-- One turn of the `range` loop of `Cmd.unmarshalMap`. -/
def Cmd.unmarshalEntry (msg : Cmd) (entry : Str × GoVal) : Cmd :=
  let key := entry.1
  let rawValue := entry.2
  if key = "server_time_in_utc" then { msg with ServerTime := (ParseInt rawValue).1 }
  else if key = "cmd" then { msg with Command := (ParseString rawValue).1 }
  else if key = "use_alert" then { msg with UseAlert := (ParseBool rawValue).1 }
  else if key = "time" then { msg with Time := (ParseInt rawValue).1 }
  else if key = "_id" then { msg with CmdId := (ParseString rawValue).1 }
  else if key = "device_id" then { msg with DeviceId := (ParseString rawValue).1 }
  else msg

/-- `Cmd.unmarshalMap`. -/
def Cmd.unmarshalMap (msg : Cmd) (data : GoMap) : Cmd × Option Error :=
  (data.foldl Cmd.unmarshalEntry msg, none)

/-- The document `json.Marshal` writes for a `*Cmd`. -/
def Cmd.toJSON (msg : Cmd) : JSON :=
  .obj [("server_time_in_utc", .int msg.ServerTime), ("cmd", .str msg.Command),
        ("use_alert", .bool msg.UseAlert), ("device_id", .str msg.DeviceId),
        ("time", .int msg.Time), ("_id", .str msg.CmdId)]

/-! ## inform/setparam.go -/

/-- `ManagementConfig`, a `map[string]string`: its entries, keys distinct.  A nil
map is not told from the empty map; both read as a map without entries. -/
abbrev ManagementConfig := List (Str × Str)

/-- Map assignment `m[k] = v`. -/
def ManagementConfig.set (m : ManagementConfig) (k v : Str) : ManagementConfig :=
  if m.any (fun kv => kv.1 == k) then m.map (fun kv => if kv.1 == k then (k, v) else kv)
  else m ++ [(k, v)]

/-- `strings.Split(s, sep)` for a one-character separator. -/
def splitOn (sep : Char) : List Char → List (List Char)
  | [] => [[]]
  | c :: cs =>
    if c = sep then [] :: splitOn sep cs
    else
      match splitOn sep cs with
      | [] => [[c]]
      | l :: ls => (c :: l) :: ls

/-- One turn of the loop of `ManagementConfig.unmarshalStr`: `strings.IndexByte`
finds the first `=`, the line is cut around it. -/
def ManagementConfig.unmarshalLine (m : ManagementConfig) (line : List Char) :
    ManagementConfig :=
  match line.indexOf? '=' with
  | some i => m.set (line.take i).asString (line.drop (i + 1)).asString
  | none => m

/-- `ManagementConfig.unmarshalStr`; it returns no error. -/
def ManagementConfig.unmarshalStr (m : ManagementConfig) (str : Str) : ManagementConfig :=
  (splitOn '\n' str.data).foldl ManagementConfig.unmarshalLine m

/-- `ManagementConfig.MarshalJSON`: `json.Marshal(map[string]string(m))`, the
entries as an object with the keys sorted (the order of the characters is the order
of the UTF-8 bytes). -/
def ManagementConfig.MarshalJSON (m : ManagementConfig) : JSON :=
  .obj ((m.insertionSort (fun a b => a.1.data ≤ b.1.data)).map fun kv => (kv.1, JSON.str kv.2))

/-- `SetParam`; `code` is the field of the embedded `httpResponse`, `mgmt` the
embedded `ManagementConfig`. -/
structure SetParam where
  code : Int
  mgmt : ManagementConfig
  ServerTime : Int
  deriving DecidableEq, Repr

/-- The `range` loop of `SetParam.unmarshalMap`, with its early returns. -/
def SetParam.unmarshalEntries : SetParam → GoMap → SetParam × Option Error
  | msg, [] => (msg, none)
  | msg, (key, rawValue) :: rest =>
    if key = "mgmt_cfg" then
      match rawValue with
      | .string mgmt =>
        SetParam.unmarshalEntries { msg with mgmt := msg.mgmt.unmarshalStr mgmt } rest
      | _ => SetParam.unmarshalEntries msg rest
    else if key = "server_time_in_utc" then
      match rawValue with
      | .string mgmt =>
        match Atoi mgmt with
        | (v, none) => SetParam.unmarshalEntries { msg with ServerTime := v } rest
        | (v, some err) => ({ msg with ServerTime := v }, some err)
      | .int mgmt => SetParam.unmarshalEntries { msg with ServerTime := mgmt } rest
      | _ => SetParam.unmarshalEntries msg rest
    else SetParam.unmarshalEntries msg rest

/-- `SetParam.unmarshalMap`. -/
def SetParam.unmarshalMap (msg : SetParam) (data : GoMap) : SetParam × Option Error :=
  SetParam.unmarshalEntries { msg with mgmt := [] } data

/-- The document `json.Marshal` writes for a `*SetParam`.  `SetParam` embeds
`ManagementConfig`, whose method `MarshalJSON` is promoted to `SetParam`; so
`*SetParam` is a `json.Marshaler` and the document is the one of the map alone. -/
def SetParam.toJSON (msg : SetParam) : JSON := msg.mgmt.MarshalJSON

/-! ## inform/request.go, inform/sysstats.go -/

/-- A Go slice whose nil-ness shows in its JSON form: `none` is `nil`. -/
abbrev Slice (α : Type) := Option (List α)

/-- The document of a slice: `null` when nil, else the array of its elements. -/
def Slice.toJSON {α : Type} (f : α → JSON) : Slice α → JSON
  | none => .null
  | some xs => .arr (xs.map f)

/-- A string member under `omitempty`. -/
def omitEmptyStr (name : Str) (s : Str) : List (Str × JSON) :=
  if s = "" then [] else [(name, .str s)]

/-- A boolean member under `omitempty`. -/
def omitEmptyBool (name : Str) (b : Bool) : List (Str × JSON) :=
  if b then [(name, .bool b)] else []

/-- An integer member under `omitempty`. -/
def omitEmptyInt (name : Str) (n : Int) : List (Str × JSON) :=
  if n = 0 then [] else [(name, .int n)]

/-- `SpeedTestStatus`. -/
structure SpeedTestStatus where
  Latency : Nat
  RunDate : Nat
  RunTime : Nat
  StatusDownload : Nat
  StatusPing : Nat
  StatusUpload : Nat
  XputDownload : Float64
  XputUpload : Float64
  deriving DecidableEq, Repr

/-- The document of a `SpeedTestStatus`. -/
def SpeedTestStatus.toJSON (s : SpeedTestStatus) : JSON :=
  .obj [("latency", .int s.Latency), ("rundate", .int s.RunDate), ("runtime", .int s.RunTime),
        ("status_download", .int s.StatusDownload), ("status_ping", .int s.StatusPing),
        ("status_upload", .int s.StatusUpload), ("xput_download", .float s.XputDownload),
        ("xput_upload", .float s.XputUpload)]

/-- `EthernetTableEntry`. -/
structure EthernetTableEntry where
  Name : Str
  Mac : Str
  NumPort : Nat
  deriving DecidableEq, Repr

/-- The document of an `EthernetTableEntry`. -/
def EthernetTableEntry.toJSON (e : EthernetTableEntry) : JSON :=
  .obj [("name", .str e.Name), ("mac", .str e.Mac), ("num_port", .int e.NumPort)]

def NetworkConfigDisabled : Str := "disabled"
def NetworkConfigDhcp : Str := "dhcp"
def NetworkConfigStatic : Str := "static"

/-- `NetworkConfig`. -/
structure NetworkConfig where
  /-- The field `Type`. -/
  Type_ : Str
  Ip : Str
  Netmask : Str
  Gateway : Str
  Dns1 : Str
  Dns2 : Str
  IfName : Str
  deriving DecidableEq, Repr

/-- `NetworkConfig.MarshalJSON`: the document of the anonymous struct it hands to
`json.Marshal`, whose text it returns, or its own error.  `len(s) == 0` is `s = ""`. -/
def NetworkConfig.MarshalJSON (n : NetworkConfig) : Except Error JSON :=
  if n.Type_ = NetworkConfigDhcp ∨ n.Type_ = NetworkConfigDisabled then
    .ok (.obj (omitEmptyStr "type" n.Type_ ++ omitEmptyStr "ifname" n.IfName))
  else if n.Type_ = NetworkConfigStatic then
    if n.Ip = "" then .error .invalidIP
    else if n.Netmask = "" then .error .invalidNetmask
    else if n.Gateway = "" then .error .invalidGateway
    else
      .ok (.obj ([("type", JSON.str n.Type_)] ++ omitEmptyStr "ip" n.Ip
        ++ omitEmptyStr "netmask" n.Netmask ++ omitEmptyStr "gateway" n.Gateway
        ++ omitEmptyStr "dns1" n.Dns1 ++ omitEmptyStr "dns2" n.Dns2
        ++ omitEmptyStr "ifname" n.IfName))
  else .ok (.obj (omitEmptyStr "type" NetworkConfigDisabled))

/-- `HardwareAddr.MarshalJSON`: the text it returns, the colon form between double
quotes; its error is always nil. -/
def HardwareAddr.MarshalJSON (m : HardwareAddr) : Str := "\"" ++ HardwareAddr.String m ++ "\""

/-- The document `json.Marshal` writes for a `HardwareAddr`: it takes over the text
of `HardwareAddr.MarshalJSON`, the JSON string of the colon form (hexadecimal digits
and colons, none of which is escaped). -/
def HardwareAddr.toJSON (m : HardwareAddr) : JSON := .str (HardwareAddr.String m)

/-- `Interface`. -/
structure Interface where
  FullDuplex : Bool
  Ip : Str
  Mac : HardwareAddr
  Name : Str
  Netmask : Str
  NumPort : Int
  RxBytes : Nat
  RxDropped : Nat
  RxErrors : Nat
  RxMulticast : Int
  RxPackets : Nat
  Speed : Nat
  TxBytes : Nat
  TxDropped : Nat
  TxErrors : Nat
  TxPackets : Nat
  Up : Bool
  Enabled : Bool
  Drops : Nat
  Latency : Nat
  Uptime : Nat
  Nameservers : Slice Str
  Gateways : Slice Str
  deriving DecidableEq, Repr

/-- The document of an `Interface`. -/
def Interface.toJSON (i : Interface) : JSON :=
  .obj [("full_duplex", .bool i.FullDuplex), ("ip", .str i.Ip),
        ("mac", HardwareAddr.toJSON i.Mac), ("name", .str i.Name),
        ("netmask", .str i.Netmask), ("num_port", .int i.NumPort),
        ("rx_bytes", .int i.RxBytes), ("rx_dropped", .int i.RxDropped),
        ("rx_errors", .int i.RxErrors), ("rx_multicast", .int i.RxMulticast),
        ("rx_packets", .int i.RxPackets), ("speed", .int i.Speed),
        ("tx_bytes", .int i.TxBytes), ("tx_dropped", .int i.TxDropped),
        ("tx_errors", .int i.TxErrors), ("tx_packets", .int i.TxPackets),
        ("up", .bool i.Up), ("enabled", .bool i.Enabled), ("drops", .int i.Drops),
        ("latency", .int i.Latency), ("uptime", .int i.Uptime),
        ("namservers", Slice.toJSON JSON.str i.Nameservers),
        ("gateways", Slice.toJSON JSON.str i.Gateways)]

/-- `Port`. -/
structure Port where
  IfName : Str
  Name : Str
  deriving DecidableEq, Repr

/-- The document of a `Port`. -/
def Port.toJSON (p : Port) : JSON := .obj [("ifname", .str p.IfName), ("name", .str p.Name)]

/-- `SysStats`. -/
structure SysStats where
  LoadAvg1 : Float64
  LoadAvg5 : Float64
  LoadAvg15 : Float64
  MemBuffer : Nat
  MemTotal : Nat
  MemUsed : Nat
  Mem : Nat
  Cpu : Nat
  deriving DecidableEq, Repr

/-- The document of a `SysStats`. -/
def SysStats.toJSON (s : SysStats) : JSON :=
  .obj [("loadavg_1", .float s.LoadAvg1), ("loadavg_5", .float s.LoadAvg5),
        ("loadavg_15", .float s.LoadAvg15), ("mem_buffer", .int s.MemBuffer),
        ("mem_total", .int s.MemTotal), ("mem_used", .int s.MemUsed), ("mem", .int s.Mem),
        ("cpu", .int s.Cpu)]

/-- `Inform`. -/
structure Inform where
  BoardRevision : Int
  BootRomVersion : Str
  ConfigVersion : Str
  ConfigNetworkWan : NetworkConfig
  ConfigNetworkWan2 : NetworkConfig
  Default : Bool
  DiscoveryResponse : Bool
  EthernetTable : Slice EthernetTableEntry
  FirmwareCapabilities : Int
  GuestToken : Str
  HasDefaultRouteDistance : Bool
  HasHostfileUpdate : Bool
  HasDpi : Bool
  HasEth1 : Bool
  HasPortA : Bool
  HasSshDisable : Bool
  HasVti : Bool
  Hostname : Str
  IntfTable : Slice Interface
  InformUrl : Str
  InformIp : Str
  Ip : Str
  Isolated : Bool
  LastError : Str
  Locating : Bool
  Mac : HardwareAddr
  Model : Str
  ModelDisplay : Str
  Netmask : Str
  QrId : Str
  PortTable : Slice Port
  RadiusCapabilities : Int
  RequiredVersion : Str
  SelfrunBeacon : Bool
  Serial : Str
  SpectrumScanning : Bool
  State : Int
  StreamToken : Str
  SysStats : SysStats
  Time : Int
  Uplink : Str
  Uptime : Nat
  Version : Str
  InformAsNotify : Bool
  NotifyReason : Str
  NotifyPayload : Str
  SpeedtestStatus : Option SpeedTestStatus
  deriving DecidableEq, Repr

/-- The document `json.MarshalIndent` writes for an `Inform`, or the error of the
first `NetworkConfig.MarshalJSON` that fails.  A struct is never empty for
`omitempty`; a slice is when its length is 0, a pointer when it is nil. -/
def Inform.toJSON (r : Inform) : Except Error JSON :=
  match r.ConfigNetworkWan.MarshalJSON with
  | .error e => .error e
  | .ok wan =>
    match r.ConfigNetworkWan2.MarshalJSON with
    | .error e => .error e
    | .ok wan2 =>
      .ok (.obj (
        omitEmptyInt "board_rev" r.BoardRevision
        ++ [("bootrom_version", .str r.BootRomVersion), ("cfgversion", .str r.ConfigVersion),
            ("config_network_wan", wan), ("config_network_wan2", wan2),
            ("default", .bool r.Default), ("discovery_response", .bool r.DiscoveryResponse)]
        ++ (if (r.EthernetTable.getD []).length = 0 then []
            else [("ethernet_table", Slice.toJSON EthernetTableEntry.toJSON r.EthernetTable)])
        ++ [("fw_caps", .int r.FirmwareCapabilities)]
        ++ omitEmptyStr "guest_token" r.GuestToken
        ++ [("has_default_route_distance", .bool r.HasDefaultRouteDistance),
            ("has_dnsmasq_hostfile_update", .bool r.HasHostfileUpdate),
            ("has_dpi", .bool r.HasDpi), ("has_eth1", .bool r.HasEth1),
            ("has_porta", .bool r.HasPortA), ("has_ssh_disable", .bool r.HasSshDisable),
            ("has_vti", .bool r.HasVti), ("hostname", .str r.Hostname),
            ("if_table", Slice.toJSON Interface.toJSON r.IntfTable),
            ("inform_url", .str r.InformUrl), ("inform_ip", .str r.InformIp),
            ("ip", .str r.Ip), ("isolated", .bool r.Isolated)]
        ++ omitEmptyStr "last_error" r.LastError
        ++ [("locating", .bool r.Locating), ("mac", HardwareAddr.toJSON r.Mac),
            ("model", .str r.Model), ("model_display", .str r.ModelDisplay),
            ("netmask", .str r.Netmask)]
        ++ omitEmptyStr "qrid" r.QrId
        ++ [("config_port_table", Slice.toJSON Port.toJSON r.PortTable),
            ("radius_caps", .int r.RadiusCapabilities),
            ("required_version", .str r.RequiredVersion),
            ("selfrun_beacon", .bool r.SelfrunBeacon), ("serial", .str r.Serial)]
        ++ omitEmptyBool "spectrum_scanning" r.SpectrumScanning
        ++ [("state", .int r.State)]
        ++ omitEmptyStr "stream_token" r.StreamToken
        ++ [("system-stats", r.SysStats.toJSON), ("time", .int r.Time),
            ("uplink", .str r.Uplink), ("uptime", .int r.Uptime), ("version", .str r.Version)]
        ++ omitEmptyBool "inform_as_notify" r.InformAsNotify
        ++ omitEmptyStr "notif_reason" r.NotifyReason
        ++ omitEmptyStr "notif_payload" r.NotifyPayload
        ++ (match r.SpeedtestStatus with
            | none => []
            | some st => [("speedtest-status", st.toJSON)])))

/-- The `Message` interface, by implementation: the pointer types `*Inform`,
`*Noop`, `*Cmd`, `*SetParam` and the value type `httpResponse`. -/
inductive Message where
  | inform (r : Inform)
  | noop (m : Noop)
  | cmd (m : Cmd)
  | setParam (m : SetParam)
  | response (r : httpResponse)
  deriving DecidableEq, Repr

/-- Decimal digits of a natural number, most significant first. -/
def formatNatAux : Nat → Nat → List Char → List Char
  | 0, _, acc => acc
  | fuel + 1, n, acc =>
    let acc1 := "0123456789".data.getD (n % 10) '0' :: acc
    if n / 10 = 0 then acc1 else formatNatAux fuel (n / 10) acc1

/-- The decimal form `%d` prints. -/
def formatInt (n : Int) : List Char :=
  if n < 0 then '-' :: formatNatAux (n.natAbs + 1) n.natAbs []
  else formatNatAux (n.natAbs + 1) n.natAbs []

/-- The byte of a character of the ASCII range. -/
def charByte (c : Char) : Byte := byteOf c.toNat

/-- `Message.Marshal`, for each implementation: `Inform.Marshal` returns nil when
`json.MarshalIndent` fails; `Noop`, `Cmd` and `SetParam` drop the error of
`json.Marshal`, which cannot fail for them; `httpResponse.Marshal` prints
`\x7b"code":%d\x7d`. -/
def Message.Marshal (P : Primitives) : Message → Bytes
  | .inform r =>
    match r.toJSON with
    | .error _ => []
    | .ok doc => P.jsonMarshalIndent doc
  | .noop m => P.jsonMarshal m.toJSON
  | .cmd m => P.jsonMarshal m.toJSON
  | .setParam m => P.jsonMarshal m.toJSON
  | .response r => (("\x7b\"code\":".data ++ formatInt r.code ++ "\x7d".data).map charByte)

/-! ## inform/decode.go -/

/-- `inform.Unmarshal`: the message (nil when the JSON text does not parse) and
the error.  A `switch` on an `interface{}` against string constants matches a
dynamic string of that value only. -/
def Unmarshal (P : Primitives) (data : Bytes) : Option Message × Option Error :=
  match P.jsonUnmarshal data with
  | .error erro => (none, some erro)
  | .ok result =>
    match result.lookup "_type" with
    | some (.string "setparam") =>
      let r := SetParam.unmarshalMap ⟨(ResponseFromHttpCode 200).code, [], 0⟩ result
      (some (.setParam r.1), r.2)
    | some (.string "cmd") =>
      let r := Cmd.unmarshalMap ⟨(ResponseFromHttpCode 200).code, 0, "", false, "", 0, ""⟩ result
      (some (.cmd r.1), r.2)
    | _ =>
      let r := Noop.unmarshalMap ⟨(ResponseFromHttpCode 200).code, 0, 0⟩ result
      (some (.noop r.1), r.2)

/-! ## inform/compression.go -/

/-- `CompressZLib`. -/
def CompressZLib (P : Primitives) (data : Bytes) : Except Error Bytes := P.zlibCompress data

/-- `DecompressZLib`. -/
def DecompressZLib (P : Primitives) (data : Bytes) : Except Error Bytes :=
  P.zlibDecompress data

/-- `CompressSnappy`; it returns no error. -/
def CompressSnappy (P : Primitives) (data : Bytes) : Except Error Bytes :=
  .ok (P.snappyEncode data)

/-- `DecompressSnappy`. -/
def DecompressSnappy (P : Primitives) (data : Bytes) : Except Error Bytes :=
  P.snappyDecode data

/-! ## inform/crypto.go -/

/-- The cipher mode `CBC` (`iota` 0). -/
def CBC : Int := 0

/-- The cipher mode `GCM` (`iota` 1). -/
def GCM : Int := 1

/-- `blockSize`, `len(DefaultKey)`. -/
def blockSize : Nat := DefaultKey.len

/-- What one call `rand.Read(iv)` did: the bytes it wrote to the front of the
buffer, the count and the error it returned. -/
structure RandRead where
  written : Bytes
  n : Int
  err : Option Error

/-- `GenerateIV`, given what `rand.Read` did on the fresh `blockSize`-byte buffer. -/
def GenerateIV (rnd : RandRead) : Except Error Bytes :=
  let iv := copy (NewBuffer blockSize) rnd.written
  match rnd.err with
  | some err => .error err
  | none => if rnd.n ≠ (blockSize : Int) then .error .notEnoughRandomness else .ok iv

/-- `assertCryptoParams`; `none` is the nil error. -/
def assertCryptoParams (iv : Bytes) (key : Key) : Option Error :=
  if !Key.IsValid (some iv) then some (.ivLength iv.length)
  else if !key.IsValid then some (.keyLength key.len)
  else none

/-- `encryptCBC`.  `aes.NewCipher` cannot fail on the 16-byte key the assertion
leaves; `dstBuf` has the length of `srcBuf` and `CryptBlocks` fills it. -/
def encryptCBC (P : Primitives) (iv : Bytes) (key : Key) (data : Bytes) : Except Error Bytes :=
  match assertCryptoParams iv key with
  | some err => .error err
  | none =>
    let srcLen := data.length
    let padLen := blockSize - (srcLen % blockSize)
    let srcBuf0 := NewBuffer (data.length + padLen)
    let dstBuf0 := NewBuffer (data.length + padLen)
    let srcBuf1 := copy srcBuf0 data
    let padding := List.replicate padLen (byteOf padLen)
    let srcBuf := srcBuf1.take srcLen ++ copy (srcBuf1.drop srcLen) padding
    .ok (copy dstBuf0 (P.cbcEncryptBlocks (key.getD []) iv srcBuf))

/-- `encryptGCM`.  `aes.NewCipher` and `cipher.NewGCMWithNonceSize(block, 16)`
cannot fail on the 16-byte key the assertion leaves. -/
def encryptGCM (P : Primitives) (iv : Bytes) (key : Key) (data aad : Bytes) :
    Except Error Bytes :=
  match assertCryptoParams iv key with
  | some err => .error err
  | none => .ok (P.gcmSeal (key.getD []) iv data aad)

/-- `Encrypt`. -/
def Encrypt (P : Primitives) (mode : Int) (iv : Bytes) (key : Key) (data aad : Bytes) :
    Except Error Bytes :=
  if mode = GCM then encryptGCM P iv key data aad else encryptCBC P iv key data

/-- `decryptCBC`.  `result[dataLen-1]` panics on an empty `data`. -/
def decryptCBC (P : Primitives) (iv : Bytes) (key : Key) (data : Bytes) : Except Error Bytes :=
  match assertCryptoParams iv key with
  | some err => .error err
  | none =>
    if data.length % blockSize ≠ 0 then .error .notBlockMultiple
    else
      let dataLen := data.length
      let result := copy (NewBuffer dataLen) (P.cbcDecryptBlocks (key.getD []) iv data)
      if dataLen = 0 then .error .panic
      else
        match result[dataLen - 1]? with
        | none => .error .panic
        | some last =>
          let padLen := last.val
          if padLen > blockSize then .error (.invalidPadding padLen)
          else .ok (result.take (dataLen - padLen))

/-- `decryptGCM`. -/
def decryptGCM (P : Primitives) (iv : Bytes) (key : Key) (data aad : Bytes) :
    Except Error Bytes :=
  match assertCryptoParams iv key with
  | some err => .error err
  | none =>
    match P.gcmOpen (key.getD []) iv data aad with
    | some result => .ok result
    | none => .error .gcmAuthFailed

/-- `Decrypt`. -/
def Decrypt (P : Primitives) (mode : Int) (iv : Bytes) (key : Key) (data aad : Bytes) :
    Except Error Bytes :=
  if mode = GCM then decryptGCM P iv key data aad else decryptCBC P iv key data

/-! ## inform/packet.go -/

def MagicNumber : Nat := 1414414933
def InformVersion : Nat := 0
def DataVersion : Nat := 1

def EncryptFlag : Nat := 1
def ZlibFlag : Nat := 2
def SnappyFlag : Nat := 4
def GcmFlag : Nat := 8

/-- `NilIv`. -/
def NilIv : Bytes := [0x00, 0x00, 0x00, 0x00, 0x00, 0x00, 0x00, 0x00,
                      0x00, 0x00, 0x00, 0x00, 0x00, 0x00, 0x00, 0x00]

/-- `Packet`; `Msg` is `none` for the nil interface. -/
structure Packet where
  ap : HardwareAddr
  flags : Nat
  key : Key
  Msg : Option Message
  mode : Int
  deriving DecidableEq, Repr

/-- `NewPacket`. -/
def NewPacket (ap : HardwareAddr) (msg : Message) (k : Key) (mode : Int) : Packet :=
  let flags := SnappyFlag
  let flags :=
    if k ≠ none then
      let flags := flags ||| EncryptFlag
      if mode = GCM then flags ||| GcmFlag else flags
    else flags
  { ap := ap, key := k, mode := mode, Msg := some msg, flags := flags }

/-- `Packet.IsEncrypted`. -/
def Packet.IsEncrypted (p : Packet) : Bool := p.flags &&& EncryptFlag == EncryptFlag

/-- `Packet.IsGcmEncrypted`. -/
def Packet.IsGcmEncrypted (p : Packet) : Bool := p.IsEncrypted && p.flags &&& GcmFlag == GcmFlag

/-- `Packet.IsZLib`. -/
def Packet.IsZLib (p : Packet) : Bool := p.flags &&& ZlibFlag == ZlibFlag

/-- `Packet.IsSnappy`. -/
def Packet.IsSnappy (p : Packet) : Bool := p.flags &&& SnappyFlag == SnappyFlag

/-- Lines 81-91 of `Packet.Marshal`: the compression of the marshalled message. -/
def Packet.marshalCompress (P : Primitives) (p : Packet) (msg : Bytes) : Except Error Bytes :=
  if p.IsZLib then CompressZLib P msg
  else if p.IsSnappy then CompressSnappy P msg
  else .ok msg

/-- Lines 93-99 of `Packet.Marshal`: the IV. -/
def Packet.marshalIV (p : Packet) (rnd : RandRead) : Except Error Bytes :=
  if p.IsEncrypted then GenerateIV rnd else .ok NilIv

/-- Lines 105-111 of `Packet.Marshal`: the buffer after the first six writes. -/
def Packet.marshalHeader (p : Packet) (iv : Bytes) : Option Bytes :=
  (Buffer.WriteUInt32BE (NewBuffer 40) 0 MagicNumber).bind fun b1 =>
  (Buffer.WriteUInt32BE b1 4 InformVersion).bind fun b2 =>
  (Buffer.Write b2 8 p.ap).bind fun b3 =>
  (Buffer.WriteUInt16BE b3 14 p.flags).bind fun b4 =>
  (Buffer.Write b4 16 iv).bind fun b5 =>
  Buffer.WriteUInt32BE b5 32 DataVersion

/-- Lines 112-128 of `Packet.Marshal`: the length field, the encryption and the
payload, on the header buffer `b`. -/
def Packet.marshalBody (P : Primitives) (p : Packet) (iv msg b : Bytes) : Except Error Bytes :=
  if p.IsEncrypted then
    match (if p.IsGcmEncrypted then Buffer.WriteUInt32BE b 36 (uint32 (msg.length + 16))
           else some b) with
    | none => .error .panic
    | some b1 =>
      match Encrypt P p.mode iv p.key msg b1 with
      | .error err => .error err
      | .ok enc =>
        match (if !p.IsGcmEncrypted then Buffer.WriteUInt32BE b1 36 (uint32 enc.length)
               else some b1) with
        | none => .error .panic
        | some b2 => .ok (b2 ++ enc)
  else
    match Buffer.WriteUInt32BE b 36 (uint32 msg.length) with
    | none => .error .panic
    | some b1 => .ok (b1 ++ msg)

/-- `Packet.Marshal`, given what `rand.Read` does if `GenerateIV` is called.  The
result of an error return is nil: `.error` carries no bytes. -/
def Packet.Marshal (P : Primitives) (p : Packet) (rnd : RandRead) : Except Error Bytes :=
  match p.Msg with
  | none => .error .panic
  | some m =>
    match p.marshalCompress P (m.Marshal P) with
    | .error err => .error err
    | .ok msg =>
      match p.marshalIV rnd with
      | .error err => .error err
      | .ok iv =>
        if p.ap.length ≠ 6 then .error .invalidMacLength
        else
          match p.marshalHeader iv with
          | none => .error .panic
          | some b => p.marshalBody P iv msg b

/-- What a call of `Packet.Unmarshal` leaves: the packet `*p`, the returned error
(`none` is nil) and the addresses the key resolver was called with, in order. -/
structure UnmarshalResult where
  pkt : Packet
  err : Option Error
  fetched : List HardwareAddr
  deriving DecidableEq, Repr

/-- Lines 173-186 of `Packet.Unmarshal`: decompression and message decoding. -/
def Packet.unmarshalPayload (P : Primitives) (p : Packet) (msg : Bytes)
    (fetched : List HardwareAddr) : UnmarshalResult :=
  let plain : Except Error Bytes :=
    if p.IsZLib then DecompressZLib P msg
    else if p.IsSnappy then DecompressSnappy P msg
    else .ok msg
  match plain with
  | .error err => ⟨p, some err, fetched⟩
  | .ok msg1 =>
    let r := Unmarshal P msg1
    ⟨{ p with Msg := r.1 }, r.2, fetched⟩

/-- Lines 135-150 of `Packet.Unmarshal`: the length checks and the header
constants; on success the declared payload length.  `uint` is 64 bits wide, so
`dataLength+40` does not wrap. -/
def unmarshalChecks (data : Bytes) : Except Error Nat :=
  if data.length < 40 then .error .invalidPacketLength
  else
    match Buffer.ReadUInt32BE data 36 with
    | none => .error .panic
    | some dataLength =>
      if data.length < uint (dataLength + 40) then .error .invalidPacketLength
      else if Buffer.ReadUInt32BE data 0 ≠ some MagicNumber then .error .invalidMagic
      else if Buffer.ReadUInt32BE data 4 ≠ some InformVersion then .error .unknownInformVersion
      else if Buffer.ReadUInt32BE data 32 ≠ some DataVersion then .error .unknownDataVersion
      else .ok dataLength

/-- `Packet.Unmarshal`.  The key resolver returns a key and an error. -/
def Packet.Unmarshal (P : Primitives) (p : Packet) (data : Bytes)
    (keyFetcher : HardwareAddr → Key × Option Error) : UnmarshalResult :=
  match unmarshalChecks data with
  | .error err => ⟨p, some err, []⟩
  | .ok dataLength =>
    match Buffer.Read data 8 14, Buffer.ReadUInt16BE data 14 with
    | some ap, some flags =>
      let p1 : Packet := { p with ap := ap, flags := flags }
      match Buffer.Read data 40 (uint (40 + dataLength)) with
      | none => ⟨p1, some .panic, []⟩
      | some msg =>
        if p1.IsEncrypted then
          match Buffer.Read data 16 32, Buffer.Read data 0 40 with
          | some iv, some aad =>
            let k := keyFetcher p1.ap
            let p2 : Packet := { p1 with key := k.1 }
            match k.2 with
            | some err => ⟨p2, some err, [p1.ap]⟩
            | none =>
              let mode := if p2.IsGcmEncrypted then GCM else CBC
              match Decrypt P mode iv p2.key msg aad with
              | .error err => ⟨p2, some err, [p1.ap]⟩
              | .ok msg1 => p2.unmarshalPayload P msg1 [p1.ap]
          | _, _ => ⟨p1, some .panic, []⟩
        else p1.unmarshalPayload P msg []
    | _, _ => ⟨p, some .panic, []⟩

/-! ## conf/configuration.go -/

/-- `conf.Management`; `Key` is the `authkey` string. -/
structure Management where
  Version : Str
  UseAesGcm : Bool
  Key : Str
  deriving DecidableEq, Repr

/-- `Management.GetKey`. -/
def Management.GetKey (m : Management) : Ripugw.Key :=
  if m.Key = "" then DefaultKey
  else
    match KeyFromString m.Key with
    | .error _ => DefaultKey
    | .ok keyBytes => keyBytes

/-- `Management.GetCryptoMode`. -/
def Management.GetCryptoMode (m : Management) : Int :=
  if m.UseAesGcm then GCM else CBC

/-! ## pfconf/configuration.go -/

/-- `xml.Name`. -/
structure xml.Name where
  Space : Str
  Local : Str
  deriving DecidableEq, Repr

/-- `pfconf.Interface`; a `BoolIfElementPresent` is a `bool`, `Subnet` a `uint8`. -/
structure pfconf.Interface where
  XMLName : xml.Name
  If : Str
  Enable : Bool
  BlockBogons : Bool
  SpoofMac : Bool
  Description : Str
  Ip : Str
  Subnet : Nat
  Gateway : Str
  deriving DecidableEq, Repr

/-- The zero value `pfconf.Interface\x7b\x7d`. -/
def pfconf.Interface.zero : pfconf.Interface := ⟨⟨"", ""⟩, "", false, false, false, "", "", 0, ""⟩

/-- `pfconf.System`, without its `XMLName`. -/
structure pfconf.System where
  Hostname : Str
  Timezone : Str
  Domain : Str
  DnsServersString : Str
  DnsServers : Slice Str
  Timeservers : Str
  deriving DecidableEq, Repr

/-- `System.Finalize`: `strings.Split(s.DnsServersString, ",")`; it returns no error. -/
def pfconf.System.Finalize (s : pfconf.System) : pfconf.System :=
  if s.DnsServersString.length > 0 then
    { s with DnsServers := some ((splitOn ',' s.DnsServersString.data).map List.asString) }
  else s

/-- `pfconf.Configuration`: the two parts the agent reads, `System` and the list
`Interfaces.List`. -/
structure pfconf.Configuration where
  System : pfconf.System
  Interfaces : List pfconf.Interface
  deriving DecidableEq, Repr

/-- `Configuration.Finalize`: `c.System.Finalize()`; it returns no error. -/
def pfconf.Configuration.Finalize (c : pfconf.Configuration) : pfconf.Configuration :=
  { c with System := c.System.Finalize }

/-! ## collect/collector.go -/

/-- The fields of `hoststats.InfoStat` the agent reads. -/
structure HostInfo where
  Uptime : Nat
  Hostname : Str
  PlatformVersion : Str
  deriving DecidableEq, Repr

/-- What the host answers during one call of `Request` or `RequestFromPfsense`: the
results of the calls that read the clock, the resolver and the operating system.
`none` or `.error` is a call that returned an error. -/
structure HostEnv where
  /-- `time.Now().Unix()` -/
  now : Int
  /-- `getIpFromURL(address)` -/
  getIpFromURL : Str → Str
  /-- `hoststats.Info()` -/
  hostInfo : Option HostInfo
  /-- `Network()`: the collected interfaces (a nil slice when there is none) -/
  network : Except Error (Slice Interface)
  /-- `SysStats()` -/
  sysStats : Option SysStats
  /-- `Gateway()`, as the text `gateway.String()` -/
  gateway : Option Str
  /-- `GetPfSenseVersion()` -/
  pfSenseVersion : Str
  /-- `net.ParseIP` -/
  ParseIP : Str → Option Bytes

/-- The zero value `inform.Interface\x7b\x7d`. -/
def Interface.zero : Interface :=
  ⟨false, "", [], "", "", 0, 0, 0, 0, 0, 0, 0, 0, 0, 0, 0, false, false, 0, 0, 0, none, none⟩

/-- The zero value `inform.EthernetTableEntry\x7b\x7d`. -/
def EthernetTableEntry.zero : EthernetTableEntry := ⟨"", "", 0⟩

/-- Go conversion `uint64(n)` of an `int`: the value modulo `2^64`. -/
def uint64 (n : Int) : Nat := (n % 2 ^ 64).toNat

/-- The struct literal that opens `Request` (lines 168-202) and, with the same
fields, `RequestFromPfsense` (lines 119-153); a field the literal does not name has
its zero value.  `int32(^uint32(0) >> 1)` is 2147483647. -/
def initialInform (now : Int) (address version : Str) : Inform where
  BoardRevision := 0
  BootRomVersion := "unifi-v1.5.2.206-g44e4c8bc"
  ConfigVersion := version
  ConfigNetworkWan := ⟨NetworkConfigDhcp, "", "", "", "", "", ""⟩
  ConfigNetworkWan2 := ⟨NetworkConfigDisabled, "", "", "", "", "", ""⟩
  Default := version.length == 0 || version == "0123456789abcdef"
  DiscoveryResponse := false
  EthernetTable := none
  FirmwareCapabilities := 2147483647
  GuestToken := ""
  HasDefaultRouteDistance := false
  HasHostfileUpdate := false
  HasDpi := false
  HasEth1 := false
  HasPortA := false
  HasSshDisable := true
  HasVti := false
  Hostname := ""
  IntfTable := none
  InformUrl := address
  InformIp := ""
  Ip := ""
  Isolated := false
  LastError := ""
  Locating := false
  Mac := []
  Model := ""
  ModelDisplay := ""
  Netmask := ""
  QrId := ""
  PortTable := some []
  RadiusCapabilities := 0
  RequiredVersion := "0.0.1"
  SelfrunBeacon := true
  Serial := ""
  SpectrumScanning := false
  State := 2
  StreamToken := ""
  SysStats := ⟨⟨0⟩, ⟨0⟩, ⟨0⟩, 0, 0, 0, 0, 0⟩
  Time := now
  Uplink := ""
  Uptime := 0
  Version := ""
  InformAsNotify := false
  NotifyReason := ""
  NotifyPayload := ""
  SpeedtestStatus := none

/-- Lines 222-250 of `Request`: one turn of the loop over the collected
interfaces.  `len(iface.Ip) > 0` is `iface.Ip ≠ ""`. -/
def Request.ifaceStep (request : Inform) (iface : Interface) : Inform :=
  let request := { request with
    EthernetTable := some (request.EthernetTable.getD []
      ++ [⟨iface.Name, HardwareAddr.String iface.Mac, uint64 iface.NumPort⟩]) }
  if iface.Up ∧ iface.Ip ≠ "" then
    if request.Uplink = "" then
      { request with
        Uplink := iface.Name
        Mac := iface.Mac
        Ip := iface.Ip
        Netmask := iface.Netmask
        Serial := HardwareAddr.HexString iface.Mac
        PortTable := some (request.PortTable.getD [] ++ [⟨iface.Name, "wan"⟩])
        ConfigNetworkWan := { request.ConfigNetworkWan with IfName := iface.Name } }
    else
      let ifNumber := (request.PortTable.getD []).length
      let ifString := if ifNumber = 1 then "" else (formatInt ifNumber).asString
      { request with
        PortTable := some (request.PortTable.getD [] ++ [⟨iface.Name, "lan" ++ ifString⟩]) }
  else request

/-- Lines 207-215 of `Request`: the host information. -/
def Request.hostStep (env : HostEnv) (request : Inform) : Inform :=
  match env.hostInfo with
  | some host =>
    { request with
      Uptime := host.Uptime
      Hostname := host.Hostname
      Model := "UGWXG"
      ModelDisplay := "UniFi Security Gateway XG-8"
      Version := "4.4.51.5287926 "
      BootRomVersion := host.PlatformVersion }
  | none => request

/-- Lines 217-252 of `Request`: the interfaces. -/
def Request.networkStep (env : HostEnv) (request : Inform) : Inform :=
  match env.network with
  | .ok ifaces =>
    (ifaces.getD []).foldl Request.ifaceStep
      { request with
        IntfTable := ifaces
        EthernetTable := some (List.replicate (ifaces.getD []).length EthernetTableEntry.zero) }
  | .error _ => request

/-- Lines 167-215 of `Request`: the request before the interfaces are looked at. -/
def Request.startStep (env : HostEnv) (address version : Str) : Inform :=
  let request := initialInform env.now address version
  let request := { request with InformIp := env.getIpFromURL address }
  Request.hostStep env request

/-- `Request`; its error is always nil. -/
def Request (env : HostEnv) (address version : Str) : Inform × Option Error :=
  let request := Request.startStep env address version
  let ifaces : Slice Interface :=
    match env.network with
    | .ok ifaces => ifaces
    | .error _ => none
  let request := Request.networkStep env request
  let request := { request with HasEth1 := decide ((ifaces.getD []).length > 1) }
  let request :=
    match env.sysStats with
    | some sys => { request with SysStats := sys }
    | none => request
  (request, none)

/-! ## collect/pfsense.go -/

/-- `net.IPv4(a, b, c, d)`: the 16-byte form of an IPv4 address, the address after
the prefix of an IPv4-mapped IPv6 address. -/
def IPv4 (a b c d : Byte) : Bytes := [0, 0, 0, 0, 0, 0, 0, 0, 0, 0, 0xff, 0xff, a, b, c, d]

/-- `computeMacFromIp`.  `net.ParseIP`, a library call, is the parameter `ParseIP`: it
returns nil (`none`) or the bytes of the address.  The result `none` is the nil
address; the slice expression panics on fewer than four bytes. -/
def computeMacFromIp (ParseIP : Str → Option Bytes) (ip : Str) :
    Except Error (Option HardwareAddr) :=
  match ParseIP ip with
  | none => .ok none
  | some ipObject =>
    if ipObject.length < 4 then .error .panic
    else
      let hwAddress : HardwareAddr := [0xBE, 0xEF]
      .ok (some (hwAddress ++ ipObject.drop (ipObject.length - 4)))

/-- `PfSenseTranslationTable`. -/
structure PfSenseTranslationTable where
  Wan : Str
  Wan2 : Str
  Lan : Str
  Uid : Str
  deriving DecidableEq, Repr

/-- `TranslatedInterface`. -/
structure TranslatedInterface where
  Physical : Interface
  Pfsense : pfconf.Interface
  UnifiName : Str
  UnifiLabel : Str
  deriving DecidableEq, Repr

/-- The zero value `TranslatedInterface\x7b\x7d`. -/
def TranslatedInterface.zero : TranslatedInterface :=
  ⟨Interface.zero, pfconf.Interface.zero, "", ""⟩

/-- `PfSenseTranslation`. -/
structure PfSenseTranslation where
  Wan : TranslatedInterface
  Wan2 : TranslatedInterface
  Lan : TranslatedInterface
  Uid : TranslatedInterface
  deriving DecidableEq, Repr

/-- `prepareRealInterface`: the last collected interface of that name is kept. -/
def prepareRealInterface (pfInterface : pfconf.Interface) (interfaces : List Interface)
    (unifiName unifiLabel : Str) : TranslatedInterface :=
  interfaces.foldl
    (fun result iface => if iface.Name = pfInterface.If then { result with Physical := iface }
      else result)
    ⟨Interface.zero, pfInterface, unifiName, unifiLabel⟩

/-- `populateInterfaces`: the cases of the `switch` are tried in the order lan, wan,
wan2, uid. -/
def populateInterfaces (p : List Interface) (pfsense : List pfconf.Interface)
    (translation : PfSenseTranslationTable) : PfSenseTranslation :=
  pfsense.foldl
    (fun result iface =>
      if iface.XMLName.Local = translation.Lan then
        { result with Lan := prepareRealInterface iface p "eth1" "lan" }
      else if iface.XMLName.Local = translation.Wan then
        { result with Wan := prepareRealInterface iface p "eth0" "wan" }
      else if iface.XMLName.Local = translation.Wan2 then
        { result with Wan2 := prepareRealInterface iface p "eth2" "wan2" }
      else if iface.XMLName.Local = translation.Uid then
        { result with Uid := prepareRealInterface iface p "" "uid" }
      else result)
    ⟨TranslatedInterface.zero, TranslatedInterface.zero, TranslatedInterface.zero,
      TranslatedInterface.zero⟩

/-- The loop over `pfsense.System.DnsServers` (lines 223-233 and 252-262), from
index `i` on: the `continue` of the cases 1 and 2 goes to the next server, the
`break` after the `switch` leaves the loop. -/
def RequestFromPfsense.dnsLoop (i : Nat) (config : NetworkConfig) : List Str → NetworkConfig
  | [] => config
  | ns :: rest =>
    if i = 1 then RequestFromPfsense.dnsLoop (i + 1) { config with Dns1 := ns } rest
    else if i = 2 then RequestFromPfsense.dnsLoop (i + 1) { config with Dns2 := ns } rest
    else config

/-- Lines 163-176 of `RequestFromPfsense`: the host information. -/
def RequestFromPfsense.hostStep (env : HostEnv) (request : Inform) : Inform :=
  match env.hostInfo with
  | some host =>
    { request with
      Uptime := host.Uptime
      Hostname := host.Hostname
      Model := "UGW3"
      ModelDisplay := "UniFi-Gateway-3"
      Version := if env.pfSenseVersion.length > 0 then env.pfSenseVersion
        else host.PlatformVersion
      BootRomVersion := host.PlatformVersion }
  | none => request

/-- Lines 190-235 of `RequestFromPfsense`: the wan interface. -/
def RequestFromPfsense.wanStep (env : HostEnv) (pfsense : pfconf.Configuration)
    (speedtest : Option SpeedTestStatus) (table : PfSenseTranslation) (request : Inform) :
    Inform :=
  if table.Wan.Pfsense.If ≠ "" then
    let request := { request with
      Uplink := table.Wan.UnifiName
      Mac := table.Wan.Physical.Mac
      Serial := HardwareAddr.HexString table.Wan.Physical.Mac
      Ip := table.Wan.Physical.Ip
      Netmask := table.Wan.Physical.Netmask }
    let wan := { table.Wan.Physical with Name := table.Wan.UnifiName }
    let wan :=
      match env.gateway with
      | some gateway => { wan with Gateways := some (wan.Gateways.getD [] ++ [gateway]) }
      | none => wan
    let wan :=
      if (pfsense.System.DnsServers.getD []).length > 0 then
        { wan with Nameservers := pfsense.System.DnsServers }
      else wan
    let wan :=
      match speedtest with
      | some st => { wan with Latency := st.Latency }
      | none => wan
    let request := { request with
      IntfTable := some (request.IntfTable.getD [] ++ [wan])
      PortTable := some (request.PortTable.getD [] ++ [⟨wan.Name, "wan"⟩]) }
    if table.Wan.Pfsense.Ip ≠ "dhcp" then
      { request with
        ConfigNetworkWan := RequestFromPfsense.dnsLoop 0
          ⟨"static", table.Wan.Physical.Ip, table.Wan.Physical.Netmask,
            table.Wan.Pfsense.Gateway, "", "", table.Wan.UnifiName⟩
          (pfsense.System.DnsServers.getD []) }
    else request
  else request

/-- Lines 236-265 of `RequestFromPfsense`: the wan2 interface. -/
def RequestFromPfsense.wan2Step (pfsense : pfconf.Configuration) (table : PfSenseTranslation)
    (request : Inform) : Inform :=
  if table.Wan2.Pfsense.If ≠ "" then
    let wan := { table.Wan2.Physical with Name := table.Wan2.UnifiName }
    let request := { request with
      IntfTable := some (request.IntfTable.getD [] ++ [wan])
      PortTable := some (request.PortTable.getD [] ++ [⟨wan.Name, "wan2"⟩]) }
    if table.Wan2.Pfsense.Ip ≠ "dhcp" then
      { request with
        ConfigNetworkWan2 := RequestFromPfsense.dnsLoop 0
          ⟨"static", table.Wan2.Physical.Ip, table.Wan2.Physical.Netmask,
            table.Wan2.Pfsense.Gateway, "", "", table.Wan2.UnifiName⟩
          (pfsense.System.DnsServers.getD []) }
    else request
  else request

/-- Lines 266-274 of `RequestFromPfsense`: the lan interface. -/
def RequestFromPfsense.lanStep (table : PfSenseTranslation) (request : Inform) : Inform :=
  if table.Lan.Pfsense.If ≠ "" then
    let lan := { table.Lan.Physical with Name := table.Lan.UnifiName }
    { request with
      IntfTable := some (request.IntfTable.getD [] ++ [lan])
      PortTable := some (request.PortTable.getD [] ++ [⟨lan.Name, "lan"⟩]) }
  else request

/-- Lines 275-279 of `RequestFromPfsense`: the identity taken from the uid
interface; a nil address has no bytes. -/
def RequestFromPfsense.uidStep (env : HostEnv) (table : PfSenseTranslation) (request : Inform) :
    Except Error Inform :=
  if table.Uid.Physical.Ip ≠ "" then
    match computeMacFromIp env.ParseIP table.Uid.Physical.Ip with
    | .error err => .error err
    | .ok mac =>
      .ok { request with Mac := mac.getD [], Serial := HardwareAddr.HexString (mac.getD []) }
  else .ok request

/-- Lines 118-182 of `RequestFromPfsense`: the request before the interfaces are
looked at. -/
def RequestFromPfsense.startStep (env : HostEnv) (address version : Str)
    (speedtest : Option SpeedTestStatus) : Inform :=
  let request := initialInform env.now address version
  let request :=
    match speedtest with
    | some st => { request with SpeedtestStatus := some st }
    | none => request
  let request := { request with InformIp := env.getIpFromURL address }
  let request := RequestFromPfsense.hostStep env request
  match env.sysStats with
  | some sys => { request with SysStats := sys }
  | none => request

/-- `RequestFromPfsense`: the `Inform` and the error it returns, which is the error
of `Network()`; `.error` is a run-time panic. -/
def RequestFromPfsense (env : HostEnv) (address version : Str) (pfsense : pfconf.Configuration)
    (translation : PfSenseTranslationTable) (speedtest : Option SpeedTestStatus) :
    Except Error (Inform × Option Error) :=
  let request := RequestFromPfsense.startStep env address version speedtest
  match env.network with
  | .error err => .ok (request, some err)
  | .ok ifaces =>
    let request := { request with IntfTable := some [], PortTable := some [] }
    let table := populateInterfaces (ifaces.getD []) pfsense.Interfaces translation
    let request := RequestFromPfsense.wanStep env pfsense speedtest table request
    let request := RequestFromPfsense.wan2Step pfsense table request
    let request := RequestFromPfsense.lanStep table request
    match RequestFromPfsense.uidStep env table request with
    | .error err => .error err
    | .ok request => .ok (request, none)

/-! ## conf/configuration.go: the configuration -/

def defaultInformUrl : Str := "http://unifi:8080/inform"
def defaultInformInterval : Int := 15

/-- `conf.general`, without the open log file. -/
structure general where
  Url : Str
  Adopted : Bool
  LogLevel : Str
  LogFile : Str
  PfSenseXml : Str
  InformInterval : Int
  deriving DecidableEq, Repr

/-- `conf.Config`, without the logger and the mutex; a nil pointer is `none`. -/
structure Config where
  General : general
  Management : Management
  PfSenseInterfaces : Option PfSenseTranslationTable
  path : Str
  useJson : Bool
  PfSenseMode : Bool
  PfSense : Option pfconf.Configuration
  SpeedTest : Option SpeedTestStatus
  deriving DecidableEq, Repr

/-- What the file system and the XML decoder answer during `Config.check`. -/
structure CheckEnv where
  /-- `fileExists(path)` -/
  fileExists : Str → Bool
  /-- `os.Open(path)` followed by `ioutil.ReadAll`: the bytes read, `none` when one
  of the two calls returned an error -/
  readFile : Str → Option Bytes
  /-- `xml.Unmarshal(byteValue, &c.PfSense)`, from the bytes and the old value of
  `c.PfSense`: the value the call leaves in `c.PfSense` and its error -/
  xmlUnmarshal : Bytes → Option pfconf.Configuration →
    Option pfconf.Configuration × Option Error

/-- Lines 166-175 of `Config.check`: the defaults of the URL and of the interval,
and the flag `changed`. -/
def Config.checkDefaults (c : Config) : Config × Bool :=
  let changed := false
  let (c, changed) :=
    if c.General.Url = "" then
      ({ c with General := { c.General with Url := defaultInformUrl } }, true)
    else (c, changed)
  if c.General.InformInterval = 0 then
    ({ c with General := { c.General with InformInterval := defaultInformInterval } }, true)
  else (c, changed)

/-- `Config.check`: the configuration it leaves and the values it returns.  The
returned error is always nil: every `err` assigned in the body is a variable of an
inner block.  `c.PfSenseInterfaces.Wan` on a nil table and `c.PfSense.Finalize()` on
a nil configuration are nil dereferences. -/
def Config.check (env : CheckEnv) (c : Config) : Except Error (Config × Bool × Option Error) :=
  let (c, changed) := c.checkDefaults
  if c.General.PfSenseXml ≠ "" ∧ env.fileExists c.General.PfSenseXml = true then
    match c.PfSenseInterfaces with
    | none => .error .panic
    | some table =>
      if table.Wan = "" ∨ table.Lan = "" then .ok (c, changed, none)
      else
        match env.readFile c.General.PfSenseXml with
        | none => .ok (c, changed, none)
        | some byteValue =>
          match env.xmlUnmarshal byteValue c.PfSense with
          | (pfsense, some _) => .ok ({ c with PfSense := pfsense }, changed, none)
          | (none, none) => .error .panic
          | (some pfsense, none) =>
            .ok ({ c with PfSense := some pfsense.Finalize, PfSenseMode := true }, changed, none)
  else .ok (c, changed, none)

/-! ## svc/main.go -/

/-- Lines 195-198 of `informTick`: the configuration version of the tick. -/
def informTick.configVersion (svc : Config) : Str :=
  if svc.Management.Version.length > 0 then svc.Management.Version else "0123456789abcdef"

/-- Lines 200-214 of `informTick`: the `Inform` of the tick and the error of the
builder; dereferencing a nil `svc.PfSense` or `svc.PfSenseInterfaces` panics. -/
def informTick.request (env : HostEnv) (svc : Config) : Except Error (Inform × Option Error) :=
  if svc.PfSenseMode then
    match svc.PfSense, svc.PfSenseInterfaces with
    | some pfsense, some translation =>
      RequestFromPfsense env svc.General.Url (informTick.configVersion svc) pfsense translation
        svc.SpeedTest
    | _, _ => .error .panic
  else .ok (Request env svc.General.Url (informTick.configVersion svc))

/-- What the `switch` on the reply does besides changing the configuration. -/
structure TickEffect where
  /-- `svc.Config.Write()` was called -/
  write : Bool
  /-- `go SpeedTest(svc)` was started -/
  speedTest : Bool
  deriving DecidableEq, Repr

/-- Lines 230-265 of `informTick`: the `switch` on the type of the reply.  The error
of `Write` is dropped; `Write` encodes the configuration and leaves it as it is. -/
def informTick.dispatch (svc : Config) (resp : Message) : Config × TickEffect :=
  match resp with
  | .setParam response =>
    let key := response.mgmt.lookup "authkey"
    let svc :=
      match key with
      | some k => { svc with Management := { svc.Management with Key := k } }
      | none => svc
    let version := response.mgmt.lookup "cfgversion"
    let svc :=
      match version with
      | some v => { svc with Management := { svc.Management with Version := v } }
      | none => svc
    let cryptoMode := response.mgmt.lookup "use_aes_gcm"
    let svc :=
      match cryptoMode with
      | some c => { svc with Management := { svc.Management with UseAesGcm := c == "true" } }
      | none => svc
    (svc, ⟨key.isSome || version.isSome || cryptoMode.isSome, false⟩)
  | .noop _ => (svc, ⟨false, false⟩)
  | .cmd response => (svc, ⟨false, response.Command == "speed-test"⟩)
  | _ => (svc, ⟨false, false⟩)

/-- Line 280 of `Service.Start`: whether `go SpeedTest(s)` is started, which is when
there is no snapshot or its run time is 0. -/
def Service.Start.speedTest (s : Config) : Bool :=
  match s.SpeedTest with
  | none => true
  | some status => status.RunTime == 0

/-- Lines 141-153 of `SpeedTest`: what a job that measured leaves in the
configuration, the snapshot `status`; a job that found no client or no server has
returned before and leaves the configuration as it is (`none`). -/
def SpeedTest.finish (svc : Config) (status : Option SpeedTestStatus) : Config :=
  match status with
  | some st => { svc with SpeedTest := some st }
  | none => svc

/-- The state of the running agent: the configuration and the number of
`SpeedTest` goroutines that were started and have not returned. -/
structure Agent where
  config : Config
  jobs : Nat
  deriving DecidableEq, Repr

/-- The events of the agent: `Service.Start`, a tick of `informTick` whose exchange
gave the reply `resp`, and the return of one `SpeedTest` goroutine. -/
inductive AgentEvent where
  | start
  | reply (resp : Message)
  | jobDone (status : Option SpeedTestStatus)
  deriving DecidableEq, Repr

/-- One step of the agent.  Nothing in `Service.Start`, `informTick` or `SpeedTest`
reads or writes a record of running jobs: `jobs` only counts the `go SpeedTest`
statements executed and the returns.  A return with no job running is not a step of
the program and leaves the state as it is. -/
def Agent.step (a : Agent) : AgentEvent → Agent
  | .start => { a with jobs := if Service.Start.speedTest a.config then a.jobs + 1 else a.jobs }
  | .reply resp =>
    let r := informTick.dispatch a.config resp
    { config := r.1, jobs := if r.2.speedTest then a.jobs + 1 else a.jobs }
  | .jobDone status =>
    if a.jobs = 0 then a
    else { config := SpeedTest.finish a.config status, jobs := a.jobs - 1 }

/-- The agent after a sequence of events. -/
def Agent.run (a : Agent) (events : List AgentEvent) : Agent := events.foldl Agent.step a

/-! ## Assumptions on the primitives -/

/-- The assumption that the compression and AES primitives invert each other:
Snappy decoding inverts Snappy encoding; for a 16-byte key and IV the CBC block
transforms keep the length of a whole number of blocks and decryption inverts
encryption; the GCM seal appends a 16-byte tag and opening a sealed text with the
same key, nonce and additional data returns the plaintext. -/
structure Primitives.Lawful (P : Primitives) : Prop where
  snappy : ∀ x, P.snappyDecode (P.snappyEncode x) = .ok x
  cbcLength : ∀ key iv src, key.length = 16 → iv.length = 16 → src.length % 16 = 0 →
    (P.cbcEncryptBlocks key iv src).length = src.length
  cbcInverse : ∀ key iv src, key.length = 16 → iv.length = 16 → src.length % 16 = 0 →
    P.cbcDecryptBlocks key iv (P.cbcEncryptBlocks key iv src) = src
  gcmLength : ∀ key nonce pt aad, (P.gcmSeal key nonce pt aad).length = pt.length + 16
  gcmInverse : ∀ key nonce pt aad, key.length = 16 → nonce.length = 16 →
    P.gcmOpen key nonce (P.gcmSeal key nonce pt aad) aad = some pt

/-- The assumption that the JSON text codec carries a document: decoding the text
`json.Marshal` renders for it fills the map with the members of the document, in
some iteration order. -/
def Primitives.JsonCarries (P : Primitives) (doc : JSON) : Prop :=
  ∃ gm gm0, GoMap.ofJSON doc = some gm0 ∧ gm.Perm gm0 ∧
    P.jsonUnmarshal (P.jsonMarshal doc) = .ok gm

/-! ## A reference instance of the primitives

A small executable instance of `Primitives`, used to run the program on concrete
inputs: the identity as compression, a byte-wise additive cipher for the CBC block
transform, the same cipher followed by a 16-byte checksum of key, nonce,
additional data and plaintext for GCM, and compact JSON text for flat objects. -/

/-- The checksum of the reference GCM tag. -/
def refDigest (bs : Bytes) : Byte := bs.foldl (fun acc b => acc * 31 + b + 1) 7

/-- The key stream byte of the reference cipher. -/
def refPad (key iv : Bytes) : Byte := key.headD 0 + iv.headD 0 + 1

/-- Reference `Seal`: ciphertext followed by a 16-byte tag. -/
def refSeal (key nonce plaintext aad : Bytes) : Bytes :=
  plaintext.map (· + refPad key nonce)
    ++ List.replicate 16 (refDigest (key ++ nonce ++ aad ++ plaintext))

/-- Reference `Open`: fails unless the tag matches. -/
def refOpen (key nonce ciphertext aad : Bytes) : Option Bytes :=
  if ciphertext.length < 16 then none
  else
    let body := ciphertext.take (ciphertext.length - 16)
    let tag := ciphertext.drop (ciphertext.length - 16)
    let plaintext := body.map (· - refPad key nonce)
    if tag = List.replicate 16 (refDigest (key ++ nonce ++ aad ++ plaintext)) then some plaintext
    else none

/-- A string between double quotes (no escapes). -/
def refQuote (s : Str) : List Char := '"' :: s.data ++ ['"']

/-- Reference JSON text of a scalar; a nested array or object is not rendered. -/
def refRenderValue : JSON → List Char
  | .null => "null".data
  | .bool true => "true".data
  | .bool false => "false".data
  | .int n => formatInt n
  | .float f => formatInt f.toInt
  | .str s => refQuote s
  | .arr _ => "[]".data
  | .obj _ => "\x7b\x7d".data

/-- Reference JSON text of the members of an object. -/
def refRenderMembers : List (Str × JSON) → List Char
  | [] => []
  | [(k, v)] => refQuote k ++ ':' :: refRenderValue v
  | (k, v) :: rest => refQuote k ++ ':' :: refRenderValue v ++ ',' :: refRenderMembers rest

/-- Reference JSON text of a document. -/
def refRender : JSON → List Char
  | .obj ms => '{' :: refRenderMembers ms ++ ['}']
  | v => refRenderValue v

/-- The characters of a string up to its closing quote, and what follows it. -/
def refTakeString : List Char → Option (List Char × List Char)
  | [] => none
  | c :: cs =>
    if c = '"' then some ([], cs)
    else
      match refTakeString cs with
      | none => none
      | some (s, rest) => some (c :: s, rest)

/-- A scalar value at the head of the text, and what follows it. -/
def refParseValue (cs : List Char) : Option (GoVal × List Char) :=
  match cs with
  | '"' :: rest =>
    match refTakeString rest with
    | some (s, r) => some (.string s.asString, r)
    | none => none
  | 't' :: 'r' :: 'u' :: 'e' :: rest => some (.bool true, rest)
  | 'f' :: 'a' :: 'l' :: 's' :: 'e' :: rest => some (.bool false, rest)
  | 'n' :: 'u' :: 'l' :: 'l' :: rest => some (.nil, rest)
  | _ =>
    let ds := cs.takeWhile fun c => c = '-' ∨ ('0' ≤ c ∧ c ≤ '9')
    match Atoi ds.asString with
    | (n, none) => some (.float64 (Float64.ofInt n), cs.drop ds.length)
    | (_, some _) => none

/-- The members of a flat object, up to its closing brace. -/
def refParseMembers : Nat → List Char → Option GoMap
  | 0, _ => none
  | fuel + 1, cs =>
    match cs with
    | '"' :: rest =>
      match refTakeString rest with
      | some (k, ':' :: rest1) =>
        match refParseValue rest1 with
        | some (v, ['}']) => some [(k.asString, v)]
        | some (v, ',' :: rest2) =>
          match refParseMembers fuel rest2 with
          | some m => some ((k.asString, v) :: m)
          | none => none
        | _ => none
      | _ => none
    | _ => none

/-- Reference parser: a flat JSON object without white space, or `null`. -/
def refParse (cs : List Char) : Option GoMap :=
  match cs with
  | ['{', '}'] => some []
  | ['n', 'u', 'l', 'l'] => some []
  | '{' :: rest => refParseMembers rest.length rest
  | _ => none

/-- The reference instance. -/
def refPrimitives : Primitives where
  snappyEncode := fun data => data
  snappyDecode := fun data => .ok data
  zlibCompress := fun data => .ok data
  zlibDecompress := fun data => .ok data
  cbcEncryptBlocks := fun key iv src => src.map (· + refPad key iv)
  cbcDecryptBlocks := fun key iv src => src.map (· - refPad key iv)
  gcmSeal := refSeal
  gcmOpen := refOpen
  jsonMarshal := fun doc => (refRender doc).map charByte
  jsonMarshalIndent := fun doc => (refRender doc).map charByte
  jsonUnmarshal := fun data =>
    match refParse (data.map fun b => Char.ofNat b.val) with
    | some m => .ok m
    | none => .error (.lib "json: cannot unmarshal")

/-- The text `a.b.c.d` of a dotted quad: four decimal numbers between dots. -/
def dottedQuad (a b c d : Byte) : Str :=
  (formatInt a.val ++ '.' :: formatInt b.val ++ '.' :: formatInt c.val
    ++ '.' :: formatInt d.val).asString

/-- One decimal field of a dotted quad: one to three digits, at most 255. -/
def refOctet (cs : List Char) : Option Byte :=
  if cs = [] ∨ 3 < cs.length then none
  else
    match digitsValue cs 0 with
    | some n => if n < 256 then some (byteOf n) else none
    | none => none

/-- Reference `net.ParseIP`, for dotted quads only: the 16-byte form of the
address, nil for any other text. -/
def refParseIP (s : Str) : Option Bytes :=
  match (splitOn '.' s.data).map refOctet with
  | [some a, some b, some c, some d] => some (IPv4 a b c d)
  | _ => none

/-! ## The envelope layout and sample values -/

/-- Big-endian bytes of a 16-bit value, as `WriteUInt16BE` stores them. -/
def be16 (v : Nat) : Bytes := [byteOf ((v &&& 0xff00) >>> 8), byteOf (v &&& 0x00ff)]

/-- Big-endian bytes of a 32-bit value, as `WriteUInt32BE` stores them. -/
def be32 (v : Nat) : Bytes :=
  [byteOf ((v &&& 0xff000000) >>> 24), byteOf ((v &&& 0x00ff0000) >>> 16),
   byteOf ((v &&& 0x0000ff00) >>> 8), byteOf (v &&& 0x000000ff)]

/-- The 40-byte header of the envelope for a packet, an IV and a value of the
length field: magic, inform version, MAC, flags, IV, data version, length. -/
def Packet.headerBytes (p : Packet) (iv : Bytes) (n : Nat) : Bytes :=
  be32 MagicNumber ++ be32 InformVersion ++ p.ap ++ be16 p.flags ++ iv ++ be32 DataVersion
    ++ be32 n

/-- The three modes of a packet: no encryption; CBC, where the GCM flag is clear
and the mode field is not `GCM`; GCM, where the flag is set and the mode field is
`GCM`. -/
inductive PacketMode where
  | plaintext
  | cbc
  | gcm
  deriving DecidableEq, Repr

/-- The mode a packet is in, if its flags and its mode field agree. -/
def Packet.cipherMode (p : Packet) : Option PacketMode :=
  if !p.IsEncrypted then some .plaintext
  else if p.IsGcmEncrypted ∧ p.mode = GCM then some .gcm
  else if !p.IsGcmEncrypted ∧ p.mode ≠ GCM then some .cbc
  else none

/-- The packet after `Packet.Unmarshal` stored the MAC and the flags it read. -/
def Packet.setHeader (q : Packet) (ap : HardwareAddr) (flags : Nat) : Packet :=
  { q with ap := ap, flags := flags }

/-- The packet after `Packet.Unmarshal` stored the key the resolver returned. -/
def Packet.setKey (q : Packet) (k : Key) : Packet := { q with key := k }

/-- The packet `&inform.Packet\x7b\x7d` that `SendInform` decodes the reply into. -/
def emptyPacket : Packet := ⟨[], 0, none, none, 0⟩

/-- The key resolver of `SendInform`: it ignores the address and returns the key
of the agent. -/
def agentKeyFetcher (key : Key) : HardwareAddr → Key × Option Error := fun _ => (key, none)

/-- A sample hardware address. -/
def sampleMac : HardwareAddr := [0xde, 0xad, 0xbe, 0xef, 0x00, 0x01]

/-- A sample `Cmd` message. -/
def sampleCmd : Cmd := ⟨200, 1, "speed-test", true, "dev", 3, "abc"⟩

/-- A sample `SetParam` message. -/
def sampleSetParam : SetParam := ⟨200, [("cfgversion", "a1"), ("authkey", "00ff")], 7⟩

/-- A sample reply message. -/
def sampleNoop : Message := .noop ⟨200, 1, 5⟩

/-- Forty zero bytes: a header with no magic, data version 0 and length 0. -/
def zeroHeader : Bytes := List.replicate 40 0

/-- The bytes `Packet.Marshal` returns for `sampleNoop` without a key, under the
reference primitives: the header and the JSON text of the message. -/
def samplePlainBytes : Bytes :=
  [84, 78, 66, 85, 0, 0, 0, 0, 222, 173, 190, 239, 0, 1, 0, 4,
   0, 0, 0, 0, 0, 0, 0, 0, 0, 0, 0, 0, 0, 0, 0, 0, 0, 0, 0, 1, 0, 0, 0, 37,
   123, 34, 115, 101, 114, 118, 101, 114, 95, 116, 105, 109, 101, 95, 105, 110, 95, 117, 116,
   99, 34, 58, 49, 44, 34, 105, 110, 116, 101, 114, 118, 97, 108, 34, 58, 53, 125]

/-- The bytes `Packet.Marshal` returns for `sampleNoop` with the default key in
CBC mode, under the reference primitives and `sampleRand`. -/
def sampleCbcBytes : Bytes :=
  [84, 78, 66, 85, 0, 0, 0, 0, 222, 173, 190, 239, 0, 1, 0, 5,
   1, 2, 3, 4, 5, 6, 7, 8, 9, 10, 11, 12, 13, 14, 15, 16, 0, 0, 0, 1, 0, 0, 0, 48,
   55, 222, 47, 33, 46, 50, 33, 46, 27, 48, 37, 41, 33, 27, 37, 42, 27, 49, 48, 31, 222, 246,
   237, 232, 222, 37, 42, 48, 33, 46, 50, 29, 40, 222, 246, 241, 57,
   199, 199, 199, 199, 199, 199, 199, 199, 199, 199, 199]

/-- The bytes `Packet.Marshal` returns for `sampleNoop` with the default key in
GCM mode, under the reference primitives and `sampleRand`. -/
def sampleGcmBytes : Bytes :=
  [84, 78, 66, 85, 0, 0, 0, 0, 222, 173, 190, 239, 0, 1, 0, 13,
   1, 2, 3, 4, 5, 6, 7, 8, 9, 10, 11, 12, 13, 14, 15, 16, 0, 0, 0, 1, 0, 0, 0, 53,
   55, 222, 47, 33, 46, 50, 33, 46, 27, 48, 37, 41, 33, 27, 37, 42, 27, 49, 48, 31, 222, 246,
   237, 232, 222, 37, 42, 48, 33, 46, 50, 29, 40, 222, 246, 241, 57,
   102, 102, 102, 102, 102, 102, 102, 102, 102, 102, 102, 102, 102, 102, 102, 102]

/-- A sample outcome of `rand.Read`: sixteen bytes, no error. -/
def sampleRand : RandRead := ⟨[1, 2, 3, 4, 5, 6, 7, 8, 9, 10, 11, 12, 13, 14, 15, 16], 16, none⟩

/-- A sample `Inform` whose WAN configuration is static with an address but without
netmask and gateway. -/
def sampleInform : Inform where
  BoardRevision := 0
  BootRomVersion := "unknown"
  ConfigVersion := "a1"
  ConfigNetworkWan := ⟨"static", "1.2.3.4", "", "", "", "", "eth0"⟩
  ConfigNetworkWan2 := ⟨"disabled", "", "", "", "", "", ""⟩
  Default := false
  DiscoveryResponse := false
  EthernetTable := none
  FirmwareCapabilities := 0
  GuestToken := ""
  HasDefaultRouteDistance := true
  HasHostfileUpdate := false
  HasDpi := false
  HasEth1 := false
  HasPortA := true
  HasSshDisable := true
  HasVti := true
  Hostname := "gw"
  IntfTable := none
  InformUrl := "http://unifi:8080/inform"
  InformIp := ""
  Ip := "1.2.3.4"
  Isolated := false
  LastError := ""
  Locating := false
  Mac := sampleMac
  Model := "UGW3"
  ModelDisplay := "UniFi-Gateway-3"
  Netmask := ""
  QrId := ""
  PortTable := none
  RadiusCapabilities := 1
  RequiredVersion := "4.0.0"
  SelfrunBeacon := true
  Serial := "deadbeef0001"
  SpectrumScanning := false
  State := 2
  StreamToken := ""
  SysStats := ⟨⟨0⟩, ⟨0⟩, ⟨0⟩, 0, 0, 0, 0, 0⟩
  Time := 0
  Uplink := "eth0"
  Uptime := 0
  Version := "4.4.50"
  InformAsNotify := false
  NotifyReason := ""
  NotifyPayload := ""
  SpeedtestStatus := none

/-- A collected interface with the given name, state, address and port number. -/
def sampleInterface (name : Str) (up : Bool) (ip netmask : Str) (mac : HardwareAddr)
    (numPort : Int) : Interface :=
  { Interface.zero with
    Name := name
    Up := up
    Enabled := up
    Ip := ip
    Netmask := netmask
    Mac := mac
    NumPort := numPort
    Latency := 1
    Gateways := some []
    Nameservers := some [] }

/-- Three collected interfaces: `eth0` and `eth2` are up with an address, `eth1` is
down. -/
def sampleInterfaces : List Interface :=
  [sampleInterface "eth0" true "192.168.1.2" "255.255.255.0" [0xaa, 0xbb, 0xcc, 0xdd, 0xee, 0xff] 1,
   sampleInterface "eth1" false "10.0.0.1" "255.0.0.0" [0xaa, 0xbb, 0xcc, 0xdd, 0xee, 0x00] 2,
   sampleInterface "eth2" true "10.0.1.1" "255.255.0.0" [0xaa, 0xbb, 0xcc, 0xdd, 0xee, 0x01] 3]

/-- A sample host: every call succeeds and `Network()` returns `sampleInterfaces`. -/
def sampleEnv : HostEnv where
  now := 1700000000
  getIpFromURL := fun _ => "192.168.1.1"
  hostInfo := some ⟨3600, "gw", "12.1"⟩
  network := .ok (some sampleInterfaces)
  sysStats := some ⟨⟨0⟩, ⟨0⟩, ⟨0⟩, 0, 1024, 512, 50, 3⟩
  gateway := some "192.168.1.254"
  pfSenseVersion := "2.4.5"
  ParseIP := refParseIP

/-- A sample configuration in plain-host mode with a persisted key and version. -/
def sampleConfig : Config where
  General := ⟨"http://unifi:8080/inform", true, "error", "", "", 15⟩
  Management := ⟨"a1b2c3", false, "000102030405060708090a0b0c0d0e0f"⟩
  PfSenseInterfaces := none
  path := "/etc/ripugw.toml"
  useJson := false
  PfSenseMode := false
  PfSense := none
  SpeedTest := none

/-- The JSON text of a speed-test command, as the controller sends it. -/
def sampleCmdText : Bytes :=
  "\x7b\"_type\":\"cmd\",\"cmd\":\"speed-test\",\"time\":\"7\"\x7d".data.map charByte

/-- The JSON text of a reply whose server time is the number 5. -/
def sampleNumberText : Bytes := "\x7b\"server_time_in_utc\":5\x7d".data.map charByte

/-- The JSON text of a reply whose server time is the string `5`. -/
def sampleStringText : Bytes := "\x7b\"server_time_in_utc\":\"5\"\x7d".data.map charByte

/-- The JSON text of a command whose time is the number 7. -/
def sampleCmdNumberText : Bytes := "\x7b\"_type\":\"cmd\",\"time\":7\x7d".data.map charByte

/-- The JSON text of a command whose time is the string `7`. -/
def sampleCmdStringText : Bytes :=
  "\x7b\"_type\":\"cmd\",\"time\":\"7\"\x7d".data.map charByte

/-- The JSON text of a `setparam` reply whose server time is not a number. -/
def sampleBadTimeText : Bytes :=
  "\x7b\"_type\":\"setparam\",\"server_time_in_utc\":\"abc\"\x7d".data.map charByte

/-- A router configuration: `wan` on `eth0` with a static address, `lan` on `eth2`,
`opt1` on `eth1`, three DNS servers. -/
def samplePfsense : pfconf.Configuration where
  System := ⟨"gw", "Etc/UTC", "lan", "1.1.1.1,8.8.8.8,9.9.9.9",
    some ["1.1.1.1", "8.8.8.8", "9.9.9.9"], ""⟩
  Interfaces :=
    [⟨⟨"", "wan"⟩, "eth0", true, true, false, "WAN", "192.168.1.2", 24, "WANGW"⟩,
     ⟨⟨"", "lan"⟩, "eth2", true, false, false, "LAN", "10.0.1.1", 16, ""⟩,
     ⟨⟨"", "opt1"⟩, "eth1", true, false, false, "MGMT", "10.0.0.1", 8, ""⟩]

/-- A translation table: `opt1` gives the identity of the device. -/
def sampleTranslation : PfSenseTranslationTable := ⟨"wan", "", "lan", "opt1"⟩

/-- The `Inform` of the sample host in router-config mode. -/
def sampleRouterInform : Inform :=
  match RequestFromPfsense sampleEnv "http://unifi:8080/inform" "abc" samplePfsense
    sampleTranslation none with
  | .ok (r, _) => r
  | .error _ => initialInform 0 "" ""

/-- A loaded state without URL and interval, with a persisted key and version. -/
def sampleLoadedConfig : Config where
  General := ⟨"", true, "error", "", "", 0⟩
  Management := ⟨"a1b2c3", false, "000102030405060708090a0b0c0d0e0f"⟩
  PfSenseInterfaces := none
  path := "/etc/ripugw.toml"
  useJson := false
  PfSenseMode := false
  PfSense := none
  SpeedTest := none

/-- A file system without files. -/
def sampleCheckEnv : CheckEnv where
  fileExists := fun _ => false
  readFile := fun _ => none
  xmlUnmarshal := fun _ old => (old, some (.lib "EOF"))

/-- The `speed-test` command, decoded. -/
def sampleSpeedTestCmd : Cmd := ⟨200, 0, "speed-test", false, "", 7, ""⟩

/-- A 40-byte packet: the header of `sampleMac` with the ENCRYPT flag set, the GCM
flag clear, and the declared payload length 0. -/
def sampleEmptyCbcPacket : Bytes :=
  [84, 78, 66, 85, 0, 0, 0, 0, 222, 173, 190, 239, 0, 1, 0, 1,
   1, 2, 3, 4, 5, 6, 7, 8, 9, 10, 11, 12, 13, 14, 15, 16, 0, 0, 0, 1, 0, 0, 0, 0]

/-! ## The specification's side of the refinement statements

The definitions below follow the words of the specification; the theorems compare
them with the definitions above. -/

/-- The entry a line of a `mgmt_cfg` block stands for, in the words of the
specification: for a line containing `=`, the text before the first `=` as the key
and everything after that first `=` as the value; nothing for a line without `=`. -/
def specLineEntry (line : List Char) : Option (Str × Str) :=
  if '=' ∈ line then
    some ((line.takeWhile (fun c => c != '=')).asString,
      ((line.dropWhile (fun c => c != '=')).drop 1).asString)
  else none

/-- The value of a key in a `mgmt_cfg` block, in the words of the specification:
the value of the last line (lines are separated by `\n`) whose entry has that key. -/
def specMgmtLookup (s : Str) (k : Str) : Option Str :=
  ((((splitOn '\n' s.data).filterMap specLineEntry).filter (fun e => e.1 == k)).getLast?).map
    Prod.snd

/-- An interface that is up with a non-empty IPv4 address, in the words of the
specification. -/
def upWithIPv4 (i : Interface) : Bool := i.Up && decide (i.Ip ≠ "")

/-- The name of the port of the `k`-th interface that is up with an IPv4 address, in
the words of the specification, `k` counted from 0: `wan`, `lan`, `lan2`, `lan3`, … -/
def specPortName (k : Nat) : Str :=
  if k = 0 then "wan" else if k = 1 then "lan" else "lan" ++ (formatInt k).asString

/-- The port table of the specification: one entry for each interface that is up
with an IPv4 address, in list order. -/
def specPortTable (ifaces : List Interface) : List Port :=
  ((ifaces.filter upWithIPv4).enum).map (fun p => ⟨p.2.Name, specPortName p.1⟩)

/-- The router interface `populateInterfaces` keeps for one role, in the words of
the specification: the last interface of the router configuration that the role
selects; the zero interface when there is none. -/
def matchedInterface (pfsense : List pfconf.Interface) (select : pfconf.Interface → Bool) :
    pfconf.Interface :=
  ((pfsense.filter select).getLast?).getD pfconf.Interface.zero

/-- The role lan: the name of the element is the one the translation table gives
for lan. -/
def selectsLan (translation : PfSenseTranslationTable) (i : pfconf.Interface) : Bool :=
  decide (i.XMLName.Local = translation.Lan)

/-- The role wan: the name is the one of wan, and not the one of lan, which the
`switch` tries first. -/
def selectsWan (translation : PfSenseTranslationTable) (i : pfconf.Interface) : Bool :=
  decide (i.XMLName.Local ≠ translation.Lan ∧ i.XMLName.Local = translation.Wan)

/-- The role wan2: the name is the one of wan2, and neither the one of lan nor the
one of wan. -/
def selectsWan2 (translation : PfSenseTranslationTable) (i : pfconf.Interface) : Bool :=
  decide (i.XMLName.Local ≠ translation.Lan ∧ i.XMLName.Local ≠ translation.Wan ∧
    i.XMLName.Local = translation.Wan2)

/-- The port table of the specification in router-config mode: wan, wan2, lan, in
that order, each when its router interface was matched with a device. -/
def specRouterPorts (pfsense : List pfconf.Interface) (translation : PfSenseTranslationTable) :
    List Port :=
  (if (matchedInterface pfsense (selectsWan translation)).If ≠ "" then [⟨"eth0", "wan"⟩] else [])
  ++ (if (matchedInterface pfsense (selectsWan2 translation)).If ≠ "" then [⟨"eth2", "wan2"⟩]
      else [])
  ++ (if (matchedInterface pfsense (selectsLan translation)).If ≠ "" then [⟨"eth1", "lan"⟩]
      else [])

/-! ## Abbreviations used by the lemmas on the requests -/

/-- The names `Request` gives to the ports after the first, from the length of the
port table on. -/
def lanPorts (n : Nat) (l : List Interface) : List Port :=
  (l.enumFrom n).map
    (fun p => ⟨p.2.Name, "lan" ++ (if (p.1 : Int) = 1 then "" else (formatInt p.1).asString)⟩)

/-- The assignment `c.IfName = name`. -/
def NetworkConfig.setIfName (c : NetworkConfig) (name : Str) : NetworkConfig :=
  { c with IfName := name }

/-- The assignments `r.IntfTable = intf` and `r.PortTable = ports`. -/
def Inform.setTables (r : Inform) (intf : Slice Interface) (ports : Slice Port) : Inform :=
  { r with IntfTable := intf, PortTable := ports }

/-- One turn of the loop of `populateInterfaces`. -/
def populateStep (p : List Interface) (translation : PfSenseTranslationTable)
    (result : PfSenseTranslation) (iface : pfconf.Interface) : PfSenseTranslation :=
  if iface.XMLName.Local = translation.Lan then
    { result with Lan := prepareRealInterface iface p "eth1" "lan" }
  else if iface.XMLName.Local = translation.Wan then
    { result with Wan := prepareRealInterface iface p "eth0" "wan" }
  else if iface.XMLName.Local = translation.Wan2 then
    { result with Wan2 := prepareRealInterface iface p "eth2" "wan2" }
  else if iface.XMLName.Local = translation.Uid then
    { result with Uid := prepareRealInterface iface p "" "uid" }
  else result

/-- The interface the wan step of `RequestFromPfsense` appends to the interface
table (lines 198-210). -/
def RequestFromPfsense.wanInterface (env : HostEnv) (pfsense : pfconf.Configuration)
    (speedtest : Option SpeedTestStatus) (table : PfSenseTranslation) : Interface :=
  let wan := { table.Wan.Physical with Name := table.Wan.UnifiName }
  let wan :=
    match env.gateway with
    | some gateway => { wan with Gateways := some (wan.Gateways.getD [] ++ [gateway]) }
    | none => wan
  let wan :=
    if (pfsense.System.DnsServers.getD []).length > 0 then
      { wan with Nameservers := pfsense.System.DnsServers }
    else wan
  match speedtest with
  | some st => { wan with Latency := st.Latency }
  | none => wan

/-- The assignment `i.Name = name`. -/
def Interface.setName (i : Interface) (name : Str) : Interface := { i with Name := name }

set_option maxRecDepth 1000000

/-! ## Lemmas: bytes and buffers -/

theorem length_six {α : Type} (l : List α) (h : l.length = 6) :
    ∃ a b c d e f, l = [a, b, c, d, e, f] := by
  match l, h with
  | [a, b, c, d, e, f], _ => exact ⟨a, b, c, d, e, f, rfl⟩

theorem length_sixteen {α : Type} (l : List α) (h : l.length = 16) :
    ∃ a0 a1 a2 a3 a4 a5 a6 a7 a8 a9 a10 a11 a12 a13 a14 a15,
      l = [a0, a1, a2, a3, a4, a5, a6, a7, a8, a9, a10, a11, a12, a13, a14, a15] := by
  match l, h with
  | [a0, a1, a2, a3, a4, a5, a6, a7, a8, a9, a10, a11, a12, a13, a14, a15], _ =>
    exact ⟨a0, a1, a2, a3, a4, a5, a6, a7, a8, a9, a10, a11, a12, a13, a14, a15, rfl⟩

theorem marshalHeader_eq (p : Packet) (iv : Bytes) (hap : p.ap.length = 6)
    (hiv : iv.length = 16) : p.marshalHeader iv = some (p.headerBytes iv 0) := by
  obtain ⟨ap, flags, key, msg, mode⟩ := p
  obtain ⟨a, b, c, d, e, f, rfl⟩ := length_six ap hap
  obtain ⟨a0, a1, a2, a3, a4, a5, a6, a7, a8, a9, a10, a11, a12, a13, a14, a15, rfl⟩ :=
    length_sixteen iv hiv
  rfl

theorem mask_shift (N k : Nat) : (N &&& ((2 ^ 8 - 1) <<< k)) >>> k = N / 2 ^ k % 256 := by
  apply Nat.eq_of_testBit_eq
  intro i
  rw [← Nat.shiftRight_eq_div_pow, show (256 : Nat) = 2 ^ 8 by norm_num]
  simp only [Nat.testBit_mod_two_pow, Nat.testBit_shiftRight, Nat.testBit_and,
    Nat.testBit_shiftLeft, Nat.testBit_two_pow_sub_one]
  by_cases hi : i < 8 <;> simp [hi]

theorem be32_eq (v : Nat) :
    be32 v = [byteOf (v / 2 ^ 24), byteOf (v / 2 ^ 16), byteOf (v / 2 ^ 8), byteOf v] := by
  have h24 : (v &&& 0xff000000) >>> 24 = v / 2 ^ 24 % 256 := mask_shift v 24
  have h16 : (v &&& 0x00ff0000) >>> 16 = v / 2 ^ 16 % 256 := mask_shift v 16
  have h8 : (v &&& 0x0000ff00) >>> 8 = v / 2 ^ 8 % 256 := mask_shift v 8
  have h0 : v &&& 0x000000ff = v % 256 := Nat.and_pow_two_sub_one_eq_mod v 8
  simp only [be32, h24, h16, h8, h0, byteOf, Nat.mod_mod]

theorem be16_eq (v : Nat) : be16 v = [byteOf (v / 2 ^ 8), byteOf v] := by
  have h8 : (v &&& 0xff00) >>> 8 = v / 2 ^ 8 % 256 := mask_shift v 8
  have h0 : v &&& 0x00ff = v % 256 := Nat.and_pow_two_sub_one_eq_mod v 8
  simp only [be16, h8, h0, byteOf, Nat.mod_mod]

theorem be32_length (v : Nat) : (be32 v).length = 4 := rfl
theorem be16_length (v : Nat) : (be16 v).length = 2 := rfl

theorem getElem?_append_add {α : Type} (pre b : List α) (i : Nat) :
    (pre ++ b)[pre.length + i]? = b[i]? := by
  rw [List.getElem?_append_right (Nat.le_add_right _ _), Nat.add_sub_cancel_left]

theorem read32_append (pre b : Bytes) (off : Nat) :
    Buffer.ReadUInt32BE (pre ++ b) (pre.length + off) = Buffer.ReadUInt32BE b off := by
  simp only [Buffer.ReadUInt32BE, Nat.add_assoc, getElem?_append_add]

theorem read16_append (pre b : Bytes) (off : Nat) :
    Buffer.ReadUInt16BE (pre ++ b) (pre.length + off) = Buffer.ReadUInt16BE b off := by
  simp only [Buffer.ReadUInt16BE, Nat.add_assoc, getElem?_append_add]

theorem read32_be32 (v : Nat) (pre post : Bytes) :
    Buffer.ReadUInt32BE (pre ++ be32 v ++ post) pre.length = some (uint32 v) := by
  have h := read32_append pre (be32 v ++ post) 0
  rw [Nat.add_zero, ← List.append_assoc] at h
  rw [h, be32_eq]
  simp only [Buffer.ReadUInt32BE, List.cons_append, List.getElem?_cons_zero,
    List.getElem?_cons_succ, byteOf, Nat.shiftLeft_eq, Option.some.injEq, uint32]
  omega

theorem read16_be16 (v : Nat) (pre post : Bytes) :
    Buffer.ReadUInt16BE (pre ++ be16 v ++ post) pre.length = some (v % 2 ^ 16) := by
  have h := read16_append pre (be16 v ++ post) 0
  rw [Nat.add_zero, ← List.append_assoc] at h
  rw [h, be16_eq]
  simp only [Buffer.ReadUInt16BE, List.cons_append, List.getElem?_cons_zero,
    List.getElem?_cons_succ, byteOf, Nat.shiftLeft_eq, Option.some.injEq]
  omega

theorem read32_lt (b : Bytes) (off v : Nat) (h : Buffer.ReadUInt32BE b off = some v) :
    v < 2 ^ 32 := by
  unfold Buffer.ReadUInt32BE at h
  split at h
  · simp only [Option.some.injEq, Nat.shiftLeft_eq] at h
    omega
  · exact absurd h (by simp)

theorem read32_isSome (b : Bytes) (off : Nat) (h : off + 4 ≤ b.length) :
    ∃ v, Buffer.ReadUInt32BE b off = some v := by
  have h0 : off < b.length := by omega
  have h1 : off + 1 < b.length := by omega
  have h2 : off + 2 < b.length := by omega
  have h3 : off + 3 < b.length := by omega
  simp [Buffer.ReadUInt32BE, List.getElem?_eq_getElem, h0, h1, h2, h3]

/-! ## Lemmas: the header and `Packet.Marshal` -/

theorem headerBytes_length (p : Packet) (iv : Bytes) (n : Nat) (hap : p.ap.length = 6)
    (hiv : iv.length = 16) : (p.headerBytes iv n).length = 40 := by
  simp [Packet.headerBytes, be32_length, be16_length, hap, hiv]

theorem headerBytes_setLen (p : Packet) (iv : Bytes) (n v : Nat) (hap : p.ap.length = 6)
    (hiv : iv.length = 16) :
    Buffer.WriteUInt32BE (p.headerBytes iv n) 36 v = some (p.headerBytes iv v) := by
  obtain ⟨ap, flags, key, msg, mode⟩ := p
  obtain ⟨a, b, c, d, e, f, rfl⟩ := length_six ap hap
  obtain ⟨a0, a1, a2, a3, a4, a5, a6, a7, a8, a9, a10, a11, a12, a13, a14, a15, rfl⟩ :=
    length_sixteen iv hiv
  rfl

theorem copy_length (dst src : Bytes) : (copy dst src).length = dst.length := by
  simp only [copy, List.length_append, List.length_take, List.length_drop]
  omega

theorem copy_of_length_eq (dst src : Bytes) (h : src.length = dst.length) : copy dst src = src := by
  simp [copy, h]

theorem blockSize_eq : blockSize = 16 := rfl

theorem GenerateIV_length (rnd : RandRead) (iv : Bytes) (h : GenerateIV rnd = .ok iv) :
    iv.length = 16 := by
  unfold GenerateIV at h
  split at h
  · exact absurd h (by simp)
  · split at h
    · exact absurd h (by simp)
    · have h1 := Except.ok.inj h
      rw [← h1, copy_length]
      rfl

theorem marshalIV_length (p : Packet) (rnd : RandRead) (iv : Bytes)
    (h : p.marshalIV rnd = .ok iv) : iv.length = 16 := by
  unfold Packet.marshalIV at h
  split at h
  · exact GenerateIV_length rnd iv h
  · rw [← Except.ok.inj h]
    rfl

/-- The result of `Packet.Marshal` once the message, its compressed form and the
IV are known and the MAC has six bytes. -/
theorem Marshal_eq (P : Primitives) (p : Packet) (rnd : RandRead) (m : Message)
    (cmsg iv : Bytes) (hm : p.Msg = some m)
    (hc : p.marshalCompress P (m.Marshal P) = .ok cmsg) (hiv : p.marshalIV rnd = .ok iv)
    (hap : p.ap.length = 6) :
    p.Marshal P rnd =
      if p.IsEncrypted then
        if p.IsGcmEncrypted then
          match Encrypt P p.mode iv p.key cmsg (p.headerBytes iv (uint32 (cmsg.length + 16))) with
          | .error err => .error err
          | .ok enc => .ok (p.headerBytes iv (uint32 (cmsg.length + 16)) ++ enc)
        else
          match Encrypt P p.mode iv p.key cmsg (p.headerBytes iv 0) with
          | .error err => .error err
          | .ok enc => .ok (p.headerBytes iv (uint32 enc.length) ++ enc)
      else .ok (p.headerBytes iv (uint32 cmsg.length) ++ cmsg) := by
  have hl := marshalIV_length p rnd iv hiv
  simp only [Packet.Marshal, hm, hc, hiv, hap, ne_eq, not_true_eq_false, if_false,
    marshalHeader_eq p iv hap hl, Packet.marshalBody]
  cases he : p.IsEncrypted with
  | false => simp [headerBytes_setLen p iv _ _ hap hl]
  | true =>
    cases hg : p.IsGcmEncrypted with
    | true =>
      simp only [if_true, headerBytes_setLen p iv _ _ hap hl, Bool.not_true]
      cases hE : Encrypt P p.mode iv p.key cmsg
        (p.headerBytes iv (uint32 (cmsg.length + 16))) <;> simp
    | false =>
      simp only [if_true, Bool.false_eq_true, if_false, Bool.not_false]
      cases hE : Encrypt P p.mode iv p.key cmsg (p.headerBytes iv 0) with
      | error e => simp
      | ok enc => simp [headerBytes_setLen p iv _ _ hap hl]

/-- What a successful `Packet.Marshal` went through: the message, its compressed
form, the IV, a six-byte MAC, and one of the three layouts of the output. -/
theorem Marshal_ok (P : Primitives) (p : Packet) (rnd : RandRead) (out : Bytes)
    (hout : p.Marshal P rnd = .ok out) :
    ∃ m cmsg iv, p.Msg = some m ∧ p.marshalCompress P (m.Marshal P) = .ok cmsg ∧
      p.marshalIV rnd = .ok iv ∧ iv.length = 16 ∧ p.ap.length = 6 ∧
      ((p.IsEncrypted = false ∧ out = p.headerBytes iv (uint32 cmsg.length) ++ cmsg) ∨
       (p.IsEncrypted = true ∧ p.IsGcmEncrypted = true ∧ ∃ enc,
          Encrypt P p.mode iv p.key cmsg (p.headerBytes iv (uint32 (cmsg.length + 16))) = .ok enc ∧
          out = p.headerBytes iv (uint32 (cmsg.length + 16)) ++ enc) ∨
       (p.IsEncrypted = true ∧ p.IsGcmEncrypted = false ∧ ∃ enc,
          Encrypt P p.mode iv p.key cmsg (p.headerBytes iv 0) = .ok enc ∧
          out = p.headerBytes iv (uint32 enc.length) ++ enc)) := by
  cases hm : p.Msg with
  | none => simp [Packet.Marshal, hm] at hout
  | some m =>
    cases hc : p.marshalCompress P (m.Marshal P) with
    | error e => simp [Packet.Marshal, hm, hc] at hout
    | ok cmsg =>
      cases hiv : p.marshalIV rnd with
      | error e => simp [Packet.Marshal, hm, hc, hiv] at hout
      | ok iv =>
        by_cases hap : p.ap.length = 6
        · have hl := marshalIV_length p rnd iv hiv
          rw [Marshal_eq P p rnd m cmsg iv hm hc hiv hap] at hout
          refine ⟨m, cmsg, iv, rfl, hc, rfl, hl, hap, ?_⟩
          cases he : p.IsEncrypted with
          | false =>
            simp only [he, Bool.false_eq_true, if_false, Except.ok.injEq] at hout
            exact Or.inl ⟨rfl, hout.symm⟩
          | true =>
            cases hg : p.IsGcmEncrypted with
            | true =>
              simp only [he, hg, if_true] at hout
              cases hE : Encrypt P p.mode iv p.key cmsg
                  (p.headerBytes iv (uint32 (cmsg.length + 16))) with
              | error e => simp [hE] at hout
              | ok enc =>
                simp only [hE, Except.ok.injEq] at hout
                exact Or.inr (Or.inl ⟨rfl, rfl, enc, rfl, hout.symm⟩)
            | false =>
              simp only [he, hg, if_true, Bool.false_eq_true, if_false] at hout
              cases hE : Encrypt P p.mode iv p.key cmsg (p.headerBytes iv 0) with
              | error e => simp [hE] at hout
              | ok enc =>
                simp only [hE, Except.ok.injEq] at hout
                exact Or.inr (Or.inr ⟨rfl, rfl, enc, rfl, hout.symm⟩)
        · simp [Packet.Marshal, hm, hc, hiv, hap] at hout

/-- Every output of `Packet.Marshal` is a 40-byte header followed by a payload. -/
theorem Marshal_ok_header (P : Primitives) (p : Packet) (rnd : RandRead) (out : Bytes)
    (hout : p.Marshal P rnd = .ok out) :
    ∃ iv n payload, iv.length = 16 ∧ p.ap.length = 6 ∧ out = p.headerBytes iv n ++ payload := by
  obtain ⟨m, cmsg, iv, _, _, _, hl, hap, h⟩ := Marshal_ok P p rnd out hout
  rcases h with ⟨_, h⟩ | ⟨_, _, enc, _, h⟩ | ⟨_, _, enc, _, h⟩
  · exact ⟨iv, _, _, hl, hap, h⟩
  · exact ⟨iv, _, _, hl, hap, h⟩
  · exact ⟨iv, _, _, hl, hap, h⟩

theorem headerBytes_take4 (p : Packet) (iv : Bytes) (n : Nat) (payload : Bytes) :
    (p.headerBytes iv n ++ payload).take 4 = [0x54, 0x4e, 0x42, 0x55] := rfl

/-! ## Lemmas: `Packet.Unmarshal` -/

theorem read32_drop (data : Bytes) (off : Nat) :
    Buffer.ReadUInt32BE data off = Buffer.ReadUInt32BE (data.drop off) 0 := by
  simp only [Buffer.ReadUInt32BE, List.getElem?_drop, Nat.add_zero, Nat.zero_add]

theorem drop_four (data : Bytes) (off : Nat) (h : off + 4 ≤ data.length) :
    ∃ x y z w rest, data.drop off = x :: y :: z :: w :: rest := by
  have hl : 4 ≤ (data.drop off).length := by rw [List.length_drop]; omega
  match data.drop off, hl with
  | x :: y :: z :: w :: rest, _ => exact ⟨x, y, z, w, rest, rfl⟩

/-- Reading a 32-bit value at an offset gives `v` exactly when the four bytes
there are the big-endian bytes of `v`. -/
theorem read32_eq_iff (data : Bytes) (off v : Nat) (h : off + 4 ≤ data.length)
    (hv : v < 2 ^ 32) :
    Buffer.ReadUInt32BE data off = some v ↔ (data.drop off).take 4 = be32 v := by
  obtain ⟨x, y, z, w, rest, hd⟩ := drop_four data off h
  rw [read32_drop, hd, be32_eq]
  simp only [Buffer.ReadUInt32BE, List.getElem?_cons_zero, List.getElem?_cons_succ,
    Option.some.injEq, List.take_succ_cons, List.take_zero, List.cons.injEq, and_true,
    Nat.shiftLeft_eq, byteOf, Fin.ext_iff]
  constructor
  · intro hx
    refine ⟨?_, ?_, ?_, ?_⟩ <;> omega
  · rintro ⟨h1, h2, h3, h4⟩
    omega

theorem unmarshalChecks_short (data : Bytes)
    (h : data.length < 40 ∨ ∃ L, Buffer.ReadUInt32BE data 36 = some L ∧ data.length < 40 + L) :
    unmarshalChecks data = .error .invalidPacketLength := by
  unfold unmarshalChecks
  rcases h with h | ⟨L, hL, h⟩
  · simp [h]
  · have hlt := read32_lt data 36 L hL
    have hu : uint (L + 40) = L + 40 := by unfold uint; omega
    by_cases h40 : data.length < 40
    · simp [h40]
    · have : data.length < L + 40 := by omega
      simp [h40, hL, hu, this]

/-- The checks of `Packet.Unmarshal` on an input that passes the two length
checks: the three header constants, in the order magic, inform version, data
version. -/
theorem unmarshalChecks_fit (data : Bytes) (L : Nat) (hL : Buffer.ReadUInt32BE data 36 = some L)
    (hfit : 40 + L ≤ data.length) :
    unmarshalChecks data =
      if Buffer.ReadUInt32BE data 0 ≠ some MagicNumber then .error .invalidMagic
      else if Buffer.ReadUInt32BE data 4 ≠ some InformVersion then .error .unknownInformVersion
      else if Buffer.ReadUInt32BE data 32 ≠ some DataVersion then .error .unknownDataVersion
      else .ok L := by
  have hlt := read32_lt data 36 L hL
  have hu : uint (L + 40) = L + 40 := by unfold uint; omega
  have h1 : ¬ data.length < 40 := by omega
  have h2 : ¬ data.length < L + 40 := by omega
  simp only [unmarshalChecks, h1, if_false, hL, hu, h2]

theorem Unmarshal_of_checks_error (P : Primitives) (p : Packet) (data : Bytes)
    (kf : HardwareAddr → Key × Option Error) (e : Error)
    (h : unmarshalChecks data = .error e) : p.Unmarshal P data kf = ⟨p, some e, []⟩ := by
  simp only [Packet.Unmarshal, h]

/-! ## Lemmas: `NewPacket` -/

theorem NewPacket_flags_eq (ap : HardwareAddr) (msg : Message) (k : Key) (mode : Int) :
    (NewPacket ap msg k mode).flags =
      if k = none then 4 else if mode = GCM then 13 else 5 := by
  unfold NewPacket
  by_cases hk : k = none
  · simp [hk, SnappyFlag]
  · by_cases hm : mode = GCM
    · simp [hk, hm, SnappyFlag, EncryptFlag, GcmFlag]
    · simp [hk, hm, SnappyFlag, EncryptFlag]

theorem NewPacket_fields (ap : HardwareAddr) (msg : Message) (k : Key) (mode : Int) :
    (NewPacket ap msg k mode).ap = ap ∧ (NewPacket ap msg k mode).key = k ∧
    (NewPacket ap msg k mode).Msg = some msg ∧ (NewPacket ap msg k mode).mode = mode :=
  ⟨rfl, rfl, rfl, rfl⟩

theorem flags_four (p : Packet) (h : p.flags = 4) :
    p.IsEncrypted = false ∧ p.IsGcmEncrypted = false ∧ p.IsZLib = false ∧ p.IsSnappy = true := by
  simp only [Packet.IsEncrypted, Packet.IsGcmEncrypted, Packet.IsZLib, Packet.IsSnappy, h]
  decide

theorem flags_five (p : Packet) (h : p.flags = 5) :
    p.IsEncrypted = true ∧ p.IsGcmEncrypted = false ∧ p.IsZLib = false ∧ p.IsSnappy = true := by
  simp only [Packet.IsEncrypted, Packet.IsGcmEncrypted, Packet.IsZLib, Packet.IsSnappy, h]
  decide

theorem flags_thirteen (p : Packet) (h : p.flags = 13) :
    p.IsEncrypted = true ∧ p.IsGcmEncrypted = true ∧ p.IsZLib = false ∧ p.IsSnappy = true := by
  simp only [Packet.IsEncrypted, Packet.IsGcmEncrypted, Packet.IsZLib, Packet.IsSnappy, h]
  decide

/-- A packet built by `NewPacket` compresses with Snappy, which returns no error. -/
theorem NewPacket_compress (P : Primitives) (ap : HardwareAddr) (msg : Message) (k : Key)
    (mode : Int) (text : Bytes) :
    (NewPacket ap msg k mode).marshalCompress P text = .ok (P.snappyEncode text) := by
  have hf := NewPacket_flags_eq ap msg k mode
  have hz : (NewPacket ap msg k mode).IsZLib = false ∧ (NewPacket ap msg k mode).IsSnappy = true := by
    by_cases hk : k = none
    · rw [if_pos hk] at hf
      exact ⟨(flags_four _ hf).2.2.1, (flags_four _ hf).2.2.2⟩
    · rw [if_neg hk] at hf
      by_cases hm : mode = GCM
      · rw [if_pos hm] at hf
        exact ⟨(flags_thirteen _ hf).2.2.1, (flags_thirteen _ hf).2.2.2⟩
      · rw [if_neg hm] at hf
        exact ⟨(flags_five _ hf).2.2.1, (flags_five _ hf).2.2.2⟩
  simp [Packet.marshalCompress, hz.1, hz.2, CompressSnappy]

theorem assertCryptoParams_valid (iv : Bytes) (key : Key) (hiv : iv.length = 16)
    (hk : key.len = 16) : assertCryptoParams iv key = none := by
  have h1 : Key.IsValid (some iv) = true := by
    simp [Key.IsValid, Key.len, hiv, DefaultKey]
  have h2 : Key.IsValid key = true := by
    simp [Key.IsValid, hk]
    rfl
  simp [assertCryptoParams, h1, h2]

theorem Encrypt_ok (P : Primitives) (mode : Int) (iv : Bytes) (key : Key) (data aad : Bytes)
    (hiv : iv.length = 16) (hk : key.len = 16) :
    ∃ enc, Encrypt P mode iv key data aad = .ok enc := by
  unfold Encrypt
  by_cases hm : mode = GCM
  · simp [hm, encryptGCM, assertCryptoParams_valid iv key hiv hk]
  · simp [hm, encryptCBC, assertCryptoParams_valid iv key hiv hk]

theorem KeyFromString_ok (s : Str) (k : Key) (h : KeyFromString s = .ok k) :
    ∃ kb, k = some kb ∧ kb.length = 16 := by
  unfold KeyFromString at h
  split at h
  · exact absurd h (by simp)
  · rename_i keyBytes _
    by_cases hv : Key.IsValid (some keyBytes) = true
    · simp only [hv, Bool.not_true, Bool.false_eq_true, if_false, Except.ok.injEq] at h
      refine ⟨keyBytes, h.symm, ?_⟩
      simpa [Key.IsValid, Key.len, DefaultKey] using hv
    · simp [hv] at h

theorem GetKey_valid (m : Management) : ∃ kb, m.GetKey = some kb ∧ kb.length = 16 := by
  unfold Management.GetKey
  by_cases he : m.Key = ""
  · simp only [he, if_true]
    exact ⟨_, rfl, rfl⟩
  · simp only [he, if_false]
    cases hk : KeyFromString m.Key with
    | error e => exact ⟨_, rfl, rfl⟩
    | ok k => exact KeyFromString_ok m.Key k hk

/-! ## Lemmas: lengths and the layout of the output -/

theorem cipherMode_gcm (p : Packet) (h : p.cipherMode = some .gcm) :
    p.IsEncrypted = true ∧ p.IsGcmEncrypted = true ∧ p.mode = GCM := by
  unfold Packet.cipherMode at h
  cases he : p.IsEncrypted with
  | false => simp [he] at h
  | true =>
    simp only [he, Bool.not_true, Bool.false_eq_true, if_false] at h
    split at h
    · rename_i hg
      exact ⟨rfl, hg.1, hg.2⟩
    · split at h <;> exact absurd h (by simp)

theorem headerBytes_read_length (p : Packet) (iv : Bytes) (n : Nat) (payload : Bytes)
    (hap : p.ap.length = 6) (hiv : iv.length = 16) :
    Buffer.ReadUInt32BE (p.headerBytes iv n ++ payload) 36 = some (uint32 n) := by
  have h := read32_be32 n
    (be32 MagicNumber ++ be32 InformVersion ++ p.ap ++ be16 p.flags ++ iv ++ be32 DataVersion)
    payload
  have hl : (be32 MagicNumber ++ be32 InformVersion ++ p.ap ++ be16 p.flags ++ iv
      ++ be32 DataVersion).length = 36 := by
    simp [be32_length, be16_length, hap, hiv]
  rw [hl] at h
  exact h

theorem uint32_of_lt (n : Nat) (h : n < 2 ^ 32) : uint32 n = n := by
  unfold uint32
  omega

theorem uint32_lt (n : Nat) : uint32 n < 2 ^ 32 := by
  unfold uint32
  omega

/-- The buffer `encryptCBC` hands to `CryptBlocks`: the data followed by the
padding. -/
theorem encryptCBC_eq (P : Primitives) (iv : Bytes) (key : Key) (data : Bytes)
    (hiv : iv.length = 16) (hk : key.len = 16) :
    encryptCBC P iv key data =
      .ok (copy (NewBuffer (data.length + (16 - data.length % 16)))
        (P.cbcEncryptBlocks (key.getD []) iv
          (data ++ List.replicate (16 - data.length % 16) (byteOf (16 - data.length % 16))))) := by
  have hpad : 16 - data.length % 16 ≤ 16 := by omega
  simp only [encryptCBC, assertCryptoParams_valid iv key hiv hk, blockSize_eq]
  congr 3
  simp [copy, NewBuffer, List.take_append_of_le_length, List.drop_append_of_le_length]

theorem encryptCBC_length (P : Primitives) (iv : Bytes) (key : Key) (data enc : Bytes)
    (h : encryptCBC P iv key data = .ok enc) :
    enc.length = data.length + (16 - data.length % 16) := by
  unfold encryptCBC at h
  split at h
  · exact absurd h (by simp)
  · have h1 := Except.ok.inj h
    rw [← h1, copy_length]
    simp [NewBuffer, blockSize_eq]

theorem encryptGCM_eq (P : Primitives) (iv : Bytes) (key : Key) (data aad enc : Bytes)
    (h : encryptGCM P iv key data aad = .ok enc) :
    enc = P.gcmSeal (key.getD []) iv data aad := by
  unfold encryptGCM at h
  split at h
  · exact absurd h (by simp)
  · exact (Except.ok.inj h).symm

/-! ## The claims -/

/-- C2 (counterexample). The packet `Packet.Marshal` returns for a sample message
begins with 0x54 0x4e 0x42 0x55, not with 0x14 0x14 0x14 0x93, and `MagicNumber` is
not 0x14141493. -/
theorem magic_counterexample :
    ((NewPacket sampleMac sampleNoop none CBC).Marshal refPrimitives sampleRand).map (List.take 4)
        = .ok [0x54, 0x4e, 0x42, 0x55] ∧
      ([0x54, 0x4e, 0x42, 0x55] : Bytes) ≠ [0x14, 0x14, 0x14, 0x93] ∧
      MagicNumber ≠ 0x14141493 := by
  decide

/-- C2 (amended). Every packet returned by `Packet.Marshal` begins with the four
bytes 0x54 0x4e 0x42 0x55, the constant `MagicNumber` = 1414414933 = 0x544e4255
written big-endian; and on an input that passes the length checks the magic check of
`Packet.Unmarshal` fails exactly when the first four bytes are not those, in which
case `Packet.Unmarshal` returns the bad-magic error. -/
theorem magic_bytes (P : Primitives) (p q : Packet) (rnd : RandRead) (out data : Bytes)
    (kf : HardwareAddr → Key × Option Error) (L : Nat)
    (hout : p.Marshal P rnd = .ok out)
    (hL : Buffer.ReadUInt32BE data 36 = some L) (hfit : 40 + L ≤ data.length) :
    MagicNumber = 0x544e4255 ∧ out.take 4 = [0x54, 0x4e, 0x42, 0x55] ∧
      (unmarshalChecks data = .error .invalidMagic ↔ data.take 4 ≠ [0x54, 0x4e, 0x42, 0x55]) ∧
      (data.take 4 ≠ [0x54, 0x4e, 0x42, 0x55] →
        q.Unmarshal P data kf = ⟨q, some .invalidMagic, []⟩) := by
  have hm : Buffer.ReadUInt32BE data 0 = some MagicNumber ↔
      data.take 4 = [0x54, 0x4e, 0x42, 0x55] := by
    have := read32_eq_iff data 0 MagicNumber (by omega) (by decide)
    rw [List.drop_zero] at this
    exact this
  have hiff : unmarshalChecks data = .error .invalidMagic ↔
      data.take 4 ≠ [0x54, 0x4e, 0x42, 0x55] := by
    rw [unmarshalChecks_fit data L hL hfit]
    by_cases h0 : Buffer.ReadUInt32BE data 0 = some MagicNumber
    · have h1 := hm.mp h0
      simp only [h0, ne_eq, not_true_eq_false, if_false, h1]
      split
      · simp
      · split <;> simp
    · have h1 : ¬ data.take 4 = [0x54, 0x4e, 0x42, 0x55] := fun h => h0 (hm.mpr h)
      simp [h0, h1]
  refine ⟨rfl, ?_, hiff, fun h => Unmarshal_of_checks_error P q data kf _ (hiff.mpr h)⟩
  obtain ⟨iv, n, payload, _, _, h⟩ := Marshal_ok_header P p rnd out hout
  rw [h]
  exact headerBytes_take4 p iv n payload

/-- C2 (witness). The sample plaintext packet and a 40-byte zero header. -/
theorem magic_bytes_witness :
    (NewPacket sampleMac sampleNoop none CBC).Marshal refPrimitives sampleRand
        = .ok samplePlainBytes ∧
      Buffer.ReadUInt32BE zeroHeader 36 = some 0 ∧ 40 + 0 ≤ zeroHeader.length ∧
      MagicNumber = 0x544e4255 ∧ samplePlainBytes.take 4 = [0x54, 0x4e, 0x42, 0x55] ∧
      (unmarshalChecks zeroHeader = .error .invalidMagic ↔
        zeroHeader.take 4 ≠ [0x54, 0x4e, 0x42, 0x55]) ∧
      (zeroHeader.take 4 ≠ [0x54, 0x4e, 0x42, 0x55] →
        emptyPacket.Unmarshal refPrimitives zeroHeader (agentKeyFetcher DefaultKey)
          = ⟨emptyPacket, some .invalidMagic, []⟩) :=
  ⟨by decide, by decide, by decide,
    magic_bytes refPrimitives (NewPacket sampleMac sampleNoop none CBC) emptyPacket sampleRand
      samplePlainBytes zeroHeader (agentKeyFetcher DefaultKey) 0 (by decide) (by decide)
      (by decide)⟩

/-- C4 (counterexample). Without a key and with mode `GCM`, `NewPacket` builds the
flags SNAPPY alone (4), not SNAPPY|GCM (12). -/
theorem NewPacket_flags_counterexample :
    (NewPacket sampleMac sampleNoop none GCM).flags = SnappyFlag ∧
      (NewPacket sampleMac sampleNoop none GCM).flags ≠
        SnappyFlag ||| (if (none : Key) ≠ none then EncryptFlag else 0)
          ||| (if GCM = GCM then GcmFlag else 0) := by
  decide

/-- C4 (amended). For every MAC, message, key and mode, `NewPacket` builds
flags = SNAPPY | (if a key is given: ENCRYPT | (GCM if mode == GCM, else 0), else 0);
the GCM bit is set only together with the ENCRYPT bit. -/
theorem NewPacket_flags (ap : HardwareAddr) (msg : Message) (k : Key) (mode : Int) :
    (NewPacket ap msg k mode).flags =
      SnappyFlag ||| (if k ≠ none then EncryptFlag ||| (if mode = GCM then GcmFlag else 0) else 0) := by
  unfold NewPacket
  by_cases hk : k = none
  · simp [hk]
  · by_cases hm : mode = GCM
    · simp [hk, hm, Nat.lor_assoc]
    · simp [hk, hm]

/-- C5. For every persisted `Management` state, `GetKey` is a non-nil 16-byte key,
and the packet built from `GetKey` and `GetCryptoMode` has flags SNAPPY|ENCRYPT (5)
when `use_aes_gcm` is false and SNAPPY|ENCRYPT|GCM (13) when it is true; ZLIB is not
set. -/
theorem agent_packet_flags (m : Management) (ap : HardwareAddr) (msg : Message) :
    (∃ kb, m.GetKey = some kb ∧ kb.length = 16) ∧
      (NewPacket ap msg m.GetKey m.GetCryptoMode).flags = (if m.UseAesGcm then 13 else 5) ∧
      (NewPacket ap msg m.GetKey m.GetCryptoMode).flags = SnappyFlag ||| EncryptFlag
        ||| (if m.UseAesGcm then GcmFlag else 0) ∧
      (NewPacket ap msg m.GetKey m.GetCryptoMode).IsZLib = false := by
  obtain ⟨kb, hk, hlen⟩ := GetKey_valid m
  have hne : m.GetKey ≠ none := by rw [hk]; simp
  have hf := NewPacket_flags_eq ap msg m.GetKey m.GetCryptoMode
  rw [if_neg hne] at hf
  cases hg : m.UseAesGcm with
  | true =>
    have hmode : m.GetCryptoMode = GCM := by simp [Management.GetCryptoMode, hg]
    rw [if_pos hmode] at hf
    exact ⟨⟨kb, hk, hlen⟩, by simp [hf], by rw [hf]; decide, (flags_thirteen _ hf).2.2.1⟩
  | false =>
    have hmode : m.GetCryptoMode ≠ GCM := by simp [Management.GetCryptoMode, hg]; decide
    rw [if_neg hmode] at hf
    exact ⟨⟨kb, hk, hlen⟩, by simp [hf], by rw [hf]; decide, (flags_five _ hf).2.2.1⟩

/-- C6. For every MAC that is not exactly 6 bytes long, `Packet.Marshal` returns an
error and no bytes, whatever the message, key and mode: the invalid-MAC error, or
the error of the IV generation when that failed first.  For a 6-byte MAC, with no
key or a 16-byte key and (when there is a key) a successful IV generation, it
succeeds. -/
theorem Marshal_mac_length (P : Primitives) (ap : HardwareAddr) (msg : Message) (k : Key)
    (mode : Int) (rnd : RandRead) :
    (ap.length ≠ 6 →
      (NewPacket ap msg k mode).Marshal P rnd = .error .invalidMacLength ∨
      (k ≠ none ∧ ∃ e, GenerateIV rnd = .error e ∧
        (NewPacket ap msg k mode).Marshal P rnd = .error e)) ∧
    (ap.length = 6 → (k = none ∨ k.len = 16) → (k ≠ none → ∃ iv, GenerateIV rnd = .ok iv) →
      ∃ out, (NewPacket ap msg k mode).Marshal P rnd = .ok out) := by
  have hc := NewPacket_compress P ap msg k mode (msg.Marshal P)
  have hf := NewPacket_flags_eq ap msg k mode
  obtain ⟨hap, hkey, hmsg, hmode⟩ := NewPacket_fields ap msg k mode
  constructor
  · intro hne
    simp only [Packet.Marshal, hmsg, hc, hap, Packet.marshalIV]
    by_cases hk : k = none
    · rw [if_pos hk] at hf
      simp [(flags_four _ hf).1, hne]
    · have he : (NewPacket ap msg k mode).IsEncrypted = true := by
        rw [if_neg hk] at hf
        by_cases hm : mode = GCM
        · rw [if_pos hm] at hf; exact (flags_thirteen _ hf).1
        · rw [if_neg hm] at hf; exact (flags_five _ hf).1
      cases hg : GenerateIV rnd with
      | error e => exact Or.inr ⟨hk, e, rfl, by simp [he]⟩
      | ok iv => exact Or.inl (by simp [he, hne])
  · intro h6 hk hiv
    by_cases hkn : k = none
    · rw [if_pos hkn] at hf
      have hE := (flags_four _ hf).1
      have hIV : (NewPacket ap msg k mode).marshalIV rnd = .ok NilIv := by
        simp [Packet.marshalIV, hE]
      rw [Marshal_eq P _ rnd msg _ NilIv hmsg hc hIV (by rw [hap]; exact h6)]
      simp [hE]
    · obtain ⟨iv, hg⟩ := hiv hkn
      have hk16 : k.len = 16 := by
        rcases hk with h | h
        · exact absurd h hkn
        · exact h
      have hl := GenerateIV_length rnd iv hg
      rw [if_neg hkn] at hf
      have hE : (NewPacket ap msg k mode).IsEncrypted = true := by
        by_cases hm : mode = GCM
        · rw [if_pos hm] at hf; exact (flags_thirteen _ hf).1
        · rw [if_neg hm] at hf; exact (flags_five _ hf).1
      have hIV : (NewPacket ap msg k mode).marshalIV rnd = .ok iv := by
        simp [Packet.marshalIV, hE, hg]
      rw [Marshal_eq P _ rnd msg _ iv hmsg hc hIV (by rw [hap]; exact h6)]
      simp only [hE, if_true, hmode, hkey]
      cases hG : (NewPacket ap msg k mode).IsGcmEncrypted with
      | true =>
        obtain ⟨enc, henc⟩ := Encrypt_ok P mode iv k (P.snappyEncode (msg.Marshal P))
          ((NewPacket ap msg k mode).headerBytes iv
            (uint32 ((P.snappyEncode (msg.Marshal P)).length + 16))) hl hk16
        simp [henc]
      | false =>
        obtain ⟨enc, henc⟩ := Encrypt_ok P mode iv k (P.snappyEncode (msg.Marshal P))
          ((NewPacket ap msg k mode).headerBytes iv 0) hl hk16
        simp [henc]

/-- C6 (witness). A 5-byte MAC is refused; the sample 6-byte MAC with the default
key is accepted. -/
theorem Marshal_mac_length_witness :
    ((sampleMac.take 5).length ≠ 6 ∧
      ((NewPacket (sampleMac.take 5) sampleNoop DefaultKey GCM).Marshal refPrimitives sampleRand
          = .error .invalidMacLength ∨
        (DefaultKey ≠ none ∧ ∃ e, GenerateIV sampleRand = .error e ∧
          (NewPacket (sampleMac.take 5) sampleNoop DefaultKey GCM).Marshal refPrimitives
            sampleRand = .error e))) ∧
    (sampleMac.length = 6 ∧ (DefaultKey = none ∨ DefaultKey.len = 16) ∧
      (DefaultKey ≠ none → ∃ iv, GenerateIV sampleRand = .ok iv) ∧
      ∃ out, (NewPacket sampleMac sampleNoop DefaultKey GCM).Marshal refPrimitives sampleRand
        = .ok out) :=
  ⟨⟨by decide,
      (Marshal_mac_length refPrimitives (sampleMac.take 5) sampleNoop DefaultKey GCM
        sampleRand).1 (by decide)⟩,
    ⟨by decide, Or.inr (by decide), fun _ => ⟨_, rfl⟩,
      (Marshal_mac_length refPrimitives sampleMac sampleNoop DefaultKey GCM sampleRand).2
        (by decide) (Or.inr (by decide)) (fun _ => ⟨_, rfl⟩)⟩⟩

/-- C7. `Packet.Unmarshal` returns the invalid-packet-length error for every input
shorter than 40 bytes and for every input whose declared payload length `L`
(big-endian uint32 at offset 36) satisfies `40 + L > len(data)`; the key resolver is
not called and the packet (MAC, flags, key, message) is left unchanged. -/
theorem Unmarshal_invalid_length (P : Primitives) (p : Packet) (data : Bytes)
    (kf : HardwareAddr → Key × Option Error)
    (h : data.length < 40 ∨ ∃ L, Buffer.ReadUInt32BE data 36 = some L ∧ data.length < 40 + L) :
    p.Unmarshal P data kf = ⟨p, some .invalidPacketLength, []⟩ :=
  Unmarshal_of_checks_error P p data kf _ (unmarshalChecks_short data h)

/-- C7 (witness). A 40-byte header that declares one byte of payload. -/
theorem Unmarshal_invalid_length_witness :
    ((zeroHeader.set 39 1).length < 40 ∨
      ∃ L, Buffer.ReadUInt32BE (zeroHeader.set 39 1) 36 = some L ∧
        (zeroHeader.set 39 1).length < 40 + L) ∧
    (NewPacket sampleMac sampleNoop DefaultKey GCM).Unmarshal refPrimitives
        (zeroHeader.set 39 1) (agentKeyFetcher DefaultKey)
      = ⟨NewPacket sampleMac sampleNoop DefaultKey GCM, some .invalidPacketLength, []⟩ :=
  ⟨Or.inr ⟨1, by decide, by decide⟩,
    Unmarshal_invalid_length refPrimitives _ _ _ (Or.inr ⟨1, by decide, by decide⟩)⟩

/-- C8 (counterexample). Forty zero bytes: bytes [32..36) are not 1, yet the error
is the bad-magic one, not the data-version one. -/
theorem header_constants_counterexample :
    (zeroHeader.drop 32).take 4 ≠ be32 DataVersion ∧
      (emptyPacket.Unmarshal refPrimitives zeroHeader (agentKeyFetcher DefaultKey)).err
        = some .invalidMagic ∧
      (emptyPacket.Unmarshal refPrimitives zeroHeader (agentKeyFetcher DefaultKey)).err
        ≠ some .unknownDataVersion := by
  decide

/-- C8 (amended). For every input that passes the two length checks (at least 40
bytes, declared length within the input): if its first 4 bytes differ from the
magic constant, `Packet.Unmarshal` fails with the bad-magic error; otherwise, if
bytes [4..8) are not 0, with the inform-version error; otherwise, if bytes [32..36)
are not 1, with the data-version error.  In each case the packet is unchanged and
the key resolver is not called. -/
theorem Unmarshal_header_constants (P : Primitives) (p : Packet) (data : Bytes)
    (kf : HardwareAddr → Key × Option Error) (L : Nat)
    (hL : Buffer.ReadUInt32BE data 36 = some L) (hfit : 40 + L ≤ data.length) :
    (data.take 4 ≠ be32 MagicNumber → p.Unmarshal P data kf = ⟨p, some .invalidMagic, []⟩) ∧
    (data.take 4 = be32 MagicNumber → (data.drop 4).take 4 ≠ be32 InformVersion →
      p.Unmarshal P data kf = ⟨p, some .unknownInformVersion, []⟩) ∧
    (data.take 4 = be32 MagicNumber → (data.drop 4).take 4 = be32 InformVersion →
      (data.drop 32).take 4 ≠ be32 DataVersion →
      p.Unmarshal P data kf = ⟨p, some .unknownDataVersion, []⟩) := by
  have h0 := read32_eq_iff data 0 MagicNumber (by omega) (by decide)
  have h4 := read32_eq_iff data 4 InformVersion (by omega) (by decide)
  have h32 := read32_eq_iff data 32 DataVersion (by omega) (by decide)
  rw [List.drop_zero] at h0
  have hc := unmarshalChecks_fit data L hL hfit
  refine ⟨fun hm => ?_, fun hm hv => ?_, fun hm hv hd => ?_⟩
  · apply Unmarshal_of_checks_error
    rw [hc, if_pos (fun h => hm (h0.mp h))]
  · apply Unmarshal_of_checks_error
    rw [hc, if_neg (not_not.mpr (h0.mpr hm)), if_pos (fun h => hv (h4.mp h))]
  · apply Unmarshal_of_checks_error
    rw [hc, if_neg (not_not.mpr (h0.mpr hm)), if_neg (not_not.mpr (h4.mpr hv)),
      if_pos (fun h => hd (h32.mp h))]

/-- C8 (witness). The sample plaintext packet with its data version changed to 0. -/
theorem Unmarshal_header_constants_witness :
    Buffer.ReadUInt32BE (samplePlainBytes.set 35 0) 36 = some 37 ∧
    40 + 37 ≤ (samplePlainBytes.set 35 0).length ∧
    (samplePlainBytes.set 35 0).take 4 = be32 MagicNumber ∧
    ((samplePlainBytes.set 35 0).drop 4).take 4 = be32 InformVersion ∧
    ((samplePlainBytes.set 35 0).drop 32).take 4 ≠ be32 DataVersion ∧
    emptyPacket.Unmarshal refPrimitives (samplePlainBytes.set 35 0) (agentKeyFetcher none)
      = ⟨emptyPacket, some .unknownDataVersion, []⟩ :=
  ⟨by decide, by decide, by decide, by decide, by decide,
    (Unmarshal_header_constants refPrimitives emptyPacket (samplePlainBytes.set 35 0)
      (agentKeyFetcher none) 37 (by decide) (by decide)).2.2 (by decide) (by decide)
      (by decide)⟩

theorem unmarshalChecks_ok (data : Bytes) (L : Nat) (h : unmarshalChecks data = .ok L) :
    40 ≤ data.length ∧ Buffer.ReadUInt32BE data 36 = some L ∧ 40 + L ≤ data.length ∧
      L < 2 ^ 32 ∧ Buffer.ReadUInt32BE data 0 = some MagicNumber ∧
      Buffer.ReadUInt32BE data 4 = some InformVersion ∧
      Buffer.ReadUInt32BE data 32 = some DataVersion := by
  unfold unmarshalChecks at h
  split at h
  · exact absurd h (by simp)
  · rename_i h40
    split at h
    · exact absurd h (by simp)
    · rename_i dataLength hL
      have hlt := read32_lt data 36 dataLength hL
      have hu : uint (dataLength + 40) = dataLength + 40 := by unfold uint; omega
      rw [hu] at h
      split at h
      · exact absurd h (by simp)
      · rename_i hfit
        split at h
        · exact absurd h (by simp)
        · rename_i hm
          split at h
          · exact absurd h (by simp)
          · rename_i hv
            split at h
            · exact absurd h (by simp)
            · rename_i hd
              have := Except.ok.inj h
              subst this
              exact ⟨by omega, hL, by omega, hlt, not_not.mp hm, not_not.mp hv, not_not.mp hd⟩

theorem read16_isSome (b : Bytes) (off : Nat) (h : off + 2 ≤ b.length) :
    ∃ v, Buffer.ReadUInt16BE b off = some v := by
  have h0 : off < b.length := by omega
  have h1 : off + 1 < b.length := by omega
  simp [Buffer.ReadUInt16BE, List.getElem?_eq_getElem, h0, h1]

theorem Read_eq (b : Bytes) (off fin : Nat) (h1 : off ≤ fin) (h2 : fin ≤ b.length) :
    Buffer.Read b off fin = some ((b.take fin).drop off) := by
  simp [Buffer.Read, h1, h2]

/-- `Packet.Unmarshal` on an input that passes the checks: the MAC, the flags, the
IV, the payload and the additional data are the slices [8..14), [14..16), [16..32),
[40..40+L) and [0..40) of the input. -/
theorem Unmarshal_of_checks_ok (P : Primitives) (q : Packet) (data : Bytes)
    (kf : HardwareAddr → Key × Option Error) (L : Nat) (h : unmarshalChecks data = .ok L) :
    ∃ flags, Buffer.ReadUInt16BE data 14 = some flags ∧
      q.Unmarshal P data kf =
        if (q.setHeader ((data.take 14).drop 8) flags).IsEncrypted then
          match (kf ((data.take 14).drop 8)).2 with
          | some err =>
            ⟨(q.setHeader ((data.take 14).drop 8) flags).setKey (kf ((data.take 14).drop 8)).1,
              some err, [(data.take 14).drop 8]⟩
          | none =>
            match Decrypt P
              (if ((q.setHeader ((data.take 14).drop 8) flags).setKey
                    (kf ((data.take 14).drop 8)).1).IsGcmEncrypted then GCM else CBC)
              ((data.take 32).drop 16) (kf ((data.take 14).drop 8)).1
              ((data.take (40 + L)).drop 40) (data.take 40) with
            | .error err =>
              ⟨(q.setHeader ((data.take 14).drop 8) flags).setKey (kf ((data.take 14).drop 8)).1,
                some err, [(data.take 14).drop 8]⟩
            | .ok msg1 =>
              Packet.unmarshalPayload P
                ((q.setHeader ((data.take 14).drop 8) flags).setKey (kf ((data.take 14).drop 8)).1)
                msg1 [(data.take 14).drop 8]
        else
          Packet.unmarshalPayload P (q.setHeader ((data.take 14).drop 8) flags)
            ((data.take (40 + L)).drop 40) [] := by
  obtain ⟨h40, hL, hfit, hlt, _, _, _⟩ := unmarshalChecks_ok data L h
  obtain ⟨flags, hfl⟩ := read16_isSome data 14 (by omega)
  refine ⟨flags, hfl, ?_⟩
  have hu : uint (40 + L) = 40 + L := by unfold uint; omega
  have r1 := Read_eq data 8 14 (by omega) (by omega)
  have r2 := Read_eq data 40 (40 + L) (by omega) hfit
  have r3 := Read_eq data 16 32 (by omega) (by omega)
  have r4 := Read_eq data 0 40 (by omega) h40
  simp only [Packet.Unmarshal, h, r1, hfl, hu, r2, r3, r4, List.drop_zero, Packet.setHeader,
    Packet.setKey]

theorem refSeal_length (key nonce pt aad : Bytes) :
    (refPrimitives.gcmSeal key nonce pt aad).length = pt.length + 16 := by
  simp [refPrimitives, refSeal]

/-- C9. In GCM mode the additional authenticated data that `Packet.Marshal` passes
to `Encrypt` is the first 40 bytes of the packet it returns (the payload is the seal
of the compressed message under those 40 bytes); and for an encrypted input that
passes the checks and whose key lookup succeeds, the additional data that
`Packet.Unmarshal` passes to `Decrypt` is the first 40 bytes of the input. -/
theorem aad_is_header (P : Primitives) (p q : Packet) (rnd : RandRead) (out data : Bytes)
    (kf : HardwareAddr → Key × Option Error) (L flags : Nat)
    (hg : p.cipherMode = some .gcm) (hout : p.Marshal P rnd = .ok out)
    (hc : unmarshalChecks data = .ok L) (hfl : Buffer.ReadUInt16BE data 14 = some flags)
    (hE : (q.setHeader ((data.take 14).drop 8) flags).IsEncrypted = true)
    (hk : (kf ((data.take 14).drop 8)).2 = none) :
    (∃ m cmsg iv, p.Msg = some m ∧ p.marshalCompress P (m.Marshal P) = .ok cmsg ∧
      p.marshalIV rnd = .ok iv ∧ (out.take 40).length = 40 ∧
      Encrypt P p.mode iv p.key cmsg (out.take 40) = .ok (out.drop 40) ∧
      out.drop 40 = P.gcmSeal (p.key.getD []) iv cmsg (out.take 40)) ∧
    q.Unmarshal P data kf =
      match Decrypt P
        (if ((q.setHeader ((data.take 14).drop 8) flags).setKey
              (kf ((data.take 14).drop 8)).1).IsGcmEncrypted then GCM else CBC)
        ((data.take 32).drop 16) (kf ((data.take 14).drop 8)).1
        ((data.take (40 + L)).drop 40) (data.take 40) with
      | .error err =>
        ⟨(q.setHeader ((data.take 14).drop 8) flags).setKey (kf ((data.take 14).drop 8)).1,
          some err, [(data.take 14).drop 8]⟩
      | .ok msg1 =>
        Packet.unmarshalPayload P
          ((q.setHeader ((data.take 14).drop 8) flags).setKey (kf ((data.take 14).drop 8)).1)
          msg1 [(data.take 14).drop 8] := by
  constructor
  · obtain ⟨m, cmsg, iv, hm, hcm, hiv, hl, hap, h⟩ := Marshal_ok P p rnd out hout
    obtain ⟨he, hgf, hmd⟩ := cipherMode_gcm p hg
    rcases h with ⟨he', _⟩ | ⟨_, _, enc, hEnc, h⟩ | ⟨_, hg', _⟩
    · rw [he] at he'; exact absurd he' (by simp)
    · have hh := headerBytes_length p iv (uint32 (cmsg.length + 16)) hap hl
      have henc : enc = P.gcmSeal (p.key.getD []) iv cmsg
          (p.headerBytes iv (uint32 (cmsg.length + 16))) := by
        apply encryptGCM_eq P iv p.key cmsg _ enc
        simpa [Encrypt, hmd] using hEnc
      refine ⟨m, cmsg, iv, hm, hcm, hiv, ?_, ?_, ?_⟩
      · rw [h, List.take_left' hh, hh]
      · rw [h, List.take_left' hh, List.drop_left' hh]
        exact hEnc
      · rw [h, List.take_left' hh, List.drop_left' hh]
        exact henc
    · rw [hgf] at hg'; exact absurd hg' (by simp)
  · obtain ⟨flags', hfl', hU⟩ := Unmarshal_of_checks_ok P q data kf L hc
    rw [hfl] at hfl'
    have := Option.some.inj hfl'
    subst this
    rw [hU, if_pos hE, hk]

/-- C9 (witness). The sample GCM packet, encoded and then decoded with the key
of the agent. -/
theorem aad_is_header_witness :
    (NewPacket sampleMac sampleNoop DefaultKey GCM).cipherMode = some .gcm ∧
    (NewPacket sampleMac sampleNoop DefaultKey GCM).Marshal refPrimitives sampleRand
      = .ok sampleGcmBytes ∧
    unmarshalChecks sampleGcmBytes = .ok 53 ∧
    Buffer.ReadUInt16BE sampleGcmBytes 14 = some 13 ∧
    (emptyPacket.setHeader ((sampleGcmBytes.take 14).drop 8) 13).IsEncrypted = true ∧
    (agentKeyFetcher DefaultKey ((sampleGcmBytes.take 14).drop 8)).2 = none ∧
    (∃ m cmsg iv, (NewPacket sampleMac sampleNoop DefaultKey GCM).Msg = some m ∧
      (NewPacket sampleMac sampleNoop DefaultKey GCM).marshalCompress refPrimitives
        (m.Marshal refPrimitives) = .ok cmsg ∧
      (NewPacket sampleMac sampleNoop DefaultKey GCM).marshalIV sampleRand = .ok iv ∧
      (sampleGcmBytes.take 40).length = 40 ∧
      Encrypt refPrimitives (NewPacket sampleMac sampleNoop DefaultKey GCM).mode iv
        (NewPacket sampleMac sampleNoop DefaultKey GCM).key cmsg (sampleGcmBytes.take 40)
        = .ok (sampleGcmBytes.drop 40) ∧
      sampleGcmBytes.drop 40 = refPrimitives.gcmSeal
        ((NewPacket sampleMac sampleNoop DefaultKey GCM).key.getD []) iv cmsg
        (sampleGcmBytes.take 40)) ∧
    emptyPacket.Unmarshal refPrimitives sampleGcmBytes (agentKeyFetcher DefaultKey) =
      match Decrypt refPrimitives
        (if ((emptyPacket.setHeader ((sampleGcmBytes.take 14).drop 8) 13).setKey
              (agentKeyFetcher DefaultKey ((sampleGcmBytes.take 14).drop 8)).1).IsGcmEncrypted
          then GCM else CBC)
        ((sampleGcmBytes.take 32).drop 16)
        (agentKeyFetcher DefaultKey ((sampleGcmBytes.take 14).drop 8)).1
        ((sampleGcmBytes.take (40 + 53)).drop 40) (sampleGcmBytes.take 40) with
      | .error err =>
        ⟨(emptyPacket.setHeader ((sampleGcmBytes.take 14).drop 8) 13).setKey
            (agentKeyFetcher DefaultKey ((sampleGcmBytes.take 14).drop 8)).1,
          some err, [(sampleGcmBytes.take 14).drop 8]⟩
      | .ok msg1 =>
        Packet.unmarshalPayload refPrimitives
          ((emptyPacket.setHeader ((sampleGcmBytes.take 14).drop 8) 13).setKey
            (agentKeyFetcher DefaultKey ((sampleGcmBytes.take 14).drop 8)).1)
          msg1 [(sampleGcmBytes.take 14).drop 8] :=
  ⟨by decide, by decide, by decide, by decide, by decide, by decide,
    aad_is_header refPrimitives (NewPacket sampleMac sampleNoop DefaultKey GCM) emptyPacket
      sampleRand sampleGcmBytes sampleGcmBytes (agentKeyFetcher DefaultKey) 53 13
      (by decide) (by decide) (by decide) (by decide) (by decide) (by decide)⟩

/-! ## Lemmas: decoding the output of `Packet.Marshal` -/

theorem headerBytes_mac_iv (p : Packet) (iv : Bytes) (n : Nat) (payload : Bytes)
    (hap : p.ap.length = 6) (hiv : iv.length = 16) :
    ((p.headerBytes iv n ++ payload).take 14).drop 8 = p.ap ∧
    ((p.headerBytes iv n ++ payload).take 32).drop 16 = iv := by
  obtain ⟨ap, flags, key, msg, mode⟩ := p
  obtain ⟨a, b, c, d, e, f, rfl⟩ := length_six ap hap
  obtain ⟨a0, a1, a2, a3, a4, a5, a6, a7, a8, a9, a10, a11, a12, a13, a14, a15, rfl⟩ :=
    length_sixteen iv hiv
  exact ⟨rfl, rfl⟩

theorem headerBytes_slices (p : Packet) (iv : Bytes) (n : Nat) (payload : Bytes)
    (hap : p.ap.length = 6) (hiv : iv.length = 16) :
    ((p.headerBytes iv n ++ payload).take 14).drop 8 = p.ap ∧
    ((p.headerBytes iv n ++ payload).take 32).drop 16 = iv ∧
    Buffer.ReadUInt32BE (p.headerBytes iv n ++ payload) 0 = some MagicNumber ∧
    Buffer.ReadUInt32BE (p.headerBytes iv n ++ payload) 4 = some InformVersion ∧
    Buffer.ReadUInt32BE (p.headerBytes iv n ++ payload) 32 = some DataVersion := by
  obtain ⟨h1, h2⟩ := headerBytes_mac_iv p iv n payload hap hiv
  refine ⟨h1, h2, ?_, ?_, ?_⟩
  · have h := read32_be32 MagicNumber []
      (be32 InformVersion ++ p.ap ++ be16 p.flags ++ iv ++ be32 DataVersion ++ be32 n ++ payload)
    have hu : uint32 MagicNumber = MagicNumber := by decide
    rw [hu] at h
    simpa [Packet.headerBytes, List.append_assoc] using h
  · have h := read32_be32 InformVersion (be32 MagicNumber)
      (p.ap ++ be16 p.flags ++ iv ++ be32 DataVersion ++ be32 n ++ payload)
    have hu : uint32 InformVersion = InformVersion := by decide
    rw [hu, be32_length] at h
    simpa [Packet.headerBytes, List.append_assoc] using h
  · have h := read32_be32 DataVersion
      (be32 MagicNumber ++ be32 InformVersion ++ p.ap ++ be16 p.flags ++ iv) (be32 n ++ payload)
    have hu : uint32 DataVersion = DataVersion := by decide
    have hl : (be32 MagicNumber ++ be32 InformVersion ++ p.ap ++ be16 p.flags ++ iv).length
        = 32 := by
      simp [be32_length, be16_length, hap, hiv]
    rw [hu, hl] at h
    simpa [Packet.headerBytes, List.append_assoc] using h

theorem headerBytes_read_flags (p : Packet) (iv : Bytes) (n : Nat) (payload : Bytes)
    (hap : p.ap.length = 6) :
    Buffer.ReadUInt16BE (p.headerBytes iv n ++ payload) 14 = some (p.flags % 2 ^ 16) := by
  have h := read16_be16 p.flags (be32 MagicNumber ++ be32 InformVersion ++ p.ap)
    (iv ++ be32 DataVersion ++ be32 n ++ payload)
  have hl : (be32 MagicNumber ++ be32 InformVersion ++ p.ap).length = 14 := by
    simp [be32_length, hap]
  rw [hl] at h
  simpa [Packet.headerBytes, List.append_assoc] using h

theorem headerBytes_payload (p : Packet) (iv : Bytes) (n : Nat) (payload : Bytes)
    (hap : p.ap.length = 6) (hiv : iv.length = 16) :
    (p.headerBytes iv n ++ payload).take 40 = p.headerBytes iv n ∧
    ((p.headerBytes iv n ++ payload).take (40 + payload.length)).drop 40 = payload := by
  have hh := headerBytes_length p iv n hap hiv
  constructor
  · exact List.take_left' hh
  · have : 40 + payload.length = (p.headerBytes iv n ++ payload).length := by
      rw [List.length_append, hh]
    rw [this, List.take_length, List.drop_left' hh]

/-- The checks of `Packet.Unmarshal` pass on a header followed by exactly the
payload it declares. -/
theorem headerBytes_checks (p : Packet) (iv : Bytes) (payload : Bytes)
    (hap : p.ap.length = 6) (hiv : iv.length = 16) (hsize : payload.length < 2 ^ 32) :
    unmarshalChecks (p.headerBytes iv (uint32 payload.length) ++ payload) = .ok payload.length := by
  obtain ⟨_, _, h0, h4, h32⟩ := headerBytes_slices p iv (uint32 payload.length) payload hap hiv
  have h36 := headerBytes_read_length p iv (uint32 payload.length) payload hap hiv
  rw [uint32_of_lt _ hsize, uint32_of_lt _ hsize] at h36
  have hfit : 40 + payload.length ≤ (p.headerBytes iv (uint32 payload.length) ++ payload).length := by
    rw [List.length_append, headerBytes_length p iv _ hap hiv]
  rw [unmarshalChecks_fit _ payload.length (by rw [uint32_of_lt _ hsize] at *; exact h36) hfit]
  simp [h0, h4, h32]

/-- CBC round trip: `decryptCBC` undoes `encryptCBC`, padding included, when the
block transforms invert each other. -/
theorem decryptCBC_encryptCBC (P : Primitives) (hP : P.Lawful) (iv : Bytes) (key : Key)
    (data enc : Bytes) (hiv : iv.length = 16) (hk : key.len = 16)
    (h : encryptCBC P iv key data = .ok enc) : decryptCBC P iv key enc = .ok data := by
  rw [encryptCBC_eq P iv key data hiv hk] at h
  have hpad1 : 1 ≤ 16 - data.length % 16 := by omega
  have hpad16 : 16 - data.length % 16 ≤ 16 := by omega
  generalize hpd : 16 - data.length % 16 = pad at h hpad1 hpad16
  have hplen : (data ++ List.replicate pad (byteOf pad)).length = data.length + pad := by
    simp
  have hmod : (data ++ List.replicate pad (byteOf pad)).length % 16 = 0 := by
    rw [hplen]; omega
  have hkl : (key.getD []).length = 16 := hk
  have hel := hP.cbcLength (key.getD []) iv _ hkl hiv hmod
  have henc : enc = P.cbcEncryptBlocks (key.getD []) iv (data ++ List.replicate pad (byteOf pad)) := by
    have := Except.ok.inj h
    rw [← this]
    apply copy_of_length_eq
    rw [hel, hplen]
    simp [NewBuffer]
  have hencl : enc.length = data.length + pad := by rw [henc, hel, hplen]
  have hdec : P.cbcDecryptBlocks (key.getD []) iv enc = data ++ List.replicate pad (byteOf pad) := by
    rw [henc]
    exact hP.cbcInverse (key.getD []) iv _ hkl hiv hmod
  have hres : copy (NewBuffer enc.length) (P.cbcDecryptBlocks (key.getD []) iv enc)
      = data ++ List.replicate pad (byteOf pad) := by
    rw [hdec]
    apply copy_of_length_eq
    rw [hplen, hencl]
    simp [NewBuffer]
  have hlast : (data ++ List.replicate pad (byteOf pad))[enc.length - 1]? = some (byteOf pad) := by
    rw [List.getElem?_append_right (by omega), List.getElem?_replicate]
    have : enc.length - 1 - data.length < pad := by omega
    simp [this]
  have hval : (byteOf pad).val = pad := by
    simp only [byteOf]
    omega
  have hne : enc.length ≠ 0 := by omega
  have hm16 : enc.length % 16 = 0 := by rw [hencl]; omega
  simp only [decryptCBC, assertCryptoParams_valid iv key hiv hk, blockSize_eq, hm16, ne_eq,
    not_true_eq_false, if_false, hres, hne, hlast, hval]
  have hgt : ¬ pad > 16 := by omega
  simp only [hgt, if_false, hencl, Nat.add_sub_cancel, Except.ok.injEq]
  simp

theorem unmarshalPayload_snappy (P : Primitives) (hP : P.Lawful) (q : Packet) (text : Bytes)
    (fetched : List HardwareAddr) (hz : q.IsZLib = false) (hs : q.IsSnappy = true) :
    q.unmarshalPayload P (P.snappyEncode text) fetched =
      ⟨{ q with Msg := (Unmarshal P text).1 }, (Unmarshal P text).2, fetched⟩ := by
  simp [Packet.unmarshalPayload, hz, hs, DecompressSnappy, hP.snappy]

/-- Decoding the packet `Packet.Marshal` returns for a message comes down to
decoding the JSON text of the message, whatever the key and the mode. -/
theorem Unmarshal_Marshal (P : Primitives) (hP : P.Lawful) (q : Packet) (ap : HardwareAddr)
    (msg : Message) (k : Key) (mode : Int) (rnd : RandRead)
    (kf : HardwareAddr → Key × Option Error)
    (hap : ap.length = 6) (hk : k = none ∨ k.len = 16)
    (hrnd : k ≠ none → ∃ iv, GenerateIV rnd = .ok iv) (hkf : kf ap = (k, none))
    (hsize : (P.snappyEncode (msg.Marshal P)).length + 16 < 2 ^ 32) :
    ∃ out, (NewPacket ap msg k mode).Marshal P rnd = .ok out ∧
      (q.Unmarshal P out kf).err = (Unmarshal P (msg.Marshal P)).2 ∧
      (q.Unmarshal P out kf).pkt.Msg = (Unmarshal P (msg.Marshal P)).1 := by
  have hc := NewPacket_compress P ap msg k mode (msg.Marshal P)
  have hf := NewPacket_flags_eq ap msg k mode
  obtain ⟨hpap, hkey, hmsg, hmode⟩ := NewPacket_fields ap msg k mode
  have hap' : (NewPacket ap msg k mode).ap.length = 6 := by rw [hpap]; exact hap
  generalize hcdef : P.snappyEncode (msg.Marshal P) = c at hc hsize
  by_cases hkn : k = none
  · -- plaintext
    rw [if_pos hkn] at hf
    obtain ⟨hE, hG, hZ, hS⟩ := flags_four _ hf
    have hIV : (NewPacket ap msg k mode).marshalIV rnd = .ok NilIv := by
      simp [Packet.marshalIV, hE]
    have hivl : NilIv.length = 16 := rfl
    have hout := Marshal_eq P _ rnd msg c NilIv hmsg hc hIV hap'
    simp only [hE, Bool.false_eq_true, if_false] at hout
    refine ⟨_, hout, ?_⟩
    have hchk := headerBytes_checks (NewPacket ap msg k mode) NilIv c hap' hivl (by omega)
    obtain ⟨flags', hfl', hU⟩ := Unmarshal_of_checks_ok P q _ kf c.length hchk
    have hfl := headerBytes_read_flags (NewPacket ap msg k mode) NilIv (uint32 c.length) c hap'
    rw [hfl] at hfl'
    have hfv : flags' = 4 := by
      have h1 := Option.some.inj hfl'
      rw [hf] at h1
      omega
    subst hfv
    obtain ⟨hmac, _⟩ := headerBytes_mac_iv (NewPacket ap msg k mode) NilIv (uint32 c.length) c
      hap' hivl
    obtain ⟨_, hpay⟩ := headerBytes_payload (NewPacket ap msg k mode) NilIv (uint32 c.length) c
      hap' hivl
    have hq : (q.setHeader ap 4).flags = 4 := rfl
    obtain ⟨hE', _, hZ', hS'⟩ := flags_four _ hq
    rw [hU, hmac, hpap, hpay, hE', ← hcdef]
    simp only [Bool.false_eq_true, if_false]
    rw [unmarshalPayload_snappy P hP _ _ _ hZ' hS']
    exact ⟨rfl, rfl⟩
  · obtain ⟨iv, hg⟩ := hrnd hkn
    have hk16 : k.len = 16 := by
      rcases hk with h | h
      · exact absurd h hkn
      · exact h
    have hivl := GenerateIV_length rnd iv hg
    rw [if_neg hkn] at hf
    have hkl : (k.getD []).length = 16 := hk16
    by_cases hm : mode = GCM
    · -- GCM
      rw [if_pos hm] at hf
      obtain ⟨hE, hG, hZ, hS⟩ := flags_thirteen _ hf
      have hIV : (NewPacket ap msg k mode).marshalIV rnd = .ok iv := by
        simp [Packet.marshalIV, hE, hg]
      have hout := Marshal_eq P _ rnd msg c iv hmsg hc hIV hap'
      simp only [hE, hG, if_true, hmode, hkey] at hout
      have hEnc : Encrypt P mode iv k c
          ((NewPacket ap msg k mode).headerBytes iv (uint32 (c.length + 16)))
          = .ok (P.gcmSeal (k.getD []) iv c
            ((NewPacket ap msg k mode).headerBytes iv (uint32 (c.length + 16)))) := by
        simp [Encrypt, hm, encryptGCM, assertCryptoParams_valid iv k hivl hk16]
      rw [hEnc] at hout
      simp only at hout
      generalize hencdef : P.gcmSeal (k.getD []) iv c
        ((NewPacket ap msg k mode).headerBytes iv (uint32 (c.length + 16))) = enc at hout
      have hel : enc.length = c.length + 16 := by rw [← hencdef, hP.gcmLength]
      rw [← hel] at hout
      refine ⟨_, hout, ?_⟩
      have hchk := headerBytes_checks (NewPacket ap msg k mode) iv enc hap' hivl (by omega)
      obtain ⟨flags', hfl', hU⟩ := Unmarshal_of_checks_ok P q _ kf enc.length hchk
      have hfl := headerBytes_read_flags (NewPacket ap msg k mode) iv (uint32 enc.length) enc hap'
      rw [hfl] at hfl'
      have hfv : flags' = 13 := by
        have h1 := Option.some.inj hfl'
        rw [hf] at h1
        omega
      subst hfv
      obtain ⟨hmac, hiv'⟩ := headerBytes_mac_iv (NewPacket ap msg k mode) iv (uint32 enc.length)
        enc hap' hivl
      obtain ⟨hhdr, hpay⟩ := headerBytes_payload (NewPacket ap msg k mode) iv (uint32 enc.length)
        enc hap' hivl
      have hq : (q.setHeader ap 13).flags = 13 := rfl
      have hq2 : ((q.setHeader ap 13).setKey k).flags = 13 := rfl
      obtain ⟨hE', _, _, _⟩ := flags_thirteen _ hq
      obtain ⟨_, hG2, hZ2, hS2⟩ := flags_thirteen _ hq2
      rw [hU, hmac, hpap, hpay, hiv', hhdr, hE', hkf]
      simp only [if_true, hG2]
      have hDec : Decrypt P GCM iv k enc
          ((NewPacket ap msg k mode).headerBytes iv (uint32 enc.length)) = .ok c := by
        simp only [Decrypt, if_true, decryptGCM, assertCryptoParams_valid iv k hivl hk16]
        rw [hel, ← hencdef, hP.gcmInverse _ _ _ _ hkl hivl]
      rw [hDec]
      simp only
      rw [← hcdef, unmarshalPayload_snappy P hP _ _ _ hZ2 hS2]
      exact ⟨rfl, rfl⟩
    · -- CBC
      rw [if_neg hm] at hf
      obtain ⟨hE, hG, hZ, hS⟩ := flags_five _ hf
      have hIV : (NewPacket ap msg k mode).marshalIV rnd = .ok iv := by
        simp [Packet.marshalIV, hE, hg]
      have hout := Marshal_eq P _ rnd msg c iv hmsg hc hIV hap'
      simp only [hE, hG, if_true, Bool.false_eq_true, if_false, hmode, hkey] at hout
      obtain ⟨enc, hEnc⟩ := Encrypt_ok P mode iv k c
        ((NewPacket ap msg k mode).headerBytes iv 0) hivl hk16
      rw [hEnc] at hout
      simp only at hout
      have hEncC : encryptCBC P iv k c = .ok enc := by
        simpa [Encrypt, hm] using hEnc
      have hel := encryptCBC_length P iv k c enc hEncC
      refine ⟨_, hout, ?_⟩
      have hchk := headerBytes_checks (NewPacket ap msg k mode) iv enc hap' hivl (by omega)
      obtain ⟨flags', hfl', hU⟩ := Unmarshal_of_checks_ok P q _ kf enc.length hchk
      have hfl := headerBytes_read_flags (NewPacket ap msg k mode) iv (uint32 enc.length) enc hap'
      rw [hfl] at hfl'
      have hfv : flags' = 5 := by
        have h1 := Option.some.inj hfl'
        rw [hf] at h1
        omega
      subst hfv
      obtain ⟨hmac, hiv'⟩ := headerBytes_mac_iv (NewPacket ap msg k mode) iv (uint32 enc.length)
        enc hap' hivl
      obtain ⟨hhdr, hpay⟩ := headerBytes_payload (NewPacket ap msg k mode) iv (uint32 enc.length)
        enc hap' hivl
      have hq : (q.setHeader ap 5).flags = 5 := rfl
      have hq2 : ((q.setHeader ap 5).setKey k).flags = 5 := rfl
      obtain ⟨hE', _, _, _⟩ := flags_five _ hq
      obtain ⟨_, hG2, hZ2, hS2⟩ := flags_five _ hq2
      rw [hU, hmac, hpap, hpay, hiv', hhdr, hE', hkf]
      simp only [if_true, hG2, Bool.false_eq_true, if_false]
      have hDec : Decrypt P CBC iv k enc
          ((NewPacket ap msg k mode).headerBytes iv (uint32 enc.length)) = .ok c := by
        have hne : ¬ CBC = GCM := by decide
        simp only [Decrypt, hne, if_false]
        exact decryptCBC_encryptCBC P hP iv k c enc hivl hk16 hEncC
      rw [hDec]
      simp only
      rw [← hcdef, unmarshalPayload_snappy P hP _ _ _ hZ2 hS2]
      exact ⟨rfl, rfl⟩

/-! ## Lemmas: decoding the JSON text of a message -/

theorem lookup_perm {β : Type} {l1 l2 : List (Str × β)} (h : l1.Perm l2)
    (nd : (l1.map Prod.fst).Nodup) (k : Str) : l1.lookup k = l2.lookup k := by
  induction h with
  | nil => rfl
  | cons x _ ih =>
    obtain ⟨a, b⟩ := x
    simp only [List.map_cons, List.nodup_cons] at nd
    simp only [List.lookup_cons, ih nd.2]
  | swap x y l =>
    obtain ⟨a, b⟩ := x
    obtain ⟨a', b'⟩ := y
    simp only [List.map_cons, List.nodup_cons, List.mem_cons, not_or] at nd
    have hne : a' ≠ a := nd.1.1
    simp only [List.lookup_cons]
    by_cases h1 : k = a
    · subst h1
      have : (k == a') = false := by simpa using fun h => hne h.symm
      simp [this]
    · have : (k == a) = false := by simpa using h1
      simp [this]
  | trans h1 _ ih1 ih2 =>
    rw [ih1 nd, ih2 ((h1.map Prod.fst).nodup_iff.mp nd)]

theorem Float64_roundtrip (i : Int) (h : i.natAbs ≤ 2 ^ 53) : (Float64.ofInt i).toInt = i := by
  have h1 : -(2 ^ 63 : Int) ≤ i ∧ i < 2 ^ 63 := by omega
  simp only [Float64.ofInt, h, if_true, Float64.toInt, Rat.intCast_num, Rat.intCast_den,
    Nat.cast_one, Int.tdiv_one, h1, and_self]

theorem Unmarshal_no_type (P : Primitives) (text : Bytes) (gm : GoMap)
    (hj : P.jsonUnmarshal text = .ok gm) (ht : gm.lookup "_type" = none) :
    Unmarshal P text = (some (.noop (Noop.unmarshalMap ⟨200, 0, 0⟩ gm).1),
      (Noop.unmarshalMap ⟨200, 0, 0⟩ gm).2) := by
  simp only [Unmarshal, hj, ht]
  rfl

/-- The JSON text of a `Noop` decodes to a `Noop` that keeps the interval and has
server time 0: the decoder reads the server time from a string only. -/
theorem Unmarshal_noop_text (P : Primitives) (n : Noop) (hj : P.JsonCarries n.toJSON) :
    Unmarshal P (P.jsonMarshal n.toJSON)
      = (some (.noop ⟨200, 0, (Float64.ofInt n.Interval).toInt⟩), none) := by
  obtain ⟨gm, gm0, h0, hperm, hj⟩ := hj
  have hgm0 : gm0 = [("server_time_in_utc", .float64 (Float64.ofInt n.ServerTime)),
      ("interval", .float64 (Float64.ofInt n.Interval))] := by
    have := Option.some.inj h0
    rw [← this]
    rfl
  have nd : (gm0.map Prod.fst).Nodup := by
    rw [hgm0]
    simp only [List.map_cons, List.map_nil]
    decide
  have nd' : (gm.map Prod.fst).Nodup := (hperm.map Prod.fst).nodup_iff.mpr nd
  have l1 : gm.lookup "_type" = none := by
    rw [lookup_perm hperm nd', hgm0]; rfl
  have l2 : gm.lookup "server_time_in_utc" = some (.float64 (Float64.ofInt n.ServerTime)) := by
    rw [lookup_perm hperm nd', hgm0]; rfl
  have l3 : gm.lookup "interval" = some (.float64 (Float64.ofInt n.Interval)) := by
    rw [lookup_perm hperm nd', hgm0]; rfl
  rw [Unmarshal_no_type P _ gm hj l1]
  simp only [Noop.unmarshalMap, l2, l3]

/-- The JSON text of a `Cmd` carries no `_type`, so it decodes to the zero `Noop`. -/
theorem Unmarshal_cmd_text (P : Primitives) (c : Cmd) (hj : P.JsonCarries c.toJSON) :
    Unmarshal P (P.jsonMarshal c.toJSON) = (some (.noop ⟨200, 0, 0⟩), none) := by
  obtain ⟨gm, gm0, h0, hperm, hj⟩ := hj
  have hgm0 : gm0 = [("server_time_in_utc", .float64 (Float64.ofInt c.ServerTime)),
      ("cmd", .string c.Command), ("use_alert", .bool c.UseAlert),
      ("device_id", .string c.DeviceId), ("time", .float64 (Float64.ofInt c.Time)),
      ("_id", .string c.CmdId)] := by
    have := Option.some.inj h0
    rw [← this]
    rfl
  have nd : (gm0.map Prod.fst).Nodup := by
    rw [hgm0]
    simp only [List.map_cons, List.map_nil]
    decide
  have nd' : (gm.map Prod.fst).Nodup := (hperm.map Prod.fst).nodup_iff.mpr nd
  have l1 : gm.lookup "_type" = none := by
    rw [lookup_perm hperm nd', hgm0]; rfl
  have l2 : gm.lookup "server_time_in_utc" = some (.float64 (Float64.ofInt c.ServerTime)) := by
    rw [lookup_perm hperm nd', hgm0]; rfl
  have l3 : gm.lookup "interval" = none := by
    rw [lookup_perm hperm nd', hgm0]; rfl
  rw [Unmarshal_no_type P _ gm hj l1]
  simp only [Noop.unmarshalMap, l2, l3]

theorem lookup_map_snd {β γ : Type} (f : β → γ) (l : List (Str × β)) (k : Str) :
    (l.map fun kv => (kv.1, f kv.2)).lookup k = (l.lookup k).map f := by
  induction l with
  | nil => rfl
  | cons x l ih =>
    obtain ⟨a, b⟩ := x
    simp only [List.map_cons, List.lookup_cons, ih]
    cases k == a <;> rfl

/-- The JSON text of a `SetParam` is the object of its map alone; without a
`_type` entry it decodes to a `Noop` whose server time is read from the map entry
`server_time_in_utc`, if that is a decimal string. -/
theorem Unmarshal_setParam_text (P : Primitives) (s : SetParam)
    (hnd : (s.mgmt.map Prod.fst).Nodup) (ht : s.mgmt.lookup "_type" = none)
    (hj : P.JsonCarries s.toJSON) :
    Unmarshal P (P.jsonMarshal s.toJSON)
      = (some (.noop ⟨200,
          (match s.mgmt.lookup "server_time_in_utc" with
            | some v =>
              match Atoi v with
              | (t, none) => t
              | (_, some _) => 0
            | none => 0), 0⟩), none) := by
  obtain ⟨gm, gm0, h0, hperm, hj⟩ := hj
  have hsort := List.perm_insertionSort (fun a b : Str × Str => a.1.data ≤ b.1.data) s.mgmt
  have hgm0 : gm0 = (s.mgmt.insertionSort (fun a b => a.1.data ≤ b.1.data)).map
      (fun kv => (kv.1, GoVal.string kv.2)) := by
    have := Option.some.inj h0
    rw [← this]
    simp [SetParam.toJSON, ManagementConfig.MarshalJSON, GoMap.ofJSON, List.map_map,
      Function.comp_def, GoVal.ofJSON]
  have nds : ((s.mgmt.insertionSort (fun a b => a.1.data ≤ b.1.data)).map Prod.fst).Nodup :=
    (hsort.map Prod.fst).nodup_iff.mpr hnd
  have hkeys : gm0.map Prod.fst = (s.mgmt.insertionSort (fun a b => a.1.data ≤ b.1.data)).map Prod.fst := by
    rw [hgm0, List.map_map]
    rfl
  have nd' : (gm.map Prod.fst).Nodup := by
    apply (hperm.map Prod.fst).nodup_iff.mpr
    rw [hkeys]
    exact nds
  have hl : ∀ k, gm.lookup k = (s.mgmt.lookup k).map GoVal.string := by
    intro k
    rw [lookup_perm hperm nd', hgm0, lookup_map_snd, lookup_perm hsort nds]
  rw [Unmarshal_no_type P _ gm hj (by rw [hl, ht]; rfl)]
  simp only [Noop.unmarshalMap, hl]
  cases h1 : s.mgmt.lookup "server_time_in_utc" with
  | none =>
    cases h2 : s.mgmt.lookup "interval" <;> rfl
  | some v =>
    cases h2 : s.mgmt.lookup "interval" with
    | none =>
      simp only [Option.map_some', Option.map_none']
      rcases hA : Atoi v with ⟨t, _ | e⟩ <;> rfl
    | some w =>
      simp only [Option.map_some']
      rcases hA : Atoi v with ⟨t, _ | e⟩ <;> rfl

/-! ## Lemmas: the reference primitives -/

theorem map_add_sub (c : Byte) (l : Bytes) : (l.map (· + c)).map (· - c) = l := by
  rw [List.map_map]
  have : ((fun x : Byte => x - c) ∘ fun x => x + c) = id := by
    funext x
    simp
  rw [this, List.map_id]

theorem refOpen_refSeal (key nonce pt aad : Bytes) :
    refOpen key nonce (refSeal key nonce pt aad) aad = some pt := by
  have hl : (refSeal key nonce pt aad).length = pt.length + 16 := by simp [refSeal]
  have hlt : ¬ (refSeal key nonce pt aad).length < 16 := by omega
  have hsub : (refSeal key nonce pt aad).length - 16 = (pt.map (· + refPad key nonce)).length := by
    rw [hl]; simp
  simp only [refOpen, hlt, if_false, hsub]
  simp only [refSeal, List.take_left, List.drop_left, map_add_sub, if_true]

/-- The reference primitives invert each other. -/
theorem refPrimitives_lawful : refPrimitives.Lawful where
  snappy := fun _ => rfl
  cbcLength := fun key iv src _ _ _ => by simp [refPrimitives]
  cbcInverse := fun key iv src _ _ _ => map_add_sub _ src
  gcmLength := refSeal_length
  gcmInverse := fun key nonce pt aad _ _ => refOpen_refSeal key nonce pt aad

theorem refPrimitives_carries_noop : refPrimitives.JsonCarries (Noop.toJSON ⟨200, 1, 5⟩) :=
  ⟨_, _, rfl, List.Perm.refl _, rfl⟩

theorem refPrimitives_carries_cmd : refPrimitives.JsonCarries sampleCmd.toJSON :=
  ⟨_, _, rfl, List.Perm.refl _, rfl⟩

theorem refPrimitives_carries_setParam : refPrimitives.JsonCarries sampleSetParam.toJSON :=
  ⟨_, _, rfl, List.Perm.refl _, rfl⟩

/-- C1 (counterexample). Under the reference primitives, which invert each other,
the sample `Noop` (server time 1, interval 5) sent with the default key in GCM mode
decodes without error to a `Noop` with server time 0, and the sample `Cmd` decodes to
a `Noop`: neither is equal to the message that was encoded. -/
theorem envelope_roundtrip_counterexample :
    refPrimitives.Lawful ∧
    (NewPacket sampleMac sampleNoop DefaultKey GCM).Marshal refPrimitives sampleRand
      = .ok sampleGcmBytes ∧
    emptyPacket.Unmarshal refPrimitives sampleGcmBytes (agentKeyFetcher DefaultKey)
      = ⟨⟨sampleMac, 13, DefaultKey, some (.noop ⟨200, 0, 5⟩), 0⟩, none, [sampleMac]⟩ ∧
    some (Message.noop ⟨200, 0, 5⟩) ≠ some sampleNoop ∧
    ((NewPacket sampleMac (.cmd sampleCmd) none CBC).Marshal refPrimitives sampleRand).map
        (fun out => (emptyPacket.Unmarshal refPrimitives out (agentKeyFetcher none)).pkt.Msg)
      = .ok (some (.noop ⟨200, 0, 0⟩)) :=
  ⟨refPrimitives_lawful, by decide, by decide, by decide, by decide⟩

/-- C1 (amended). For every 6-byte MAC, every key (absent or 16 bytes), every mode
and a resolver returning the same key, when the AES and compression primitives
invert each other, the JSON text codec carries the document of the message, and the
payload is shorter than 2^32 bytes: `Packet.Unmarshal` applied to the bytes returned
by `NewPacket(mac, m, key, mode).Marshal()` succeeds and yields a `Noop` with HTTP
code 200.  For a `Noop` m it keeps the interval (exactly when it is at most 2^53 in
absolute value) and has server time 0, so it is equal to m exactly when m has code
200, server time 0 and such an interval.  For a `Cmd` m it is the zero `Noop`, never
a `Cmd`.  For a `SetParam` m whose map has no `_type` entry it has interval 0 and the
server time of the map entry `server_time_in_utc`, if that is a decimal string. -/
theorem envelope_roundtrip (P : Primitives) (hP : P.Lawful) (q : Packet) (ap : HardwareAddr)
    (k : Key) (mode : Int) (rnd : RandRead) (kf : HardwareAddr → Key × Option Error)
    (hap : ap.length = 6) (hk : k = none ∨ k.len = 16)
    (hrnd : k ≠ none → ∃ iv, GenerateIV rnd = .ok iv) (hkf : kf ap = (k, none)) :
    (∀ n : Noop, P.JsonCarries n.toJSON →
      (P.snappyEncode (P.jsonMarshal n.toJSON)).length + 16 < 2 ^ 32 →
      ∃ out, (NewPacket ap (.noop n) k mode).Marshal P rnd = .ok out ∧
        (q.Unmarshal P out kf).err = none ∧
        (q.Unmarshal P out kf).pkt.Msg
          = some (.noop ⟨200, 0, (Float64.ofInt n.Interval).toInt⟩) ∧
        (n.Interval.natAbs ≤ 2 ^ 53 → (Float64.ofInt n.Interval).toInt = n.Interval) ∧
        ((q.Unmarshal P out kf).pkt.Msg = some (.noop n) ↔
          n.code = 200 ∧ n.ServerTime = 0 ∧ (Float64.ofInt n.Interval).toInt = n.Interval)) ∧
    (∀ c : Cmd, P.JsonCarries c.toJSON →
      (P.snappyEncode (P.jsonMarshal c.toJSON)).length + 16 < 2 ^ 32 →
      ∃ out, (NewPacket ap (.cmd c) k mode).Marshal P rnd = .ok out ∧
        (q.Unmarshal P out kf).err = none ∧
        (q.Unmarshal P out kf).pkt.Msg = some (.noop ⟨200, 0, 0⟩) ∧
        (q.Unmarshal P out kf).pkt.Msg ≠ some (.cmd c)) ∧
    (∀ s : SetParam, (s.mgmt.map Prod.fst).Nodup → s.mgmt.lookup "_type" = none →
      P.JsonCarries s.toJSON →
      (P.snappyEncode (P.jsonMarshal s.toJSON)).length + 16 < 2 ^ 32 →
      ∃ out, (NewPacket ap (.setParam s) k mode).Marshal P rnd = .ok out ∧
        (q.Unmarshal P out kf).err = none ∧
        (q.Unmarshal P out kf).pkt.Msg
          = some (.noop ⟨200,
              (match s.mgmt.lookup "server_time_in_utc" with
                | some v =>
                  match Atoi v with
                  | (t, none) => t
                  | (_, some _) => 0
                | none => 0), 0⟩) ∧
        (q.Unmarshal P out kf).pkt.Msg ≠ some (.setParam s)) := by
  refine ⟨fun n hj hsz => ?_, fun c hj hsz => ?_, fun s hnd ht hj hsz => ?_⟩
  · obtain ⟨out, ho, he, hm⟩ := Unmarshal_Marshal P hP q ap (.noop n) k mode rnd kf hap hk hrnd
      hkf hsz
    have ht : Unmarshal P (Message.Marshal P (.noop n)) = _ := Unmarshal_noop_text P n hj
    rw [ht] at he hm
    refine ⟨out, ho, he, hm, Float64_roundtrip n.Interval, ?_⟩
    rw [hm]
    constructor
    · intro h
      have h1 := Message.noop.inj (Option.some.inj h)
      exact ⟨(congrArg Noop.code h1).symm, (congrArg Noop.ServerTime h1).symm,
        congrArg Noop.Interval h1⟩
    · rintro ⟨h1, h2, h3⟩
      obtain ⟨code, st, iv⟩ := n
      simp only at h1 h2 h3
      subst h1 h2
      rw [h3]
  · obtain ⟨out, ho, he, hm⟩ := Unmarshal_Marshal P hP q ap (.cmd c) k mode rnd kf hap hk hrnd
      hkf hsz
    have ht : Unmarshal P (Message.Marshal P (.cmd c)) = _ := Unmarshal_cmd_text P c hj
    rw [ht] at he hm
    refine ⟨out, ho, he, hm, ?_⟩
    rw [hm]
    simp
  · obtain ⟨out, ho, he, hm⟩ := Unmarshal_Marshal P hP q ap (.setParam s) k mode rnd kf hap hk
      hrnd hkf hsz
    have ht' : Unmarshal P (Message.Marshal P (.setParam s)) = _ :=
      Unmarshal_setParam_text P s hnd ht hj
    rw [ht'] at he hm
    refine ⟨out, ho, he, hm, ?_⟩
    rw [hm]
    simp

/-- C1 (witness). The reference primitives, the sample MAC, the default key in GCM
mode and the resolver of the agent; the three parts at the sample `Noop`, `Cmd` and
`SetParam`. -/
theorem envelope_roundtrip_witness :
    refPrimitives.Lawful ∧ sampleMac.length = 6 ∧ (DefaultKey = none ∨ DefaultKey.len = 16) ∧
    (DefaultKey ≠ none → ∃ iv, GenerateIV sampleRand = .ok iv) ∧
    agentKeyFetcher DefaultKey sampleMac = (DefaultKey, none) ∧
    (∃ out, (NewPacket sampleMac sampleNoop DefaultKey GCM).Marshal refPrimitives sampleRand
        = .ok out ∧
      (emptyPacket.Unmarshal refPrimitives out (agentKeyFetcher DefaultKey)).err = none ∧
      (emptyPacket.Unmarshal refPrimitives out (agentKeyFetcher DefaultKey)).pkt.Msg
        = some (.noop ⟨200, 0, 5⟩)) ∧
    (∃ out, (NewPacket sampleMac (.cmd sampleCmd) DefaultKey GCM).Marshal refPrimitives sampleRand
        = .ok out ∧
      (emptyPacket.Unmarshal refPrimitives out (agentKeyFetcher DefaultKey)).pkt.Msg
        = some (.noop ⟨200, 0, 0⟩)) ∧
    (∃ out, (NewPacket sampleMac (.setParam sampleSetParam) DefaultKey GCM).Marshal
        refPrimitives sampleRand = .ok out ∧
      (emptyPacket.Unmarshal refPrimitives out (agentKeyFetcher DefaultKey)).pkt.Msg
        = some (.noop ⟨200, 0, 0⟩)) := by
  have h := envelope_roundtrip refPrimitives refPrimitives_lawful emptyPacket sampleMac DefaultKey
    GCM sampleRand (agentKeyFetcher DefaultKey) (by decide) (Or.inr (by decide))
    (fun _ => ⟨_, rfl⟩) rfl
  refine ⟨refPrimitives_lawful, by decide, Or.inr (by decide), fun _ => ⟨_, rfl⟩, rfl, ?_, ?_, ?_⟩
  · obtain ⟨out, h1, h2, h3, _⟩ := h.1 ⟨200, 1, 5⟩ refPrimitives_carries_noop (by decide)
    exact ⟨out, h1, h2, h3⟩
  · obtain ⟨out, h1, _, h3, _⟩ := h.2.1 sampleCmd refPrimitives_carries_cmd (by decide)
    exact ⟨out, h1, h3⟩
  · obtain ⟨out, h1, _, h3, _⟩ := h.2.2 sampleSetParam (by decide) (by decide)
      refPrimitives_carries_setParam (by decide)
    exact ⟨out, h1, h3⟩

/-! ## Lemmas: changing one byte of a packet -/

theorem read32_set_other (data : Bytes) (off i : Nat) (v : Byte) (h : i < off ∨ off + 4 ≤ i) :
    Buffer.ReadUInt32BE (data.set i v) off = Buffer.ReadUInt32BE data off := by
  simp only [Buffer.ReadUInt32BE]
  rw [List.getElem?_set_ne (by omega), List.getElem?_set_ne (by omega),
    List.getElem?_set_ne (by omega), List.getElem?_set_ne (by omega)]

theorem read16_set_other (data : Bytes) (off i : Nat) (v : Byte) (h : i < off ∨ off + 2 ≤ i) :
    Buffer.ReadUInt16BE (data.set i v) off = Buffer.ReadUInt16BE data off := by
  simp only [Buffer.ReadUInt16BE]
  rw [List.getElem?_set_ne (by omega), List.getElem?_set_ne (by omega)]

/-- Changing one of the four bytes of a 32-bit field changes the value read. -/
theorem read32_set_changed (data : Bytes) (off i x : Nat) (v : Byte) (h1 : off ≤ i)
    (h2 : i < off + 4) (hx : Buffer.ReadUInt32BE data off = some x) (hv : data[i]? ≠ some v) :
    Buffer.ReadUInt32BE (data.set i v) off ≠ some x := by
  unfold Buffer.ReadUInt32BE at hx ⊢
  split at hx
  · rename_i a b c d ha hb hc hd
    have hx' := Option.some.inj hx
    have hlen : off + 3 < data.length := by
      by_contra hcon
      have : data[off + 3]? = none := List.getElem?_eq_none (by omega)
      rw [this] at hd
      exact absurd hd (by simp)
    have hcase : i = off ∨ i = off + 1 ∨ i = off + 2 ∨ i = off + 3 := by omega
    rcases hcase with rfl | rfl | rfl | rfl
    · rw [List.getElem?_set_self (by omega), List.getElem?_set_ne (by omega),
        List.getElem?_set_ne (by omega), List.getElem?_set_ne (by omega), hb, hc, hd]
      have hne : v ≠ a := fun h => hv (by rw [ha, h])
      have hne' : v.val ≠ a.val := fun h => hne (Fin.ext h)
      simp only [ne_eq, Option.some.injEq, Nat.shiftLeft_eq] at hx' ⊢
      omega
    · rw [List.getElem?_set_ne (by omega), List.getElem?_set_self (by omega),
        List.getElem?_set_ne (by omega), List.getElem?_set_ne (by omega), ha, hc, hd]
      have hne : v ≠ b := fun h => hv (by rw [hb, h])
      have hne' : v.val ≠ b.val := fun h => hne (Fin.ext h)
      simp only [ne_eq, Option.some.injEq, Nat.shiftLeft_eq] at hx' ⊢
      omega
    · rw [List.getElem?_set_ne (by omega), List.getElem?_set_ne (by omega),
        List.getElem?_set_self (by omega), List.getElem?_set_ne (by omega), ha, hb, hd]
      have hne : v ≠ c := fun h => hv (by rw [hc, h])
      have hne' : v.val ≠ c.val := fun h => hne (Fin.ext h)
      simp only [ne_eq, Option.some.injEq, Nat.shiftLeft_eq] at hx' ⊢
      omega
    · rw [List.getElem?_set_ne (by omega), List.getElem?_set_ne (by omega),
        List.getElem?_set_ne (by omega), List.getElem?_set_self (by omega), ha, hb, hc]
      have hne : v ≠ d := fun h => hv (by rw [hd, h])
      have hne' : v.val ≠ d.val := fun h => hne (Fin.ext h)
      simp only [ne_eq, Option.some.injEq, Nat.shiftLeft_eq] at hx' ⊢
      omega
  · exact absurd hx (by simp)

/-- `Packet.Unmarshal` on an input that passes the checks, carries the ENCRYPT and
GCM flags and gets a 16-byte key from the resolver: when the GCM open step rejects
the payload under the first 40 bytes as additional data, the error is the
authentication failure. -/
theorem Unmarshal_gcm_rejected (P : Primitives) (q : Packet) (data : Bytes)
    (kf : HardwareAddr → Key × Option Error) (L flags : Nat) (kb : Bytes)
    (hc : unmarshalChecks data = .ok L) (hfl : Buffer.ReadUInt16BE data 14 = some flags)
    (hE : flags &&& EncryptFlag = EncryptFlag) (hG : flags &&& GcmFlag = GcmFlag)
    (hkf : kf ((data.take 14).drop 8) = (some kb, none)) (hkb : kb.length = 16)
    (hopen : P.gcmOpen kb ((data.take 32).drop 16) ((data.take (40 + L)).drop 40) (data.take 40)
      = none) :
    q.Unmarshal P data kf =
      ⟨(q.setHeader ((data.take 14).drop 8) flags).setKey (some kb), some .gcmAuthFailed,
        [(data.take 14).drop 8]⟩ := by
  obtain ⟨h40, _, _, _, _, _, _⟩ := unmarshalChecks_ok data L hc
  obtain ⟨flags', hfl', hU⟩ := Unmarshal_of_checks_ok P q data kf L hc
  rw [hfl] at hfl'
  have := Option.some.inj hfl'
  subst this
  have hE1 : (q.setHeader ((data.take 14).drop 8) flags).IsEncrypted = true := by
    simp [Packet.IsEncrypted, Packet.setHeader, hE]
  have hG1 : ((q.setHeader ((data.take 14).drop 8) flags).setKey (some kb)).IsGcmEncrypted
      = true := by
    simp [Packet.IsGcmEncrypted, Packet.IsEncrypted, Packet.setHeader, Packet.setKey, hE, hG]
  have hivl : ((data.take 32).drop 16).length = 16 := by
    rw [List.length_drop, List.length_take]
    omega
  have hk16 : Key.len (some kb) = 16 := hkb
  rw [hU, if_pos hE1, hkf]
  simp only [hG1, if_true, Decrypt, decryptGCM,
    assertCryptoParams_valid _ (some kb) hivl hk16, Option.getD_some, hopen]

/-- A packet `Packet.Marshal` returns in GCM mode passes the checks of
`Packet.Unmarshal` and is exactly as long as its header declares. -/
theorem Marshal_gcm_valid (P : Primitives) (p : Packet) (rnd : RandRead) (out : Bytes)
    (hg : p.cipherMode = some .gcm)
    (hseal : ∀ key nonce pt aad, (P.gcmSeal key nonce pt aad).length = pt.length + 16)
    (hout : p.Marshal P rnd = .ok out) (hsize : out.length < 40 + 2 ^ 32) :
    ∃ L, unmarshalChecks out = .ok L ∧ out.length = 40 + L := by
  obtain ⟨m, cmsg, iv, hm, hc, hiv, hl, hap, h⟩ := Marshal_ok P p rnd out hout
  obtain ⟨he, hgf, hmd⟩ := cipherMode_gcm p hg
  rcases h with ⟨he', _⟩ | ⟨_, _, enc, hE, h⟩ | ⟨_, hg', _⟩
  · rw [he] at he'; exact absurd he' (by simp)
  · have henc : enc = P.gcmSeal (p.key.getD []) iv cmsg
        (p.headerBytes iv (uint32 (cmsg.length + 16))) := by
      apply encryptGCM_eq P iv p.key cmsg _ enc
      simpa [Encrypt, hmd] using hE
    have hel : enc.length = cmsg.length + 16 := by rw [henc, hseal]
    have hlen : out.length = 40 + enc.length := by
      rw [h, List.length_append, headerBytes_length p iv _ hap hl]
    rw [← hel] at h
    refine ⟨enc.length, ?_, hlen⟩
    rw [h]
    exact headerBytes_checks p iv enc hap hl (by omega)
  · rw [hgf] at hg'; exact absurd hg' (by simp)

/-- C10 (counterexample). The sample GCM packet decodes without error; with byte 0
changed the error is the bad-magic one, and with the GCM bit of byte 15 cleared it is
the block-length error of the CBC path: neither is the authentication failure. -/
theorem tampered_header_counterexample :
    (NewPacket sampleMac sampleNoop DefaultKey GCM).Marshal refPrimitives sampleRand
      = .ok sampleGcmBytes ∧
    (emptyPacket.Unmarshal refPrimitives sampleGcmBytes (agentKeyFetcher DefaultKey)).err = none ∧
    sampleGcmBytes[0]? ≠ some 0 ∧
    (emptyPacket.Unmarshal refPrimitives (sampleGcmBytes.set 0 0)
      (agentKeyFetcher DefaultKey)).err = some .invalidMagic ∧
    sampleGcmBytes[15]? ≠ some 5 ∧
    (emptyPacket.Unmarshal refPrimitives (sampleGcmBytes.set 15 5)
      (agentKeyFetcher DefaultKey)).err = some .notBlockMultiple ∧
    Error.invalidMagic ≠ Error.gcmAuthFailed ∧ Error.notBlockMultiple ≠ Error.gcmAuthFailed := by
  decide

/-- C10 (amended). For every packet returned by `Packet.Marshal` in GCM mode and
every index i < 40, changing header byte i and then calling `Packet.Unmarshal`
yields: for i < 4 the bad-magic error, for 4 ≤ i < 8 the inform-version error and
for 32 ≤ i < 36 the data-version error, the packet unchanged and no key looked up;
for 36 ≤ i < 40 the invalid-length error when the declared length grew; and for
8 ≤ i < 32 (MAC, flags, IV), or for 36 ≤ i < 40 when the declared length shrank,
provided the flags read still carry ENCRYPT and GCM and the resolver returns a
16-byte key for the MAC read, the authentication failure whenever the GCM open
step rejects the payload under the changed 40-byte header as additional data. -/
theorem tampered_header (P : Primitives) (p q : Packet) (rnd : RandRead) (data : Bytes)
    (kf : HardwareAddr → Key × Option Error) (i : Nat) (v : Byte)
    (hg : p.cipherMode = some .gcm)
    (hseal : ∀ key nonce pt aad, (P.gcmSeal key nonce pt aad).length = pt.length + 16)
    (hout : p.Marshal P rnd = .ok data) (hsize : data.length < 40 + 2 ^ 32)
    (hi : i < 40) (hv : data[i]? ≠ some v) :
    (i < 4 → q.Unmarshal P (data.set i v) kf = ⟨q, some .invalidMagic, []⟩) ∧
    (4 ≤ i → i < 8 → q.Unmarshal P (data.set i v) kf = ⟨q, some .unknownInformVersion, []⟩) ∧
    (32 ≤ i → i < 36 → q.Unmarshal P (data.set i v) kf = ⟨q, some .unknownDataVersion, []⟩) ∧
    (36 ≤ i → ∀ L L', Buffer.ReadUInt32BE data 36 = some L →
      Buffer.ReadUInt32BE (data.set i v) 36 = some L' → L < L' →
      q.Unmarshal P (data.set i v) kf = ⟨q, some .invalidPacketLength, []⟩) ∧
    ((8 ≤ i ∧ i < 32) ∨ 36 ≤ i → ∀ L L' flags kb, Buffer.ReadUInt32BE data 36 = some L →
      Buffer.ReadUInt32BE (data.set i v) 36 = some L' → L' ≤ L →
      Buffer.ReadUInt16BE (data.set i v) 14 = some flags →
      flags &&& EncryptFlag = EncryptFlag → flags &&& GcmFlag = GcmFlag →
      kf (((data.set i v).take 14).drop 8) = (some kb, none) → kb.length = 16 →
      P.gcmOpen kb (((data.set i v).take 32).drop 16) ((data.drop 40).take L')
        ((data.set i v).take 40) = none →
      q.Unmarshal P (data.set i v) kf =
        ⟨(q.setHeader (((data.set i v).take 14).drop 8) flags).setKey (some kb),
          some .gcmAuthFailed, [((data.set i v).take 14).drop 8]⟩) := by
  obtain ⟨L0, hchk, hexact⟩ := Marshal_gcm_valid P p rnd data hg hseal hout hsize
  obtain ⟨h40, h36, hfit, hlt, h0, h4, h32⟩ := unmarshalChecks_ok data L0 hchk
  have hlen : (data.set i v).length = data.length := List.length_set _ _ _
  refine ⟨fun h => ?_, fun h1 h2 => ?_, fun h1 h2 => ?_, fun h1 L L' hL hL' hgrow => ?_,
    fun hr L L' flags kb hL hL' hle hfl hE hG hkf hkb hopen => ?_⟩
  · apply Unmarshal_of_checks_error
    have r36 : Buffer.ReadUInt32BE (data.set i v) 36 = some L0 := by
      rw [read32_set_other data 36 i v (by omega)]; exact h36
    rw [unmarshalChecks_fit _ L0 r36 (by rw [hlen]; exact hfit),
      if_pos (read32_set_changed data 0 i _ v (by omega) (by omega) h0 hv)]
  · apply Unmarshal_of_checks_error
    have r36 : Buffer.ReadUInt32BE (data.set i v) 36 = some L0 := by
      rw [read32_set_other data 36 i v (by omega)]; exact h36
    have r0 : Buffer.ReadUInt32BE (data.set i v) 0 = some MagicNumber := by
      rw [read32_set_other data 0 i v (by omega)]; exact h0
    rw [unmarshalChecks_fit _ L0 r36 (by rw [hlen]; exact hfit), if_neg (not_not.mpr r0),
      if_pos (read32_set_changed data 4 i _ v (by omega) (by omega) h4 hv)]
  · apply Unmarshal_of_checks_error
    have r36 : Buffer.ReadUInt32BE (data.set i v) 36 = some L0 := by
      rw [read32_set_other data 36 i v (by omega)]; exact h36
    have r0 : Buffer.ReadUInt32BE (data.set i v) 0 = some MagicNumber := by
      rw [read32_set_other data 0 i v (by omega)]; exact h0
    have r4 : Buffer.ReadUInt32BE (data.set i v) 4 = some InformVersion := by
      rw [read32_set_other data 4 i v (by omega)]; exact h4
    rw [unmarshalChecks_fit _ L0 r36 (by rw [hlen]; exact hfit), if_neg (not_not.mpr r0),
      if_neg (not_not.mpr r4),
      if_pos (read32_set_changed data 32 i _ v (by omega) (by omega) h32 hv)]
  · apply Unmarshal_of_checks_error
    rw [h36] at hL
    have := Option.some.inj hL
    subst this
    exact unmarshalChecks_short _ (Or.inr ⟨L', hL', by rw [hlen]; omega⟩)
  · rw [h36] at hL
    have := Option.some.inj hL
    subst this
    have r0 : Buffer.ReadUInt32BE (data.set i v) 0 = some MagicNumber := by
      rw [read32_set_other data 0 i v (by omega)]; exact h0
    have r4 : Buffer.ReadUInt32BE (data.set i v) 4 = some InformVersion := by
      rw [read32_set_other data 4 i v (by omega)]; exact h4
    have r32 : Buffer.ReadUInt32BE (data.set i v) 32 = some DataVersion := by
      rw [read32_set_other data 32 i v (by omega)]; exact h32
    have hchk' : unmarshalChecks (data.set i v) = .ok L' := by
      rw [unmarshalChecks_fit _ L' hL' (by rw [hlen]; omega)]
      simp [r0, r4, r32]
    have hpay : ((data.set i v).take (40 + L')).drop 40 = (data.drop 40).take L' := by
      rw [List.drop_take, List.drop_set, if_pos hi]
      simp
    rw [← hpay] at hopen
    exact Unmarshal_gcm_rejected P q _ kf L' flags kb hchk' hfl hE hG hkf hkb hopen

/-- C10 (witness). The sample GCM packet with byte 20, a byte of the nonce, changed
to 0xff: the reference GCM open rejects it and the error is the authentication
failure. -/
theorem tampered_header_witness :
    (NewPacket sampleMac sampleNoop DefaultKey GCM).cipherMode = some .gcm ∧
    (∀ key nonce pt aad, (refPrimitives.gcmSeal key nonce pt aad).length = pt.length + 16) ∧
    (NewPacket sampleMac sampleNoop DefaultKey GCM).Marshal refPrimitives sampleRand
      = .ok sampleGcmBytes ∧
    sampleGcmBytes.length < 40 + 2 ^ 32 ∧ 20 < 40 ∧ sampleGcmBytes[20]? ≠ some 0xff ∧
    refPrimitives.gcmOpen (DefaultKey.getD []) (((sampleGcmBytes.set 20 0xff).take 32).drop 16)
      ((sampleGcmBytes.drop 40).take 53) ((sampleGcmBytes.set 20 0xff).take 40) = none ∧
    emptyPacket.Unmarshal refPrimitives (sampleGcmBytes.set 20 0xff) (agentKeyFetcher DefaultKey)
      = ⟨⟨sampleMac, 13, DefaultKey, none, 0⟩, some .gcmAuthFailed, [sampleMac]⟩ :=
  ⟨by decide, refSeal_length, by decide, by decide, by decide, by decide, by decide,
    (tampered_header refPrimitives (NewPacket sampleMac sampleNoop DefaultKey GCM) emptyPacket
      sampleRand sampleGcmBytes (agentKeyFetcher DefaultKey) 20 0xff (by decide) refSeal_length
      (by decide) (by decide) (by decide) (by decide)).2.2.2.2 (Or.inl ⟨by decide, by decide⟩)
      53 53 13 (DefaultKey.getD []) (by decide) (by decide) (by decide) (by decide) (by decide)
      (by decide) (by decide) (by decide) (by decide)⟩

/-! ## Lemmas: the CBC and GCM wrappers -/

theorem byteOf_val_of_lt (n : Nat) (h : n < 256) : (byteOf n).val = n := by
  simp only [byteOf]
  omega

/-- The buffer `decryptCBC` inspects and what it returns for it, once the
parameters and the length passed the checks. -/
theorem decryptCBC_eq (P : Primitives) (iv : Bytes) (key : Key) (data : Bytes) (last : Byte)
    (hiv : iv.length = 16) (hk : key.len = 16) (hne : data ≠ [])
    (hmul : data.length % 16 = 0)
    (hlast : (copy (NewBuffer data.length) (P.cbcDecryptBlocks (key.getD []) iv data)).getLast?
      = some last) :
    decryptCBC P iv key data =
      if 16 < last.val then .error (.invalidPadding last.val)
      else .ok ((copy (NewBuffer data.length)
        (P.cbcDecryptBlocks (key.getD []) iv data)).take (data.length - last.val)) := by
  have hlen0 : data.length ≠ 0 := fun h => hne (List.length_eq_zero.mp h)
  have hrl := copy_length (NewBuffer data.length) (P.cbcDecryptBlocks (key.getD []) iv data)
  have hnb : (NewBuffer data.length).length = data.length := by simp [NewBuffer]
  rw [hnb] at hrl
  have hget : (copy (NewBuffer data.length)
      (P.cbcDecryptBlocks (key.getD []) iv data))[data.length - 1]? = some last := by
    rw [List.getLast?_eq_getElem?, hrl] at hlast
    exact hlast
  simp only [decryptCBC, assertCryptoParams_valid iv key hiv hk, blockSize_eq, hmul, ne_eq,
    not_true_eq_false, if_false, hlen0, hget, gt_iff_lt]

theorem cbc_result_last (P : Primitives) (iv : Bytes) (key : Key) (data : Bytes)
    (hne : data ≠ []) :
    ∃ last, (copy (NewBuffer data.length)
      (P.cbcDecryptBlocks (key.getD []) iv data)).getLast? = some last := by
  have hrl := copy_length (NewBuffer data.length) (P.cbcDecryptBlocks (key.getD []) iv data)
  have hnb : (NewBuffer data.length).length = data.length := by simp [NewBuffer]
  rw [hnb] at hrl
  have hlen0 : data.length ≠ 0 := fun h => hne (List.length_eq_zero.mp h)
  cases hc : copy (NewBuffer data.length) (P.cbcDecryptBlocks (key.getD []) iv data) with
  | nil => rw [hc] at hrl; exact absurd hrl.symm hlen0
  | cons x xs => exact ⟨_, List.getLast?_eq_getLast _ (List.cons_ne_nil x xs)⟩


/-- CBC round trip with the assumptions on the block transforms spelled out for one
key and IV: `CryptBlocks` fills a buffer of the length of its input, and decryption
inverts encryption. -/
theorem decryptCBC_encryptCBC_blocks (P : Primitives) (iv : Bytes) (key : Key) (data : Bytes)
    (hiv : iv.length = 16) (hk : key.len = 16)
    (hlen : ∀ src : Bytes, src.length % 16 = 0 →
      (P.cbcEncryptBlocks (key.getD []) iv src).length = src.length)
    (hinv : ∀ src : Bytes, src.length % 16 = 0 →
      P.cbcDecryptBlocks (key.getD []) iv (P.cbcEncryptBlocks (key.getD []) iv src) = src) :
    ∃ enc, encryptCBC P iv key data = .ok enc ∧ decryptCBC P iv key enc = .ok data := by
  have hpad1 : 1 ≤ 16 - data.length % 16 := by omega
  have hpad16 : 16 - data.length % 16 ≤ 16 := by omega
  have heq := encryptCBC_eq P iv key data hiv hk
  generalize 16 - data.length % 16 = pad at heq hpad1 hpad16
  have hplen : (data ++ List.replicate pad (byteOf pad)).length = data.length + pad := by simp
  have hmod : (data ++ List.replicate pad (byteOf pad)).length % 16 = 0 := by
    rw [hplen]
    have := encryptCBC_length P iv key data _ heq
    rw [copy_length] at this
    simp only [NewBuffer, List.length_replicate] at this
    omega
  have hel := hlen _ hmod
  have hcopy : copy (NewBuffer (data.length + pad))
      (P.cbcEncryptBlocks (key.getD []) iv (data ++ List.replicate pad (byteOf pad)))
      = P.cbcEncryptBlocks (key.getD []) iv (data ++ List.replicate pad (byteOf pad)) := by
    apply copy_of_length_eq
    rw [hel, hplen]
    simp [NewBuffer]
  rw [hcopy] at heq
  refine ⟨_, heq, ?_⟩
  have hencl : (P.cbcEncryptBlocks (key.getD []) iv
      (data ++ List.replicate pad (byteOf pad))).length = data.length + pad := by
    rw [hel, hplen]
  have hres : copy (NewBuffer (P.cbcEncryptBlocks (key.getD []) iv
        (data ++ List.replicate pad (byteOf pad))).length)
      (P.cbcDecryptBlocks (key.getD []) iv (P.cbcEncryptBlocks (key.getD []) iv
        (data ++ List.replicate pad (byteOf pad))))
      = data ++ List.replicate pad (byteOf pad) := by
    rw [hinv _ hmod]
    apply copy_of_length_eq
    rw [hplen, hencl]
    simp [NewBuffer]
  have hlast : (data ++ List.replicate pad (byteOf pad)).getLast? = some (byteOf pad) := by
    rw [List.getLast?_eq_getElem?, List.getElem?_append_right (by rw [hplen]; omega),
      List.getElem?_replicate]
    have : (data ++ List.replicate pad (byteOf pad)).length - 1 - data.length < pad := by
      rw [hplen]; omega
    rw [if_pos this]
  have hne : P.cbcEncryptBlocks (key.getD []) iv (data ++ List.replicate pad (byteOf pad))
      ≠ [] := by
    intro h0
    rw [h0] at hencl
    simp at hencl
    omega
  rw [decryptCBC_eq P iv key _ (byteOf pad) hiv hk hne (by rw [hencl, ← hplen]; exact hmod)
    (by rw [hres]; exact hlast), hres, byteOf_val_of_lt pad (by omega), hencl]
  have hgt : ¬ 16 < pad := by omega
  simp [hgt]


/-- C11. For every plaintext, of any length `L`, and every 16-byte key and IV,
`encryptCBC` succeeds; with `p = 16 - L % 16`, which lies between 1 and 16, the
buffer it hands to `CryptBlocks` is the plaintext followed by `p` bytes of value
`p`, and the ciphertext it returns has length `L + p`, which is `⌈(L+1)/16⌉ * 16`, a
positive multiple of 16. -/
theorem encryptCBC_padding (P : Primitives) (iv : Bytes) (key : Key) (data : Bytes)
    (hiv : iv.length = 16) (hk : key.len = 16) :
    ∃ p enc, p = 16 - data.length % 16 ∧ 1 ≤ p ∧ p ≤ 16 ∧ (byteOf p).val = p ∧
      encryptCBC P iv key data = .ok enc ∧
      enc = copy (NewBuffer (data.length + p))
        (P.cbcEncryptBlocks (key.getD []) iv (data ++ List.replicate p (byteOf p))) ∧
      enc.length = data.length + p ∧ enc.length = (data.length + 1 + 15) / 16 * 16 ∧
      0 < enc.length ∧ enc.length % 16 = 0 := by
  have h := encryptCBC_eq P iv key data hiv hk
  have hl := encryptCBC_length P iv key data _ h
  refine ⟨16 - data.length % 16, _, rfl, by omega, by omega,
    byteOf_val_of_lt _ (by omega), h, rfl, hl, ?_, ?_, ?_⟩
  · rw [hl]; omega
  · rw [hl]; omega
  · rw [hl]; omega

/-- C11 (witness). A 33-byte plaintext under the default key: 15 bytes of padding,
48 bytes of ciphertext. -/
theorem encryptCBC_padding_witness :
    sampleRand.written.length = 16 ∧ DefaultKey.len = 16 ∧
    ∃ p enc, p = 16 - (List.replicate 33 (7 : Byte)).length % 16 ∧ 1 ≤ p ∧ p ≤ 16 ∧
      (byteOf p).val = p ∧
      encryptCBC refPrimitives sampleRand.written DefaultKey (List.replicate 33 7) = .ok enc ∧
      enc = copy (NewBuffer ((List.replicate 33 (7 : Byte)).length + p))
        (refPrimitives.cbcEncryptBlocks (DefaultKey.getD []) sampleRand.written
          (List.replicate 33 7 ++ List.replicate p (byteOf p))) ∧
      enc.length = (List.replicate 33 (7 : Byte)).length + p ∧
      enc.length = ((List.replicate 33 (7 : Byte)).length + 1 + 15) / 16 * 16 ∧
      0 < enc.length ∧ enc.length % 16 = 0 :=
  ⟨by decide, by decide,
    encryptCBC_padding refPrimitives sampleRand.written DefaultKey (List.replicate 33 7)
      (by decide) (by decide)⟩

/-- C12. CBC round trip: for every byte string, every 16-byte key and IV and any two
values of the additional data, `Encrypt` in mode `CBC` succeeds and `Decrypt` in mode
`CBC` of its result succeeds and returns the byte string, assuming that for this key
and IV the CBC block decryption inverts the block encryption (and that `CryptBlocks`
fills a buffer of the length of its input). -/
theorem cbc_roundtrip (P : Primitives) (iv : Bytes) (key : Key) (d aad aad2 : Bytes)
    (hiv : iv.length = 16) (hk : key.len = 16)
    (hlen : ∀ src : Bytes, src.length % 16 = 0 →
      (P.cbcEncryptBlocks (key.getD []) iv src).length = src.length)
    (hinv : ∀ src : Bytes, src.length % 16 = 0 →
      P.cbcDecryptBlocks (key.getD []) iv (P.cbcEncryptBlocks (key.getD []) iv src) = src) :
    ∃ enc, Encrypt P CBC iv key d aad = .ok enc ∧ Decrypt P CBC iv key enc aad2 = .ok d := by
  obtain ⟨enc, h1, h2⟩ := decryptCBC_encryptCBC_blocks P iv key d hiv hk hlen hinv
  have hm : ¬ CBC = GCM := by decide
  exact ⟨enc, by simp only [Encrypt, hm, if_false]; exact h1,
    by simp only [Decrypt, hm, if_false]; exact h2⟩

/-- C12 (witness). The reference block transforms, the default key, a 33-byte
string, and two different values of the additional data. -/
theorem cbc_roundtrip_witness :
    sampleRand.written.length = 16 ∧ DefaultKey.len = 16 ∧
    ∃ enc, Encrypt refPrimitives CBC sampleRand.written DefaultKey (List.replicate 33 7) [1]
        = .ok enc ∧
      Decrypt refPrimitives CBC sampleRand.written DefaultKey enc [2, 3]
        = .ok (List.replicate 33 7) :=
  ⟨by decide, by decide,
    cbc_roundtrip refPrimitives sampleRand.written DefaultKey (List.replicate 33 7) [1] [2, 3]
      (by decide) (by decide) (fun src _ => by simp [refPrimitives])
      (fun src _ => map_add_sub _ src)⟩

/-- C13. For every non-empty ciphertext whose length is a multiple of 16, with a
16-byte key and IV, `decryptCBC` looks at the last byte `p` of the decrypted buffer:
when `p > 16` it returns the invalid-padding error, otherwise it returns the buffer
without its last `p` bytes, whatever these bytes are; for `p = 0` that is the whole
buffer. -/
theorem decryptCBC_padding (P : Primitives) (iv : Bytes) (key : Key) (data : Bytes)
    (hiv : iv.length = 16) (hk : key.len = 16) (hne : data ≠ [])
    (hmul : data.length % 16 = 0) :
    ∃ result last,
      result = copy (NewBuffer data.length) (P.cbcDecryptBlocks (key.getD []) iv data) ∧
      result.length = data.length ∧ result.getLast? = some last ∧
      (16 < last.val → decryptCBC P iv key data = .error (.invalidPadding last.val)) ∧
      (last.val ≤ 16 → ∃ out removed, decryptCBC P iv key data = .ok out ∧
        result = out ++ removed ∧ removed.length = last.val) ∧
      (last.val = 0 → decryptCBC P iv key data = .ok result) := by
  obtain ⟨last, hlast⟩ := cbc_result_last P iv key data hne
  have hrl := copy_length (NewBuffer data.length) (P.cbcDecryptBlocks (key.getD []) iv data)
  have hnb : (NewBuffer data.length).length = data.length := by simp [NewBuffer]
  rw [hnb] at hrl
  have heq := decryptCBC_eq P iv key data last hiv hk hne hmul hlast
  have hpos : 16 ≤ data.length := by
    have : data.length ≠ 0 := fun h => hne (List.length_eq_zero.mp h)
    omega
  generalize hr : copy (NewBuffer data.length) (P.cbcDecryptBlocks (key.getD []) iv data)
    = result at hlast hrl heq
  refine ⟨result, last, rfl, hrl, hlast, ?_, ?_, ?_⟩
  · intro h
    rw [heq, if_pos h]
  · intro h
    have hn : ¬ 16 < last.val := by omega
    refine ⟨result.take (data.length - last.val), result.drop (data.length - last.val),
      ?_, ?_, ?_⟩
    · rw [heq, if_neg hn]
    · exact (List.take_append_drop _ _).symm
    · rw [List.length_drop, hrl]
      omega
  · intro h
    have hn : ¬ 16 < last.val := by omega
    rw [heq, if_neg hn, h, Nat.sub_zero, ← hrl, List.take_length]

/-- C13 (witness). Sixteen bytes under the reference block transform and the default
key: the decrypted buffer ends in 0x47, above 16, and the padding is refused. -/
theorem decryptCBC_padding_witness :
    sampleRand.written.length = 16 ∧ DefaultKey.len = 16 ∧
    List.replicate 16 (3 : Byte) ≠ [] ∧ (List.replicate 16 (3 : Byte)).length % 16 = 0 ∧
    ∃ result last,
      result = copy (NewBuffer (List.replicate 16 (3 : Byte)).length)
        (refPrimitives.cbcDecryptBlocks (DefaultKey.getD []) sampleRand.written
          (List.replicate 16 3)) ∧
      result.length = (List.replicate 16 (3 : Byte)).length ∧ result.getLast? = some last ∧
      (16 < last.val → decryptCBC refPrimitives sampleRand.written DefaultKey
        (List.replicate 16 3) = .error (.invalidPadding last.val)) ∧
      (last.val ≤ 16 → ∃ out removed, decryptCBC refPrimitives sampleRand.written DefaultKey
        (List.replicate 16 3) = .ok out ∧ result = out ++ removed ∧
        removed.length = last.val) ∧
      (last.val = 0 → decryptCBC refPrimitives sampleRand.written DefaultKey
        (List.replicate 16 3) = .ok result) :=
  ⟨by decide, by decide, by decide, by decide,
    decryptCBC_padding refPrimitives sampleRand.written DefaultKey (List.replicate 16 3)
      (by decide) (by decide) (by decide) (by decide)⟩

/-- C14. `Encrypt` and `Decrypt`, in mode `CBC`, in mode `GCM` and in any other mode
(which is treated as `CBC`), return an error and no bytes whenever the IV is not
exactly 16 bytes long or the key is not exactly 16 bytes long: the IV-length error
when the IV is at fault, else the key-length error.  `decryptCBC` returns an error
and no bytes whenever the length of the ciphertext is not a multiple of 16: with a
valid key and IV it is the error of the length check. -/
theorem crypto_params_rejected (P : Primitives) (mode : Int) (iv : Bytes) (key : Key)
    (data aad : Bytes) :
    ((iv.length ≠ 16 ∨ key.len ≠ 16) →
      ∃ e, (e = if iv.length ≠ 16 then Error.ivLength iv.length else Error.keyLength key.len) ∧
        Encrypt P mode iv key data aad = .error e ∧ Decrypt P mode iv key data aad = .error e ∧
        encryptCBC P iv key data = .error e ∧ decryptCBC P iv key data = .error e ∧
        encryptGCM P iv key data aad = .error e ∧ decryptGCM P iv key data aad = .error e) ∧
    (data.length % 16 ≠ 0 →
      (∃ e, decryptCBC P iv key data = .error e) ∧
      (iv.length = 16 → key.len = 16 → decryptCBC P iv key data = .error .notBlockMultiple)) := by
  constructor
  · intro h
    have ha : assertCryptoParams iv key
        = some (if iv.length ≠ 16 then Error.ivLength iv.length else Error.keyLength key.len) := by
      by_cases h1 : iv.length = 16
      · have h2 : key.len ≠ 16 := by
          rcases h with h | h
          · exact absurd h1 h
          · exact h
        have hv : Key.IsValid (some iv) = true := by
          simp [Key.IsValid, Key.len, h1, DefaultKey]
        have hkv : Key.IsValid key = false := by
          simp only [Key.IsValid, beq_eq_false_iff_ne]
          exact h2
        simp [assertCryptoParams, hv, hkv, h1]
      · have hv : Key.IsValid (some iv) = false := by
          simp only [Key.IsValid, beq_eq_false_iff_ne]
          exact h1
        simp [assertCryptoParams, hv, h1]
    obtain ⟨e, he⟩ : ∃ e, e = if iv.length ≠ 16 then Error.ivLength iv.length
        else Error.keyLength key.len := ⟨_, rfl⟩
    rw [← he] at ha
    have h1 : encryptCBC P iv key data = .error e := by simp only [encryptCBC, ha]
    have h2 : decryptCBC P iv key data = .error e := by simp only [decryptCBC, ha]
    have h3 : encryptGCM P iv key data aad = .error e := by simp only [encryptGCM, ha]
    have h4 : decryptGCM P iv key data aad = .error e := by simp only [decryptGCM, ha]
    refine ⟨e, he, ?_, ?_, h1, h2, h3, h4⟩
    · unfold Encrypt
      split
      · exact h3
      · exact h1
    · unfold Decrypt
      split
      · exact h4
      · exact h2
  · intro h
    constructor
    · unfold decryptCBC
      split
      · exact ⟨_, rfl⟩
      · rw [blockSize_eq, if_pos h]
        exact ⟨_, rfl⟩
    · intro hiv hk
      simp only [decryptCBC, assertCryptoParams_valid iv key hiv hk, blockSize_eq, ne_eq, h,
        not_false_eq_true, if_true]

/-- C14 (witness). A 15-byte key in mode `GCM`, and 17 bytes of ciphertext under the
default key. -/
theorem crypto_params_rejected_witness :
    ((sampleRand.written.length ≠ 16 ∨ Key.len (some (List.replicate 15 1)) ≠ 16) ∧
      ∃ e, (e = if sampleRand.written.length ≠ 16 then Error.ivLength sampleRand.written.length
              else Error.keyLength (Key.len (some (List.replicate 15 1)))) ∧
        Encrypt refPrimitives GCM sampleRand.written (some (List.replicate 15 1))
          (List.replicate 17 3) [] = .error e ∧
        Decrypt refPrimitives GCM sampleRand.written (some (List.replicate 15 1))
          (List.replicate 17 3) [] = .error e ∧
        encryptCBC refPrimitives sampleRand.written (some (List.replicate 15 1))
          (List.replicate 17 3) = .error e ∧
        decryptCBC refPrimitives sampleRand.written (some (List.replicate 15 1))
          (List.replicate 17 3) = .error e ∧
        encryptGCM refPrimitives sampleRand.written (some (List.replicate 15 1))
          (List.replicate 17 3) [] = .error e ∧
        decryptGCM refPrimitives sampleRand.written (some (List.replicate 15 1))
          (List.replicate 17 3) [] = .error e) ∧
    ((List.replicate 17 (3 : Byte)).length % 16 ≠ 0 ∧
      (∃ e, decryptCBC refPrimitives sampleRand.written DefaultKey (List.replicate 17 3)
        = .error e) ∧
      (sampleRand.written.length = 16 → DefaultKey.len = 16 →
        decryptCBC refPrimitives sampleRand.written DefaultKey (List.replicate 17 3)
          = .error .notBlockMultiple)) :=
  ⟨⟨Or.inr (by decide),
      (crypto_params_rejected refPrimitives GCM sampleRand.written (some (List.replicate 15 1))
        (List.replicate 17 3) []).1 (Or.inr (by decide))⟩,
    ⟨by decide,
      (crypto_params_rejected refPrimitives GCM sampleRand.written DefaultKey
        (List.replicate 17 3) []).2 (by decide)⟩⟩

/-! ## Lemmas: hexadecimal text -/

theorem fromHexChar_lt (c : Char) (x : Nat) (h : fromHexChar c = some x) : x < 16 := by
  unfold fromHexChar at h
  split at h
  · rename_i h1
    have h2 : c.toNat ≤ '9'.toNat := h1.2
    have h3 : '9'.toNat = 57 := rfl
    have h4 : '0'.toNat = 48 := rfl
    have := Option.some.inj h
    omega
  · split at h
    · rename_i h1
      have h2 : c.toNat ≤ 'f'.toNat := h1.2
      have h3 : 'f'.toNat = 102 := rfl
      have h4 : 'a'.toNat = 97 := rfl
      have := Option.some.inj h
      omega
    · split at h
      · rename_i h1
        have h2 : c.toNat ≤ 'F'.toNat := h1.2
        have h3 : 'F'.toNat = 70 := rfl
        have h4 : 'A'.toNat = 65 := rfl
        have := Option.some.inj h
        omega
      · exact absurd h (by simp)

theorem fromHexChar_isSome (c : Char) :
    (∃ x, fromHexChar c = some x) ↔
      (('0' ≤ c ∧ c ≤ '9') ∨ ('a' ≤ c ∧ c ≤ 'f') ∨ ('A' ≤ c ∧ c ≤ 'F')) := by
  unfold fromHexChar
  by_cases h1 : '0' ≤ c ∧ c ≤ '9'
  · simp [h1]
  · by_cases h2 : 'a' ≤ c ∧ c ≤ 'f'
    · simp [h1, h2]
    · by_cases h3 : 'A' ≤ c ∧ c ≤ 'F'
      · simp [h1, h2, h3]
      · simp [h1, h2, h3]

theorem fromHexChar_hexDigit (n : Nat) (h : n < 16) : fromHexChar (hexDigit n) = some n := by
  interval_cases n <;> rfl

theorem hexDigit_mem (n : Nat) : hexDigit n ∈ "0123456789abcdef".data := by
  by_cases h : n < 16
  · interval_cases n <;> decide
  · have : hexDigit n = '0' := by
      unfold hexDigit
      apply List.getD_eq_default
      have : "0123456789abcdef".data.length = 16 := rfl
      omega
    rw [this]
    decide

theorem hexDecode_cons2 (a b : Char) (rest : List Char) :
    hexDecode (a :: b :: rest) =
      match fromHexChar a, fromHexChar b with
      | some x, some y =>
        match hexDecode rest with
        | .ok bs => .ok (byteOf (x * 16 + y) :: bs)
        | .error e => .error e
      | _, _ => .error .hexDecode := by
  conv_lhs => unfold hexDecode

/-- What `hex.DecodeString` accepts: an even number of characters, all hexadecimal
digits; what it returns: a byte for each pair of digits. -/
theorem hexDecode_ok (n : Nat) : ∀ cs : List Char, cs.length ≤ n →
    ((∃ bs, hexDecode cs = .ok bs) ↔
      (cs.length % 2 = 0 ∧ ∀ c ∈ cs, ∃ x, fromHexChar c = some x)) ∧
    (∀ bs, hexDecode cs = .ok bs → cs.length = 2 * bs.length ∧
      ∀ i, i < bs.length → ∃ x y, (cs[2 * i]?).bind fromHexChar = some x ∧
        (cs[2 * i + 1]?).bind fromHexChar = some y ∧ bs[i]? = some (byteOf (x * 16 + y))) := by
  induction n with
  | zero =>
    intro cs h
    have : cs = [] := List.length_eq_zero.mp (by omega)
    subst this
    refine ⟨⟨fun _ => ⟨rfl, by simp⟩, fun _ => ⟨[], rfl⟩⟩, ?_⟩
    intro bs hbs
    have : bs = [] := by
      have h1 : hexDecode [] = .ok [] := rfl
      rw [h1] at hbs
      exact (Except.ok.inj hbs).symm
    subst this
    exact ⟨rfl, by simp⟩
  | succ n ih =>
    intro cs h
    match cs, h with
    | [], _ =>
      refine ⟨⟨fun _ => ⟨rfl, by simp⟩, fun _ => ⟨[], rfl⟩⟩, ?_⟩
      intro bs hbs
      have : bs = [] := by
        have h1 : hexDecode [] = .ok [] := rfl
        rw [h1] at hbs
        exact (Except.ok.inj hbs).symm
      subst this
      exact ⟨rfl, by simp⟩
    | [c], _ =>
      have h1 : hexDecode [c] = .error .hexDecode := rfl
      refine ⟨⟨fun ⟨bs, hbs⟩ => ?_, fun ⟨hl, _⟩ => ?_⟩, ?_⟩
      · rw [h1] at hbs; exact absurd hbs (by simp)
      · simp at hl
      · intro bs hbs
        rw [h1] at hbs; exact absurd hbs (by simp)
    | a :: b :: rest, h =>
      have hr : rest.length ≤ n := by simp at h; omega
      obtain ⟨ih1, ih2⟩ := ih rest hr
      rw [hexDecode_cons2]
      cases ha : fromHexChar a with
      | none =>
        refine ⟨⟨fun ⟨bs, hbs⟩ => by simp at hbs, fun ⟨_, hall⟩ => ?_⟩, fun bs hbs => by simp at hbs⟩
        obtain ⟨x, hx⟩ := hall a (by simp)
        rw [ha] at hx
        exact absurd hx (by simp)
      | some x =>
        cases hb : fromHexChar b with
        | none =>
          refine ⟨⟨fun ⟨bs, hbs⟩ => by simp at hbs, fun ⟨_, hall⟩ => ?_⟩,
            fun bs hbs => by simp at hbs⟩
          obtain ⟨y, hy⟩ := hall b (by simp)
          rw [hb] at hy
          exact absurd hy (by simp)
        | some y =>
          cases hrest : hexDecode rest with
          | error e =>
            refine ⟨⟨fun ⟨bs, hbs⟩ => by simp at hbs, fun ⟨hl, hall⟩ => ?_⟩,
              fun bs hbs => by simp at hbs⟩
            have : ∃ bs, hexDecode rest = .ok bs :=
              ih1.mpr ⟨by simp at hl; omega, fun c hc => hall c (by simp [hc])⟩
            obtain ⟨bs, hbs⟩ := this
            rw [hrest] at hbs
            exact absurd hbs (by simp)
          | ok bs0 =>
            obtain ⟨hl0, hget0⟩ := ih2 bs0 hrest
            have hall0 := (ih1.mp ⟨bs0, hrest⟩)
            refine ⟨⟨fun _ => ⟨by simp; omega, ?_⟩, fun _ => ⟨_, rfl⟩⟩, ?_⟩
            · intro c hc
              simp only [List.mem_cons] at hc
              rcases hc with rfl | rfl | hc
              · exact ⟨x, ha⟩
              · exact ⟨y, hb⟩
              · exact hall0.2 c hc
            · intro bs hbs
              have hbs1 : bs = byteOf (x * 16 + y) :: bs0 := (Except.ok.inj hbs).symm
              subst hbs1
              refine ⟨by simp; omega, ?_⟩
              intro i hi
              cases i with
              | zero => exact ⟨x, y, by simp [ha], by simp [hb], by simp⟩
              | succ j =>
                obtain ⟨x1, y1, h1, h2, h3⟩ := hget0 j (by simp at hi; omega)
                refine ⟨x1, y1, ?_, ?_, ?_⟩
                · have : 2 * (j + 1) = 2 * j + 1 + 1 := by omega
                  rw [this]
                  simpa using h1
                · have : 2 * (j + 1) + 1 = 2 * j + 1 + 1 + 1 := by omega
                  rw [this]
                  simpa using h2
                · simpa using h3

theorem hexDecode_hexEncode (bs : Bytes) : hexDecode (bs.flatMap hexByte) = .ok bs := by
  induction bs with
  | nil => rfl
  | cons b rest ih =>
    have hb : (b :: rest).flatMap hexByte
        = hexDigit (b.val / 16) :: hexDigit (b.val % 16) :: rest.flatMap hexByte := by
      simp [List.flatMap, hexByte]
    have hlt := b.isLt
    rw [hb, hexDecode_cons2, fromHexChar_hexDigit _ (by omega),
      fromHexChar_hexDigit _ (Nat.mod_lt _ (by decide)), ih]
    have : byteOf (b.val / 16 * 16 + b.val % 16) = b := by
      apply Fin.ext
      simp only [byteOf]
      omega
    simp [this]


/-- `KeyFromString` in terms of `hex.DecodeString`. -/
theorem KeyFromString_eq (s : Str) :
    KeyFromString s =
      match hexDecode s.data with
      | .error e => .error e
      | .ok kb => if kb.length = 16 then .ok (some kb) else .error .invalidKeyLength := by
  unfold KeyFromString
  cases hexDecode s.data with
  | error e => rfl
  | ok kb =>
    by_cases h : kb.length = 16
    · have hv : Key.IsValid (some kb) = true := by simp [Key.IsValid, Key.len, h, DefaultKey]
      simp [hv, h]
    · have hv : Key.IsValid (some kb) = false := by
        simp only [Key.IsValid, beq_eq_false_iff_ne]
        exact h
      simp [hv, h]

/-- C15. `KeyFromString s` succeeds if and only if `s` consists of exactly 32
hexadecimal digits (`0`-`9`, `a`-`f`, `A`-`F`), and every other string yields an
error; on success the key has 16 bytes, byte `i` being the value of the digits
`2i` and `2i+1`.  The text `ba86f2bbe107c7c57eb5f2690775c712` gives `DefaultKey`, and
`KeyFromString (k.String) = k` for every 16-byte key `k`. -/
theorem KeyFromString_spec (s : Str) :
    ((∃ k, KeyFromString s = .ok k) ↔
      (s.length = 32 ∧ ∀ c ∈ s.data,
        ('0' ≤ c ∧ c ≤ '9') ∨ ('a' ≤ c ∧ c ≤ 'f') ∨ ('A' ≤ c ∧ c ≤ 'F'))) ∧
    (¬ (s.length = 32 ∧ ∀ c ∈ s.data,
        ('0' ≤ c ∧ c ≤ '9') ∨ ('a' ≤ c ∧ c ≤ 'f') ∨ ('A' ≤ c ∧ c ≤ 'F')) →
      ∃ e, KeyFromString s = .error e) ∧
    (∀ k, KeyFromString s = .ok k → ∃ kb, k = some kb ∧ kb.length = 16 ∧
      ∀ i, i < 16 → ∃ x y, x < 16 ∧ y < 16 ∧ (s.data[2 * i]?).bind fromHexChar = some x ∧
        (s.data[2 * i + 1]?).bind fromHexChar = some y ∧
        (kb[i]?).map Fin.val = some (16 * x + y)) ∧
    KeyFromString "ba86f2bbe107c7c57eb5f2690775c712" = .ok DefaultKey ∧
    (∀ kb : Bytes, kb.length = 16 → KeyFromString (Key.String (some kb)) = .ok (some kb)) := by
  obtain ⟨hiff, hget⟩ := hexDecode_ok s.data.length s.data (Nat.le_refl _)
  have hmain : (∃ k, KeyFromString s = .ok k) ↔
      (s.length = 32 ∧ ∀ c ∈ s.data,
        ('0' ≤ c ∧ c ≤ '9') ∨ ('a' ≤ c ∧ c ≤ 'f') ∨ ('A' ≤ c ∧ c ≤ 'F')) := by
    rw [KeyFromString_eq]
    constructor
    · rintro ⟨k, hk⟩
      cases hd : hexDecode s.data with
      | error e => rw [hd] at hk; exact absurd hk (by simp)
      | ok kb =>
        rw [hd] at hk
        have hl : kb.length = 16 := by
          by_contra hne
          simp [hne] at hk
        have h1 := (hget kb hd).1
        have h2 := (hiff.mp ⟨kb, hd⟩).2
        refine ⟨by show s.data.length = 32; omega, fun c hc => ?_⟩
        exact (fromHexChar_isSome c).mp (h2 c hc)
    · rintro ⟨hl, hall⟩
      have hl1 : s.data.length = 32 := hl
      obtain ⟨kb, hd⟩ := hiff.mpr ⟨by omega, fun c hc => (fromHexChar_isSome c).mpr (hall c hc)⟩
      have h1 := (hget kb hd).1
      have hl2 : kb.length = 16 := by omega
      exact ⟨some kb, by simp [hd, hl2]⟩
  refine ⟨hmain, ?_, ?_, by decide, ?_⟩
  · intro hn
    cases hk : KeyFromString s with
    | error e => exact ⟨e, rfl⟩
    | ok k => exact absurd (hmain.mp ⟨k, hk⟩) hn
  · intro k hk
    rw [KeyFromString_eq] at hk
    cases hd : hexDecode s.data with
    | error e => rw [hd] at hk; exact absurd hk (by simp)
    | ok kb =>
      rw [hd] at hk
      have hl : kb.length = 16 := by
        by_contra hne
        simp [hne] at hk
      simp only [hl, if_true, Except.ok.injEq] at hk
      refine ⟨kb, hk.symm, hl, fun i hi => ?_⟩
      obtain ⟨x, y, hx, hy, hb⟩ := (hget kb hd).2 i (by omega)
      have hx16 : x < 16 := by
        cases hc : s.data[2 * i]? with
        | none => rw [hc] at hx; exact absurd hx (by simp)
        | some c => rw [hc] at hx; exact fromHexChar_lt c x hx
      have hy16 : y < 16 := by
        cases hc : s.data[2 * i + 1]? with
        | none => rw [hc] at hy; exact absurd hy (by simp)
        | some c => rw [hc] at hy; exact fromHexChar_lt c y hy
      refine ⟨x, y, hx16, hy16, hx, hy, ?_⟩
      rw [hb]
      simp only [Option.map_some', byteOf, Option.some.injEq]
      omega
  · intro kb hl
    rw [KeyFromString_eq]
    have : (Key.String (some kb)).data = kb.flatMap hexByte := rfl
    rw [this, hexDecode_hexEncode]
    simp [hl]

/-- C15 (witness). The text of the default key with its letters in upper case. -/
theorem KeyFromString_spec_witness :
    ((∃ k, KeyFromString "BA86F2BBE107C7C57EB5F2690775C712" = .ok k) ↔
      ("BA86F2BBE107C7C57EB5F2690775C712".length = 32 ∧
        ∀ c ∈ "BA86F2BBE107C7C57EB5F2690775C712".data,
          ('0' ≤ c ∧ c ≤ '9') ∨ ('a' ≤ c ∧ c ≤ 'f') ∨ ('A' ≤ c ∧ c ≤ 'F'))) ∧
    KeyFromString "BA86F2BBE107C7C57EB5F2690775C712" = .ok DefaultKey ∧
    (∃ kb, DefaultKey = some kb ∧ kb.length = 16 ∧
      ∀ i, i < 16 → ∃ x y, x < 16 ∧ y < 16 ∧
        ("BA86F2BBE107C7C57EB5F2690775C712".data[2 * i]?).bind fromHexChar = some x ∧
        ("BA86F2BBE107C7C57EB5F2690775C712".data[2 * i + 1]?).bind fromHexChar = some y ∧
        (kb[i]?).map Fin.val = some (16 * x + y)) ∧
    (¬ ("ba86".length = 32 ∧ ∀ c ∈ "ba86".data,
        ('0' ≤ c ∧ c ≤ '9') ∨ ('a' ≤ c ∧ c ≤ 'f') ∨ ('A' ≤ c ∧ c ≤ 'F'))) ∧
    (∃ e, KeyFromString "ba86" = .error e) ∧
    KeyFromString (Key.String DefaultKey) = .ok DefaultKey :=
  ⟨(KeyFromString_spec "BA86F2BBE107C7C57EB5F2690775C712").1, by decide,
    (KeyFromString_spec "BA86F2BBE107C7C57EB5F2690775C712").2.2.1 DefaultKey (by decide),
    fun h => absurd h.1 (by decide),
    (KeyFromString_spec "ba86").2.1 (fun h => absurd h.1 (by decide)),
    (KeyFromString_spec "").2.2.2.2 _ (by decide)⟩

theorem hexDigit_ne_colon (n : Nat) : hexDigit n ≠ ':' := by
  intro h
  have := hexDigit_mem n
  rw [h] at this
  exact absurd this (by decide)

theorem hexEncode_mem (bs : Bytes) : ∀ c ∈ (hexEncode bs).data, c ∈ "0123456789abcdef".data := by
  intro c hc
  have hd : (hexEncode bs).data = bs.flatMap hexByte := rfl
  rw [hd, List.mem_flatMap] at hc
  obtain ⟨b, _, hb⟩ := hc
  simp only [hexByte, List.mem_cons, List.mem_singleton, List.not_mem_nil, or_false] at hb
  rcases hb with rfl | rfl
  · exact hexDigit_mem _
  · exact hexDigit_mem _

/-- C16. For every 6-byte hardware address, `String` is 17 characters: the six bytes
as two lowercase hexadecimal digits each, with a colon after each of the first five
(so the colons are at the positions 2, 5, 8, 11, 14); `HexString` is the same twelve
digits without the colons, all from `0123456789abcdef`, and they read back as the six
bytes; `MarshalJSON` is `String` between double quotes.  The address
de ad be ef 00 01 gives `de:ad:be:ef:00:01` and `deadbeef0001`. -/
theorem HardwareAddr_text (m : HardwareAddr) (h : m.length = 6) :
    (HardwareAddr.String m).length = 17 ∧
    (∃ a b c d e f, m = [a, b, c, d, e, f] ∧
      (HardwareAddr.String m).data = hexByte a ++ ':' :: hexByte b ++ ':' :: hexByte c
        ++ ':' :: hexByte d ++ ':' :: hexByte e ++ ':' :: hexByte f) ∧
    (∀ i, i < 17 → ((HardwareAddr.String m).data[i]? = some ':' ↔ i % 3 = 2)) ∧
    (HardwareAddr.String m).data.filter (fun c => c != ':') = (HardwareAddr.HexString m).data ∧
    (HardwareAddr.HexString m).length = 12 ∧
    (∀ c ∈ (HardwareAddr.HexString m).data, c ∈ "0123456789abcdef".data) ∧
    hexDecode (HardwareAddr.HexString m).data = .ok m ∧
    (HardwareAddr.MarshalJSON m).data = '"' :: (HardwareAddr.String m).data ++ ['"'] ∧
    HardwareAddr.String [0xde, 0xad, 0xbe, 0xef, 0x00, 0x01] = "de:ad:be:ef:00:01" ∧
    HardwareAddr.HexString [0xde, 0xad, 0xbe, 0xef, 0x00, 0x01] = "deadbeef0001" ∧
    HardwareAddr.MarshalJSON [0xde, 0xad, 0xbe, 0xef, 0x00, 0x01] = "\"de:ad:be:ef:00:01\"" := by
  obtain ⟨a, b, c, d, e, f, rfl⟩ := length_six m h
  have hs : (HardwareAddr.String [a, b, c, d, e, f]).data =
      [hexDigit (a.val / 16), hexDigit (a.val % 16), ':',
       hexDigit (b.val / 16), hexDigit (b.val % 16), ':',
       hexDigit (c.val / 16), hexDigit (c.val % 16), ':',
       hexDigit (d.val / 16), hexDigit (d.val % 16), ':',
       hexDigit (e.val / 16), hexDigit (e.val % 16), ':',
       hexDigit (f.val / 16), hexDigit (f.val % 16)] := rfl
  have hx : (HardwareAddr.HexString [a, b, c, d, e, f]).data =
      [hexDigit (a.val / 16), hexDigit (a.val % 16),
       hexDigit (b.val / 16), hexDigit (b.val % 16),
       hexDigit (c.val / 16), hexDigit (c.val % 16),
       hexDigit (d.val / 16), hexDigit (d.val % 16),
       hexDigit (e.val / 16), hexDigit (e.val % 16),
       hexDigit (f.val / 16), hexDigit (f.val % 16)] := rfl
  refine ⟨?_, ⟨a, b, c, d, e, f, rfl, rfl⟩, ?_, ?_, ?_, hexEncode_mem _, ?_, rfl,
    by decide, by decide, by decide⟩
  · show (HardwareAddr.String [a, b, c, d, e, f]).data.length = 17
    rw [hs]
    rfl
  · intro i hi
    rw [hs]
    interval_cases i <;> simp [hexDigit_ne_colon]
  · rw [hs, hx]
    simp [List.filter_cons, hexDigit_ne_colon]
  · show (HardwareAddr.HexString [a, b, c, d, e, f]).data.length = 12
    rw [hx]
    rfl
  · exact hexDecode_hexEncode [a, b, c, d, e, f]

/-- C16 (witness). The address be ef 0a 01 02 03. -/
theorem HardwareAddr_text_witness :
    ([0xbe, 0xef, 0x0a, 0x01, 0x02, 0x03] : HardwareAddr).length = 6 ∧
    HardwareAddr.String [0xbe, 0xef, 0x0a, 0x01, 0x02, 0x03] = "be:ef:0a:01:02:03" ∧
    (HardwareAddr.String [0xbe, 0xef, 0x0a, 0x01, 0x02, 0x03]).length = 17 ∧
    hexDecode (HardwareAddr.HexString [0xbe, 0xef, 0x0a, 0x01, 0x02, 0x03]).data
      = .ok [0xbe, 0xef, 0x0a, 0x01, 0x02, 0x03] :=
  ⟨by decide, by decide,
    (HardwareAddr_text [0xbe, 0xef, 0x0a, 0x01, 0x02, 0x03] (by decide)).1,
    (HardwareAddr_text [0xbe, 0xef, 0x0a, 0x01, 0x02, 0x03] (by decide)).2.2.2.2.2.2.1⟩

/-! ## Lemmas: `computeMacFromIp` and the JSON documents of the request -/

theorem computeMacFromIp_of_parsed (ParseIP : Str → Option Bytes) (ip : Str) (pre : Bytes)
    (w x y z : Byte) (h : ParseIP ip = some (pre ++ [w, x, y, z])) :
    computeMacFromIp ParseIP ip = .ok (some [0xBE, 0xEF, w, x, y, z]) := by
  have hl : ¬ (pre ++ [w, x, y, z]).length < 4 := by simp
  have hd : (pre ++ [w, x, y, z]).drop ((pre ++ [w, x, y, z]).length - 4) = [w, x, y, z] := by
    have : (pre ++ [w, x, y, z]).length - 4 = pre.length := by simp
    rw [this, List.drop_left]
  simp only [computeMacFromIp, h, hl, if_false, hd]
  rfl

/-- C17. For every dotted quad `a.b.c.d` for which `net.ParseIP` returns the address
in its 16-byte form, as it is documented to, `computeMacFromIp` returns the six
bytes BE EF a b c d, a valid hardware address; it returns nil for every text on
which `net.ParseIP` returns nil, which is what it does on a text that is no IP
address.  Whatever 16 bytes `net.ParseIP` returns, the address is BE EF followed by
the last four of them. -/
theorem computeMacFromIp_spec (ParseIP : Str → Option Bytes) (ip : Str) (a b c d : Byte) :
    (ParseIP (dottedQuad a b c d) = some (IPv4 a b c d) →
      computeMacFromIp ParseIP (dottedQuad a b c d) = .ok (some [0xBE, 0xEF, a, b, c, d]) ∧
      HardwareAddr.IsValid [0xBE, 0xEF, a, b, c, d] = true ∧
      (HardwareAddr.String [0xBE, 0xEF, a, b, c, d]).data
        = "be:ef:".data ++ hexByte a ++ ':' :: hexByte b ++ ':' :: hexByte c ++ ':' :: hexByte d) ∧
    (ParseIP ip = none → computeMacFromIp ParseIP ip = .ok none) ∧
    (∀ ipObject, ParseIP ip = some ipObject → ipObject.length = 16 →
      ∃ w x y z, ipObject.drop 12 = [w, x, y, z] ∧
        computeMacFromIp ParseIP ip = .ok (some [0xBE, 0xEF, w, x, y, z])) := by
  refine ⟨fun h => ⟨?_, rfl, rfl⟩, fun h => ?_, fun ipObject h hl => ?_⟩
  · exact computeMacFromIp_of_parsed ParseIP _ [0, 0, 0, 0, 0, 0, 0, 0, 0, 0, 0xff, 0xff]
      a b c d h
  · simp only [computeMacFromIp, h]
  · obtain ⟨a0, a1, a2, a3, a4, a5, a6, a7, a8, a9, a10, a11, a12, a13, a14, a15, rfl⟩ :=
      length_sixteen ipObject hl
    exact ⟨a12, a13, a14, a15, rfl,
      computeMacFromIp_of_parsed ParseIP ip [a0, a1, a2, a3, a4, a5, a6, a7, a8, a9, a10, a11]
        a12 a13 a14 a15 h⟩

/-- C17 (witness). The reference parser on `10.1.2.3`, and on a text that is no
address. -/
theorem computeMacFromIp_spec_witness :
    dottedQuad 10 1 2 3 = "10.1.2.3" ∧
    refParseIP (dottedQuad 10 1 2 3) = some (IPv4 10 1 2 3) ∧
    computeMacFromIp refParseIP (dottedQuad 10 1 2 3)
      = .ok (some [0xBE, 0xEF, 0x0a, 0x01, 0x02, 0x03]) ∧
    HardwareAddr.IsValid [0xBE, 0xEF, 0x0a, 0x01, 0x02, 0x03] = true ∧
    HardwareAddr.String [0xBE, 0xEF, 0x0a, 0x01, 0x02, 0x03] = "be:ef:0a:01:02:03" ∧
    refParseIP "gateway" = none ∧ computeMacFromIp refParseIP "gateway" = .ok none :=
  ⟨by decide, by decide,
    ((computeMacFromIp_spec refParseIP "gateway" 10 1 2 3).1 (by decide)).1,
    ((computeMacFromIp_spec refParseIP "gateway" 10 1 2 3).1 (by decide)).2.1,
    by decide, by decide,
    (computeMacFromIp_spec refParseIP "gateway" 10 1 2 3).2.1 (by decide)⟩

/-- C18. For every `NetworkConfig` of type `dhcp` or `disabled`, `MarshalJSON`
succeeds and the object it emits has the member `type` and, when the interface name
is not empty, the member `ifname`, and no other, whatever the values of ip, netmask,
gateway, dns1 and dns2: two configurations of the same type and interface name give
the same document.  The configuration of type `dhcp` on `eth0` is rendered
`\x7b"type":"dhcp","ifname":"eth0"\x7d`. -/
theorem NetworkConfig_dhcp_disabled (n n2 : NetworkConfig)
    (h : n.Type_ = "dhcp" ∨ n.Type_ = "disabled") :
    n.MarshalJSON = .ok (.obj (("type", JSON.str n.Type_) ::
      (if n.IfName = "" then [] else [("ifname", JSON.str n.IfName)]))) ∧
    (n2.Type_ = n.Type_ → n2.IfName = n.IfName → n2.MarshalJSON = n.MarshalJSON) ∧
    (NetworkConfig.MarshalJSON ⟨"dhcp", "", "", "", "", "", "eth0"⟩).map refPrimitives.jsonMarshal
      = .ok ("\x7b\"type\":\"dhcp\",\"ifname\":\"eth0\"\x7d".data.map charByte) := by
  have key : ∀ m : NetworkConfig, (m.Type_ = "dhcp" ∨ m.Type_ = "disabled") →
      m.MarshalJSON = .ok (.obj (("type", JSON.str m.Type_) ::
        (if m.IfName = "" then [] else [("ifname", JSON.str m.IfName)]))) := by
    intro m hm
    have hne : m.Type_ ≠ "" := by
      rcases hm with hm | hm <;> rw [hm] <;> decide
    have hc : m.Type_ = NetworkConfigDhcp ∨ m.Type_ = NetworkConfigDisabled := hm
    simp only [NetworkConfig.MarshalJSON, hc, if_true, omitEmptyStr, hne, if_false,
      List.singleton_append]
  refine ⟨key n h, fun h1 h2 => ?_, by decide⟩
  rw [key n h, key n2 (by rw [h1]; exact h), h1, h2]

/-- C18 (witness). A `disabled` configuration with an address and no interface
name. -/
theorem NetworkConfig_dhcp_disabled_witness :
    ((⟨"disabled", "1.2.3.4", "255.0.0.0", "1.1.1.1", "8.8.8.8", "", ""⟩ : NetworkConfig).Type_
        = "dhcp" ∨
      (⟨"disabled", "1.2.3.4", "255.0.0.0", "1.1.1.1", "8.8.8.8", "", ""⟩ : NetworkConfig).Type_
        = "disabled") ∧
    NetworkConfig.MarshalJSON ⟨"disabled", "1.2.3.4", "255.0.0.0", "1.1.1.1", "8.8.8.8", "", ""⟩
      = .ok (.obj [("type", JSON.str "disabled")]) :=
  ⟨Or.inr rfl,
    (NetworkConfig_dhcp_disabled ⟨"disabled", "1.2.3.4", "255.0.0.0", "1.1.1.1", "8.8.8.8", "", ""⟩
      ⟨"disabled", "", "", "", "", "", ""⟩ (Or.inr rfl)).1⟩

/-- `NetworkConfig.MarshalJSON` on the type `static`: the three checks in order,
then the full tuple. -/
theorem MarshalJSON_static (n : NetworkConfig) (h : n.Type_ = "static") :
    n.MarshalJSON =
      if n.Ip = "" then .error .invalidIP
      else if n.Netmask = "" then .error .invalidNetmask
      else if n.Gateway = "" then .error .invalidGateway
      else .ok (.obj ([("type", JSON.str "static"), ("ip", JSON.str n.Ip),
        ("netmask", JSON.str n.Netmask), ("gateway", JSON.str n.Gateway)]
        ++ (if n.Dns1 = "" then [] else [("dns1", JSON.str n.Dns1)])
        ++ (if n.Dns2 = "" then [] else [("dns2", JSON.str n.Dns2)])
        ++ (if n.IfName = "" then [] else [("ifname", JSON.str n.IfName)]))) := by
  obtain ⟨t, ip, nm, gw, d1, d2, ifn⟩ := n
  simp only at h
  subst h
  have h1 : ¬ ("static" = NetworkConfigDhcp ∨ "static" = NetworkConfigDisabled) := by decide
  have h2 : "static" = NetworkConfigStatic := rfl
  unfold NetworkConfig.MarshalJSON
  simp only []
  rw [if_neg h1, if_pos h2]
  by_cases hi : ip = ""
  · rw [if_pos hi, if_pos hi]
  · rw [if_neg hi, if_neg hi]
    by_cases hn : nm = ""
    · rw [if_pos hn, if_pos hn]
    · rw [if_neg hn, if_neg hn]
      by_cases hg : gw = ""
      · rw [if_pos hg, if_pos hg]
      · rw [if_neg hg, if_neg hg]
        simp [omitEmptyStr, hi, hn, hg]

/-- C19. For every `NetworkConfig` of type `static`, `MarshalJSON` returns an error
if and only if one of ip, netmask, gateway is empty (the error of the first empty
one, in that order); otherwise it emits the object with the members type, ip,
netmask, gateway in that order, followed by dns1, dns2 and ifname, each when it is
not empty. -/
theorem NetworkConfig_static (n : NetworkConfig) (h : n.Type_ = "static") :
    ((∃ e, n.MarshalJSON = .error e) ↔ (n.Ip = "" ∨ n.Netmask = "" ∨ n.Gateway = "")) ∧
    (n.Ip = "" → n.MarshalJSON = .error .invalidIP) ∧
    (n.Ip ≠ "" → n.Netmask = "" → n.MarshalJSON = .error .invalidNetmask) ∧
    (n.Ip ≠ "" → n.Netmask ≠ "" → n.Gateway = "" → n.MarshalJSON = .error .invalidGateway) ∧
    (n.Ip ≠ "" → n.Netmask ≠ "" → n.Gateway ≠ "" →
      n.MarshalJSON = .ok (.obj ([("type", JSON.str "static"), ("ip", JSON.str n.Ip),
        ("netmask", JSON.str n.Netmask), ("gateway", JSON.str n.Gateway)]
        ++ (if n.Dns1 = "" then [] else [("dns1", JSON.str n.Dns1)])
        ++ (if n.Dns2 = "" then [] else [("dns2", JSON.str n.Dns2)])
        ++ (if n.IfName = "" then [] else [("ifname", JSON.str n.IfName)])))) := by
  have heq := MarshalJSON_static n h
  refine ⟨?_, ?_, ?_, ?_, ?_⟩
  · rw [heq]
    by_cases hi : n.Ip = ""
    · simp [hi]
    · by_cases hn : n.Netmask = ""
      · simp [hi, hn]
      · by_cases hg : n.Gateway = ""
        · simp [hi, hn, hg]
        · simp [hi, hn, hg]
  · intro hi
    rw [heq, if_pos hi]
  · intro hi hn
    rw [heq, if_neg hi, if_pos hn]
  · intro hi hn hg
    rw [heq, if_neg hi, if_neg hn, if_pos hg]
  · intro hi hn hg
    rw [heq, if_neg hi, if_neg hn, if_neg hg]

/-- C19 (witness). A static configuration with address, netmask, gateway and one
name server, and the one of the sample `Inform`, which has an address only. -/
theorem NetworkConfig_static_witness :
    (⟨"static", "1.2.3.4", "255.255.255.0", "1.2.3.1", "", "9.9.9.9", "eth0"⟩
      : NetworkConfig).Type_ = "static" ∧
    NetworkConfig.MarshalJSON ⟨"static", "1.2.3.4", "255.255.255.0", "1.2.3.1", "", "9.9.9.9", "eth0"⟩
      = .ok (.obj [("type", JSON.str "static"), ("ip", JSON.str "1.2.3.4"),
        ("netmask", JSON.str "255.255.255.0"), ("gateway", JSON.str "1.2.3.1"),
        ("dns2", JSON.str "9.9.9.9"), ("ifname", JSON.str "eth0")]) ∧
    sampleInform.ConfigNetworkWan.Type_ = "static" ∧
    sampleInform.ConfigNetworkWan.Ip ≠ "" ∧ sampleInform.ConfigNetworkWan.Netmask = "" ∧
    sampleInform.ConfigNetworkWan.MarshalJSON = .error .invalidNetmask ∧
    ((∃ e, sampleInform.ConfigNetworkWan.MarshalJSON = .error e) ↔
      (sampleInform.ConfigNetworkWan.Ip = "" ∨ sampleInform.ConfigNetworkWan.Netmask = "" ∨
        sampleInform.ConfigNetworkWan.Gateway = "")) :=
  ⟨rfl,
    (NetworkConfig_static ⟨"static", "1.2.3.4", "255.255.255.0", "1.2.3.1", "", "9.9.9.9", "eth0"⟩
      rfl).2.2.2.2 (by decide) (by decide) (by decide),
    rfl, by decide, rfl,
    (NetworkConfig_static sampleInform.ConfigNetworkWan rfl).2.2.1 (by decide) rfl,
    (NetworkConfig_static sampleInform.ConfigNetworkWan rfl).1⟩

/-! ## Lemmas: an `Inform` that does not serialise -/

theorem MarshalJSON_static_error (n : NetworkConfig) (h : n.Type_ = "static")
    (he : n.Ip = "" ∨ n.Netmask = "" ∨ n.Gateway = "") : ∃ e, n.MarshalJSON = .error e := by
  rw [MarshalJSON_static n h]
  by_cases hi : n.Ip = ""
  · exact ⟨_, if_pos hi⟩
  · rw [if_neg hi]
    by_cases hn : n.Netmask = ""
    · exact ⟨_, if_pos hn⟩
    · rw [if_neg hn]
      by_cases hg : n.Gateway = ""
      · exact ⟨_, if_pos hg⟩
      · rcases he with he | he | he
        · exact absurd he hi
        · exact absurd he hn
        · exact absurd he hg

/-- `json.MarshalIndent` fails on an `Inform` one of whose WAN configurations fails
to serialise, and `Inform.Marshal` then returns nil. -/
theorem Inform_Marshal_nil (P : Primitives) (r : Inform)
    (h : (∃ e, r.ConfigNetworkWan.MarshalJSON = .error e) ∨
      (∃ e, r.ConfigNetworkWan2.MarshalJSON = .error e)) :
    (∃ e, r.toJSON = .error e) ∧ (Message.inform r).Marshal P = [] := by
  have h1 : ∃ e, r.toJSON = .error e := by
    unfold Inform.toJSON
    cases hw : r.ConfigNetworkWan.MarshalJSON with
    | error e => exact ⟨e, rfl⟩
    | ok wan =>
      cases hw2 : r.ConfigNetworkWan2.MarshalJSON with
      | error e => exact ⟨e, rfl⟩
      | ok wan2 =>
        rcases h with ⟨e, he⟩ | ⟨e, he⟩
        · rw [hw] at he; exact absurd he (by simp)
        · rw [hw2] at he; exact absurd he (by simp)
  obtain ⟨e, he⟩ := h1
  exact ⟨⟨e, he⟩, by simp only [Message.Marshal, he]⟩

/-- `Packet.Marshal` succeeds on a packet built by `NewPacket` with a 6-byte MAC,
no key or a 16-byte key, and a successful IV generation when there is a key. -/
theorem NewPacket_Marshal_ok (P : Primitives) (ap : HardwareAddr) (msg : Message) (k : Key)
    (mode : Int) (rnd : RandRead) (h6 : ap.length = 6) (hk : k = none ∨ k.len = 16)
    (hiv : k ≠ none → ∃ iv, GenerateIV rnd = .ok iv) :
    ∃ out, (NewPacket ap msg k mode).Marshal P rnd = .ok out := by
  have hc := NewPacket_compress P ap msg k mode (msg.Marshal P)
  have hf := NewPacket_flags_eq ap msg k mode
  obtain ⟨hap, hkey, hmsg, hmode⟩ := NewPacket_fields ap msg k mode
  by_cases hkn : k = none
  · rw [if_pos hkn] at hf
    have hE := (flags_four _ hf).1
    have hIV : (NewPacket ap msg k mode).marshalIV rnd = .ok NilIv := by
      simp [Packet.marshalIV, hE]
    rw [Marshal_eq P _ rnd msg _ NilIv hmsg hc hIV (by rw [hap]; exact h6)]
    simp [hE]
  · obtain ⟨iv, hg⟩ := hiv hkn
    have hk16 : k.len = 16 := by
      rcases hk with h | h
      · exact absurd h hkn
      · exact h
    have hl := GenerateIV_length rnd iv hg
    rw [if_neg hkn] at hf
    have hE : (NewPacket ap msg k mode).IsEncrypted = true := by
      by_cases hm : mode = GCM
      · rw [if_pos hm] at hf; exact (flags_thirteen _ hf).1
      · rw [if_neg hm] at hf; exact (flags_five _ hf).1
    have hIV : (NewPacket ap msg k mode).marshalIV rnd = .ok iv := by
      simp [Packet.marshalIV, hE, hg]
    rw [Marshal_eq P _ rnd msg _ iv hmsg hc hIV (by rw [hap]; exact h6)]
    simp only [hE, if_true, hmode, hkey]
    cases hG : (NewPacket ap msg k mode).IsGcmEncrypted with
    | true =>
      obtain ⟨enc, henc⟩ := Encrypt_ok P mode iv k (P.snappyEncode (msg.Marshal P))
        ((NewPacket ap msg k mode).headerBytes iv
          (uint32 ((P.snappyEncode (msg.Marshal P)).length + 16))) hl hk16
      simp [henc]
    | false =>
      obtain ⟨enc, henc⟩ := Encrypt_ok P mode iv k (P.snappyEncode (msg.Marshal P))
        ((NewPacket ap msg k mode).headerBytes iv 0) hl hk16
      simp [henc]

/-- C20 (counterexample). The sample `Inform` has a static WAN configuration without
netmask and gateway; `Packet.Marshal` on it, with the default key in GCM mode,
returns no error but 56 bytes: a header and the sealed empty text. -/
theorem invalid_config_counterexample :
    sampleInform.ConfigNetworkWan.Type_ = "static" ∧
    sampleInform.ConfigNetworkWan.Netmask = "" ∧
    (NewPacket sampleMac (.inform sampleInform) DefaultKey GCM).Marshal refPrimitives sampleRand
      = .ok [84, 78, 66, 85, 0, 0, 0, 0, 222, 173, 190, 239, 0, 1, 0, 13,
          1, 2, 3, 4, 5, 6, 7, 8, 9, 10, 11, 12, 13, 14, 15, 16, 0, 0, 0, 1, 0, 0, 0, 16,
          163, 163, 163, 163, 163, 163, 163, 163, 163, 163, 163, 163, 163, 163, 163, 163] := by
  decide

/-- C20 (amended). For every `Inform` whose `config_network_wan` or
`config_network_wan2` is of type `static` with an empty ip, netmask or gateway,
`json.MarshalIndent` fails and `Inform.Marshal` drops the error and returns nil;
`Packet.Marshal` on the packet `NewPacket` builds for it (6-byte MAC, no key or a
16-byte key, the IV generated when there is a key) returns no error but bytes: the
40-byte header followed by the Snappy compression of the empty text, encrypted when
there is a key. -/
theorem invalid_config_packet (P : Primitives) (r : Inform) (ap : HardwareAddr) (k : Key)
    (mode : Int) (rnd : RandRead)
    (hcfg : (r.ConfigNetworkWan.Type_ = "static" ∧ (r.ConfigNetworkWan.Ip = "" ∨
        r.ConfigNetworkWan.Netmask = "" ∨ r.ConfigNetworkWan.Gateway = "")) ∨
      (r.ConfigNetworkWan2.Type_ = "static" ∧ (r.ConfigNetworkWan2.Ip = "" ∨
        r.ConfigNetworkWan2.Netmask = "" ∨ r.ConfigNetworkWan2.Gateway = "")))
    (h6 : ap.length = 6) (hk : k = none ∨ k.len = 16)
    (hiv : k ≠ none → ∃ iv, GenerateIV rnd = .ok iv) :
    (∃ e, r.toJSON = .error e) ∧ (Message.inform r).Marshal P = [] ∧
    ∃ out, (NewPacket ap (.inform r) k mode).Marshal P rnd = .ok out ∧ 40 ≤ out.length ∧
      (k = none → out.drop 40 = P.snappyEncode []) ∧
      (k ≠ none → ∃ iv aad, GenerateIV rnd = .ok iv ∧
        Encrypt P mode iv k (P.snappyEncode []) aad = .ok (out.drop 40)) := by
  have herr : (∃ e, r.ConfigNetworkWan.MarshalJSON = .error e) ∨
      (∃ e, r.ConfigNetworkWan2.MarshalJSON = .error e) := by
    rcases hcfg with ⟨h1, h2⟩ | ⟨h1, h2⟩
    · exact Or.inl (MarshalJSON_static_error _ h1 h2)
    · exact Or.inr (MarshalJSON_static_error _ h1 h2)
  obtain ⟨hj, hnil⟩ := Inform_Marshal_nil P r herr
  obtain ⟨out, hout⟩ := NewPacket_Marshal_ok P ap (.inform r) k mode rnd h6 hk hiv
  refine ⟨hj, hnil, out, hout, ?_⟩
  obtain ⟨hap, hkey, hmsg, hmode⟩ := NewPacket_fields ap (.inform r) k mode
  obtain ⟨m, cmsg, iv, hm, hc, hIV, hl, hap6, hlay⟩ := Marshal_ok P _ rnd out hout
  have hmm : m = .inform r := by
    rw [hmsg] at hm
    exact (Option.some.inj hm).symm
  subst hmm
  rw [hnil, NewPacket_compress] at hc
  have hcm : cmsg = P.snappyEncode [] := (Except.ok.inj hc).symm
  subst hcm
  have hf := NewPacket_flags_eq ap (.inform r) k mode
  have hdrop : ∀ n payload, ((NewPacket ap (.inform r) k mode).headerBytes iv n ++ payload).drop 40
      = payload := fun n payload =>
    List.drop_left' (headerBytes_length _ iv n hap6 hl)
  have hlen : ∀ n payload, 40 ≤
      ((NewPacket ap (.inform r) k mode).headerBytes iv n ++ payload).length := by
    intro n payload
    rw [List.length_append, headerBytes_length _ iv n hap6 hl]
    omega
  by_cases hkn : k = none
  · rw [if_pos hkn] at hf
    have hE := (flags_four _ hf).1
    rcases hlay with ⟨_, ho⟩ | ⟨he, _⟩ | ⟨he, _⟩
    · subst ho
      exact ⟨hlen _ _, fun _ => hdrop _ _, fun h => absurd hkn h⟩
    · rw [hE] at he; exact absurd he (by simp)
    · rw [hE] at he; exact absurd he (by simp)
  · rw [if_neg hkn] at hf
    have hE : (NewPacket ap (.inform r) k mode).IsEncrypted = true := by
      by_cases hm : mode = GCM
      · rw [if_pos hm] at hf; exact (flags_thirteen _ hf).1
      · rw [if_neg hm] at hf; exact (flags_five _ hf).1
    have hg : GenerateIV rnd = .ok iv := by
      simpa [Packet.marshalIV, hE] using hIV
    rcases hlay with ⟨he, _⟩ | ⟨_, _, enc, henc, ho⟩ | ⟨_, _, enc, henc, ho⟩
    · rw [hE] at he; exact absurd he (by simp)
    · subst ho
      refine ⟨hlen _ _, fun h => absurd h hkn, fun _ => ⟨iv,
        (NewPacket ap (.inform r) k mode).headerBytes iv
          (uint32 ((P.snappyEncode []).length + 16)), hg, ?_⟩⟩
      rw [hdrop, ← henc, hmode, hkey]
    · subst ho
      refine ⟨hlen _ _, fun h => absurd h hkn, fun _ => ⟨iv,
        (NewPacket ap (.inform r) k mode).headerBytes iv 0, hg, ?_⟩⟩
      rw [hdrop, ← henc, hmode, hkey]

/-- C20 (witness). The sample `Inform` with the default key in CBC mode. -/
theorem invalid_config_packet_witness :
    ((sampleInform.ConfigNetworkWan.Type_ = "static" ∧ (sampleInform.ConfigNetworkWan.Ip = "" ∨
        sampleInform.ConfigNetworkWan.Netmask = "" ∨
        sampleInform.ConfigNetworkWan.Gateway = "")) ∨
      (sampleInform.ConfigNetworkWan2.Type_ = "static" ∧
        (sampleInform.ConfigNetworkWan2.Ip = "" ∨ sampleInform.ConfigNetworkWan2.Netmask = "" ∨
          sampleInform.ConfigNetworkWan2.Gateway = ""))) ∧
    sampleMac.length = 6 ∧ (DefaultKey = none ∨ DefaultKey.len = 16) ∧
    (DefaultKey ≠ none → ∃ iv, GenerateIV sampleRand = .ok iv) ∧
    (∃ e, sampleInform.toJSON = .error e) ∧
    (Message.inform sampleInform).Marshal refPrimitives = [] ∧
    ∃ out, (NewPacket sampleMac (.inform sampleInform) DefaultKey CBC).Marshal refPrimitives
        sampleRand = .ok out ∧ 40 ≤ out.length ∧
      (DefaultKey = none → out.drop 40 = refPrimitives.snappyEncode []) ∧
      (DefaultKey ≠ none → ∃ iv aad, GenerateIV sampleRand = .ok iv ∧
        Encrypt refPrimitives CBC iv DefaultKey (refPrimitives.snappyEncode []) aad
          = .ok (out.drop 40)) :=
  ⟨Or.inl ⟨rfl, Or.inr (Or.inl rfl)⟩, by decide, Or.inr (by decide), fun _ => ⟨_, rfl⟩,
    invalid_config_packet refPrimitives sampleInform sampleMac DefaultKey CBC sampleRand
      (Or.inl ⟨rfl, Or.inr (Or.inl rfl)⟩) (by decide) (Or.inr (by decide))
      (fun _ => ⟨_, rfl⟩)⟩

/-! ## Lemmas: the version fields of the request -/

theorem ifaceStep_version (r : Inform) (i : Interface) :
    (Request.ifaceStep r i).Default = r.Default ∧
    (Request.ifaceStep r i).ConfigVersion = r.ConfigVersion := by
  unfold Request.ifaceStep
  simp only []
  split
  · split <;> exact ⟨rfl, rfl⟩
  · exact ⟨rfl, rfl⟩

theorem foldl_ifaceStep_version (l : List Interface) (r : Inform) :
    (l.foldl Request.ifaceStep r).Default = r.Default ∧
    (l.foldl Request.ifaceStep r).ConfigVersion = r.ConfigVersion := by
  induction l generalizing r with
  | nil => exact ⟨rfl, rfl⟩
  | cons i rest ih =>
    rw [List.foldl_cons]
    obtain ⟨h1, h2⟩ := ih (Request.ifaceStep r i)
    obtain ⟨h3, h4⟩ := ifaceStep_version r i
    exact ⟨h1.trans h3, h2.trans h4⟩

theorem initialInform_version (now : Int) (address v : Str) :
    ((initialInform now address v).Default = true ↔ (v = "" ∨ v = "0123456789abcdef")) ∧
    (initialInform now address v).ConfigVersion = v := by
  refine ⟨?_, rfl⟩
  show (v.length == 0 || v == "0123456789abcdef") = true ↔ _
  rw [Bool.or_eq_true, beq_iff_eq, beq_iff_eq]
  constructor
  · rintro (h | h)
    · left
      exact String.ext (List.length_eq_zero.mp h)
    · exact Or.inr h
  · rintro (h | h)
    · left; rw [h]; rfl
    · exact Or.inr h

theorem Request_startStep_version (env : HostEnv) (address v : Str) :
    (Request.startStep env address v).Default = (initialInform env.now address v).Default ∧
    (Request.startStep env address v).ConfigVersion = v := by
  unfold Request.startStep Request.hostStep
  cases env.hostInfo <;> exact ⟨rfl, rfl⟩

theorem networkStep_version (env : HostEnv) (r : Inform) :
    (Request.networkStep env r).Default = r.Default ∧
    (Request.networkStep env r).ConfigVersion = r.ConfigVersion := by
  unfold Request.networkStep
  cases env.network with
  | error e => exact ⟨rfl, rfl⟩
  | ok ifaces =>
    simp only []
    exact ⟨(foldl_ifaceStep_version _ _).1, (foldl_ifaceStep_version _ _).2⟩

theorem Request_version (env : HostEnv) (address v : Str) :
    (Request env address v).1.Default = (initialInform env.now address v).Default ∧
    (Request env address v).1.ConfigVersion = v := by
  obtain ⟨h1, h2⟩ := Request_startStep_version env address v
  obtain ⟨h3, h4⟩ := networkStep_version env (Request.startStep env address v)
  unfold Request
  cases env.sysStats with
  | none => exact ⟨h3.trans h1, h4.trans h2⟩
  | some sys => exact ⟨h3.trans h1, h4.trans h2⟩

theorem wanStep_version (env : HostEnv) (pfsense : pfconf.Configuration)
    (speedtest : Option SpeedTestStatus) (table : PfSenseTranslation) (r : Inform) :
    (RequestFromPfsense.wanStep env pfsense speedtest table r).Default = r.Default ∧
    (RequestFromPfsense.wanStep env pfsense speedtest table r).ConfigVersion
      = r.ConfigVersion := by
  unfold RequestFromPfsense.wanStep
  simp only []
  split
  · split <;> exact ⟨rfl, rfl⟩
  · exact ⟨rfl, rfl⟩

theorem wan2Step_version (pfsense : pfconf.Configuration) (table : PfSenseTranslation)
    (r : Inform) :
    (RequestFromPfsense.wan2Step pfsense table r).Default = r.Default ∧
    (RequestFromPfsense.wan2Step pfsense table r).ConfigVersion = r.ConfigVersion := by
  unfold RequestFromPfsense.wan2Step
  simp only []
  split
  · split <;> exact ⟨rfl, rfl⟩
  · exact ⟨rfl, rfl⟩

theorem lanStep_version (table : PfSenseTranslation) (r : Inform) :
    (RequestFromPfsense.lanStep table r).Default = r.Default ∧
    (RequestFromPfsense.lanStep table r).ConfigVersion = r.ConfigVersion := by
  unfold RequestFromPfsense.lanStep
  simp only []
  split <;> exact ⟨rfl, rfl⟩

theorem uidStep_version (env : HostEnv) (table : PfSenseTranslation) (r r2 : Inform)
    (h : RequestFromPfsense.uidStep env table r = .ok r2) :
    r2.Default = r.Default ∧ r2.ConfigVersion = r.ConfigVersion := by
  unfold RequestFromPfsense.uidStep at h
  split at h
  · split at h
    · exact absurd h (by simp)
    · rw [← Except.ok.inj h]
      exact ⟨rfl, rfl⟩
  · rw [← Except.ok.inj h]
    exact ⟨rfl, rfl⟩

theorem pfsense_startStep_version (env : HostEnv) (address v : Str)
    (speedtest : Option SpeedTestStatus) :
    (RequestFromPfsense.startStep env address v speedtest).Default
      = (initialInform env.now address v).Default ∧
    (RequestFromPfsense.startStep env address v speedtest).ConfigVersion = v := by
  unfold RequestFromPfsense.startStep RequestFromPfsense.hostStep
  cases env.sysStats <;> cases speedtest <;> cases env.hostInfo <;> exact ⟨rfl, rfl⟩

theorem RequestFromPfsense_version (env : HostEnv) (address v : Str)
    (pfsense : pfconf.Configuration) (translation : PfSenseTranslationTable)
    (speedtest : Option SpeedTestStatus) (r : Inform) (e : Option Error)
    (h : RequestFromPfsense env address v pfsense translation speedtest = .ok (r, e)) :
    r.Default = (initialInform env.now address v).Default ∧ r.ConfigVersion = v := by
  obtain ⟨hs1, hs2⟩ := pfsense_startStep_version env address v speedtest
  unfold RequestFromPfsense at h
  generalize RequestFromPfsense.startStep env address v speedtest = r0 at h hs1 hs2
  cases hn : env.network with
  | error err =>
    rw [hn] at h
    simp only [Except.ok.injEq, Prod.mk.injEq] at h
    rw [← h.1]
    exact ⟨hs1, hs2⟩
  | ok ifaces =>
    rw [hn] at h
    simp only [] at h
    split at h
    · exact absurd h (by simp)
    · rename_i r2 hu
      simp only [Except.ok.injEq, Prod.mk.injEq] at h
      rw [← h.1]
      obtain ⟨h1, h2⟩ := uidStep_version _ _ _ _ hu
      rw [h1, h2, (lanStep_version _ _).1, (lanStep_version _ _).2,
        (wan2Step_version _ _ _).1, (wan2Step_version _ _ _).2,
        (wanStep_version _ _ _ _ _).1, (wanStep_version _ _ _ _ _).2]
      exact ⟨hs1, hs2⟩

/-- C21. In the `Inform` built by `Request`, and in the one `RequestFromPfsense`
returns, for a version text `v`: `default` is true if and only if `v` is empty or
`0123456789abcdef`, and `cfgversion` is `v`.  The version of the tick is the
persisted one when that is not empty and `0123456789abcdef` otherwise, so it is never
empty; and in the `Inform` of the tick, whichever builder made it, `cfgversion` is
that version and `default` is true exactly when the persisted version is empty or
`0123456789abcdef`. -/
theorem default_flag (env : HostEnv) (address v : Str) (pfsense : pfconf.Configuration)
    (translation : PfSenseTranslationTable) (speedtest : Option SpeedTestStatus) (svc : Config) :
    (((Request env address v).1.Default = true ↔ (v = "" ∨ v = "0123456789abcdef")) ∧
      (Request env address v).1.ConfigVersion = v) ∧
    (∀ r e, RequestFromPfsense env address v pfsense translation speedtest = .ok (r, e) →
      (r.Default = true ↔ (v = "" ∨ v = "0123456789abcdef")) ∧ r.ConfigVersion = v) ∧
    (informTick.configVersion svc ≠ "" ∧
      (svc.Management.Version ≠ "" → informTick.configVersion svc = svc.Management.Version) ∧
      (svc.Management.Version = "" → informTick.configVersion svc = "0123456789abcdef")) ∧
    (∀ r e, informTick.request env svc = .ok (r, e) →
      r.ConfigVersion = informTick.configVersion svc ∧ r.ConfigVersion ≠ "" ∧
      (r.Default = true ↔
        (svc.Management.Version = "" ∨ svc.Management.Version = "0123456789abcdef"))) := by
  have hinit := fun w => initialInform_version env.now address w
  have hcv : informTick.configVersion svc ≠ "" ∧
      (svc.Management.Version ≠ "" → informTick.configVersion svc = svc.Management.Version) ∧
      (svc.Management.Version = "" → informTick.configVersion svc = "0123456789abcdef") := by
    unfold informTick.configVersion
    by_cases hv : svc.Management.Version = ""
    · rw [hv]
      exact ⟨by decide, fun h => absurd rfl h, fun _ => rfl⟩
    · have hl : svc.Management.Version.length > 0 := by
        rcases hl0 : svc.Management.Version.length with _ | n
        · exact absurd (String.ext (List.length_eq_zero.mp hl0)) hv
        · omega
      rw [if_pos hl]
      exact ⟨hv, fun _ => rfl, fun h => absurd h hv⟩
  have hdef : ((informTick.configVersion svc = "" ∨
      informTick.configVersion svc = "0123456789abcdef") ↔
      (svc.Management.Version = "" ∨ svc.Management.Version = "0123456789abcdef")) := by
    by_cases hv : svc.Management.Version = ""
    · rw [hcv.2.2 hv]
      simp [hv]
    · rw [hcv.2.1 hv]
  refine ⟨?_, ?_, hcv, ?_⟩
  · obtain ⟨h1, h2⟩ := Request_version env address v
    exact ⟨by rw [h1]; exact (hinit v).1, h2⟩
  · intro r e h
    obtain ⟨h1, h2⟩ := RequestFromPfsense_version env address v pfsense translation speedtest r e h
    exact ⟨by rw [h1]; exact (hinit v).1, h2⟩
  · intro r e h
    unfold informTick.request at h
    have hfin : r.Default = (initialInform env.now svc.General.Url
        (informTick.configVersion svc)).Default ∧
        r.ConfigVersion = informTick.configVersion svc := by
      split at h
      · split at h
        · exact RequestFromPfsense_version _ _ _ _ _ _ r e h
        · exact absurd h (by simp)
      · have h0 := Except.ok.inj h
        have h1 := Request_version env svc.General.Url (informTick.configVersion svc)
        rw [h0] at h1
        exact h1
    refine ⟨hfin.2, by rw [hfin.2]; exact hcv.1, ?_⟩
    rw [hfin.1, (initialInform_version env.now svc.General.Url _).1]
    exact hdef

/-- C21 (witness). The sample host and configuration, whose persisted version is
`a1b2c3`: the tick sends that version and `default` is false. -/
theorem default_flag_witness :
    informTick.request sampleEnv sampleConfig
      = .ok (Request sampleEnv "http://unifi:8080/inform" "a1b2c3") ∧
    (Request sampleEnv "http://unifi:8080/inform" "a1b2c3").1.ConfigVersion = "a1b2c3" ∧
    (Request sampleEnv "http://unifi:8080/inform" "a1b2c3").1.ConfigVersion ≠ "" ∧
    ((Request sampleEnv "http://unifi:8080/inform" "a1b2c3").1.Default = true ↔
      (sampleConfig.Management.Version = "" ∨
        sampleConfig.Management.Version = "0123456789abcdef")) ∧
    (Request sampleEnv "http://unifi:8080/inform" "a1b2c3").1.Default = false :=
  ⟨rfl,
    ((default_flag sampleEnv "" "" ⟨⟨"", "", "", "", none, ""⟩, []⟩ ⟨"", "", "", ""⟩ none
      sampleConfig).2.2.2 _ _ rfl).1,
    ((default_flag sampleEnv "" "" ⟨⟨"", "", "", "", none, ""⟩, []⟩ ⟨"", "", "", ""⟩ none
      sampleConfig).2.2.2 _ _ rfl).2.1,
    ((default_flag sampleEnv "" "" ⟨⟨"", "", "", "", none, ""⟩, []⟩ ⟨"", "", "", ""⟩ none
      sampleConfig).2.2.2 _ _ rfl).2.2,
    rfl⟩

/-! ## Lemmas: the dispatch of `inform.Unmarshal` -/

/-- `inform.Unmarshal` on a text that parses: the three ways it can go. -/
theorem Unmarshal_of_map (P : Primitives) (data : Bytes) (gm : GoMap)
    (hj : P.jsonUnmarshal data = .ok gm) :
    (gm.lookup "_type" = some (.string "setparam") →
      Unmarshal P data = (some (.setParam (SetParam.unmarshalMap ⟨200, [], 0⟩ gm).1),
        (SetParam.unmarshalMap ⟨200, [], 0⟩ gm).2)) ∧
    (gm.lookup "_type" = some (.string "cmd") →
      Unmarshal P data = (some (.cmd (Cmd.unmarshalMap ⟨200, 0, "", false, "", 0, ""⟩ gm).1),
        (Cmd.unmarshalMap ⟨200, 0, "", false, "", 0, ""⟩ gm).2)) ∧
    (gm.lookup "_type" ≠ some (.string "setparam") → gm.lookup "_type" ≠ some (.string "cmd") →
      Unmarshal P data = (some (.noop (Noop.unmarshalMap ⟨200, 0, 0⟩ gm).1),
        (Noop.unmarshalMap ⟨200, 0, 0⟩ gm).2)) := by
  refine ⟨fun h => ?_, fun h => ?_, fun h1 h2 => ?_⟩
  · simp only [Unmarshal, hj, h]
    rfl
  · simp only [Unmarshal, hj, h]
    rfl
  · simp only [Unmarshal, hj]
    rfl

theorem Noop_unmarshalMap_code (n : Noop) (gm : GoMap) : (n.unmarshalMap gm).1.code = n.code := by
  unfold Noop.unmarshalMap
  simp only []
  split
  · split
    · split <;> rfl
    · rfl
  · split
    · split <;> rfl
    · rfl

theorem Cmd_unmarshalEntry_code (c : Cmd) (e : Str × GoVal) : (c.unmarshalEntry e).code = c.code := by
  unfold Cmd.unmarshalEntry
  simp only []
  repeat' split
  all_goals rfl

theorem Cmd_unmarshalMap_code (c : Cmd) (gm : GoMap) : (c.unmarshalMap gm).1.code = c.code := by
  unfold Cmd.unmarshalMap
  simp only []
  induction gm generalizing c with
  | nil => rfl
  | cons e rest ih =>
    rw [List.foldl_cons, ih, Cmd_unmarshalEntry_code]

theorem SetParam_unmarshalEntries_code (gm : GoMap) :
    ∀ s : SetParam, (SetParam.unmarshalEntries s gm).1.code = s.code := by
  induction gm with
  | nil => intro s; rfl
  | cons e rest ih =>
    intro s
    obtain ⟨key, rawValue⟩ := e
    unfold SetParam.unmarshalEntries
    by_cases h1 : key = "mgmt_cfg"
    · rw [if_pos h1]
      cases rawValue <;> simp only [] <;> rw [ih]
    · rw [if_neg h1]
      by_cases h2 : key = "server_time_in_utc"
      · rw [if_pos h2]
        cases rawValue with
        | string m =>
          simp only []
          rcases hA : Atoi m with ⟨v, _ | err⟩
          · simp only []
            rw [ih]
          · rfl
        | int m =>
          simp only []
          rw [ih]
        | _ =>
          simp only []
          rw [ih]
      · rw [if_neg h2, ih]

theorem SetParam_unmarshalMap_code (s : SetParam) (gm : GoMap) :
    (s.unmarshalMap gm).1.code = s.code := by
  unfold SetParam.unmarshalMap
  rw [SetParam_unmarshalEntries_code]

/-- C22. For every byte string that parses as a JSON object, `inform.Unmarshal`
returns a message: a `SetParam` exactly when the `_type` entry is the string
`setparam`, a `Cmd` exactly when it is the string `cmd`, and a `Noop` in every other
case (`noop`, another string, a value that is no string, no `_type` entry).  The
message carries the HTTP code 200. -/
theorem Unmarshal_dispatch (P : Primitives) (data : Bytes) (gm : GoMap)
    (hj : P.jsonUnmarshal data = .ok gm) :
    ∃ msg err, Unmarshal P data = (some msg, err) ∧
      ((∃ m, msg = .setParam m) ↔ gm.lookup "_type" = some (.string "setparam")) ∧
      ((∃ m, msg = .cmd m) ↔ gm.lookup "_type" = some (.string "cmd")) ∧
      ((∃ m, msg = .noop m) ↔ (gm.lookup "_type" ≠ some (.string "setparam") ∧
        gm.lookup "_type" ≠ some (.string "cmd"))) ∧
      (match msg with
        | .setParam m => m.code = 200
        | .cmd m => m.code = 200
        | .noop m => m.code = 200
        | _ => False) := by
  obtain ⟨h1, h2, h3⟩ := Unmarshal_of_map P data gm hj
  have hne : (some (GoVal.string "setparam") : Option GoVal) ≠ some (GoVal.string "cmd") := by
    intro h
    have := GoVal.string.inj (Option.some.inj h)
    exact absurd this (by decide)
  by_cases hs : gm.lookup "_type" = some (.string "setparam")
  · refine ⟨_, _, h1 hs, ⟨fun _ => hs, fun _ => ⟨_, rfl⟩⟩, ⟨?_, ?_⟩, ⟨?_, ?_⟩, ?_⟩
    · rintro ⟨m, hm⟩; exact absurd hm (by simp)
    · intro hc; rw [hs] at hc; exact absurd hc hne
    · rintro ⟨m, hm⟩; exact absurd hm (by simp)
    · rintro ⟨hn, _⟩; exact absurd hs hn
    · exact SetParam_unmarshalMap_code _ gm
  · by_cases hc : gm.lookup "_type" = some (.string "cmd")
    · refine ⟨_, _, h2 hc, ⟨?_, ?_⟩, ⟨fun _ => hc, fun _ => ⟨_, rfl⟩⟩, ⟨?_, ?_⟩, ?_⟩
      · rintro ⟨m, hm⟩; exact absurd hm (by simp)
      · intro h; exact absurd h hs
      · rintro ⟨m, hm⟩; exact absurd hm (by simp)
      · rintro ⟨_, hn⟩; exact absurd hc hn
      · exact Cmd_unmarshalMap_code _ gm
    · refine ⟨_, _, h3 hs hc, ⟨?_, ?_⟩, ⟨?_, ?_⟩, ⟨fun _ => ⟨hs, hc⟩, fun _ => ⟨_, rfl⟩⟩, ?_⟩
      · rintro ⟨m, hm⟩; exact absurd hm (by simp)
      · intro h; exact absurd h hs
      · rintro ⟨m, hm⟩; exact absurd hm (by simp)
      · intro h; exact absurd h hc
      · exact Noop_unmarshalMap_code _ gm

/-- C22 (witness). The text of a speed-test command under the reference JSON
parser. -/
theorem Unmarshal_dispatch_witness :
    refPrimitives.jsonUnmarshal sampleCmdText
      = .ok [("_type", .string "cmd"), ("cmd", .string "speed-test"), ("time", .string "7")] ∧
    Unmarshal refPrimitives sampleCmdText
      = (some (.cmd ⟨200, 0, "speed-test", false, "", 7, ""⟩), none) ∧
    ∃ msg err, Unmarshal refPrimitives sampleCmdText = (some msg, err) ∧
      ((∃ m, msg = .setParam m) ↔
        List.lookup "_type" [("_type", GoVal.string "cmd"), ("cmd", .string "speed-test"),
          ("time", .string "7")] = some (.string "setparam")) ∧
      ((∃ m, msg = .cmd m) ↔
        List.lookup "_type" [("_type", GoVal.string "cmd"), ("cmd", .string "speed-test"),
          ("time", .string "7")] = some (.string "cmd")) ∧
      ((∃ m, msg = .noop m) ↔
        (List.lookup "_type" [("_type", GoVal.string "cmd"), ("cmd", .string "speed-test"),
          ("time", .string "7")] ≠ some (.string "setparam") ∧
        List.lookup "_type" [("_type", GoVal.string "cmd"), ("cmd", .string "speed-test"),
          ("time", .string "7")] ≠ some (.string "cmd"))) ∧
      (match msg with
        | .setParam m => m.code = 200
        | .cmd m => m.code = 200
        | .noop m => m.code = 200
        | _ => False) :=
  ⟨rfl, rfl, Unmarshal_dispatch refPrimitives sampleCmdText _ rfl⟩

/-! ## Lemmas: decimal text -/

theorem decimalDigit_spec (d : Nat) (h : d < 10) :
    ('0' ≤ "0123456789".data.getD d '0' ∧ "0123456789".data.getD d '0' ≤ '9') ∧
    ("0123456789".data.getD d '0').toNat - '0'.toNat = d := by
  interval_cases d <;> exact ⟨by decide, rfl⟩

theorem digitsValue_cons_digit (d : Nat) (h : d < 10) (cs : List Char) (acc : Nat) :
    digitsValue ("0123456789".data.getD d '0' :: cs) acc = digitsValue cs (acc * 10 + d) := by
  obtain ⟨h1, h2⟩ := decimalDigit_spec d h
  rw [digitsValue, if_pos h1, h2]

/-- Reading back the digits `formatNatAux` writes in front of a text. -/
theorem digitsValue_formatNatAux (fuel : Nat) : ∀ (n : Nat) (acc : List Char), n < fuel →
    digitsValue (formatNatAux fuel n acc) 0 = digitsValue acc n := by
  induction fuel with
  | zero => intro n acc h; omega
  | succ fuel ih =>
    intro n acc h
    rw [formatNatAux]
    simp only []
    by_cases h0 : n / 10 = 0
    · rw [if_pos h0, digitsValue_cons_digit _ (Nat.mod_lt _ (by decide))]
      congr 1
      omega
    · rw [if_neg h0, ih (n / 10) _ (by omega),
        digitsValue_cons_digit _ (Nat.mod_lt _ (by decide))]
      congr 1
      omega

/-- The text `formatNatAux` writes starts with a digit. -/
theorem formatNatAux_head (fuel : Nat) : ∀ (n : Nat) (acc : List Char),
    ∃ c cs, formatNatAux (fuel + 1) n acc = c :: cs ∧ '0' ≤ c ∧ c ≤ '9' := by
  induction fuel with
  | zero =>
    intro n acc
    rw [formatNatAux]
    simp only []
    have hd := (decimalDigit_spec (n % 10) (Nat.mod_lt _ (by decide))).1
    by_cases h0 : n / 10 = 0
    · rw [if_pos h0]; exact ⟨_, _, rfl, hd⟩
    · rw [if_neg h0, formatNatAux]; exact ⟨_, _, rfl, hd⟩
  | succ fuel ih =>
    intro n acc
    rw [formatNatAux]
    simp only []
    have hd := (decimalDigit_spec (n % 10) (Nat.mod_lt _ (by decide))).1
    by_cases h0 : n / 10 = 0
    · rw [if_pos h0]; exact ⟨_, _, rfl, hd⟩
    · rw [if_neg h0]; exact ih _ _

theorem digitsValue_ge (ds : List Char) : ∀ acc v : Nat, digitsValue ds acc = some v → acc ≤ v := by
  induction ds with
  | nil =>
    intro acc v h
    have := Option.some.inj h
    omega
  | cons c cs ih =>
    intro acc v h
    rw [digitsValue] at h
    by_cases hc : '0' ≤ c ∧ c ≤ '9'
    · rw [if_pos hc] at h
      have := ih _ _ h
      omega
    · rw [if_neg hc] at h
      exact absurd h (by simp)

/-- What the loop of `strconv.ParseUint` returns: the value of the digits, below
2^64, and no error; a syntax error, some character being no digit; or a range
error, the value of the digits, if all are digits, being 2^64 or more. -/
theorem parseUintLoop_cases (ds : List Char) : ∀ acc : Nat, acc < 2 ^ 64 →
    (∃ v, strconv.parseUintLoop ds acc = (v, none) ∧ digitsValue ds acc = some v ∧ v < 2 ^ 64) ∨
    (strconv.parseUintLoop ds acc = (0, some .atoiSyntax) ∧ digitsValue ds acc = none) ∨
    (strconv.parseUintLoop ds acc = (2 ^ 64 - 1, some .atoiRange) ∧
      ∀ v, digitsValue ds acc = some v → 2 ^ 64 ≤ v) := by
  induction ds with
  | nil =>
    intro acc hacc
    exact Or.inl ⟨acc, rfl, rfl, hacc⟩
  | cons c cs ih =>
    intro acc hacc
    rw [strconv.parseUintLoop, digitsValue]
    by_cases hc : '0' ≤ c ∧ c ≤ '9'
    · rw [if_pos hc, if_pos hc]
      by_cases h1 : acc ≥ (2 ^ 64 - 1) / 10 + 1
      · rw [if_pos h1]
        refine Or.inr (Or.inr ⟨rfl, fun v hv => ?_⟩)
        have := digitsValue_ge cs _ _ hv
        omega
      · rw [if_neg h1]
        simp only []
        by_cases h2 : acc * 10 + (c.toNat - '0'.toNat) > 2 ^ 64 - 1
        · rw [if_pos h2]
          refine Or.inr (Or.inr ⟨rfl, fun v hv => ?_⟩)
          have := digitsValue_ge cs _ _ hv
          omega
        · rw [if_neg h2]
          exact ih _ (by omega)
    · rw [if_neg hc, if_neg hc]
      exact Or.inr (Or.inl ⟨rfl, rfl⟩)

/-- `strconv.ParseInt` succeeds on the text behind no sign or a plus sign exactly
when the text is not empty, all its characters are decimal digits, and the value
is below 2^63. -/
theorem signed_false_ok (ds : List Char) (n : Int) :
    strconv.ParseInt.signed false (strconv.ParseUint ds).1 (strconv.ParseUint ds).2 = (n, none) ↔
      ds ≠ [] ∧ ∃ m, digitsValue ds 0 = some m ∧ m < 2 ^ 63 ∧ n = (m : Int) := by
  unfold strconv.ParseUint
  by_cases hnil : ds = []
  · rw [if_pos hnil]
    constructor
    · intro h
      simp [strconv.ParseInt.signed] at h
    · intro h
      exact absurd hnil h.1
  · rw [if_neg hnil]
    rcases parseUintLoop_cases ds 0 (by decide) with ⟨v, h1, h2, h3⟩ | ⟨h1, h2⟩ | ⟨h1, h2⟩
    · rw [h1, h2]
      by_cases hr : v ≥ 2 ^ 63
      · have hL : strconv.ParseInt.signed false v none = (2 ^ 63 - 1, some .atoiRange) := by
          simp [strconv.ParseInt.signed]
          omega
        rw [hL]
        constructor
        · intro h; exact absurd h (by simp)
        · rintro ⟨_, m, hm, hc, _⟩
          have := Option.some.inj hm
          omega
      · have hL : strconv.ParseInt.signed false v none = ((v : Int), none) := by
          simp [strconv.ParseInt.signed]
          omega
        rw [hL]
        constructor
        · intro h
          have := (Prod.mk.inj h).1
          exact ⟨hnil, v, rfl, by omega, this.symm⟩
        · rintro ⟨_, m, hm, _, hc⟩
          have := Option.some.inj hm
          rw [hc, this]
    · rw [h1, h2]
      constructor
      · intro h
        simp [strconv.ParseInt.signed] at h
      · rintro ⟨_, m, hm, _⟩
        exact absurd hm (by simp)
    · rw [h1]
      constructor
      · intro h
        simp [strconv.ParseInt.signed] at h
      · rintro ⟨_, m, hm, hc, _⟩
        have := h2 m hm
        omega

/-- `strconv.ParseInt` succeeds on the text behind a minus sign exactly when the
text is not empty, all its characters are decimal digits, and the value is at most
2^63. -/
theorem signed_true_ok (ds : List Char) (n : Int) :
    strconv.ParseInt.signed true (strconv.ParseUint ds).1 (strconv.ParseUint ds).2 = (n, none) ↔
      ds ≠ [] ∧ ∃ m, digitsValue ds 0 = some m ∧ m ≤ 2 ^ 63 ∧ n = -(m : Int) := by
  unfold strconv.ParseUint
  by_cases hnil : ds = []
  · rw [if_pos hnil]
    constructor
    · intro h
      simp [strconv.ParseInt.signed] at h
    · intro h
      exact absurd hnil h.1
  · rw [if_neg hnil]
    rcases parseUintLoop_cases ds 0 (by decide) with ⟨v, h1, h2, h3⟩ | ⟨h1, h2⟩ | ⟨h1, h2⟩
    · rw [h1, h2]
      by_cases hr : v > 2 ^ 63
      · have hL : strconv.ParseInt.signed true v none = (-(2 ^ 63), some .atoiRange) := by
          simp [strconv.ParseInt.signed]
          omega
        rw [hL]
        constructor
        · intro h; exact absurd h (by simp)
        · rintro ⟨_, m, hm, hc, _⟩
          have := Option.some.inj hm
          omega
      · have hL : strconv.ParseInt.signed true v none = (-(v : Int), none) := by
          simp [strconv.ParseInt.signed]
          omega
        rw [hL]
        constructor
        · intro h
          have := (Prod.mk.inj h).1
          exact ⟨hnil, v, rfl, by omega, this.symm⟩
        · rintro ⟨_, m, hm, _, hc⟩
          have := Option.some.inj hm
          rw [hc, this]
    · rw [h1, h2]
      constructor
      · intro h
        simp [strconv.ParseInt.signed] at h
      · rintro ⟨_, m, hm, _⟩
        exact absurd hm (by simp)
    · rw [h1]
      constructor
      · intro h
        simp [strconv.ParseInt.signed] at h
      · rintro ⟨_, m, hm, hc, _⟩
        have := h2 m hm
        omega

/-- `strconv.Atoi` on a text that does not start with a sign. -/
theorem Atoi_unsigned (c : Char) (cs : List Char) (h1 : c ≠ '+') (h2 : c ≠ '-') :
    Atoi (c :: cs).asString =
      strconv.ParseInt.signed false (strconv.ParseUint (c :: cs)).1
        (strconv.ParseUint (c :: cs)).2 := by
  have hd : (c :: cs).asString.data = c :: cs := rfl
  have hne : c :: cs ≠ [] := List.cons_ne_nil c cs
  have h3 : ∀ rest, c :: cs = '+' :: rest → False := fun rest h => h1 (List.cons.inj h).1
  have h4 : ∀ rest, c :: cs = '-' :: rest → False := fun rest h => h2 (List.cons.inj h).1
  unfold Atoi strconv.ParseInt
  rw [hd, if_neg hne]
  split
  · rename_i neg ds heq
    split at heq
    · rename_i rest heq2
      exact absurd heq2 (fun h => h3 _ h)
    · rename_i rest heq2
      exact absurd heq2 (fun h => h4 _ h)
    · have hp := Prod.mk.inj heq
      rw [← hp.1, ← hp.2]

/-- `strconv.Atoi` on a text that starts with a minus sign. -/
theorem Atoi_minus (ds : List Char) :
    Atoi ('-' :: ds).asString =
      strconv.ParseInt.signed true (strconv.ParseUint ds).1 (strconv.ParseUint ds).2 := rfl

/-- `strconv.Atoi` on a text that starts with a plus sign. -/
theorem Atoi_plus (ds : List Char) :
    Atoi ('+' :: ds).asString =
      strconv.ParseInt.signed false (strconv.ParseUint ds).1 (strconv.ParseUint ds).2 := rfl

/-- `strconv.Atoi` reads back what `%d` prints for a 64-bit integer. -/
theorem Atoi_formatInt (n : Int) (h1 : -(2 ^ 63) ≤ n) (h2 : n < 2 ^ 63) :
    Atoi (formatInt n).asString = (n, none) := by
  obtain ⟨c, cs, hF, hc0, _⟩ := formatNatAux_head n.natAbs n.natAbs []
  have hv : digitsValue (formatNatAux (n.natAbs + 1) n.natAbs []) 0 = some n.natAbs := by
    rw [digitsValue_formatNatAux _ _ _ (Nat.lt_succ_self _)]
    rfl
  have hne : formatNatAux (n.natAbs + 1) n.natAbs [] ≠ [] := by
    rw [hF]; exact List.cons_ne_nil _ _
  unfold formatInt
  by_cases hneg : n < 0
  · rw [if_pos hneg, Atoi_minus]
    exact (signed_true_ok _ n).mpr ⟨hne, n.natAbs, hv, by omega, by omega⟩
  · rw [if_neg hneg, hF]
    have hp : c ≠ '+' := by
      intro h; rw [h] at hc0; exact absurd hc0 (by decide)
    have hm : c ≠ '-' := by
      intro h; rw [h] at hc0; exact absurd hc0 (by decide)
    rw [Atoi_unsigned c cs hp hm, ← hF]
    exact (signed_false_ok _ n).mpr ⟨hne, n.natAbs, hv, by omega, by omega⟩

/-- `strconv.Atoi` reports the range error at the digit where the value leaves 64
bits, also when a character that is no digit follows. -/
theorem Atoi_range_before_syntax :
    Atoi "99999999999999999999x" = (9223372036854775807, some .atoiRange) ∧
    Atoi "9999x" = (0, some .atoiSyntax) := by
  decide

theorem digitsValue_foldl (ds : List Char) : ∀ acc : Nat,
    (∀ c ∈ ds, '0' ≤ c ∧ c ≤ '9') →
    digitsValue ds acc = some (ds.foldl (fun a c => a * 10 + (c.toNat - '0'.toNat)) acc) := by
  induction ds with
  | nil => intro acc _; rfl
  | cons c cs ih =>
    intro acc h
    rw [digitsValue, if_pos (h c (List.mem_cons_self c cs)), List.foldl_cons]
    exact ih _ (fun d hd => h d (List.mem_cons_of_mem c hd))

theorem digitsValue_some (ds : List Char) : ∀ acc n : Nat, digitsValue ds acc = some n →
    (∀ c ∈ ds, '0' ≤ c ∧ c ≤ '9') ∧
    n = ds.foldl (fun a c => a * 10 + (c.toNat - '0'.toNat)) acc := by
  induction ds with
  | nil =>
    intro acc n h
    exact ⟨by simp, (Option.some.inj h).symm⟩
  | cons c cs ih =>
    intro acc n h
    rw [digitsValue] at h
    by_cases hc : '0' ≤ c ∧ c ≤ '9'
    · rw [if_pos hc] at h
      obtain ⟨h1, h2⟩ := ih _ _ h
      refine ⟨?_, h2⟩
      intro d hd
      rcases List.mem_cons.mp hd with rfl | hd
      · exact hc
      · exact h1 d hd
    · rw [if_neg hc] at h
      exact absurd h (by simp)

/-- `strconv.Atoi` succeeds exactly on an optional sign followed by decimal digits
whose value fits in 64 bits, and returns that value. -/
theorem Atoi_ok_iff (s : Str) (n : Int) :
    Atoi s = (n, none) ↔
      ∃ sign ds, s.data = sign ++ ds ∧ (sign = [] ∨ sign = ['+'] ∨ sign = ['-']) ∧ ds ≠ [] ∧
        (∀ c ∈ ds, '0' ≤ c ∧ c ≤ '9') ∧
        n = (if sign = ['-'] then -(decimalValue ds : Int) else (decimalValue ds : Int)) ∧
        -(2 ^ 63) ≤ n ∧ n < 2 ^ 63 := by
  have hs : s = s.data.asString := rfl
  have hdig : ∀ c : Char, ('0' ≤ c ∧ c ≤ '9') → c ≠ '+' ∧ c ≠ '-' := by
    intro c hc
    constructor
    · intro h; rw [h] at hc; exact absurd hc.1 (by decide)
    · intro h; rw [h] at hc; exact absurd hc.1 (by decide)
  constructor
  · intro h
    rw [hs] at h
    cases hd : s.data with
    | nil =>
      rw [hd] at h
      have h0 : Atoi ([] : List Char).asString = (0, some .atoiSyntax) := rfl
      rw [h0] at h
      exact absurd h (by simp)
    | cons c cs =>
      rw [hd] at h
      by_cases hp : c = '+'
      · subst hp
        rw [Atoi_plus] at h
        obtain ⟨hnil, m, hv, hr, hn⟩ := (signed_false_ok cs n).mp h
        obtain ⟨hall, hm⟩ := digitsValue_some cs 0 m hv
        refine ⟨['+'], cs, rfl, Or.inr (Or.inl rfl), hnil, hall, ?_, ?_, ?_⟩
        · rw [if_neg (by decide), hn, hm]; rfl
        · omega
        · omega
      · by_cases hm : c = '-'
        · subst hm
          rw [Atoi_minus] at h
          obtain ⟨hnil, m, hv, hr, hn⟩ := (signed_true_ok cs n).mp h
          obtain ⟨hall, hm⟩ := digitsValue_some cs 0 m hv
          refine ⟨['-'], cs, rfl, Or.inr (Or.inr rfl), hnil, hall, ?_, ?_, ?_⟩
          · rw [if_pos rfl, hn, hm]; rfl
          · omega
          · omega
        · rw [Atoi_unsigned c cs hp hm] at h
          obtain ⟨hnil, m, hv, hr, hn⟩ := (signed_false_ok (c :: cs) n).mp h
          obtain ⟨hall, hmv⟩ := digitsValue_some (c :: cs) 0 m hv
          refine ⟨[], c :: cs, rfl, Or.inl rfl, hnil, hall, ?_, ?_, ?_⟩
          · rw [if_neg (by decide), hn, hmv]; rfl
          · omega
          · omega
  · rintro ⟨sign, ds, hd, hsign, hne, hall, hn, hlo, hhi⟩
    have hv := digitsValue_foldl ds 0 hall
    rw [hs, hd]
    rcases hsign with rfl | rfl | rfl
    · rw [if_neg (by decide)] at hn
      cases ds with
      | nil => exact absurd rfl hne
      | cons c cs =>
        obtain ⟨h1, h2⟩ := hdig c (hall c (List.mem_cons_self c cs))
        rw [List.nil_append, Atoi_unsigned c cs h1 h2]
        have : (List.foldl (fun a c => a * 10 + (c.toNat - '0'.toNat)) 0 (c :: cs)) < 2 ^ 63 := by
          have : (decimalValue (c :: cs) : Int) < 2 ^ 63 := by rw [← hn]; exact hhi
          unfold decimalValue at this
          exact_mod_cast this
        exact (signed_false_ok _ n).mpr ⟨hne, _, hv, this, hn⟩
    · rw [if_neg (by decide)] at hn
      show Atoi ('+' :: ds).asString = _
      rw [Atoi_plus]
      have : (List.foldl (fun a c => a * 10 + (c.toNat - '0'.toNat)) 0 ds) < 2 ^ 63 := by
        have : (decimalValue ds : Int) < 2 ^ 63 := by rw [← hn]; exact hhi
        unfold decimalValue at this
        exact_mod_cast this
      exact (signed_false_ok _ n).mpr ⟨hne, _, hv, this, hn⟩
    · rw [if_pos rfl] at hn
      show Atoi ('-' :: ds).asString = _
      rw [Atoi_minus]
      have : (List.foldl (fun a c => a * 10 + (c.toNat - '0'.toNat)) 0 ds) ≤ 2 ^ 63 := by
        have : -(2 ^ 63 : Int) ≤ -(decimalValue ds : Int) := by rw [← hn]; exact hlo
        unfold decimalValue at this
        have h3 : ((List.foldl (fun a c => a * 10 + (c.toNat - '0'.toNat)) 0 ds : Nat) : Int)
            ≤ 2 ^ 63 := by omega
        exact_mod_cast h3
      exact (signed_true_ok _ n).mpr ⟨hne, _, hv, this, hn⟩

/-- C23 (counterexample). The text `9223372036854775808` is a decimal integer, yet
`ParseInt` fails on it: `strconv.Atoi` reports a range error. -/
theorem ParseInt_counterexample :
    ("9223372036854775808".data ≠ [] ∧
      ∀ c ∈ "9223372036854775808".data, '0' ≤ c ∧ c ≤ '9') ∧
    ParseInt (.string "9223372036854775808") = (9223372036854775807, some .atoiRange) :=
  ⟨⟨by decide, by decide⟩, by decide⟩

/-- C23 (amended). `ParseBool` applied to a string succeeds if and only if the
string is one of `true`, `True`, `1`, `false`, `False`, `0`, and returns true exactly
for the first three; applied to a bool it returns that bool.  `ParseInt` returns an
integer unchanged; applied to a string it succeeds exactly when the string is an
optional sign followed by at least one decimal digit and the value lies between
`-2^63` and `2^63 - 1`, and it returns that value; so it reads back every 64-bit
integer from its decimal form. -/
theorem Parse_coercions (s : Str) (b : Bool) (n : Int) :
    ((ParseBool (.string s)).2 = none ↔
      (s = "true" ∨ s = "True" ∨ s = "1" ∨ s = "false" ∨ s = "False" ∨ s = "0")) ∧
    ((ParseBool (.string s)).1 = true ↔ (s = "true" ∨ s = "True" ∨ s = "1")) ∧
    ParseBool (.bool b) = (b, none) ∧
    ParseInt (.int n) = (n, none) ∧
    (ParseInt (.string s) = (n, none) ↔
      ∃ sign ds, s.data = sign ++ ds ∧ (sign = [] ∨ sign = ['+'] ∨ sign = ['-']) ∧ ds ≠ [] ∧
        (∀ c ∈ ds, '0' ≤ c ∧ c ≤ '9') ∧
        n = (if sign = ['-'] then -(decimalValue ds : Int) else (decimalValue ds : Int)) ∧
        -(2 ^ 63) ≤ n ∧ n < 2 ^ 63) ∧
    ((ParseInt (.string s)).2 = none ↔ ∃ m, ParseInt (.string s) = (m, none)) ∧
    (-(2 ^ 63) ≤ n → n < 2 ^ 63 → ParseInt (.string (formatInt n).asString) = (n, none)) := by
  refine ⟨?_, ?_, rfl, rfl, Atoi_ok_iff s n, ?_, fun h1 h2 => Atoi_formatInt n h1 h2⟩
  · unfold ParseBool
    simp only []
    by_cases h1 : s = "true" ∨ s = "True" ∨ s = "1"
    · rw [if_pos h1]
      simp only [true_iff]
      rcases h1 with h | h | h
      · exact Or.inl h
      · exact Or.inr (Or.inl h)
      · exact Or.inr (Or.inr (Or.inl h))
    · rw [if_neg h1]
      by_cases h2 : s = "false" ∨ s = "False" ∨ s = "0"
      · rw [if_pos h2]
        simp only [true_iff]
        rcases h2 with h | h | h
        · exact Or.inr (Or.inr (Or.inr (Or.inl h)))
        · exact Or.inr (Or.inr (Or.inr (Or.inr (Or.inl h))))
        · exact Or.inr (Or.inr (Or.inr (Or.inr (Or.inr h))))
      · rw [if_neg h2]
        constructor
        · intro h; exact absurd h (by simp)
        · intro h
          rcases h with h | h | h | h | h | h
          · exact absurd (Or.inl h) h1
          · exact absurd (Or.inr (Or.inl h)) h1
          · exact absurd (Or.inr (Or.inr h)) h1
          · exact absurd (Or.inl h) h2
          · exact absurd (Or.inr (Or.inl h)) h2
          · exact absurd (Or.inr (Or.inr h)) h2
  · unfold ParseBool
    simp only []
    by_cases h1 : s = "true" ∨ s = "True" ∨ s = "1"
    · rw [if_pos h1]
      exact ⟨fun _ => h1, fun _ => rfl⟩
    · rw [if_neg h1]
      by_cases h2 : s = "false" ∨ s = "False" ∨ s = "0"
      · rw [if_pos h2]
        exact ⟨fun h => absurd h (by simp), fun h => absurd h h1⟩
      · rw [if_neg h2]
        exact ⟨fun h => absurd h (by simp), fun h => absurd h h1⟩
  · constructor
    · intro h
      refine ⟨(ParseInt (.string s)).1, ?_⟩
      rw [← h]
    · rintro ⟨m, hm⟩
      rw [hm]

/-- C23 (witness). The text `-42`, and the integer `-2^63` printed and read back. -/
theorem Parse_coercions_witness :
    ParseInt (.string "-42") = (-42, none) ∧
    (∃ sign ds, "-42".data = sign ++ ds ∧ (sign = [] ∨ sign = ['+'] ∨ sign = ['-']) ∧
      ds ≠ [] ∧ (∀ c ∈ ds, '0' ≤ c ∧ c ≤ '9') ∧
      (-42 : Int) = (if sign = ['-'] then -(decimalValue ds : Int) else (decimalValue ds : Int)) ∧
      -(2 ^ 63) ≤ (-42 : Int) ∧ (-42 : Int) < 2 ^ 63) ∧
    -(2 ^ 63) ≤ (-9223372036854775808 : Int) ∧ (-9223372036854775808 : Int) < 2 ^ 63 ∧
    ParseInt (.string (formatInt (-9223372036854775808)).asString)
      = (-9223372036854775808, none) ∧
    ((ParseBool (.string "True")).2 = none ↔
      ("True" = "true" ∨ "True" = "True" ∨ "True" = "1" ∨ "True" = "false" ∨
        "True" = "False" ∨ "True" = "0")) :=
  ⟨by decide, (Parse_coercions "-42" true (-42)).2.2.2.2.1.mp (by decide), by decide, by decide,
    (Parse_coercions "" true (-9223372036854775808)).2.2.2.2.2.2 (by decide) (by decide),
    (Parse_coercions "True" true 0).1⟩

/-! ## Lemmas: integer fields of the replies -/

theorem ParseInt_number (n : Int) (h : n.natAbs ≤ 2 ^ 53) :
    ParseInt (.float64 (Float64.ofInt n)) = (n, none) := by
  simp only [ParseInt, Float64_roundtrip n h]

theorem ParseInt_decimal (n : Int) (h : n.natAbs ≤ 2 ^ 53) :
    ParseInt (.string (formatInt n).asString) = (n, none) := by
  simp only [ParseInt]
  exact Atoi_formatInt n (by omega) (by omega)

/-- An integer field of a `Cmd` is read alike from a number and from its decimal
text. -/
theorem Cmd_unmarshalEntry_int (c : Cmd) (k : Str) (n : Int) (h : n.natAbs ≤ 2 ^ 53)
    (hk : k = "server_time_in_utc" ∨ k = "time") :
    c.unmarshalEntry (k, .float64 (Float64.ofInt n))
      = c.unmarshalEntry (k, .string (formatInt n).asString) ∧
    (k = "server_time_in_utc" →
      (c.unmarshalEntry (k, .float64 (Float64.ofInt n))).ServerTime = n) ∧
    (k = "time" → (c.unmarshalEntry (k, .float64 (Float64.ofInt n))).Time = n) := by
  rcases hk with rfl | rfl
  · simp only [Cmd.unmarshalEntry, if_true, ParseInt_number n h, ParseInt_decimal n h]
    exact ⟨trivial, fun _ => trivial, fun h => absurd h (by decide)⟩
  · have h1 : ¬ ("time" = "server_time_in_utc") := by decide
    have h2 : ¬ ("time" = "cmd") := by decide
    have h3 : ¬ ("time" = "use_alert") := by decide
    simp only [Cmd.unmarshalEntry, h1, h2, h3, if_false, if_true, ParseInt_number n h,
      ParseInt_decimal n h]
    exact ⟨trivial, fun h => absurd h (by decide), fun _ => trivial⟩

/-- Entries under other keys leave the two integer fields of a `Cmd` as they are. -/
theorem Cmd_foldl_other (post : GoMap) : ∀ c : Cmd,
    ((∀ e ∈ post, e.1 ≠ "server_time_in_utc") →
      (post.foldl Cmd.unmarshalEntry c).ServerTime = c.ServerTime) ∧
    ((∀ e ∈ post, e.1 ≠ "time") → (post.foldl Cmd.unmarshalEntry c).Time = c.Time) := by
  induction post with
  | nil => intro c; exact ⟨fun _ => rfl, fun _ => rfl⟩
  | cons e rest ih =>
    intro c
    obtain ⟨ih1, ih2⟩ := ih (c.unmarshalEntry e)
    constructor
    · intro h
      rw [List.foldl_cons, ih1 (fun x hx => h x (List.mem_cons_of_mem e hx))]
      have he := h e (List.mem_cons_self e rest)
      unfold Cmd.unmarshalEntry
      simp only [he, if_false]
      repeat' split
      all_goals rfl
    · intro h
      rw [List.foldl_cons, ih2 (fun x hx => h x (List.mem_cons_of_mem e hx))]
      have he := h e (List.mem_cons_self e rest)
      unfold Cmd.unmarshalEntry
      simp only [he, if_false]
      repeat' split
      all_goals rfl

theorem lookup_append_cons_other (pre post : GoMap) (k key : Str) (v w : GoVal) (h : key ≠ k) :
    (pre ++ (k, v) :: post).lookup key = (pre ++ (k, w) :: post).lookup key := by
  induction pre with
  | nil =>
    have hb : (key == k) = false := by simpa using h
    simp only [List.nil_append, List.lookup_cons, hb]
  | cons e rest ih =>
    obtain ⟨a, b⟩ := e
    simp only [List.cons_append, List.lookup_cons]
    rw [ih]

/-- What `Noop.unmarshalMap` reads: the server time from a string that
`strconv.Atoi` accepts, the interval from a number. -/
theorem Noop_unmarshalMap_fields (m : Noop) (gm : GoMap) :
    (∀ s n, gm.lookup "server_time_in_utc" = some (.string s) → Atoi s = (n, none) →
      (m.unmarshalMap gm).1.ServerTime = n) ∧
    (∀ f, gm.lookup "server_time_in_utc" = some (.float64 f) →
      (m.unmarshalMap gm).1.ServerTime = m.ServerTime) ∧
    (∀ f, gm.lookup "interval" = some (.float64 f) →
      (m.unmarshalMap gm).1.Interval = f.toInt) ∧
    (∀ s, gm.lookup "interval" = some (.string s) →
      (m.unmarshalMap gm).1.Interval = m.Interval) := by
  refine ⟨fun s n h hA => ?_, fun f h => ?_, fun f h => ?_, fun s h => ?_⟩
  · simp only [Noop.unmarshalMap, h, hA]
    split <;> rfl
  · simp only [Noop.unmarshalMap, h]
    split <;> rfl
  · simp only [Noop.unmarshalMap, h]
  · simp only [Noop.unmarshalMap, h]
    split
    · split <;> rfl
    · rfl

/-- Entries under other keys than `server_time_in_utc` raise no error in
`SetParam.unmarshalMap` and leave the server time as it is. -/
theorem SetParam_entries_other (l : GoMap) : ∀ (sp : SetParam) (rest : GoMap),
    (∀ e ∈ l, e.1 ≠ "server_time_in_utc") →
    ∃ sp2, sp2.ServerTime = sp.ServerTime ∧ sp2.code = sp.code ∧
      SetParam.unmarshalEntries sp (l ++ rest) = SetParam.unmarshalEntries sp2 rest := by
  induction l with
  | nil => intro sp rest _; exact ⟨sp, rfl, rfl, rfl⟩
  | cons e l ih =>
    intro sp rest h
    obtain ⟨key, rawValue⟩ := e
    have hk : key ≠ "server_time_in_utc" := h (key, rawValue) (List.mem_cons_self _ _)
    have hl : ∀ e ∈ l, e.1 ≠ "server_time_in_utc" := fun x hx => h x (List.mem_cons_of_mem _ hx)
    rw [List.cons_append]
    by_cases h1 : key = "mgmt_cfg"
    · cases rawValue with
      | string mg =>
        obtain ⟨sp2, h2, h3, h4⟩ := ih { sp with mgmt := sp.mgmt.unmarshalStr mg } rest hl
        refine ⟨sp2, h2, h3, ?_⟩
        rw [← h4]
        conv_lhs => unfold SetParam.unmarshalEntries
        simp only [h1, if_true]
      | _ =>
        obtain ⟨sp2, h2, h3, h4⟩ := ih sp rest hl
        refine ⟨sp2, h2, h3, ?_⟩
        rw [← h4]
        conv_lhs => unfold SetParam.unmarshalEntries
        simp only [h1, if_true]
    · obtain ⟨sp2, h2, h3, h4⟩ := ih sp rest hl
      refine ⟨sp2, h2, h3, ?_⟩
      rw [← h4]
      conv_lhs => unfold SetParam.unmarshalEntries
      simp only [h1, hk, if_false]

theorem SetParam_server_time (sp : SetParam) (pre post : GoMap) (s : Str) (n : Int)
    (hpre : ∀ e ∈ pre, e.1 ≠ "server_time_in_utc")
    (hpost : ∀ e ∈ post, e.1 ≠ "server_time_in_utc") (hA : Atoi s = (n, none)) :
    (sp.unmarshalMap (pre ++ ("server_time_in_utc", .string s) :: post)).1.ServerTime = n ∧
    (sp.unmarshalMap (pre ++ ("server_time_in_utc", .string s) :: post)).2 = none := by
  unfold SetParam.unmarshalMap
  obtain ⟨sp2, _, _, h2⟩ := SetParam_entries_other pre { sp with mgmt := [] }
    (("server_time_in_utc", .string s) :: post) hpre
  rw [h2]
  have h1 : ¬ ("server_time_in_utc" = "mgmt_cfg") := by decide
  conv_lhs => unfold SetParam.unmarshalEntries
  conv_rhs => unfold SetParam.unmarshalEntries
  simp only [h1, if_false, if_true, hA]
  obtain ⟨sp3, h3, _, h4⟩ := SetParam_entries_other post { sp2 with ServerTime := n } [] hpost
  rw [List.append_nil] at h4
  rw [h4]
  exact ⟨h3, rfl⟩

/-- C24 (counterexample). A reply without `_type` decodes to a `Noop`; with the
server time as the number 5 the field stays 0, with the string `5` it is 5. -/
theorem integer_coercion_counterexample :
    refPrimitives.jsonUnmarshal sampleNumberText
      = .ok [("server_time_in_utc", .float64 (Float64.ofInt 5))] ∧
    refPrimitives.jsonUnmarshal sampleStringText
      = .ok [("server_time_in_utc", .string "5")] ∧
    Unmarshal refPrimitives sampleNumberText = (some (.noop ⟨200, 0, 0⟩), none) ∧
    Unmarshal refPrimitives sampleStringText = (some (.noop ⟨200, 5, 0⟩), none) ∧
    Unmarshal refPrimitives sampleNumberText ≠ Unmarshal refPrimitives sampleStringText :=
  ⟨rfl, rfl, rfl, rfl, by decide⟩

/-- C24 (amended). For a `Cmd` and each of its integer fields `server_time_in_utc`
and `time`, decoding the map in which the field is the number `n` (at most `2^53` in
absolute value) gives the same message as decoding the map in which it is the
decimal text of `n`, and the field is `n` when no later entry has that key.  A `Noop`
reads `server_time_in_utc` from the decimal text and is left as it was by the number;
it reads `interval` from the number and is left as it was by the text.  A `SetParam`
reads `server_time_in_utc` from the decimal text. -/
theorem integer_coercion (P : Primitives) (c : Cmd) (m : Noop) (sp : SetParam)
    (pre post gm : GoMap) (k : Str) (n : Int) (d1 d2 : Bytes)
    (hn : n.natAbs ≤ 2 ^ 53) (hk : k = "server_time_in_utc" ∨ k = "time") :
    (c.unmarshalMap (pre ++ (k, .float64 (Float64.ofInt n)) :: post)
      = c.unmarshalMap (pre ++ (k, .string (formatInt n).asString) :: post)) ∧
    ((∀ e ∈ post, e.1 ≠ k) →
      (k = "server_time_in_utc" →
        (c.unmarshalMap (pre ++ (k, .float64 (Float64.ofInt n)) :: post)).1.ServerTime = n) ∧
      (k = "time" →
        (c.unmarshalMap (pre ++ (k, .float64 (Float64.ofInt n)) :: post)).1.Time = n)) ∧
    (P.jsonUnmarshal d1 = .ok (pre ++ (k, .float64 (Float64.ofInt n)) :: post) →
      P.jsonUnmarshal d2 = .ok (pre ++ (k, .string (formatInt n).asString) :: post) →
      (pre ++ (k, .float64 (Float64.ofInt n)) :: post).lookup "_type" = some (.string "cmd") →
      Unmarshal P d1 = Unmarshal P d2) ∧
    (gm.lookup "server_time_in_utc" = some (.string (formatInt n).asString) →
      (m.unmarshalMap gm).1.ServerTime = n) ∧
    (gm.lookup "server_time_in_utc" = some (.float64 (Float64.ofInt n)) →
      (m.unmarshalMap gm).1.ServerTime = m.ServerTime) ∧
    (gm.lookup "interval" = some (.float64 (Float64.ofInt n)) →
      (m.unmarshalMap gm).1.Interval = n) ∧
    (gm.lookup "interval" = some (.string (formatInt n).asString) →
      (m.unmarshalMap gm).1.Interval = m.Interval) ∧
    ((∀ e ∈ pre, e.1 ≠ "server_time_in_utc") → (∀ e ∈ post, e.1 ≠ "server_time_in_utc") →
      (sp.unmarshalMap (pre ++ ("server_time_in_utc", .string (formatInt n).asString) :: post)).1.ServerTime
        = n) := by
  have hA : Atoi (formatInt n).asString = (n, none) := Atoi_formatInt n (by omega) (by omega)
  have hent := fun c0 : Cmd => Cmd_unmarshalEntry_int c0 k n hn hk
  have heq : c.unmarshalMap (pre ++ (k, .float64 (Float64.ofInt n)) :: post)
      = c.unmarshalMap (pre ++ (k, .string (formatInt n).asString) :: post) := by
    simp only [Cmd.unmarshalMap, List.foldl_append, List.foldl_cons, (hent _).1]
  obtain ⟨hN1, hN2, hN3, hN4⟩ := Noop_unmarshalMap_fields m gm
  refine ⟨heq, ?_, ?_, fun h => hN1 _ n h hA, fun h => hN2 _ h, ?_, fun h => hN4 _ h, ?_⟩
  · intro hpost
    simp only [Cmd.unmarshalMap, List.foldl_append, List.foldl_cons]
    constructor
    · intro hks
      rw [(Cmd_foldl_other post _).1 (by rw [← hks]; exact hpost)]
      exact (hent _).2.1 hks
    · intro hkt
      rw [(Cmd_foldl_other post _).2 (by rw [← hkt]; exact hpost)]
      exact (hent _).2.2 hkt
  · intro h1 h2 ht
    have hkt : ("_type" : Str) ≠ k := by
      rcases hk with rfl | rfl <;> decide
    have ht2 : (pre ++ (k, .string (formatInt n).asString) :: post).lookup "_type"
        = some (.string "cmd") := by
      rw [← ht]
      exact lookup_append_cons_other pre post k "_type" _ _ hkt
    rw [(Unmarshal_of_map P d1 _ h1).2.1 ht, (Unmarshal_of_map P d2 _ h2).2.1 ht2]
    have heq2 : Cmd.unmarshalMap ⟨200, 0, "", false, "", 0, ""⟩
        (pre ++ (k, .float64 (Float64.ofInt n)) :: post)
        = Cmd.unmarshalMap ⟨200, 0, "", false, "", 0, ""⟩
          (pre ++ (k, .string (formatInt n).asString) :: post) := by
      simp only [Cmd.unmarshalMap, List.foldl_append, List.foldl_cons,
        (Cmd_unmarshalEntry_int _ k n hn hk).1]
    rw [heq2]
  · intro h
    rw [hN3 _ h]
    exact Float64_roundtrip n hn
  · intro hpre hpost
    exact (SetParam_server_time sp pre post _ n hpre hpost hA).1

/-- C24 (witness). A command whose time is 7, as a number and as a string, under
the reference JSON parser: both texts decode to the same `Cmd`, with time 7. -/
theorem integer_coercion_witness :
    (7 : Int).natAbs ≤ 2 ^ 53 ∧ (("time" : Str) = "server_time_in_utc" ∨ ("time" : Str) = "time") ∧
    refPrimitives.jsonUnmarshal sampleCmdNumberText
      = .ok ([("_type", .string "cmd")] ++ ("time", .float64 (Float64.ofInt 7)) :: []) ∧
    refPrimitives.jsonUnmarshal sampleCmdStringText
      = .ok ([("_type", .string "cmd")] ++ ("time", .string (formatInt 7).asString) :: []) ∧
    Unmarshal refPrimitives sampleCmdNumberText = Unmarshal refPrimitives sampleCmdStringText ∧
    Unmarshal refPrimitives sampleCmdStringText
      = (some (.cmd ⟨200, 0, "", false, "", 7, ""⟩), none) :=
  ⟨by decide, Or.inr rfl, rfl, rfl,
    (integer_coercion refPrimitives ⟨200, 0, "", false, "", 0, ""⟩ ⟨200, 0, 0⟩ ⟨200, [], 0⟩
      [("_type", .string "cmd")] [] [] "time" 7 sampleCmdNumberText sampleCmdStringText
      (by decide) (Or.inr rfl)).2.2.1 rfl rfl rfl,
    rfl⟩

/-! ## Lemmas: the errors of `inform.Unmarshal` -/

/-- `SetParam.unmarshalMap` returns no error when `strconv.Atoi` accepts every
string under `server_time_in_utc`. -/
theorem SetParam_entries_ok (l : GoMap) : ∀ sp : SetParam,
    (∀ e ∈ l, e.1 = "server_time_in_utc" → ∀ s, e.2 = .string s → (Atoi s).2 = none) →
    (SetParam.unmarshalEntries sp l).2 = none := by
  induction l with
  | nil => intro sp _; rfl
  | cons e l ih =>
    intro sp h
    obtain ⟨key, rawValue⟩ := e
    have hl : ∀ e ∈ l, e.1 = "server_time_in_utc" → ∀ s, e.2 = .string s → (Atoi s).2 = none :=
      fun x hx => h x (List.mem_cons_of_mem _ hx)
    unfold SetParam.unmarshalEntries
    by_cases h1 : key = "mgmt_cfg"
    · rw [if_pos h1]
      cases rawValue <;> simp only [] <;> exact ih _ hl
    · rw [if_neg h1]
      by_cases h2 : key = "server_time_in_utc"
      · rw [if_pos h2]
        cases rawValue with
        | string s =>
          have hA := h (key, .string s) (List.mem_cons_self _ _) h2 s rfl
          simp only []
          rcases hAt : Atoi s with ⟨v, _ | err⟩
          · simp only []
            exact ih _ hl
          · rw [hAt] at hA
            exact absurd hA (by simp)
        | int m =>
          simp only []
          exact ih _ hl
        | _ =>
          simp only []
          exact ih _ hl
      · rw [if_neg h2]
        exact ih _ hl

/-- `SetParam.unmarshalMap` returns the error of `strconv.Atoi` on the string under
`server_time_in_utc`. -/
theorem SetParam_entries_error (l : GoMap) (s : Str) (err : Error)
    (hA : (Atoi s).2 = some err) : ∀ sp : SetParam,
    l.lookup "server_time_in_utc" = some (.string s) →
    (SetParam.unmarshalEntries sp l).2 = some err := by
  induction l with
  | nil => intro sp h; exact absurd h (by simp)
  | cons e l ih =>
    intro sp h
    obtain ⟨key, rawValue⟩ := e
    unfold SetParam.unmarshalEntries
    by_cases h2 : key = "server_time_in_utc"
    · have h1 : ¬ key = "mgmt_cfg" := by rw [h2]; decide
      have hb : (("server_time_in_utc" : Str) == key) = true := by rw [h2]; decide
      rw [List.lookup_cons, hb] at h
      have hv : rawValue = .string s := Option.some.inj h
      subst hv
      rw [if_neg h1, if_pos h2]
      simp only []
      rcases hAt : Atoi s with ⟨v, _ | e2⟩
      · rw [hAt] at hA
        exact absurd hA (by simp)
      · rw [hAt] at hA
        simp only [] at hA ⊢
        exact hA
    · have hb : (("server_time_in_utc" : Str) == key) = false := by
        simpa using (fun h3 : "server_time_in_utc" = key => h2 h3.symm)
      rw [List.lookup_cons, hb] at h
      by_cases h1 : key = "mgmt_cfg"
      · rw [if_pos h1]
        cases rawValue <;> simp only [] <;> exact ih _ h
      · rw [if_neg h1, if_neg h2]
        exact ih _ h

/-- C25 (counterexample). A `setparam` reply whose `server_time_in_utc` is the
string `abc` parses as a JSON object, and `inform.Unmarshal` returns the error of
`strconv.Atoi` with the message: the decode fails. -/
theorem Unmarshal_error_counterexample :
    refPrimitives.jsonUnmarshal sampleBadTimeText
      = .ok [("_type", .string "setparam"), ("server_time_in_utc", .string "abc")] ∧
    Unmarshal refPrimitives sampleBadTimeText
      = (some (.setParam ⟨200, [], 0⟩), some .atoiSyntax) ∧
    ¬ ∃ msg, Unmarshal refPrimitives sampleBadTimeText = (some msg, none) := by
  refine ⟨rfl, rfl, ?_⟩
  rintro ⟨msg, h⟩
  have h2 : (Unmarshal refPrimitives sampleBadTimeText).2 = some .atoiSyntax := rfl
  rw [h] at h2
  exact absurd h2 (by simp)

/-- C25 (amended). For every byte string that parses as a JSON object:
when `_type` is not the string `setparam`, `inform.Unmarshal` returns a message
(a `Noop` or a `Cmd`) and no error; when it is, `inform.Unmarshal` returns the
`SetParam` together with the error of `strconv.Atoi` if `server_time_in_utc` is a
string that `strconv.Atoi` rejects, and no error if every such string is accepted.
A `Noop` whose `server_time_in_utc` is missing or a rejected string keeps the
server time 0. -/
theorem Unmarshal_errors (P : Primitives) (data : Bytes) (gm : GoMap)
    (hj : P.jsonUnmarshal data = .ok gm) :
    (gm.lookup "_type" ≠ some (.string "setparam") →
      ∃ msg, Unmarshal P data = (some msg, none)) ∧
    (gm.lookup "_type" = some (.string "setparam") →
      (∀ s err, gm.lookup "server_time_in_utc" = some (.string s) → (Atoi s).2 = some err →
        ∃ m, Unmarshal P data = (some (.setParam m), some err)) ∧
      ((∀ e ∈ gm, e.1 = "server_time_in_utc" → ∀ s, e.2 = .string s → (Atoi s).2 = none) →
        ∃ m, Unmarshal P data = (some (.setParam m), none))) ∧
    (gm.lookup "_type" ≠ some (.string "setparam") →
      gm.lookup "_type" ≠ some (.string "cmd") →
      (gm.lookup "server_time_in_utc" = none ∨
        ∃ s err, gm.lookup "server_time_in_utc" = some (.string s) ∧
          (Atoi s).2 = some err) →
      ∃ m, Unmarshal P data = (some (.noop m), none) ∧ m.ServerTime = 0) := by
  obtain ⟨h1, h2, h3⟩ := Unmarshal_of_map P data gm hj
  refine ⟨fun hs => ?_, fun hs => ⟨fun s err hl hA => ?_, fun hall => ?_⟩, fun hs hc hd => ?_⟩
  · by_cases hc : gm.lookup "_type" = some (.string "cmd")
    · exact ⟨_, h2 hc⟩
    · exact ⟨_, h3 hs hc⟩
  · refine ⟨(SetParam.unmarshalMap ⟨200, [], 0⟩ gm).1, ?_⟩
    rw [h1 hs]
    exact congrArg (Prod.mk _) (SetParam_entries_error gm s err hA _ hl)
  · refine ⟨(SetParam.unmarshalMap ⟨200, [], 0⟩ gm).1, ?_⟩
    rw [h1 hs]
    exact congrArg (Prod.mk _) (SetParam_entries_ok gm _ hall)
  · refine ⟨(Noop.unmarshalMap ⟨200, 0, 0⟩ gm).1, h3 hs hc, ?_⟩
    rcases hd with hd | ⟨s, err, hd, hA⟩
    · simp only [Noop.unmarshalMap, hd]
      split <;> rfl
    · rcases hAt : Atoi s with ⟨v, _ | e2⟩
      · rw [hAt] at hA
        exact absurd hA (by simp)
      · simp only [Noop.unmarshalMap, hd, hAt]
        split <;> rfl

/-- C25 (witness). The `setparam` reply with the server time `abc` under the
reference JSON parser: the error of `strconv.Atoi` is returned. -/
theorem Unmarshal_errors_witness :
    refPrimitives.jsonUnmarshal sampleBadTimeText
      = .ok [("_type", .string "setparam"), ("server_time_in_utc", .string "abc")] ∧
    ∃ m, Unmarshal refPrimitives sampleBadTimeText = (some (.setParam m), some .atoiSyntax) :=
  ⟨rfl, ((Unmarshal_errors refPrimitives sampleBadTimeText _ rfl).2.1 rfl).1
    "abc" .atoiSyntax rfl rfl⟩

/-! ## Lemmas: the `mgmt_cfg` block -/

/-- `strings.Split` returns at least one line. -/
theorem splitOn_ne_nil (sep : Char) (cs : List Char) : splitOn sep cs ≠ [] := by
  cases cs with
  | nil => simp [splitOn]
  | cons c cs =>
    unfold splitOn
    split
    · simp
    · split <;> simp

/-- The lines of `strings.Split` joined by the separator give the text back. -/
theorem splitOn_intercalate (sep : Char) (cs : List Char) :
    List.intercalate [sep] (splitOn sep cs) = cs := by
  induction cs with
  | nil => rfl
  | cons c cs ih =>
    unfold splitOn
    have hne := splitOn_ne_nil sep cs
    cases hs : splitOn sep cs with
    | nil => exact absurd hs hne
    | cons l ls =>
      rw [hs] at ih
      by_cases h : c = sep
      · rw [if_pos h]
        subst h
        simp [List.intercalate] at ih ⊢
        exact ih
      · rw [if_neg h]
        simp only []
        cases ls with
        | nil => simp [List.intercalate] at ih ⊢; exact ih
        | cons l2 ls2 => simp [List.intercalate] at ih ⊢; exact ih

/-- No line of `strings.Split` contains the separator. -/
theorem splitOn_not_mem (sep : Char) (cs : List Char) :
    ∀ l ∈ splitOn sep cs, sep ∉ l := by
  induction cs with
  | nil => intro l hl; simp [splitOn] at hl; subst hl; simp
  | cons c cs ih =>
    intro l hl
    unfold splitOn at hl
    by_cases h : c = sep
    · rw [if_pos h] at hl
      rcases List.mem_cons.1 hl with h1 | h1
      · subst h1; simp
      · exact ih l h1
    · rw [if_neg h] at hl
      cases hs : splitOn sep cs with
      | nil => exact absurd hs (splitOn_ne_nil sep cs)
      | cons l1 ls =>
        rw [hs] at hl ih
        simp only [] at hl
        rcases List.mem_cons.1 hl with h1 | h1
        · subst h1
          have := ih l1 (List.mem_cons_self _ _)
          intro hm
          rcases List.mem_cons.1 hm with h2 | h2
          · exact h h2.symm
          · exact this h2
        · exact ih l (List.mem_cons_of_mem _ h1)

/-- Splitting a text at the first separator. -/
theorem splitOn_append (sep : Char) (a b : List Char) (ha : sep ∉ a) :
    splitOn sep (a ++ sep :: b) = a :: splitOn sep b := by
  induction a with
  | nil => simp [splitOn]
  | cons c a ih =>
    have hc : c ≠ sep := fun h => ha (h ▸ List.mem_cons_self _ _)
    have ha2 : sep ∉ a := fun h => ha (List.mem_cons_of_mem _ h)
    rw [List.cons_append]
    conv_lhs => unfold splitOn
    rw [if_neg hc, ih ha2]

/-- `strings.IndexByte`: the length of the text before the first occurrence. -/
theorem indexOf_eq (c : Char) (line : List Char) :
    (c ∉ line → line.indexOf? c = none) ∧
    (c ∈ line → line.indexOf? c = some (line.takeWhile (fun x => x != c)).length) := by
  induction line with
  | nil => simp [List.indexOf?]
  | cons x xs ih =>
    unfold List.indexOf? at ih ⊢
    by_cases h : x = c
    · subst h
      simp [List.findIdx?_cons]
    · have hb : (x == c) = false := by simpa using h
      have hb2 : (x != c) = true := by simpa using h
      constructor
      · intro hm
        have hm2 : c ∉ xs := fun h2 => hm (List.mem_cons_of_mem _ h2)
        rw [List.findIdx?_cons, hb]
        simp only [Bool.false_eq_true, if_false]
        rw [List.findIdx?_succ, ih.1 hm2]
        rfl
      · intro hm
        have hm2 : c ∈ xs := by
          rcases List.mem_cons.1 hm with h2 | h2
          · exact absurd h2.symm h
          · exact h2
        rw [List.findIdx?_cons, hb]
        simp only [Bool.false_eq_true, if_false]
        rw [List.findIdx?_succ, ih.2 hm2, List.takeWhile_cons, hb2]
        rfl

/-- One turn of the loop of `unmarshalStr` stores the entry of the line. -/
theorem unmarshalLine_eq (m : ManagementConfig) (line : List Char) :
    m.unmarshalLine line = (specLineEntry line).elim m (fun e => m.set e.1 e.2) := by
  unfold ManagementConfig.unmarshalLine specLineEntry
  by_cases h : '=' ∈ line
  · rw [(indexOf_eq '=' line).2 h, if_pos h]
    simp only [Option.elim]
    have hsplit := List.takeWhile_append_dropWhile (fun x => x != '=') line
    have h1 : line.take (line.takeWhile (fun x => x != '=')).length
        = line.takeWhile (fun x => x != '=') := by
      conv_lhs => arg 2; rw [← hsplit]
      rw [List.take_left]
    have h2 : line.drop ((line.takeWhile (fun x => x != '=')).length + 1)
        = (line.dropWhile (fun x => x != '=')).drop 1 := by
      conv_lhs => arg 2; rw [← hsplit]
      rw [← List.drop_drop, List.drop_left]
    rw [h1, h2]
  · rw [(indexOf_eq '=' line).1 h, if_neg h]
    rfl

/-- The keys after a map assignment. -/
theorem set_keys (m : ManagementConfig) (k v : Str) :
    (m.set k v).map Prod.fst
      = if k ∈ m.map Prod.fst then m.map Prod.fst else m.map Prod.fst ++ [k] := by
  unfold ManagementConfig.set
  have hany : (m.any (fun kv => kv.1 == k) = true) ↔ k ∈ m.map Prod.fst := by
    simp only [List.any_eq_true, List.mem_map, beq_iff_eq]
  by_cases h : k ∈ m.map Prod.fst
  · rw [if_pos (hany.2 h), if_pos h, List.map_map]
    apply List.map_congr_left
    intro kv _
    simp only [Function.comp]
    by_cases hk : kv.1 = k
    · simp [hk]
    · simp [hk]
  · have h2 : ¬ (m.any (fun kv => kv.1 == k) = true) := fun h3 => h (hany.1 h3)
    rw [if_neg h2, if_neg h, List.map_append]
    rfl

/-- Reading a map after a map assignment. -/
theorem set_lookup (m : ManagementConfig) (k v k2 : Str) :
    (m.set k v).lookup k2 = if k2 = k then some v else m.lookup k2 := by
  unfold ManagementConfig.set
  by_cases hany : m.any (fun kv => kv.1 == k) = true
  · rw [if_pos hany]
    induction m with
    | nil => simp at hany
    | cons e m ih =>
      obtain ⟨a, b⟩ := e
      rw [List.map_cons]
      by_cases ha : a = k
      · subst ha
        simp only [beq_self_eq_true, if_true, List.lookup_cons]
        by_cases h2 : k2 = a
        · subst h2
          simp
        · have hb : (k2 == a) = false := by simpa using h2
          rw [hb, if_neg h2]
          simp only []
          by_cases hany2 : m.any (fun kv => kv.1 == a) = true
          · rw [ih hany2, if_neg h2]
          · have hid : m.map (fun kv => if (kv.1 == a) = true then (a, v) else kv) = m := by
              conv_rhs => rw [← List.map_id m]
              apply List.map_congr_left
              intro kv hkv
              have : ¬ (kv.1 == a) = true := fun h3 =>
                hany2 (List.any_eq_true.2 ⟨kv, hkv, h3⟩)
              rw [if_neg this]
              rfl
            rw [hid]
      · have hab : (a == k) = false := by simpa using ha
        have hany2 : m.any (fun kv => kv.1 == k) = true := by
          simpa [List.any_cons, hab] using hany
        simp only [hab, Bool.false_eq_true, if_false, List.lookup_cons]
        by_cases h2 : k2 = a
        · subst h2
          simp [ha]
        · have hb : (k2 == a) = false := by simpa using h2
          rw [hb]
          simp only []
          exact ih hany2
  · rw [if_neg hany]
    induction m with
    | nil =>
      by_cases h2 : k2 = k
      · subst h2; simp [List.lookup]
      · have hb : (k2 == k) = false := by simpa using h2
        simp [List.lookup, hb, h2]
    | cons e m ih =>
      obtain ⟨a, b⟩ := e
      have hab : ¬ a = k := fun h3 => hany (by simp [List.any_cons, h3])
      have hany2 : ¬ m.any (fun kv => kv.1 == k) = true := fun h3 =>
        hany (by simp only [List.any_cons, h3, Bool.or_true])
      rw [List.cons_append, List.lookup_cons, List.lookup_cons]
      by_cases h2 : k2 = a
      · subst h2
        simp [hab]
      · have hb : (k2 == a) = false := by simpa using h2
        rw [hb]
        simp only []
        exact ih hany2

/-- Reading the map `unmarshalStr` builds from a list of lines. -/
theorem unmarshalLines_lookup (k : Str) (lines : List (List Char)) :
    (lines.foldl ManagementConfig.unmarshalLine []).lookup k
      = (((lines.filterMap specLineEntry).filter (fun e => e.1 == k)).getLast?).map
          Prod.snd := by
  induction lines using List.reverseRecOn with
  | nil => rfl
  | append_singleton lines line ih =>
    rw [List.foldl_append, List.filterMap_append, List.filter_append, List.getLast?_append]
    simp only [List.foldl_cons, List.foldl_nil]
    rw [unmarshalLine_eq]
    cases he : specLineEntry line with
    | none =>
      simp only [Option.elim, List.filterMap_cons, he, List.filterMap_nil, List.filter_nil,
        List.getLast?_nil, Option.none_or]
      exact ih
    | some e =>
      simp only [Option.elim, List.filterMap_cons, he, List.filterMap_nil]
      rw [set_lookup]
      by_cases hk : k = e.1
      · have hb : (e.1 == k) = true := by simp [hk]
        have hf : List.filter (fun x : Str × Str => x.1 == k) [e] = [e] := by
          simp [List.filter, hb]
        rw [if_pos hk, hf]
        rfl
      · have hb : ¬ (e.1 == k) = true := by simpa using fun h : e.1 = k => hk h.symm
        have hf : List.filter (fun x : Str × Str => x.1 == k) [e] = [] := by
          simp [List.filter, hb]
        rw [if_neg hk, hf]
        simp only [List.getLast?_nil, Option.none_or]
        exact ih

/-- The keys of the map `unmarshalStr` builds are distinct. -/
theorem unmarshalLines_nodup (lines : List (List Char)) : ∀ m : ManagementConfig,
    (m.map Prod.fst).Nodup →
    ((lines.foldl ManagementConfig.unmarshalLine m).map Prod.fst).Nodup := by
  induction lines with
  | nil => intro m h; exact h
  | cons line lines ih =>
    intro m h
    rw [List.foldl_cons]
    apply ih
    rw [unmarshalLine_eq]
    cases specLineEntry line with
    | none => exact h
    | some e =>
      simp only [Option.elim]
      rw [set_keys]
      by_cases hk : e.1 ∈ m.map Prod.fst
      · rw [if_pos hk]; exact h
      · rw [if_neg hk]
        exact List.Nodup.append h (List.nodup_singleton _) (by simpa using hk)

/-- The key of a line has no `=`, and no character the line does not have. -/
theorem specLineEntry_key (line : List Char) (e : Str × Str) (h : specLineEntry line = some e) :
    '=' ∉ e.1.data ∧ ∀ c ∈ e.1.data, c ∈ line := by
  unfold specLineEntry at h
  split at h
  · have h2 := Option.some.inj h
    subst h2
    constructor
    · intro hm
      have := List.mem_takeWhile_imp hm
      simp at this
    · intro c hc
      exact (List.takeWhile_sublist _).subset hc
  · exact absurd h (by simp)

/-- No key of the map `unmarshalStr` builds has a `=` or a line break. -/
theorem unmarshalLines_keys (lines : List (List Char)) (hl : ∀ l ∈ lines, '\n' ∉ l) :
    ∀ m : ManagementConfig,
    (∀ k ∈ m.map Prod.fst, '=' ∉ k.data ∧ '\n' ∉ k.data) →
    ∀ k ∈ (lines.foldl ManagementConfig.unmarshalLine m).map Prod.fst,
      '=' ∉ k.data ∧ '\n' ∉ k.data := by
  induction lines with
  | nil => intro m h; exact h
  | cons line lines ih =>
    intro m h
    rw [List.foldl_cons]
    apply ih (fun l h2 => hl l (List.mem_cons_of_mem _ h2))
    rw [unmarshalLine_eq]
    cases he : specLineEntry line with
    | none => exact h
    | some e =>
      simp only [Option.elim]
      rw [set_keys]
      by_cases hk : e.1 ∈ m.map Prod.fst
      · rw [if_pos hk]; exact h
      · rw [if_neg hk]
        intro k hk2
        rcases List.mem_append.1 hk2 with h3 | h3
        · exact h k h3
        · have h4 : k = e.1 := by simpa using h3
          subst h4
          obtain ⟨h5, h6⟩ := specLineEntry_key line e he
          exact ⟨h5, fun h7 => hl line (List.mem_cons_self _ _) (h6 _ h7)⟩

/-- The block `authkey=K`, `use_aes_gcm=true` decodes to its two entries. -/
theorem unmarshalStr_example (K : Str) (hK : '\n' ∉ K.data) :
    ManagementConfig.unmarshalStr [] ("authkey=" ++ K ++ "\nuse_aes_gcm=true\n")
      = [("authkey", K), ("use_aes_gcm", "true")] := by
  unfold ManagementConfig.unmarshalStr
  have hd : ("authkey=" ++ K ++ "\nuse_aes_gcm=true\n").data
      = ['a', 'u', 't', 'h', 'k', 'e', 'y', '='] ++ K.data
        ++ '\n' :: "use_aes_gcm=true\n".data := by
    rw [String.data_append, String.data_append]
  have hn : '\n' ∉ ['a', 'u', 't', 'h', 'k', 'e', 'y', '='] ++ K.data := by
    intro h
    rcases List.mem_append.1 h with h1 | h1
    · exact absurd h1 (by decide)
    · exact hK h1
  have hs : splitOn '\n' "use_aes_gcm=true\n".data = ["use_aes_gcm=true".data, []] := by
    decide
  rw [hd, splitOn_append _ _ _ hn, hs]
  simp only [List.foldl_cons, List.foldl_nil]
  have h1 : specLineEntry (['a', 'u', 't', 'h', 'k', 'e', 'y', '='] ++ K.data)
      = some ("authkey", K) := by
    unfold specLineEntry
    rw [if_pos (by simp)]
    simp [List.takeWhile_cons, List.dropWhile_cons]
    exact ⟨rfl, rfl⟩
  have h2 : specLineEntry "use_aes_gcm=true".data = some ("use_aes_gcm", "true") := by decide
  have h3 : specLineEntry [] = none := by decide
  rw [unmarshalLine_eq, unmarshalLine_eq, unmarshalLine_eq, h1, h2, h3]
  rfl

/-- C26. For every string `s`, `ManagementConfig.unmarshalStr` on an empty map
cuts `s` at the line breaks (the lines joined by `\n` are `s`, no line has a line
break) and yields the map that sends each key to the value of the last line whose
text before the first `=` is that key, the value being everything after that first
`=`; lines without `=` contribute nothing.  The keys of the result are distinct and
none contains `=` or a line break.  For a key text `K` without a line break, the
block `authkey=K`, `use_aes_gcm=true` decodes to exactly the entries `authkey: K`
and `use_aes_gcm: "true"`. -/
theorem unmarshalStr_spec (s : Str) :
    List.intercalate ['\n'] (splitOn '\n' s.data) = s.data ∧
    (∀ l ∈ splitOn '\n' s.data, '\n' ∉ l) ∧
    (∀ k, (ManagementConfig.unmarshalStr [] s).lookup k = specMgmtLookup s k) ∧
    ((ManagementConfig.unmarshalStr [] s).map Prod.fst).Nodup ∧
    (∀ k ∈ (ManagementConfig.unmarshalStr [] s).map Prod.fst,
      '=' ∉ k.data ∧ '\n' ∉ k.data) ∧
    (∀ K : Str, '\n' ∉ K.data → s = "authkey=" ++ K ++ "\nuse_aes_gcm=true\n" →
      ManagementConfig.unmarshalStr [] s = [("authkey", K), ("use_aes_gcm", "true")]) := by
  refine ⟨splitOn_intercalate _ _, splitOn_not_mem _ _, fun k => ?_, ?_, ?_, ?_⟩
  · exact unmarshalLines_lookup k _
  · exact unmarshalLines_nodup _ [] List.nodup_nil
  · exact unmarshalLines_keys _ (splitOn_not_mem _ _) [] (fun k hk => absurd hk (by simp))
  · intro K hK hs
    rw [hs]
    exact unmarshalStr_example K hK

/-- C26 (witness). The block with the key text `00`. -/
theorem unmarshalStr_spec_witness :
    '\n' ∉ ("00" : Str).data ∧
    ManagementConfig.unmarshalStr [] "authkey=00\nuse_aes_gcm=true\n"
      = [("authkey", "00"), ("use_aes_gcm", "true")] :=
  ⟨by decide, (unmarshalStr_spec "authkey=00\nuse_aes_gcm=true\n").2.2.2.2.2 "00"
    (by decide) rfl⟩

/-- C27. Handling a `SetParam` reply in `informTick` is a state update with a frame:
for every configuration and every `mgmt_cfg` map, afterwards the key and the
version hold the value carried under `authkey` and `cfgversion` when that key is
present and their previous value when it is absent, the AES mode holds whether the
value carried under `use_aes_gcm` is the text `true` when that key is present and
its previous value when it is absent, every other field (the general section with
URL and interval, the last speed test, the pfSense data, the path) is unchanged, and
`Write` is called exactly when one of the three keys is present.  Handling a `Noop`,
a `Cmd` or a synthetic HTTP response leaves the configuration as it is and calls no
`Write`; a `Cmd` starts the speed-test job exactly when its command is
`speed-test`. -/
theorem informTick_dispatch_frame (svc : Config) :
    (∀ response : SetParam,
      (informTick.dispatch svc (.setParam response)).1.Management.Key
        = (response.mgmt.lookup "authkey").getD svc.Management.Key ∧
      (informTick.dispatch svc (.setParam response)).1.Management.Version
        = (response.mgmt.lookup "cfgversion").getD svc.Management.Version ∧
      (informTick.dispatch svc (.setParam response)).1.Management.UseAesGcm
        = ((response.mgmt.lookup "use_aes_gcm").map (fun c => c == "true")).getD
            svc.Management.UseAesGcm ∧
      (informTick.dispatch svc (.setParam response)).1.General = svc.General ∧
      (informTick.dispatch svc (.setParam response)).1.SpeedTest = svc.SpeedTest ∧
      (informTick.dispatch svc (.setParam response)).1.PfSenseInterfaces
        = svc.PfSenseInterfaces ∧
      (informTick.dispatch svc (.setParam response)).1.PfSense = svc.PfSense ∧
      (informTick.dispatch svc (.setParam response)).1.PfSenseMode = svc.PfSenseMode ∧
      (informTick.dispatch svc (.setParam response)).1.path = svc.path ∧
      (informTick.dispatch svc (.setParam response)).1.useJson = svc.useJson ∧
      ((informTick.dispatch svc (.setParam response)).2.write = true ↔
        ((response.mgmt.lookup "authkey").isSome ∨ (response.mgmt.lookup "cfgversion").isSome
          ∨ (response.mgmt.lookup "use_aes_gcm").isSome)) ∧
      (informTick.dispatch svc (.setParam response)).2.speedTest = false) ∧
    (∀ m : Noop, informTick.dispatch svc (.noop m) = (svc, ⟨false, false⟩)) ∧
    (∀ m : Cmd, (informTick.dispatch svc (.cmd m)).1 = svc ∧
      (informTick.dispatch svc (.cmd m)).2.write = false ∧
      ((informTick.dispatch svc (.cmd m)).2.speedTest = true ↔ m.Command = "speed-test")) ∧
    (∀ r : httpResponse, informTick.dispatch svc (.response r) = (svc, ⟨false, false⟩)) := by
  refine ⟨fun response => ?_, fun m => rfl, fun m => ⟨rfl, rfl, ?_⟩, fun r => rfl⟩
  · unfold informTick.dispatch
    simp only []
    cases response.mgmt.lookup "authkey" <;> cases response.mgmt.lookup "cfgversion" <;>
      cases response.mgmt.lookup "use_aes_gcm" <;> simp
  · simp [informTick.dispatch]

/-! ## Lemmas: the key of the configuration -/

/-- `KeyFromString` succeeds exactly on 32 hexadecimal digits. -/
theorem KeyFromString_ok_iff (s : Str) :
    (∃ k, KeyFromString s = .ok k) ↔
      (s.length = 32 ∧ ∀ c ∈ s.data,
        ('0' ≤ c ∧ c ≤ '9') ∨ ('a' ≤ c ∧ c ≤ 'f') ∨ ('A' ≤ c ∧ c ≤ 'F')) := by
  obtain ⟨hiff, hget⟩ := hexDecode_ok s.data.length s.data (Nat.le_refl _)
  rw [KeyFromString_eq]
  constructor
  · rintro ⟨k, hk⟩
    cases hd : hexDecode s.data with
    | error e => rw [hd] at hk; exact absurd hk (by simp)
    | ok kb =>
      rw [hd] at hk
      have hl : kb.length = 16 := by
        by_contra hne
        simp [hne] at hk
      have h1 := (hget kb hd).1
      have h2 := (hiff.mp ⟨kb, hd⟩).2
      refine ⟨by show s.data.length = 32; omega, fun c hc => ?_⟩
      exact (fromHexChar_isSome c).mp (h2 c hc)
  · rintro ⟨hl, hall⟩
    have hl1 : s.data.length = 32 := hl
    obtain ⟨kb, hd⟩ := hiff.mpr ⟨by omega, fun c hc => (fromHexChar_isSome c).mpr (hall c hc)⟩
    have h1 := (hget kb hd).1
    have hl2 : kb.length = 16 := by omega
    exact ⟨some kb, by simp [hd, hl2]⟩

/-- `GetKey` on a stored text that is no key: the default key. -/
theorem GetKey_of_invalid (m : Management)
    (h : ¬ (m.Key.length = 32 ∧ ∀ c ∈ m.Key.data,
        ('0' ≤ c ∧ c ≤ '9') ∨ ('a' ≤ c ∧ c ≤ 'f') ∨ ('A' ≤ c ∧ c ≤ 'F'))) :
    m.GetKey = DefaultKey := by
  unfold Management.GetKey
  by_cases h0 : m.Key = ""
  · rw [if_pos h0]
  · rw [if_neg h0]
    cases hk : KeyFromString m.Key with
    | error e => rfl
    | ok k => exact absurd ((KeyFromString_ok_iff m.Key).mp ⟨k, hk⟩) h

/-- `GetKey` on a stored text that is a key: that key. -/
theorem GetKey_of_valid (m : Management) (k : Ripugw.Key) (h : KeyFromString m.Key = .ok k) :
    m.GetKey = k := by
  unfold Management.GetKey
  by_cases h0 : m.Key = ""
  · have h1 : KeyFromString "" = .error .invalidKeyLength := by decide
    rw [h0, h1] at h
    exact absurd h (by simp)
  · rw [if_neg h0, h]

/-- The key text after a `SetParam` that carries an `authkey`. -/
theorem dispatch_authkey (svc : Config) (response : SetParam) (k : Str)
    (h : response.mgmt.lookup "authkey" = some k) :
    (informTick.dispatch svc (.setParam response)).1.Management.Key = k ∧
    (informTick.dispatch svc (.setParam response)).2.write = true := by
  unfold informTick.dispatch
  simp only [h]
  cases response.mgmt.lookup "cfgversion" <;> cases response.mgmt.lookup "use_aes_gcm" <;>
    exact ⟨rfl, rfl⟩

/-- C28 (counterexample). The sample configuration holds a valid key; a `SetParam`
whose `authkey` is the text `zz` replaces the stored key text by `zz`, and the key of
the following packets changes from the stored key to the default key. -/
theorem invalid_authkey_counterexample :
    ¬ (("zz" : Str).length = 32) ∧
    sampleConfig.Management.Key = "000102030405060708090a0b0c0d0e0f" ∧
    (informTick.dispatch sampleConfig (.setParam ⟨200, [("authkey", "zz")], 0⟩)).1.Management.Key
      = "zz" ∧
    sampleConfig.Management.GetKey = some [0, 1, 2, 3, 4, 5, 6, 7, 8, 9, 10, 11, 12, 13, 14, 15] ∧
    (informTick.dispatch sampleConfig
      (.setParam ⟨200, [("authkey", "zz")], 0⟩)).1.Management.GetKey = DefaultKey ∧
    (informTick.dispatch sampleConfig
      (.setParam ⟨200, [("authkey", "zz")], 0⟩)).1.Management.GetKey
        ≠ sampleConfig.Management.GetKey := by
  refine ⟨by decide, rfl, rfl, by decide, by decide, by decide⟩

/-- C28 (amended). An invalid `authkey` is stored and not used: for every
configuration and every `SetParam` whose `mgmt_cfg` carries an `authkey` that is not
32 hexadecimal characters, handling the reply replaces the stored key text by the
carried text and calls `Write`, and the key of the following packets (`GetKey`) is
the default key.  When the carried text is a key, `GetKey` is that key. -/
theorem invalid_authkey_stored (svc : Config) (response : SetParam) (k : Str)
    (h : response.mgmt.lookup "authkey" = some k) :
    (informTick.dispatch svc (.setParam response)).1.Management.Key = k ∧
    (informTick.dispatch svc (.setParam response)).2.write = true ∧
    (¬ (k.length = 32 ∧ ∀ c ∈ k.data,
        ('0' ≤ c ∧ c ≤ '9') ∨ ('a' ≤ c ∧ c ≤ 'f') ∨ ('A' ≤ c ∧ c ≤ 'F')) →
      (informTick.dispatch svc (.setParam response)).1.Management.GetKey = DefaultKey) ∧
    (∀ key, KeyFromString k = .ok key →
      (informTick.dispatch svc (.setParam response)).1.Management.GetKey = key) := by
  obtain ⟨h1, h2⟩ := dispatch_authkey svc response k h
  refine ⟨h1, h2, fun hn => ?_, fun key hk => ?_⟩
  · apply GetKey_of_invalid
    rw [h1]
    exact hn
  · apply GetKey_of_valid
    rw [h1]
    exact hk

/-- C28 (witness). The sample configuration and the `authkey` text `zz`. -/
theorem invalid_authkey_stored_witness :
    (informTick.dispatch sampleConfig (.setParam ⟨200, [("authkey", "zz")], 0⟩)).1.Management.Key
      = "zz" ∧
    (informTick.dispatch sampleConfig
      (.setParam ⟨200, [("authkey", "zz")], 0⟩)).1.Management.GetKey = DefaultKey :=
  ⟨(invalid_authkey_stored sampleConfig ⟨200, [("authkey", "zz")], 0⟩ "zz" rfl).1,
    (invalid_authkey_stored sampleConfig ⟨200, [("authkey", "zz")], 0⟩ "zz" rfl).2.2.1
      (fun h => absurd h.1 (by decide))⟩

/-! ## Lemmas: the uplink and the port table of `Request` -/

theorem upWithIPv4_iff (i : Interface) : upWithIPv4 i = true ↔ (i.Up = true ∧ i.Ip ≠ "") := by
  simp [upWithIPv4]

/-- A turn of the loop on an interface that is down or has no address. -/
theorem ifaceStep_skip (r : Inform) (i : Interface) (h : upWithIPv4 i = false) :
    (Request.ifaceStep r i).Uplink = r.Uplink ∧ (Request.ifaceStep r i).Mac = r.Mac ∧
    (Request.ifaceStep r i).Ip = r.Ip ∧ (Request.ifaceStep r i).Netmask = r.Netmask ∧
    (Request.ifaceStep r i).Serial = r.Serial ∧
    (Request.ifaceStep r i).ConfigNetworkWan = r.ConfigNetworkWan ∧
    (Request.ifaceStep r i).PortTable = r.PortTable := by
  have hq : ¬ (i.Up = true ∧ i.Ip ≠ "") := fun h2 => by
    rw [(upWithIPv4_iff i).2 h2] at h
    exact absurd h (by simp)
  unfold Request.ifaceStep
  simp only []
  rw [if_neg hq]
  exact ⟨rfl, rfl, rfl, rfl, rfl, rfl, rfl⟩

/-- A turn of the loop on an interface that is up with an address, the uplink being
known. -/
theorem ifaceStep_lan (r : Inform) (i : Interface) (p : List Port) (h : upWithIPv4 i = true)
    (hu : r.Uplink ≠ "") (hp : r.PortTable = some p) :
    (Request.ifaceStep r i).Uplink = r.Uplink ∧ (Request.ifaceStep r i).Mac = r.Mac ∧
    (Request.ifaceStep r i).Ip = r.Ip ∧ (Request.ifaceStep r i).Netmask = r.Netmask ∧
    (Request.ifaceStep r i).Serial = r.Serial ∧
    (Request.ifaceStep r i).ConfigNetworkWan = r.ConfigNetworkWan ∧
    (Request.ifaceStep r i).PortTable = some (p ++ lanPorts p.length [i]) := by
  have hq : i.Up = true ∧ i.Ip ≠ "" := (upWithIPv4_iff i).1 h
  unfold Request.ifaceStep
  simp only []
  rw [if_pos hq, if_neg hu]
  refine ⟨rfl, rfl, rfl, rfl, rfl, rfl, ?_⟩
  simp only [hp]
  rfl

/-- A turn of the loop on an interface that is up with an address, no uplink being
known. -/
theorem ifaceStep_wan (r : Inform) (i : Interface) (p : List Port) (h : upWithIPv4 i = true)
    (hu : r.Uplink = "") (hp : r.PortTable = some p) :
    (Request.ifaceStep r i).Uplink = i.Name ∧ (Request.ifaceStep r i).Mac = i.Mac ∧
    (Request.ifaceStep r i).Ip = i.Ip ∧ (Request.ifaceStep r i).Netmask = i.Netmask ∧
    (Request.ifaceStep r i).Serial = HardwareAddr.HexString i.Mac ∧
    (Request.ifaceStep r i).ConfigNetworkWan = r.ConfigNetworkWan.setIfName i.Name ∧
    (Request.ifaceStep r i).PortTable = some (p ++ [⟨i.Name, "wan"⟩]) := by
  have hq : i.Up = true ∧ i.Ip ≠ "" := (upWithIPv4_iff i).1 h
  unfold Request.ifaceStep
  simp only []
  rw [if_pos hq, if_pos hu]
  refine ⟨rfl, rfl, rfl, rfl, rfl, rfl, ?_⟩
  simp only [hp]
  rfl

/-- The loop once the uplink is known: the uplink stays, each further interface that
is up with an address gets a `lan` port. -/
theorem foldl_ifaceStep_lan (ifaces : List Interface) : ∀ (r : Inform) (p : List Port),
    r.Uplink ≠ "" → r.PortTable = some p →
    (ifaces.foldl Request.ifaceStep r).Uplink = r.Uplink ∧
    (ifaces.foldl Request.ifaceStep r).Mac = r.Mac ∧
    (ifaces.foldl Request.ifaceStep r).Ip = r.Ip ∧
    (ifaces.foldl Request.ifaceStep r).Netmask = r.Netmask ∧
    (ifaces.foldl Request.ifaceStep r).Serial = r.Serial ∧
    (ifaces.foldl Request.ifaceStep r).ConfigNetworkWan = r.ConfigNetworkWan ∧
    (ifaces.foldl Request.ifaceStep r).PortTable
      = some (p ++ lanPorts p.length (ifaces.filter upWithIPv4)) := by
  induction ifaces with
  | nil =>
    intro r p _ hp
    refine ⟨rfl, rfl, rfl, rfl, rfl, rfl, ?_⟩
    simp only [List.foldl_nil, List.filter_nil, lanPorts, List.enumFrom_nil, List.map_nil,
      List.append_nil]
    exact hp
  | cons i is ih =>
    intro r p hu hp
    rw [List.foldl_cons]
    cases hq : upWithIPv4 i with
    | false =>
      obtain ⟨h1, h2, h3, h4, h5, h6, h7⟩ := ifaceStep_skip r i hq
      obtain ⟨g1, g2, g3, g4, g5, g6, g7⟩ :=
        ih (Request.ifaceStep r i) p (by rw [h1]; exact hu) (by rw [h7]; exact hp)
      rw [List.filter_cons_of_neg (by simp [hq])]
      exact ⟨g1.trans h1, g2.trans h2, g3.trans h3, g4.trans h4, g5.trans h5, g6.trans h6, g7⟩
    | true =>
      obtain ⟨h1, h2, h3, h4, h5, h6, h7⟩ := ifaceStep_lan r i p hq hu hp
      obtain ⟨g1, g2, g3, g4, g5, g6, g7⟩ :=
        ih (Request.ifaceStep r i) _ (by rw [h1]; exact hu) h7
      rw [List.filter_cons_of_pos hq]
      refine ⟨g1.trans h1, g2.trans h2, g3.trans h3, g4.trans h4, g5.trans h5, g6.trans h6, ?_⟩
      rw [g7]
      simp [lanPorts, List.enumFrom_cons]

/-- The loop while no uplink is known: the first interface that is up with an
address becomes the uplink and the `wan` port, the later ones get `lan` ports. -/
theorem foldl_ifaceStep_wan (ifaces : List Interface)
    (hname : ∀ i ∈ ifaces, upWithIPv4 i = true → i.Name ≠ "") :
    ∀ (r : Inform) (p : List Port), r.Uplink = "" → r.PortTable = some p →
    (ifaces.filter upWithIPv4 = [] →
      (ifaces.foldl Request.ifaceStep r).Uplink = "" ∧
      (ifaces.foldl Request.ifaceStep r).Mac = r.Mac ∧
      (ifaces.foldl Request.ifaceStep r).Ip = r.Ip ∧
      (ifaces.foldl Request.ifaceStep r).Netmask = r.Netmask ∧
      (ifaces.foldl Request.ifaceStep r).Serial = r.Serial ∧
      (ifaces.foldl Request.ifaceStep r).ConfigNetworkWan = r.ConfigNetworkWan ∧
      (ifaces.foldl Request.ifaceStep r).PortTable = some p) ∧
    (∀ first rest, ifaces.filter upWithIPv4 = first :: rest →
      (ifaces.foldl Request.ifaceStep r).Uplink = first.Name ∧
      (ifaces.foldl Request.ifaceStep r).Mac = first.Mac ∧
      (ifaces.foldl Request.ifaceStep r).Ip = first.Ip ∧
      (ifaces.foldl Request.ifaceStep r).Netmask = first.Netmask ∧
      (ifaces.foldl Request.ifaceStep r).Serial = HardwareAddr.HexString first.Mac ∧
      (ifaces.foldl Request.ifaceStep r).ConfigNetworkWan
        = r.ConfigNetworkWan.setIfName first.Name ∧
      (ifaces.foldl Request.ifaceStep r).PortTable
        = some (p ++ ⟨first.Name, "wan"⟩ :: lanPorts (p.length + 1) rest)) := by
  induction ifaces with
  | nil =>
    intro r p hu hp
    refine ⟨fun _ => ⟨hu, rfl, rfl, rfl, rfl, rfl, hp⟩, fun first rest h => ?_⟩
    exact absurd h (by simp)
  | cons i is ih =>
    intro r p hu hp
    rw [List.foldl_cons]
    have hname2 : ∀ j ∈ is, upWithIPv4 j = true → j.Name ≠ "" :=
      fun j hj => hname j (List.mem_cons_of_mem _ hj)
    cases hq : upWithIPv4 i with
    | false =>
      obtain ⟨h1, h2, h3, h4, h5, h6, h7⟩ := ifaceStep_skip r i hq
      obtain ⟨ga, gb⟩ :=
        ih hname2 (Request.ifaceStep r i) p (by rw [h1]; exact hu) (by rw [h7]; exact hp)
      rw [List.filter_cons_of_neg (by simp [hq])]
      refine ⟨fun hf => ?_, fun first rest hf => ?_⟩
      · obtain ⟨g1, g2, g3, g4, g5, g6, g7⟩ := ga hf
        exact ⟨g1, g2.trans h2, g3.trans h3, g4.trans h4, g5.trans h5, g6.trans h6, g7⟩
      · obtain ⟨g1, g2, g3, g4, g5, g6, g7⟩ := gb first rest hf
        refine ⟨g1, g2, g3, g4, g5, ?_, g7⟩
        rw [g6, h6]
    | true =>
      obtain ⟨h1, h2, h3, h4, h5, h6, h7⟩ := ifaceStep_wan r i p hq hu hp
      have hu2 : (Request.ifaceStep r i).Uplink ≠ "" := by
        rw [h1]
        exact hname i (List.mem_cons_self _ _) hq
      obtain ⟨g1, g2, g3, g4, g5, g6, g7⟩ :=
        foldl_ifaceStep_lan is (Request.ifaceStep r i) _ hu2 h7
      rw [List.filter_cons_of_pos hq]
      refine ⟨fun hf => absurd hf (by simp), fun first rest hf => ?_⟩
      obtain ⟨hf1, hf2⟩ := List.cons.inj hf
      subst hf1
      subst hf2
      refine ⟨g1.trans h1, g2.trans h2, g3.trans h3, g4.trans h4, g5.trans h5, g6.trans h6, ?_⟩
      rw [g7]
      simp

/-- The request before the loop over the interfaces: no uplink, an empty port
table. -/
theorem Request_startStep_uplink (env : HostEnv) (address v : Str) :
    (Request.startStep env address v).Uplink = "" ∧
    (Request.startStep env address v).Mac = [] ∧
    (Request.startStep env address v).Ip = "" ∧
    (Request.startStep env address v).Netmask = "" ∧
    (Request.startStep env address v).Serial = "" ∧
    (Request.startStep env address v).ConfigNetworkWan
      = ⟨NetworkConfigDhcp, "", "", "", "", "", ""⟩ ∧
    (Request.startStep env address v).PortTable = some [] := by
  unfold Request.startStep Request.hostStep
  cases env.hostInfo <;> exact ⟨rfl, rfl, rfl, rfl, rfl, rfl, rfl⟩

/-- The uplink fields and the port table of `Request` are those the loop over the
interfaces leaves. -/
theorem Request_uplink_fields (env : HostEnv) (address v : Str) (ifaces : Slice Interface)
    (hnet : env.network = .ok ifaces) :
    ∃ r0 : Inform, r0.Uplink = "" ∧ r0.Mac = [] ∧ r0.Ip = "" ∧ r0.Netmask = "" ∧
      r0.Serial = "" ∧ r0.ConfigNetworkWan = ⟨NetworkConfigDhcp, "", "", "", "", "", ""⟩ ∧
      r0.PortTable = some [] ∧
      (Request env address v).1.Uplink = ((ifaces.getD []).foldl Request.ifaceStep r0).Uplink ∧
      (Request env address v).1.Mac = ((ifaces.getD []).foldl Request.ifaceStep r0).Mac ∧
      (Request env address v).1.Ip = ((ifaces.getD []).foldl Request.ifaceStep r0).Ip ∧
      (Request env address v).1.Netmask
        = ((ifaces.getD []).foldl Request.ifaceStep r0).Netmask ∧
      (Request env address v).1.Serial = ((ifaces.getD []).foldl Request.ifaceStep r0).Serial ∧
      (Request env address v).1.ConfigNetworkWan
        = ((ifaces.getD []).foldl Request.ifaceStep r0).ConfigNetworkWan ∧
      (Request env address v).1.PortTable
        = ((ifaces.getD []).foldl Request.ifaceStep r0).PortTable := by
  obtain ⟨h1, h2, h3, h4, h5, h6, h7⟩ := Request_startStep_uplink env address v
  refine ⟨{ Request.startStep env address v with
    IntfTable := ifaces
    EthernetTable := some (List.replicate (ifaces.getD []).length EthernetTableEntry.zero) },
    h1, h2, h3, h4, h5, h6, h7, ?_⟩
  unfold Request Request.networkStep
  simp only [hnet]
  cases env.sysStats <;> exact ⟨rfl, rfl, rfl, rfl, rfl, rfl, rfl⟩

/-- No `lan` name is the name `wan`. -/
theorem lan_ne_wan (x : Str) : "lan" ++ x ≠ "wan" := by
  intro h
  have h2 := congrArg String.data h
  rw [String.data_append] at h2
  have h3 : ("lan" : Str).data = ['l', 'a', 'n'] := rfl
  have h4 : ("wan" : Str).data = ['w', 'a', 'n'] := rfl
  rw [h3, h4] at h2
  have h5 := (List.cons.inj h2).1
  exact absurd h5 (by decide)

theorem lanPorts_no_wan (l : List Interface) : ∀ n, ∀ p ∈ lanPorts n l, p.Name ≠ "wan" := by
  intro n p hp
  unfold lanPorts at hp
  obtain ⟨q, _, hq⟩ := List.mem_map.1 hp
  rw [← hq]
  exact lan_ne_wan _

/-- The names the loop gives from the second port on are those of the
specification. -/
theorem lanPorts_spec (l : List Interface) : ∀ n, 1 ≤ n →
    lanPorts n l = (l.enumFrom n).map (fun p => ⟨p.2.Name, specPortName p.1⟩) := by
  intro n hn
  unfold lanPorts
  apply List.map_congr_left
  intro p hp
  have hp0 : n ≤ p.1 := List.le_fst_of_mem_enumFrom hp
  have hp1 : ¬ p.1 = 0 := by omega
  unfold specPortName
  rw [if_neg hp1]
  by_cases h1 : p.1 = 1
  · have h2 : (p.1 : Int) = 1 := by omega
    rw [if_pos h1, if_pos h2]
    rfl
  · have h2 : ¬ (p.1 : Int) = 1 := by omega
    rw [if_neg h1, if_neg h2]

/-- The port table the loop builds is the one of the specification. -/
theorem specPortTable_eq (l : List Interface) :
    (l.filter upWithIPv4 = [] → specPortTable l = []) ∧
    (∀ first rest, l.filter upWithIPv4 = first :: rest →
      specPortTable l = ⟨first.Name, "wan"⟩ :: lanPorts 1 rest) := by
  unfold specPortTable
  refine ⟨fun h => by rw [h]; rfl, fun first rest h => ?_⟩
  rw [h, lanPorts_spec rest 1 (Nat.le_refl _)]
  simp [List.enum, List.enumFrom_cons, specPortName]

/-- The port table of `Request` for a list of interfaces whose members that are up
with an address have a name. -/
theorem Request_ports (env : HostEnv) (address v : Str) (ifaces : Slice Interface)
    (hnet : env.network = .ok ifaces)
    (hname : ∀ i ∈ ifaces.getD [], upWithIPv4 i = true → i.Name ≠ "") :
    ((ifaces.getD []).filter upWithIPv4 = [] →
      (Request env address v).1.Uplink = "" ∧ (Request env address v).1.Mac = [] ∧
      (Request env address v).1.Ip = "" ∧ (Request env address v).1.Netmask = "" ∧
      (Request env address v).1.Serial = "" ∧
      (Request env address v).1.PortTable = some []) ∧
    (∀ first rest, (ifaces.getD []).filter upWithIPv4 = first :: rest →
      (Request env address v).1.Uplink = first.Name ∧
      (Request env address v).1.Mac = first.Mac ∧
      (Request env address v).1.Ip = first.Ip ∧
      (Request env address v).1.Netmask = first.Netmask ∧
      (Request env address v).1.Serial = HardwareAddr.HexString first.Mac ∧
      (Request env address v).1.ConfigNetworkWan.IfName = first.Name ∧
      (Request env address v).1.PortTable
        = some (⟨first.Name, "wan"⟩ :: lanPorts 1 rest)) := by
  obtain ⟨r0, h1, h2, h3, h4, h5, h6, h7, e1, e2, e3, e4, e5, e6, e7⟩ :=
    Request_uplink_fields env address v ifaces hnet
  obtain ⟨ga, gb⟩ := foldl_ifaceStep_wan (ifaces.getD []) hname r0 [] h1 h7
  refine ⟨fun hf => ?_, fun first rest hf => ?_⟩
  · obtain ⟨g1, g2, g3, g4, g5, g6, g7⟩ := ga hf
    exact ⟨e1.trans g1, e2.trans (g2.trans h2), e3.trans (g3.trans h3),
      e4.trans (g4.trans h4), e5.trans (g5.trans h5), e7.trans g7⟩
  · obtain ⟨g1, g2, g3, g4, g5, g6, g7⟩ := gb first rest hf
    refine ⟨e1.trans g1, e2.trans g2, e3.trans g3, e4.trans g4, e5.trans g5, ?_, e7.trans g7⟩
    rw [e6, g6]
    rfl

/-- C29. In plain-host mode, for every list of collected interfaces (an interface
that is up with an address has a name, as `Network` only marks an interface up after
`net.InterfaceByName` found it by its name), the port table of `Request` has exactly
one entry per interface that is up with a non-empty IPv4 address, in list order: the
entry at position `k` (from 0) belongs to the `k`-th such interface and is named
`wan` for the first, `lan` for the second and `lan2`, `lan3`, … (the position in
decimal) from the third on.  Interfaces that are down or without address contribute
no entry. -/
theorem Request_port_table (env : HostEnv) (address version : Str)
    (ifaces : Slice Interface) (hnet : env.network = .ok ifaces)
    (hname : ∀ i ∈ ifaces.getD [], i.Up = true → i.Ip ≠ "" → i.Name ≠ "") :
    (Request env address version).1.PortTable = some (specPortTable (ifaces.getD [])) ∧
    (specPortTable (ifaces.getD [])).length = ((ifaces.getD []).filter upWithIPv4).length ∧
    (∀ k, (specPortTable (ifaces.getD []))[k]?
      = (((ifaces.getD []).filter upWithIPv4)[k]?).map
          (fun i => (⟨i.Name, specPortName k⟩ : Port))) ∧
    (∀ i : Interface, upWithIPv4 i = true ↔ (i.Up = true ∧ i.Ip ≠ "")) ∧
    specPortName 0 = "wan" ∧ specPortName 1 = "lan" ∧ specPortName 2 = "lan2" ∧
    specPortName 3 = "lan3" ∧ specPortName 10 = "lan10" ∧
    (∀ k, 2 ≤ k → specPortName k = "lan" ++ (formatInt k).asString) := by
  have hname2 : ∀ i ∈ ifaces.getD [], upWithIPv4 i = true → i.Name ≠ "" := fun i hi hq =>
    hname i hi ((upWithIPv4_iff i).1 hq).1 ((upWithIPv4_iff i).1 hq).2
  obtain ⟨ha, hb⟩ := Request_ports env address version ifaces hnet hname2
  obtain ⟨sa, sb⟩ := specPortTable_eq (ifaces.getD [])
  refine ⟨?_, ?_, fun k => ?_, upWithIPv4_iff, by decide, by decide, by decide, by decide,
    by decide, fun k hk => ?_⟩
  · cases hf : (ifaces.getD []).filter upWithIPv4 with
    | nil => rw [sa hf]; exact (ha hf).2.2.2.2.2
    | cons first rest => rw [sb first rest hf]; exact (hb first rest hf).2.2.2.2.2.2
  · simp [specPortTable]
  · simp only [specPortTable, List.getElem?_map, List.getElem?_enum]
    cases ((ifaces.getD []).filter upWithIPv4)[k]? <;> rfl
  · unfold specPortName
    rw [if_neg (show ¬ k = 0 by omega), if_neg (show ¬ k = 1 by omega)]

/-- C29 (witness). The sample host: `eth0` up with an address, `eth1` down, `eth2`
up with an address. -/
theorem Request_port_table_witness :
    (Request sampleEnv "http://unifi:8080/inform" "abc").1.PortTable
      = some [⟨"eth0", "wan"⟩, ⟨"eth2", "lan"⟩] :=
  (Request_port_table sampleEnv "http://unifi:8080/inform" "abc" (some sampleInterfaces) rfl
    (by decide)).1.trans (by decide)

/-- The first element a filter keeps is the first element with the property. -/
theorem head_filter_eq_find (p : Interface → Bool) (l : List Interface) :
    (l.filter p).head? = l.find? p := by
  induction l with
  | nil => rfl
  | cons a l ih =>
    cases h : p a with
    | true => rw [List.filter_cons_of_pos h, List.find?_cons_of_pos _ h]; rfl
    | false =>
      rw [List.filter_cons_of_neg (by simp [h]), List.find?_cons_of_neg _ (by simp [h])]
      exact ih

/-- C30. In plain-host mode, for every list of collected interfaces (an interface
that is up with an address has a name), the uplink, the MAC, the IP address, the
netmask and the interface name of the WAN configuration of the `Inform` are those of
the first interface in list order that is up with a non-empty IPv4 address, whatever
follows it in the list; the port table starts with the `wan` port of that interface
and `wan` names exactly one port.  When no interface is up with an address, the
uplink is empty, the MAC is the nil address and the port table is empty. -/
theorem Request_uplink (env : HostEnv) (address version : Str)
    (ifaces : Slice Interface) (hnet : env.network = .ok ifaces)
    (hname : ∀ i ∈ ifaces.getD [], i.Up = true → i.Ip ≠ "" → i.Name ≠ "") :
    (∀ first, (ifaces.getD []).find? upWithIPv4 = some first →
      (Request env address version).1.Uplink = first.Name ∧
      (Request env address version).1.Mac = first.Mac ∧
      (Request env address version).1.Ip = first.Ip ∧
      (Request env address version).1.Netmask = first.Netmask ∧
      (Request env address version).1.ConfigNetworkWan.IfName = first.Name ∧
      ((Request env address version).1.PortTable.getD [])[0]? = some ⟨first.Name, "wan"⟩ ∧
      (((Request env address version).1.PortTable.getD []).filter
        (fun p => p.Name == "wan")).length = 1) ∧
    ((ifaces.getD []).find? upWithIPv4 = none →
      (Request env address version).1.Uplink = "" ∧
      (Request env address version).1.Mac = [] ∧
      (Request env address version).1.PortTable = some []) ∧
    (∀ i : Interface, upWithIPv4 i = true ↔ (i.Up = true ∧ i.Ip ≠ "")) := by
  have hname2 : ∀ i ∈ ifaces.getD [], upWithIPv4 i = true → i.Name ≠ "" := fun i hi hq =>
    hname i hi ((upWithIPv4_iff i).1 hq).1 ((upWithIPv4_iff i).1 hq).2
  obtain ⟨ha, hb⟩ := Request_ports env address version ifaces hnet hname2
  have hfind := head_filter_eq_find upWithIPv4 (ifaces.getD [])
  refine ⟨fun first hf => ?_, fun hf => ?_, upWithIPv4_iff⟩
  · rw [hf] at hfind
    cases hl : (ifaces.getD []).filter upWithIPv4 with
    | nil => rw [hl] at hfind; exact absurd hfind (by simp)
    | cons f rest =>
      rw [hl] at hfind
      have hff : f = first := Option.some.inj hfind
      subst hff
      obtain ⟨g1, g2, g3, g4, _, g6, g7⟩ := hb f rest hl
      refine ⟨g1, g2, g3, g4, g6, ?_, ?_⟩
      · rw [g7]
        simp
      · rw [g7]
        have hnone : (lanPorts 1 rest).filter (fun p => p.Name == "wan") = [] := by
          rw [List.filter_eq_nil_iff]
          intro p hp
          simpa using lanPorts_no_wan rest 1 p hp
        simp only [Option.getD_some]
        rw [List.filter_cons_of_pos (by rfl), hnone]
        rfl
  · rw [hf] at hfind
    cases hl : (ifaces.getD []).filter upWithIPv4 with
    | nil =>
      obtain ⟨g1, g2, _, _, _, g7⟩ := ha hl
      exact ⟨g1, g2, g7⟩
    | cons f rest => rw [hl] at hfind; exact absurd hfind (by simp)

/-- C30 (witness). The sample host: the uplink is `eth0`, the first interface that
is up with an address. -/
theorem Request_uplink_witness :
    List.find? upWithIPv4 sampleInterfaces
      = some (sampleInterface "eth0" true "192.168.1.2" "255.255.255.0"
          [0xaa, 0xbb, 0xcc, 0xdd, 0xee, 0xff] 1) ∧
    (Request sampleEnv "http://unifi:8080/inform" "abc").1.Uplink = "eth0" :=
  ⟨by decide, ((Request_uplink sampleEnv "http://unifi:8080/inform" "abc"
    (some sampleInterfaces) rfl (by decide)).1
      (sampleInterface "eth0" true "192.168.1.2" "255.255.255.0"
        [0xaa, 0xbb, 0xcc, 0xdd, 0xee, 0xff] 1) (by decide)).1.trans (by decide)⟩

/-! ## Lemmas: the serial number of the request -/

theorem ifaceStep_serial (r : Inform) (i : Interface)
    (h : r.Serial = HardwareAddr.HexString r.Mac) :
    (Request.ifaceStep r i).Serial = HardwareAddr.HexString (Request.ifaceStep r i).Mac := by
  unfold Request.ifaceStep
  simp only []
  split
  · split
    · rfl
    · exact h
  · exact h

theorem foldl_ifaceStep_serial (ifaces : List Interface) : ∀ r : Inform,
    r.Serial = HardwareAddr.HexString r.Mac →
    (ifaces.foldl Request.ifaceStep r).Serial
      = HardwareAddr.HexString (ifaces.foldl Request.ifaceStep r).Mac := by
  induction ifaces with
  | nil => intro r h; exact h
  | cons i is ih => intro r h; exact ih _ (ifaceStep_serial r i h)

/-- The serial number `Request` returns is the hexadecimal form of the address it
returns. -/
theorem Request_serial (env : HostEnv) (address v : Str) :
    (Request env address v).1.Serial
      = HardwareAddr.HexString (Request env address v).1.Mac := by
  have hs := Request_startStep_uplink env address v
  unfold Request Request.networkStep
  cases hnet : env.network with
  | error e =>
    simp only []
    cases env.sysStats <;> exact hs.2.2.2.2.1.trans (by rw [hs.2.1]; rfl)
  | ok ifaces =>
    have h0 := foldl_ifaceStep_serial (ifaces.getD [])
      { Request.startStep env address v with
        IntfTable := ifaces
        EthernetTable := some (List.replicate (ifaces.getD []).length EthernetTableEntry.zero) }
      (hs.2.2.2.2.1.trans (by rw [hs.2.1]; rfl))
    simp only []
    cases env.sysStats <;> exact h0

theorem pfsense_startStep_serial (env : HostEnv) (address v : Str)
    (speedtest : Option SpeedTestStatus) :
    (RequestFromPfsense.startStep env address v speedtest).Serial = "" ∧
    (RequestFromPfsense.startStep env address v speedtest).Mac = [] := by
  unfold RequestFromPfsense.startStep RequestFromPfsense.hostStep
  cases speedtest <;> cases env.hostInfo <;> cases env.sysStats <;> exact ⟨rfl, rfl⟩

theorem wanStep_serial (env : HostEnv) (pfsense : pfconf.Configuration)
    (speedtest : Option SpeedTestStatus) (table : PfSenseTranslation) (r : Inform)
    (h : r.Serial = HardwareAddr.HexString r.Mac) :
    (RequestFromPfsense.wanStep env pfsense speedtest table r).Serial
      = HardwareAddr.HexString (RequestFromPfsense.wanStep env pfsense speedtest table r).Mac ∧
    (table.Wan.Pfsense.If ≠ "" →
      (RequestFromPfsense.wanStep env pfsense speedtest table r).Mac = table.Wan.Physical.Mac) ∧
    (table.Wan.Pfsense.If = "" →
      (RequestFromPfsense.wanStep env pfsense speedtest table r).Mac = r.Mac) := by
  unfold RequestFromPfsense.wanStep
  simp only []
  split
  · rename_i hw
    split
    · exact ⟨rfl, fun _ => rfl, fun h2 => absurd h2 hw⟩
    · exact ⟨rfl, fun _ => rfl, fun h2 => absurd h2 hw⟩
  · rename_i hw
    exact ⟨h, fun h2 => absurd h2 hw, fun _ => rfl⟩

theorem wan2Step_mac (pfsense : pfconf.Configuration) (table : PfSenseTranslation)
    (r : Inform) :
    (RequestFromPfsense.wan2Step pfsense table r).Serial = r.Serial ∧
    (RequestFromPfsense.wan2Step pfsense table r).Mac = r.Mac := by
  unfold RequestFromPfsense.wan2Step
  simp only []
  split
  · split <;> exact ⟨rfl, rfl⟩
  · exact ⟨rfl, rfl⟩

theorem lanStep_mac (table : PfSenseTranslation) (r : Inform) :
    (RequestFromPfsense.lanStep table r).Serial = r.Serial ∧
    (RequestFromPfsense.lanStep table r).Mac = r.Mac := by
  unfold RequestFromPfsense.lanStep
  simp only []
  split <;> exact ⟨rfl, rfl⟩

theorem uidStep_serial (env : HostEnv) (table : PfSenseTranslation) (r r2 : Inform)
    (h : r.Serial = HardwareAddr.HexString r.Mac)
    (h2 : RequestFromPfsense.uidStep env table r = .ok r2) :
    r2.Serial = HardwareAddr.HexString r2.Mac ∧
    (table.Uid.Physical.Ip = "" → r2.Mac = r.Mac) ∧
    (table.Uid.Physical.Ip ≠ "" → ∃ mac,
      computeMacFromIp env.ParseIP table.Uid.Physical.Ip = .ok mac ∧ r2.Mac = mac.getD []) := by
  unfold RequestFromPfsense.uidStep at h2
  by_cases hu : table.Uid.Physical.Ip = ""
  · rw [if_neg (not_not.mpr hu)] at h2
    have h3 := Except.ok.inj h2
    subst h3
    exact ⟨h, fun _ => rfl, fun h4 => absurd hu h4⟩
  · rw [if_pos hu] at h2
    cases hc : computeMacFromIp env.ParseIP table.Uid.Physical.Ip with
    | error e => rw [hc] at h2; exact absurd h2 (by simp)
    | ok mac =>
      rw [hc] at h2
      have h3 := Except.ok.inj h2
      subst h3
      exact ⟨rfl, fun h4 => absurd h4 hu, fun _ => ⟨mac, rfl, rfl⟩⟩

/-- How `RequestFromPfsense` returns: the four steps on the interfaces, or the
request of the start when `Network()` failed. -/
theorem RequestFromPfsense_ok (env : HostEnv) (address v : Str) (pfsense : pfconf.Configuration)
    (translation : PfSenseTranslationTable) (speedtest : Option SpeedTestStatus)
    (r : Inform) (e : Option Error)
    (h : RequestFromPfsense env address v pfsense translation speedtest = .ok (r, e)) :
    (∃ err, env.network = .error err ∧ e = some err ∧
      r = RequestFromPfsense.startStep env address v speedtest) ∨
    (∃ ifaces, env.network = .ok ifaces ∧ e = none ∧
      RequestFromPfsense.uidStep env
        (populateInterfaces (ifaces.getD []) pfsense.Interfaces translation)
        (RequestFromPfsense.lanStep
          (populateInterfaces (ifaces.getD []) pfsense.Interfaces translation)
          (RequestFromPfsense.wan2Step pfsense
            (populateInterfaces (ifaces.getD []) pfsense.Interfaces translation)
            (RequestFromPfsense.wanStep env pfsense speedtest
              (populateInterfaces (ifaces.getD []) pfsense.Interfaces translation)
              ((RequestFromPfsense.startStep env address v speedtest).setTables
                (some []) (some []))))) = .ok r) := by
  unfold RequestFromPfsense at h
  cases hnet : env.network with
  | error err =>
    rw [hnet] at h
    simp only [Except.ok.injEq, Prod.mk.injEq] at h
    exact Or.inl ⟨err, rfl, h.2.symm, h.1.symm⟩
  | ok ifaces =>
    rw [hnet] at h
    simp only [] at h
    refine Or.inr ⟨ifaces, rfl, ?_⟩
    split at h
    · exact absurd h (by simp)
    · rename_i r2 hu
      simp only [Except.ok.injEq, Prod.mk.injEq] at h
      rw [← h.1]
      exact ⟨h.2.symm, hu⟩

/-- `RequestFromPfsense` returns when `net.ParseIP` returns nil or an address of at
least four bytes. -/
theorem RequestFromPfsense_returns (env : HostEnv) (address v : Str)
    (pfsense : pfconf.Configuration) (translation : PfSenseTranslationTable)
    (speedtest : Option SpeedTestStatus)
    (hp : ∀ ip b, env.ParseIP ip = some b → 4 ≤ b.length) :
    ∃ r e, RequestFromPfsense env address v pfsense translation speedtest = .ok (r, e) := by
  unfold RequestFromPfsense
  cases hnet : env.network with
  | error err => exact ⟨_, _, rfl⟩
  | ok ifaces =>
    simp only []
    have hu : ∀ table r, ∃ r2, RequestFromPfsense.uidStep env table r = .ok r2 := by
      intro table r
      unfold RequestFromPfsense.uidStep
      by_cases h : table.Uid.Physical.Ip = ""
      · rw [if_neg (not_not.mpr h)]
        exact ⟨_, rfl⟩
      · rw [if_pos h]
        unfold computeMacFromIp
        cases hip : env.ParseIP table.Uid.Physical.Ip with
        | none => exact ⟨_, rfl⟩
        | some b =>
          have hb := hp _ b hip
          simp only []
          rw [if_neg (by omega)]
          exact ⟨_, rfl⟩
    obtain ⟨r2, h2⟩ := hu
      (populateInterfaces (ifaces.getD []) pfsense.Interfaces translation)
      (RequestFromPfsense.lanStep
        (populateInterfaces (ifaces.getD []) pfsense.Interfaces translation)
        (RequestFromPfsense.wan2Step pfsense
          (populateInterfaces (ifaces.getD []) pfsense.Interfaces translation)
          (RequestFromPfsense.wanStep env pfsense speedtest
            (populateInterfaces (ifaces.getD []) pfsense.Interfaces translation)
            ((RequestFromPfsense.startStep env address v speedtest).setTables
              (some []) (some [])))))
    refine ⟨r2, none, ?_⟩
    unfold Inform.setTables at h2
    rw [h2]

/-- The address and the serial number `RequestFromPfsense` returns. -/
theorem RequestFromPfsense_mac (env : HostEnv) (address v : Str) (pfsense : pfconf.Configuration)
    (translation : PfSenseTranslationTable) (speedtest : Option SpeedTestStatus)
    (r : Inform) (e : Option Error)
    (h : RequestFromPfsense env address v pfsense translation speedtest = .ok (r, e)) :
    r.Serial = HardwareAddr.HexString r.Mac ∧
    (∀ ifaces, env.network = .ok ifaces →
      ((populateInterfaces (ifaces.getD []) pfsense.Interfaces translation).Uid.Physical.Ip ≠ "" →
        ∃ mac, computeMacFromIp env.ParseIP
          (populateInterfaces (ifaces.getD []) pfsense.Interfaces translation).Uid.Physical.Ip
            = .ok mac ∧ r.Mac = mac.getD []) ∧
      ((populateInterfaces (ifaces.getD []) pfsense.Interfaces translation).Uid.Physical.Ip = "" →
        ((populateInterfaces (ifaces.getD []) pfsense.Interfaces translation).Wan.Pfsense.If ≠ "" →
          r.Mac = (populateInterfaces (ifaces.getD []) pfsense.Interfaces
            translation).Wan.Physical.Mac) ∧
        ((populateInterfaces (ifaces.getD []) pfsense.Interfaces translation).Wan.Pfsense.If = "" →
          r.Mac = []))) ∧
    (∀ err, env.network = .error err → r.Mac = []) := by
  obtain ⟨hs1, hs2⟩ := pfsense_startStep_serial env address v speedtest
  have h0 : ((RequestFromPfsense.startStep env address v speedtest).setTables
      (some []) (some [])).Serial = HardwareAddr.HexString
        ((RequestFromPfsense.startStep env address v speedtest).setTables
          (some []) (some [])).Mac := by
    show (RequestFromPfsense.startStep env address v speedtest).Serial = HardwareAddr.HexString
      (RequestFromPfsense.startStep env address v speedtest).Mac
    rw [hs1, hs2]
    rfl
  have h0m : ((RequestFromPfsense.startStep env address v speedtest).setTables
      (some []) (some [])).Mac = [] := hs2
  rcases RequestFromPfsense_ok env address v pfsense translation speedtest r e h with
    ⟨err, hnet, _, hr⟩ | ⟨ifaces, hnet, _, hu⟩
  · refine ⟨?_, fun ifaces hn => ?_, fun _ _ => ?_⟩
    · rw [hr, hs1, hs2]; rfl
    · rw [hnet] at hn; exact absurd hn (by simp)
    · rw [hr]; exact hs2
  · obtain ⟨table, htab⟩ : ∃ t, t = populateInterfaces (ifaces.getD []) pfsense.Interfaces
      translation := ⟨_, rfl⟩
    rw [← htab] at hu
    generalize (RequestFromPfsense.startStep env address v speedtest).setTables
      (some []) (some []) = r0 at hu h0 h0m
    obtain ⟨w1, w2, w3⟩ := wanStep_serial env pfsense speedtest table r0 h0
    obtain ⟨a1, a2⟩ := wan2Step_mac pfsense table
      (RequestFromPfsense.wanStep env pfsense speedtest table r0)
    obtain ⟨b1, b2⟩ := lanStep_mac table (RequestFromPfsense.wan2Step pfsense table
      (RequestFromPfsense.wanStep env pfsense speedtest table r0))
    have hl : (RequestFromPfsense.lanStep table (RequestFromPfsense.wan2Step pfsense table
        (RequestFromPfsense.wanStep env pfsense speedtest table r0))).Serial
        = HardwareAddr.HexString (RequestFromPfsense.lanStep table
          (RequestFromPfsense.wan2Step pfsense table
            (RequestFromPfsense.wanStep env pfsense speedtest table r0))).Mac := by
      rw [b1, b2, a1, a2]
      exact w1
    obtain ⟨u1, u2, u3⟩ := uidStep_serial env table _ r hl hu
    refine ⟨u1, fun ifaces2 hn => ?_, fun err hn => ?_⟩
    · rw [hnet] at hn
      have hi : ifaces = ifaces2 := Except.ok.inj hn
      subst hi
      rw [← htab]
      refine ⟨u3, fun hui => ⟨fun hw => ?_, fun hw => ?_⟩⟩
      · rw [u2 hui, b2, a2]
        exact w2 hw
      · rw [u2 hui, b2, a2, w3 hw]
        exact h0m
    · rw [hnet] at hn; exact absurd hn (by simp)

/-- C31. In every `Inform` produced by `Request` or `RequestFromPfsense` the serial
number is the separator-free hexadecimal form of the address, `mac.HexString()`.
On the plain uplink path both come from the first interface that is up with an
address; on the wan path of the router configuration from the physical interface of
wan; on the uid path the address is BE EF followed by the last four bytes of the
16-byte form `net.ParseIP` returns for the address of the uid interface; with no
uplink the address is nil and the serial number empty.  `Request` always returns,
`RequestFromPfsense` returns whenever `net.ParseIP` returns nil or at least four
bytes. -/
theorem serial_of_mac (env : HostEnv) (address version : Str) (pfsense : pfconf.Configuration)
    (translation : PfSenseTranslationTable) (speedtest : Option SpeedTestStatus) :
    (Request env address version).1.Serial
      = HardwareAddr.HexString (Request env address version).1.Mac ∧
    (∀ r e, RequestFromPfsense env address version pfsense translation speedtest = .ok (r, e) →
      r.Serial = HardwareAddr.HexString r.Mac) ∧
    (∀ ifaces first, env.network = .ok ifaces →
      (∀ i ∈ ifaces.getD [], i.Up = true → i.Ip ≠ "" → i.Name ≠ "") →
      (ifaces.getD []).find? upWithIPv4 = some first →
      (Request env address version).1.Mac = first.Mac ∧
      (Request env address version).1.Serial = HardwareAddr.HexString first.Mac) ∧
    (∀ ifaces, env.network = .ok ifaces → (ifaces.getD []).find? upWithIPv4 = none →
      (Request env address version).1.Mac = [] ∧ (Request env address version).1.Serial = "") ∧
    (∀ r e ifaces,
      RequestFromPfsense env address version pfsense translation speedtest = .ok (r, e) →
      env.network = .ok ifaces →
      (populateInterfaces (ifaces.getD []) pfsense.Interfaces translation).Uid.Physical.Ip = "" →
      ((populateInterfaces (ifaces.getD []) pfsense.Interfaces translation).Wan.Pfsense.If ≠ "" →
        r.Mac = (populateInterfaces (ifaces.getD []) pfsense.Interfaces
          translation).Wan.Physical.Mac ∧
        r.Serial = HardwareAddr.HexString (populateInterfaces (ifaces.getD [])
          pfsense.Interfaces translation).Wan.Physical.Mac) ∧
      ((populateInterfaces (ifaces.getD []) pfsense.Interfaces translation).Wan.Pfsense.If = "" →
        r.Mac = [] ∧ r.Serial = "")) ∧
    (∀ r e ifaces ipObject,
      RequestFromPfsense env address version pfsense translation speedtest = .ok (r, e) →
      env.network = .ok ifaces →
      (populateInterfaces (ifaces.getD []) pfsense.Interfaces translation).Uid.Physical.Ip ≠ "" →
      env.ParseIP (populateInterfaces (ifaces.getD []) pfsense.Interfaces
        translation).Uid.Physical.Ip = some ipObject →
      ipObject.length = 16 →
      ∃ w x y z, ipObject.drop 12 = [w, x, y, z] ∧ r.Mac = [0xBE, 0xEF, w, x, y, z] ∧
        r.Serial = HardwareAddr.HexString [0xBE, 0xEF, w, x, y, z]) ∧
    ((∀ ip b, env.ParseIP ip = some b → 4 ≤ b.length) →
      ∃ r e, RequestFromPfsense env address version pfsense translation speedtest = .ok (r, e)) ∧
    HardwareAddr.HexString [] = "" := by
  have hreq := Request_serial env address version
  refine ⟨hreq, fun r e h => (RequestFromPfsense_mac _ _ _ _ _ _ r e h).1,
    fun ifaces first hnet hname hf => ?_, fun ifaces hnet hf => ?_,
    fun r e ifaces h hnet hu => ?_, fun r e ifaces ipObject h hnet hu hip hl => ?_,
    RequestFromPfsense_returns env address version pfsense translation speedtest, rfl⟩
  · have hname2 : ∀ i ∈ ifaces.getD [], upWithIPv4 i = true → i.Name ≠ "" := fun i hi hq =>
      hname i hi ((upWithIPv4_iff i).1 hq).1 ((upWithIPv4_iff i).1 hq).2
    obtain ⟨_, hb⟩ := Request_ports env address version ifaces hnet hname2
    have hfind := head_filter_eq_find upWithIPv4 (ifaces.getD [])
    rw [hf] at hfind
    cases hl : (ifaces.getD []).filter upWithIPv4 with
    | nil => rw [hl] at hfind; exact absurd hfind (by simp)
    | cons f rest =>
      rw [hl] at hfind
      have hff : f = first := Option.some.inj hfind
      subst hff
      obtain ⟨_, g2, _, _, g5, _, _⟩ := hb f rest hl
      exact ⟨g2, g5⟩
  · have hfind := head_filter_eq_find upWithIPv4 (ifaces.getD [])
    rw [hf] at hfind
    have hl : (ifaces.getD []).filter upWithIPv4 = [] := by
      cases hl : (ifaces.getD []).filter upWithIPv4 with
      | nil => rfl
      | cons f rest => rw [hl] at hfind; exact absurd hfind (by simp)
    have hname2 : ∀ i ∈ ifaces.getD [], upWithIPv4 i = true → i.Name ≠ "" := by
      intro i hi hq
      have : i ∈ (ifaces.getD []).filter upWithIPv4 := List.mem_filter.2 ⟨hi, hq⟩
      rw [hl] at this
      exact absurd this (by simp)
    obtain ⟨ha, _⟩ := Request_ports env address version ifaces hnet hname2
    obtain ⟨_, g2, _, _, g5, _⟩ := ha hl
    exact ⟨g2, g5⟩
  · obtain ⟨hs, hn, _⟩ := RequestFromPfsense_mac _ _ _ _ _ _ r e h
    obtain ⟨_, hn2⟩ := hn ifaces hnet
    obtain ⟨hw1, hw2⟩ := hn2 hu
    refine ⟨fun hw => ?_, fun hw => ?_⟩
    · have hm := hw1 hw
      exact ⟨hm, by rw [hs, hm]⟩
    · have hm := hw2 hw
      exact ⟨hm, by rw [hs, hm]; rfl⟩
  · obtain ⟨hs, hn, _⟩ := RequestFromPfsense_mac _ _ _ _ _ _ r e h
    obtain ⟨hn1, _⟩ := hn ifaces hnet
    obtain ⟨mac, hc, hm⟩ := hn1 hu
    obtain ⟨a0, a1, a2, a3, a4, a5, a6, a7, a8, a9, a10, a11, a12, a13, a14, a15, rfl⟩ :=
      length_sixteen ipObject hl
    have hc2 := computeMacFromIp_of_parsed env.ParseIP _
      [a0, a1, a2, a3, a4, a5, a6, a7, a8, a9, a10, a11] a12 a13 a14 a15 hip
    rw [hc2] at hc
    have hmac := Except.ok.inj hc
    subst hmac
    refine ⟨a12, a13, a14, a15, rfl, hm, ?_⟩
    rw [hs, hm]
    rfl

/-- C31 (witness). The sample host in router-config mode: the uid interface has the
address 10.0.0.1. -/
theorem serial_of_mac_witness :
    RequestFromPfsense sampleEnv "http://unifi:8080/inform" "abc" samplePfsense
      sampleTranslation none = .ok (sampleRouterInform, none) ∧
    sampleRouterInform.Mac = [0xBE, 0xEF, 10, 0, 0, 1] ∧
    sampleRouterInform.Serial = "beef0a000001" ∧
    sampleRouterInform.Serial = HardwareAddr.HexString sampleRouterInform.Mac :=
  ⟨rfl, by decide, by decide,
    (serial_of_mac sampleEnv "http://unifi:8080/inform" "abc" samplePfsense sampleTranslation
      none).2.1 sampleRouterInform none rfl⟩

/-! ## Lemmas: the check of the configuration -/

/-- The defaults `Config.check` fills in. -/
theorem checkDefaults_spec (c : Config) :
    c.checkDefaults.1.General.Url
      = (if c.General.Url = "" then "http://unifi:8080/inform" else c.General.Url) ∧
    c.checkDefaults.1.General.InformInterval
      = (if c.General.InformInterval = 0 then 15 else c.General.InformInterval) ∧
    (c.checkDefaults.2 = true ↔ (c.General.Url = "" ∨ c.General.InformInterval = 0)) ∧
    c.checkDefaults.1.Management = c.Management ∧
    c.checkDefaults.1.SpeedTest = c.SpeedTest ∧
    c.checkDefaults.1.PfSenseInterfaces = c.PfSenseInterfaces ∧
    c.checkDefaults.1.PfSense = c.PfSense ∧
    c.checkDefaults.1.PfSenseMode = c.PfSenseMode ∧
    c.checkDefaults.1.path = c.path ∧ c.checkDefaults.1.useJson = c.useJson ∧
    c.checkDefaults.1.General.Adopted = c.General.Adopted ∧
    c.checkDefaults.1.General.LogLevel = c.General.LogLevel ∧
    c.checkDefaults.1.General.LogFile = c.General.LogFile ∧
    c.checkDefaults.1.General.PfSenseXml = c.General.PfSenseXml := by
  unfold Config.checkDefaults
  by_cases hu : c.General.Url = "" <;> by_cases hi : c.General.InformInterval = 0 <;>
    simp [hu, hi, defaultInformUrl, defaultInformInterval]

/-- What `Config.check` returns is the configuration after the defaults, up to the
pfSense configuration and the pfSense mode, with the flag of the defaults and no
error. -/
theorem check_ok (env : CheckEnv) (c c2 : Config) (changed : Bool) (err : Option Error)
    (h : c.check env = .ok (c2, changed, err)) :
    changed = c.checkDefaults.2 ∧ err = none ∧
    c2.General = c.checkDefaults.1.General ∧ c2.Management = c.checkDefaults.1.Management ∧
    c2.SpeedTest = c.checkDefaults.1.SpeedTest ∧
    c2.PfSenseInterfaces = c.checkDefaults.1.PfSenseInterfaces ∧
    c2.path = c.checkDefaults.1.path ∧ c2.useJson = c.checkDefaults.1.useJson := by
  unfold Config.check at h
  generalize c.checkDefaults = d at h ⊢
  obtain ⟨c1, ch⟩ := d
  simp only [] at h
  split at h
  · split at h
    · exact absurd h (by simp)
    · split at h
      · simp only [Except.ok.injEq, Prod.mk.injEq] at h
        obtain ⟨h1, h2, h3⟩ := h
        subst h1
        exact ⟨h2.symm, h3.symm, rfl, rfl, rfl, rfl, rfl, rfl⟩
      · split at h
        · simp only [Except.ok.injEq, Prod.mk.injEq] at h
          obtain ⟨h1, h2, h3⟩ := h
          subst h1
          exact ⟨h2.symm, h3.symm, rfl, rfl, rfl, rfl, rfl, rfl⟩
        · split at h
          · simp only [Except.ok.injEq, Prod.mk.injEq] at h
            obtain ⟨h1, h2, h3⟩ := h
            subst h1
            exact ⟨h2.symm, h3.symm, rfl, rfl, rfl, rfl, rfl, rfl⟩
          · exact absurd h (by simp)
          · simp only [Except.ok.injEq, Prod.mk.injEq] at h
            obtain ⟨h1, h2, h3⟩ := h
            subst h1
            exact ⟨h2.symm, h3.symm, rfl, rfl, rfl, rfl, rfl, rfl⟩
  · simp only [Except.ok.injEq, Prod.mk.injEq] at h
    obtain ⟨h1, h2, h3⟩ := h
    subst h1
    exact ⟨h2.symm, h3.symm, rfl, rfl, rfl, rfl, rfl, rfl⟩

/-- When `Config.check` returns. -/
theorem check_returns (env : CheckEnv) (c : Config) :
    ((c.General.PfSenseXml = "" ∨ env.fileExists c.General.PfSenseXml = false) →
      c.check env = .ok (c.checkDefaults.1, c.checkDefaults.2, none)) ∧
    (c.PfSenseInterfaces ≠ none → (∀ b old, env.xmlUnmarshal b old ≠ (none, none)) →
      ∃ res, c.check env = .ok res) ∧
    (c.General.PfSenseXml ≠ "" → env.fileExists c.General.PfSenseXml = true →
      c.PfSenseInterfaces = none → c.check env = .error .panic) := by
  obtain ⟨_, _, _, _, _, hpi, _, _, _, _, _, _, _, hxml⟩ := checkDefaults_spec c
  unfold Config.check
  generalize c.checkDefaults = d at hpi hxml ⊢
  obtain ⟨c1, ch⟩ := d
  simp only [] at hpi hxml ⊢
  refine ⟨fun h => ?_, fun hn hx => ?_, fun h1 h2 h3 => ?_⟩
  · have hc : ¬ (c1.General.PfSenseXml ≠ "" ∧ env.fileExists c1.General.PfSenseXml = true) := by
      rw [hxml]
      rintro ⟨h1, h2⟩
      rcases h with h | h
      · exact h1 h
      · rw [h] at h2; exact absurd h2 (by simp)
    rw [if_neg hc]
  · split
    · cases hp : c1.PfSenseInterfaces with
      | none => rw [hpi] at hp; exact absurd hp hn
      | some table =>
        simp only []
        split
        · exact ⟨_, rfl⟩
        · split
          · exact ⟨_, rfl⟩
          · rename_i byteValue _
            split
            · exact ⟨_, rfl⟩
            · rename_i hxm
              exact absurd hxm (hx _ _)
            · exact ⟨_, rfl⟩
    · exact ⟨_, rfl⟩
  · have hc : c1.General.PfSenseXml ≠ "" ∧ env.fileExists c1.General.PfSenseXml = true := by
      rw [hxml]; exact ⟨h1, h2⟩
    rw [if_pos hc]
    rw [← hpi] at h3
    rw [h3]

/-- C32. After the check of the configuration, for every loaded state on which it
returns: the URL is the loaded URL if that was not empty and
`http://unifi:8080/inform` otherwise; the interval is the loaded interval if that
was not zero and 15 otherwise; `changed` is true exactly when one of the two was
replaced; the key, the version, the AES mode, the last speed test, the other fields
of the general section, the translation table, the path and the format are the
loaded ones; the returned error is nil.  The check returns on every state without a
pfSense file, and on every state with a translation table (the XML decoder leaving
a configuration when it reports no error); with a pfSense file and no translation
table it dereferences the nil table. -/
theorem check_defaults (env : CheckEnv) (c : Config) :
    (∀ c2 changed err, c.check env = .ok (c2, changed, err) →
      c2.General.Url
        = (if c.General.Url = "" then "http://unifi:8080/inform" else c.General.Url) ∧
      c2.General.InformInterval
        = (if c.General.InformInterval = 0 then 15 else c.General.InformInterval) ∧
      (changed = true ↔ (c.General.Url = "" ∨ c.General.InformInterval = 0)) ∧
      c2.Management = c.Management ∧ c2.SpeedTest = c.SpeedTest ∧
      c2.General.Adopted = c.General.Adopted ∧ c2.General.LogLevel = c.General.LogLevel ∧
      c2.General.LogFile = c.General.LogFile ∧
      c2.General.PfSenseXml = c.General.PfSenseXml ∧
      c2.PfSenseInterfaces = c.PfSenseInterfaces ∧ c2.path = c.path ∧
      c2.useJson = c.useJson ∧ err = none) ∧
    ((c.General.PfSenseXml = "" ∨ env.fileExists c.General.PfSenseXml = false) →
      ∃ c2 changed, c.check env = .ok (c2, changed, none) ∧ c2.PfSense = c.PfSense ∧
        c2.PfSenseMode = c.PfSenseMode) ∧
    (c.PfSenseInterfaces ≠ none → (∀ b old, env.xmlUnmarshal b old ≠ (none, none)) →
      ∃ res, c.check env = .ok res) ∧
    (c.General.PfSenseXml ≠ "" → env.fileExists c.General.PfSenseXml = true →
      c.PfSenseInterfaces = none → c.check env = .error .panic) := by
  obtain ⟨d1, d2, d3, d4, d5, d6, d7, d8, d9, d10, d11, d12, d13, d14⟩ := checkDefaults_spec c
  obtain ⟨r1, r2, r3⟩ := check_returns env c
  refine ⟨fun c2 changed err h => ?_, fun h => ⟨_, _, r1 h, d7, d8⟩, r2, r3⟩
  obtain ⟨k1, k2, k3, k4, k5, k6, k7, k8⟩ := check_ok env c c2 changed err h
  rw [k3, k4, k5, k6, k7, k8, k1]
  exact ⟨d1, d2, d3, d4, d5, d11, d12, d13, d14, d6, d9, d10, k2⟩

/-- C32 (witness). A loaded state without URL and interval on a host without pfSense
file. -/
theorem check_defaults_witness :
    sampleLoadedConfig.check sampleCheckEnv
      = .ok (sampleConfig, true, none) ∧
    sampleConfig.General.Url = "http://unifi:8080/inform" ∧
    sampleConfig.General.InformInterval = 15 ∧
    sampleConfig.Management = sampleLoadedConfig.Management :=
  ⟨by decide,
    ((check_defaults sampleCheckEnv sampleLoadedConfig).1 sampleConfig true none
      (by decide)).1.trans (by decide),
    ((check_defaults sampleCheckEnv sampleLoadedConfig).1 sampleConfig true none
      (by decide)).2.1.trans (by decide),
    ((check_defaults sampleCheckEnv sampleLoadedConfig).1 sampleConfig true none
      (by decide)).2.2.2.1⟩

/-! ## Lemmas: the speed-test jobs of the agent -/

/-- A `speed-test` command starts a job, whatever the number of running jobs. -/
theorem step_speedTest (a : Agent) (c : Cmd) (h : c.Command = "speed-test") :
    (a.step (.reply (.cmd c))).jobs = a.jobs + 1 ∧ (a.step (.reply (.cmd c))).config = a.config := by
  have hb : (c.Command == "speed-test") = true := by rw [h]; rfl
  simp only [Agent.step, informTick.dispatch, hb, if_true]
  exact ⟨trivial, trivial⟩

/-- C33 (counterexample). The agent starts with no snapshot, so `Service.Start`
starts a job; a `speed-test` command that arrives while this job runs starts a
second one: two jobs are in flight. -/
theorem speedtest_jobs_counterexample :
    (Agent.step ⟨sampleConfig, 0⟩ .start).jobs = 1 ∧
    (Agent.run ⟨sampleConfig, 0⟩ [.start, .reply (.cmd sampleSpeedTestCmd)]).jobs = 2 ∧
    ¬ ((Agent.step (Agent.step ⟨sampleConfig, 0⟩ .start) (.reply (.cmd sampleSpeedTestCmd))).jobs
      = (Agent.step ⟨sampleConfig, 0⟩ .start).jobs) := by
  refine ⟨by decide, by decide, by decide⟩

/-- C33 (amended). The agent keeps no record of running speed-test jobs: in its
step relation, every `speed-test` command starts a new job, also while jobs are
running, so after `n` such commands in a row `n` more jobs are in flight; every
other reply starts none; `Service.Start` starts one exactly when there is no
snapshot or its run time is 0; the return of a job takes one away and stores the
snapshot of a job that measured. -/
theorem speedtest_always_spawned (a : Agent) (c : Cmd) (h : c.Command = "speed-test") :
    (a.step (.reply (.cmd c))).jobs = a.jobs + 1 ∧
    (a.step (.reply (.cmd c))).config = a.config ∧
    (∀ n, (a.run (List.replicate n (.reply (.cmd c)))).jobs = a.jobs + n) ∧
    (∀ c2 : Cmd, c2.Command ≠ "speed-test" → (a.step (.reply (.cmd c2))).jobs = a.jobs) ∧
    (∀ m : Noop, (a.step (.reply (.noop m))).jobs = a.jobs) ∧
    (∀ m : SetParam, (a.step (.reply (.setParam m))).jobs = a.jobs) ∧
    (∀ m : httpResponse, (a.step (.reply (.response m))).jobs = a.jobs) ∧
    (a.config.SpeedTest = none → (a.step .start).jobs = a.jobs + 1) ∧
    (∀ st, a.config.SpeedTest = some st → st.RunTime = 0 → (a.step .start).jobs = a.jobs + 1) ∧
    (∀ st, a.config.SpeedTest = some st → st.RunTime ≠ 0 → (a.step .start).jobs = a.jobs) ∧
    (a.step .start).config = a.config ∧
    (∀ status, 0 < a.jobs → (a.step (.jobDone status)).jobs = a.jobs - 1) ∧
    (∀ st, 0 < a.jobs → (a.step (.jobDone (some st))).config.SpeedTest = some st) := by
  obtain ⟨h1, h2⟩ := step_speedTest a c h
  refine ⟨h1, h2, fun n => ?_, fun c2 hc2 => ?_, fun m => rfl, fun m => ?_, fun m => rfl,
    fun hs => ?_, fun st hs hr => ?_, fun st hs hr => ?_, rfl,
    fun status hj => ?_, fun st hj => ?_⟩
  · induction n generalizing a with
    | zero => rfl
    | succ n ih =>
      rw [List.replicate_succ]
      show ((a.step (.reply (.cmd c))).run (List.replicate n (.reply (.cmd c)))).jobs = _
      rw [ih (a.step (.reply (.cmd c))) (step_speedTest _ c h).1 (step_speedTest _ c h).2,
        (step_speedTest a c h).1]
      omega
  · have hb : (c2.Command == "speed-test") = false := by simpa using hc2
    simp [Agent.step, informTick.dispatch, hb]
  · simp only [Agent.step, informTick.dispatch]
    rfl
  · simp [Agent.step, Service.Start.speedTest, hs]
  · simp [Agent.step, Service.Start.speedTest, hs, hr]
  · simp [Agent.step, Service.Start.speedTest, hs, hr]
  · have hne : ¬ a.jobs = 0 := by omega
    simp [Agent.step, hne]
  · have hne : ¬ a.jobs = 0 := by omega
    simp [Agent.step, hne, SpeedTest.finish]

/-- C33 (witness). The sample agent with one job running. -/
theorem speedtest_always_spawned_witness :
    sampleSpeedTestCmd.Command = "speed-test" ∧
    (Agent.step ⟨sampleConfig, 1⟩ (.reply (.cmd sampleSpeedTestCmd))).jobs = 2 :=
  ⟨rfl, (speedtest_always_spawned ⟨sampleConfig, 1⟩ sampleSpeedTestCmd rfl).1⟩

/-! ## Lemmas: writing and reading a buffer -/

/-- Reading an element of a list after four assignments. -/
theorem getElem?_set4 (b : Bytes) (o : Nat) (w x y z : Byte) (h : o + 4 ≤ b.length) :
    ((((b.set o w).set (o + 1) x).set (o + 2) y).set (o + 3) z)[o]? = some w ∧
    ((((b.set o w).set (o + 1) x).set (o + 2) y).set (o + 3) z)[o + 1]? = some x ∧
    ((((b.set o w).set (o + 1) x).set (o + 2) y).set (o + 3) z)[o + 2]? = some y ∧
    ((((b.set o w).set (o + 1) x).set (o + 2) y).set (o + 3) z)[o + 3]? = some z ∧
    (∀ i, (i < o ∨ o + 4 ≤ i) →
      ((((b.set o w).set (o + 1) x).set (o + 2) y).set (o + 3) z)[i]? = b[i]?) := by
  refine ⟨?_, ?_, ?_, ?_, fun i hi => ?_⟩
  · rw [List.getElem?_set_ne (by omega), List.getElem?_set_ne (by omega),
      List.getElem?_set_ne (by omega), List.getElem?_set_self (by omega)]
  · rw [List.getElem?_set_ne (by omega), List.getElem?_set_ne (by omega), List.getElem?_set_self (by simp only [List.length_set]; omega)]
  · rw [List.getElem?_set_ne (by omega), List.getElem?_set_self (by simp only [List.length_set]; omega)]
  · rw [List.getElem?_set_self (by simp only [List.length_set]; omega)]
  · rw [List.getElem?_set_ne (by omega), List.getElem?_set_ne (by omega),
      List.getElem?_set_ne (by omega), List.getElem?_set_ne (by omega)]

/-- Reading an element of a list after two assignments. -/
theorem getElem?_set2 (b : Bytes) (o : Nat) (w x : Byte) (h : o + 2 ≤ b.length) :
    ((b.set o w).set (o + 1) x)[o]? = some w ∧
    ((b.set o w).set (o + 1) x)[o + 1]? = some x ∧
    (∀ i, (i < o ∨ o + 2 ≤ i) → ((b.set o w).set (o + 1) x)[i]? = b[i]?) := by
  refine ⟨?_, ?_, fun i hi => ?_⟩
  · rw [List.getElem?_set_ne (by omega), List.getElem?_set_self (by omega)]
  · rw [List.getElem?_set_self (by simp only [List.length_set]; omega)]
  · rw [List.getElem?_set_ne (by omega), List.getElem?_set_ne (by omega)]

/-- C34. Big-endian buffer round trip with frame: for every buffer `b`, every
offset `o` with `o + 4 ≤ len(b)` and every 32-bit value `v`, `WriteUInt32BE(o, v)`
does not panic and leaves a buffer of the same length in which the bytes at
`o`, `o+1`, `o+2`, `o+3` are the bytes of `v`, most significant first (`v / 2^24`,
`v / 2^16`, `v / 2^8`, `v`, each modulo 256), `ReadUInt32BE(o)` is `v`, and every
byte outside `[o, o+4)` is the one of `b`; the same holds for `WriteUInt16BE` and
`ReadUInt16BE` with two bytes and a 16-bit value. -/
theorem buffer_roundtrip (b : Bytes) (o v : Nat) :
    (o + 4 ≤ b.length → v < 2 ^ 32 →
      ∃ b2, Buffer.WriteUInt32BE b o v = some b2 ∧ b2.length = b.length ∧
        (b2[o]?).map Fin.val = some (v / 2 ^ 24 % 256) ∧
        (b2[o + 1]?).map Fin.val = some (v / 2 ^ 16 % 256) ∧
        (b2[o + 2]?).map Fin.val = some (v / 2 ^ 8 % 256) ∧
        (b2[o + 3]?).map Fin.val = some (v % 256) ∧
        Buffer.ReadUInt32BE b2 o = some v ∧
        ∀ i, (i < o ∨ o + 4 ≤ i) → b2[i]? = b[i]?) ∧
    (o + 2 ≤ b.length → v < 2 ^ 16 →
      ∃ b2, Buffer.WriteUInt16BE b o v = some b2 ∧ b2.length = b.length ∧
        (b2[o]?).map Fin.val = some (v / 2 ^ 8 % 256) ∧
        (b2[o + 1]?).map Fin.val = some (v % 256) ∧
        Buffer.ReadUInt16BE b2 o = some v ∧
        ∀ i, (i < o ∨ o + 2 ≤ i) → b2[i]? = b[i]?) := by
  constructor
  · intro ho hv
    have h24 : (v &&& 0xff000000) >>> 24 = v / 2 ^ 24 % 256 := mask_shift v 24
    have h16 : (v &&& 0x00ff0000) >>> 16 = v / 2 ^ 16 % 256 := mask_shift v 16
    have h8 : (v &&& 0x0000ff00) >>> 8 = v / 2 ^ 8 % 256 := mask_shift v 8
    have h0 : v &&& 0x000000ff = v % 256 := Nat.and_pow_two_sub_one_eq_mod v 8
    have hlt : o + 3 < b.length := by omega
    obtain ⟨g0, g1, g2, g3, gf⟩ := getElem?_set4 b o (byteOf (v / 2 ^ 24 % 256))
      (byteOf (v / 2 ^ 16 % 256)) (byteOf (v / 2 ^ 8 % 256)) (byteOf (v % 256)) ho
    refine ⟨_, ?_, ?_, ?_, ?_, ?_, ?_, ?_, gf⟩
    · simp only [Buffer.WriteUInt32BE, hlt, if_true, h24, h16, h8, h0]
    · simp only [List.length_set]
    · rw [g0]; simp [byteOf]
    · rw [g1]; simp [byteOf]
    · rw [g2]; simp [byteOf]
    · rw [g3]; simp [byteOf]
    · clear h24 h16 h8 h0 gf
      simp only [Buffer.ReadUInt32BE, g0, g1, g2, g3]
      simp only [byteOf, Nat.shiftLeft_eq, Option.some.injEq, Nat.mod_mod, Nat.reducePow] at hv ⊢
      omega
  · intro ho hv
    have h8 : (v &&& 0xff00) >>> 8 = v / 2 ^ 8 % 256 := mask_shift v 8
    have h0 : v &&& 0x00ff = v % 256 := Nat.and_pow_two_sub_one_eq_mod v 8
    have hlt : o + 1 < b.length := by omega
    obtain ⟨g0, g1, gf⟩ := getElem?_set2 b o (byteOf (v / 2 ^ 8 % 256)) (byteOf (v % 256)) ho
    refine ⟨_, ?_, ?_, ?_, ?_, ?_, gf⟩
    · simp only [Buffer.WriteUInt16BE, hlt, if_true, h8, h0]
    · simp only [List.length_set]
    · rw [g0]; simp [byteOf]
    · rw [g1]; simp [byteOf]
    · clear h8 h0 gf
      simp only [Buffer.ReadUInt16BE, g0, g1]
      simp only [byteOf, Nat.shiftLeft_eq, Option.some.injEq, Nat.mod_mod, Nat.reducePow] at hv ⊢
      omega

/-- C34 (witness). The magic number written at offset 2 of a buffer of eight
bytes. -/
theorem buffer_roundtrip_witness :
    ∃ b2, Buffer.WriteUInt32BE (NewBuffer 8) 2 MagicNumber = some b2 ∧
      b2 = [0, 0, 0x54, 0x4E, 0x42, 0x55, 0, 0] ∧
      Buffer.ReadUInt32BE b2 2 = some MagicNumber := by
  obtain ⟨b2, h1, _, _, _, _, _, h6, _⟩ :=
    (buffer_roundtrip (NewBuffer 8) 2 MagicNumber).1 (by decide) (by decide)
  refine ⟨b2, h1, ?_, h6⟩
  have h2 : Buffer.WriteUInt32BE (NewBuffer 8) 2 MagicNumber
      = some [0, 0, 0x54, 0x4E, 0x42, 0x55, 0, 0] := by decide
  rw [h2] at h1
  exact (Option.some.inj h1).symm

/-- C35 (the code at the failing input). The 40-byte packet with the ENCRYPT
flag set, the GCM flag clear and the declared payload length 0 passes the checks of
`Packet.Unmarshal`; with a resolver that returns the 16-byte default key,
`decryptCBC` gets an empty text and `result[dataLen-1]` is out of range: the call
panics, whatever the cipher primitives are. -/
theorem Unmarshal_empty_cbc_panics (P : Primitives) :
    sampleEmptyCbcPacket.length = 40 ∧
    unmarshalChecks sampleEmptyCbcPacket = .ok 0 ∧
    Buffer.ReadUInt16BE sampleEmptyCbcPacket 14 = some 1 ∧
    DefaultKey.len = 16 ∧
    decryptCBC P [1, 2, 3, 4, 5, 6, 7, 8, 9, 10, 11, 12, 13, 14, 15, 16] DefaultKey []
      = .error .panic ∧
    (emptyPacket.Unmarshal P sampleEmptyCbcPacket (agentKeyFetcher DefaultKey)).err
      = some .panic ∧
    (emptyPacket.Unmarshal P sampleEmptyCbcPacket (agentKeyFetcher DefaultKey)).pkt.Msg
      = none := by
  refine ⟨rfl, by decide, by decide, by decide, rfl, rfl, rfl⟩

/-! ## Lemmas: the bytes of the envelope, decoded -/

/-- The slices of a header followed by a payload. -/
theorem headerBytes_drop (p : Packet) (iv : Bytes) (n : Nat) (payload : Bytes)
    (hap : p.ap.length = 6) (hiv : iv.length = 16) :
    (p.headerBytes iv n ++ payload).drop 40 = payload :=
  List.drop_left' (headerBytes_length p iv n hap hiv)

/-- What `Packet.Marshal` returns for a packet of `NewPacket` and what
`Packet.Unmarshal` makes of it: the header with the address, the flags and the IV,
followed by the Snappy form of the text of the message, encrypted when there is a
key; the decoder finds the address and the flags, undoes the encryption in the mode
the flags name and the compression, and decodes the text of the message. -/
theorem Marshal_decode (P : Primitives) (hP : P.Lawful) (q : Packet) (ap : HardwareAddr)
    (msg : Message) (k : Key) (mode : Int) (rnd : RandRead)
    (kf : HardwareAddr → Key × Option Error)
    (hap : ap.length = 6) (hk : k = none ∨ k.len = 16)
    (hrnd : k ≠ none → ∃ iv, GenerateIV rnd = .ok iv) (hkf : kf ap = (k, none))
    (hsize : (P.snappyEncode (msg.Marshal P)).length + 16 < 2 ^ 32) :
    ∃ iv payload, iv.length = 16 ∧
      (NewPacket ap msg k mode).Marshal P rnd
        = .ok ((NewPacket ap msg k mode).headerBytes iv (uint32 payload.length) ++ payload) ∧
      (k = none → payload = P.snappyEncode (msg.Marshal P)) ∧
      (k ≠ none → Decrypt P (if mode = GCM then GCM else CBC) iv k payload
        ((NewPacket ap msg k mode).headerBytes iv (uint32 payload.length))
          = .ok (P.snappyEncode (msg.Marshal P))) ∧
      ∃ q2 : Packet, q2.ap = ap ∧ q2.flags = (NewPacket ap msg k mode).flags ∧
        q.Unmarshal P
          ((NewPacket ap msg k mode).headerBytes iv (uint32 payload.length) ++ payload) kf
          = ⟨{ q2 with Msg := (Unmarshal P (msg.Marshal P)).1 },
              (Unmarshal P (msg.Marshal P)).2, if k = none then [] else [ap]⟩ := by
  have hc := NewPacket_compress P ap msg k mode (msg.Marshal P)
  have hf := NewPacket_flags_eq ap msg k mode
  obtain ⟨hpap, hkey, hmsg, hmode⟩ := NewPacket_fields ap msg k mode
  have hap' : (NewPacket ap msg k mode).ap.length = 6 := by rw [hpap]; exact hap
  generalize hcdef : P.snappyEncode (msg.Marshal P) = c at hc hsize
  by_cases hkn : k = none
  · -- plaintext
    rw [if_pos hkn] at hf
    obtain ⟨hE, hG, hZ, hS⟩ := flags_four _ hf
    have hIV : (NewPacket ap msg k mode).marshalIV rnd = .ok NilIv := by
      simp [Packet.marshalIV, hE]
    have hivl : NilIv.length = 16 := rfl
    have hout := Marshal_eq P _ rnd msg c NilIv hmsg hc hIV hap'
    simp only [hE, Bool.false_eq_true, if_false] at hout
    refine ⟨NilIv, c, hivl, hout, fun _ => rfl, fun h => absurd hkn h, ?_⟩
    have hchk := headerBytes_checks (NewPacket ap msg k mode) NilIv c hap' hivl (by omega)
    obtain ⟨flags', hfl', hU⟩ := Unmarshal_of_checks_ok P q _ kf c.length hchk
    have hfl := headerBytes_read_flags (NewPacket ap msg k mode) NilIv (uint32 c.length) c hap'
    rw [hfl] at hfl'
    have hfv : flags' = 4 := by
      have h1 := Option.some.inj hfl'
      rw [hf] at h1
      omega
    subst hfv
    obtain ⟨hmac, _⟩ := headerBytes_mac_iv (NewPacket ap msg k mode) NilIv (uint32 c.length) c
      hap' hivl
    obtain ⟨_, hpay⟩ := headerBytes_payload (NewPacket ap msg k mode) NilIv (uint32 c.length) c
      hap' hivl
    have hq : (q.setHeader ap 4).flags = 4 := rfl
    obtain ⟨hE', _, hZ', hS'⟩ := flags_four _ hq
    refine ⟨q.setHeader ap 4, rfl, by rw [hf]; rfl, ?_⟩
    rw [hU, hmac, hpap, hpay, hE', ← hcdef]
    simp only [Bool.false_eq_true, if_false]
    rw [unmarshalPayload_snappy P hP _ _ _ hZ' hS', if_pos hkn]
  · obtain ⟨iv, hg⟩ := hrnd hkn
    have hk16 : k.len = 16 := by
      rcases hk with h | h
      · exact absurd h hkn
      · exact h
    have hivl := GenerateIV_length rnd iv hg
    rw [if_neg hkn] at hf
    have hkl : (k.getD []).length = 16 := hk16
    by_cases hm : mode = GCM
    · -- GCM
      rw [if_pos hm] at hf
      obtain ⟨hE, hG, hZ, hS⟩ := flags_thirteen _ hf
      have hIV : (NewPacket ap msg k mode).marshalIV rnd = .ok iv := by
        simp [Packet.marshalIV, hE, hg]
      have hout := Marshal_eq P _ rnd msg c iv hmsg hc hIV hap'
      simp only [hE, hG, if_true, hmode, hkey] at hout
      have hEnc : Encrypt P mode iv k c
          ((NewPacket ap msg k mode).headerBytes iv (uint32 (c.length + 16)))
          = .ok (P.gcmSeal (k.getD []) iv c
            ((NewPacket ap msg k mode).headerBytes iv (uint32 (c.length + 16)))) := by
        simp [Encrypt, hm, encryptGCM, assertCryptoParams_valid iv k hivl hk16]
      rw [hEnc] at hout
      simp only at hout
      generalize hencdef : P.gcmSeal (k.getD []) iv c
        ((NewPacket ap msg k mode).headerBytes iv (uint32 (c.length + 16))) = enc at hout
      have hel : enc.length = c.length + 16 := by rw [← hencdef, hP.gcmLength]
      rw [← hel] at hout
      have hDec : Decrypt P GCM iv k enc
          ((NewPacket ap msg k mode).headerBytes iv (uint32 enc.length)) = .ok c := by
        simp only [Decrypt, if_true, decryptGCM, assertCryptoParams_valid iv k hivl hk16]
        rw [hel, ← hencdef, hP.gcmInverse _ _ _ _ hkl hivl]
      refine ⟨iv, enc, hivl, hout, fun h => absurd h hkn, fun _ => ?_, ?_⟩
      · rw [if_pos hm]; exact hDec
      have hchk := headerBytes_checks (NewPacket ap msg k mode) iv enc hap' hivl (by omega)
      obtain ⟨flags', hfl', hU⟩ := Unmarshal_of_checks_ok P q _ kf enc.length hchk
      have hfl := headerBytes_read_flags (NewPacket ap msg k mode) iv (uint32 enc.length) enc hap'
      rw [hfl] at hfl'
      have hfv : flags' = 13 := by
        have h1 := Option.some.inj hfl'
        rw [hf] at h1
        omega
      subst hfv
      obtain ⟨hmac, hiv'⟩ := headerBytes_mac_iv (NewPacket ap msg k mode) iv (uint32 enc.length)
        enc hap' hivl
      obtain ⟨hhdr, hpay⟩ := headerBytes_payload (NewPacket ap msg k mode) iv (uint32 enc.length)
        enc hap' hivl
      have hq : (q.setHeader ap 13).flags = 13 := rfl
      have hq2 : ((q.setHeader ap 13).setKey k).flags = 13 := rfl
      obtain ⟨hE', _, _, _⟩ := flags_thirteen _ hq
      obtain ⟨_, hG2, hZ2, hS2⟩ := flags_thirteen _ hq2
      refine ⟨(q.setHeader ap 13).setKey k, rfl, by rw [hf]; rfl, ?_⟩
      rw [hU, hmac, hpap, hpay, hiv', hhdr, hE', hkf]
      simp only [if_true, hG2]
      rw [hDec]
      simp only
      rw [← hcdef, unmarshalPayload_snappy P hP _ _ _ hZ2 hS2, if_neg hkn]
    · -- CBC
      rw [if_neg hm] at hf
      obtain ⟨hE, hG, hZ, hS⟩ := flags_five _ hf
      have hIV : (NewPacket ap msg k mode).marshalIV rnd = .ok iv := by
        simp [Packet.marshalIV, hE, hg]
      have hout := Marshal_eq P _ rnd msg c iv hmsg hc hIV hap'
      simp only [hE, hG, if_true, Bool.false_eq_true, if_false, hmode, hkey] at hout
      obtain ⟨enc, hEnc⟩ := Encrypt_ok P mode iv k c
        ((NewPacket ap msg k mode).headerBytes iv 0) hivl hk16
      rw [hEnc] at hout
      simp only at hout
      have hEncC : encryptCBC P iv k c = .ok enc := by
        simpa [Encrypt, hm] using hEnc
      have hel := encryptCBC_length P iv k c enc hEncC
      have hDec : Decrypt P CBC iv k enc
          ((NewPacket ap msg k mode).headerBytes iv (uint32 enc.length)) = .ok c := by
        have hne : ¬ CBC = GCM := by decide
        simp only [Decrypt, hne, if_false]
        exact decryptCBC_encryptCBC P hP iv k c enc hivl hk16 hEncC
      refine ⟨iv, enc, hivl, hout, fun h => absurd h hkn, fun _ => ?_, ?_⟩
      · rw [if_neg hm]; exact hDec
      have hchk := headerBytes_checks (NewPacket ap msg k mode) iv enc hap' hivl (by omega)
      obtain ⟨flags', hfl', hU⟩ := Unmarshal_of_checks_ok P q _ kf enc.length hchk
      have hfl := headerBytes_read_flags (NewPacket ap msg k mode) iv (uint32 enc.length) enc hap'
      rw [hfl] at hfl'
      have hfv : flags' = 5 := by
        have h1 := Option.some.inj hfl'
        rw [hf] at h1
        omega
      subst hfv
      obtain ⟨hmac, hiv'⟩ := headerBytes_mac_iv (NewPacket ap msg k mode) iv (uint32 enc.length)
        enc hap' hivl
      obtain ⟨hhdr, hpay⟩ := headerBytes_payload (NewPacket ap msg k mode) iv (uint32 enc.length)
        enc hap' hivl
      have hq : (q.setHeader ap 5).flags = 5 := rfl
      have hq2 : ((q.setHeader ap 5).setKey k).flags = 5 := rfl
      obtain ⟨hE', _, _, _⟩ := flags_five _ hq
      obtain ⟨_, hG2, hZ2, hS2⟩ := flags_five _ hq2
      refine ⟨(q.setHeader ap 5).setKey k, rfl, by rw [hf]; rfl, ?_⟩
      rw [hU, hmac, hpap, hpay, hiv', hhdr, hE', hkf]
      simp only [if_true, hG2, Bool.false_eq_true, if_false]
      rw [hDec]
      simp only
      rw [← hcdef, unmarshalPayload_snappy P hP _ _ _ hZ2 hS2, if_neg hkn]

/-- The tests on the flags depend on the flags alone. -/
theorem flags_tests_congr (p p2 : Packet) (h : p.flags = p2.flags) :
    p.IsEncrypted = p2.IsEncrypted ∧ p.IsGcmEncrypted = p2.IsGcmEncrypted ∧
    p.IsZLib = p2.IsZLib ∧ p.IsSnappy = p2.IsSnappy := by
  simp only [Packet.IsEncrypted, Packet.IsGcmEncrypted, Packet.IsZLib, Packet.IsSnappy, h]
  exact ⟨trivial, trivial, trivial, trivial⟩

/-- The tests on the flags of a packet built by `NewPacket`. -/
theorem NewPacket_tests (ap : HardwareAddr) (msg : Message) (k : Key) (mode : Int) :
    ((NewPacket ap msg k mode).IsEncrypted = true ↔ k ≠ none) ∧
    ((NewPacket ap msg k mode).IsGcmEncrypted = true ↔ (k ≠ none ∧ mode = GCM)) ∧
    (NewPacket ap msg k mode).IsZLib = false ∧ (NewPacket ap msg k mode).IsSnappy = true ∧
    (NewPacket ap msg k mode).flags < 2 ^ 16 := by
  have hf := NewPacket_flags_eq ap msg k mode
  by_cases hk : k = none
  · rw [if_pos hk] at hf
    obtain ⟨h1, h2, h3, h4⟩ := flags_four _ hf
    rw [h1, h2, h3, h4, hf]
    exact ⟨by simp [hk], by simp [hk], rfl, rfl, by decide⟩
  · rw [if_neg hk] at hf
    by_cases hm : mode = GCM
    · rw [if_pos hm] at hf
      obtain ⟨h1, h2, h3, h4⟩ := flags_thirteen _ hf
      rw [h1, h2, h3, h4, hf]
      exact ⟨by simp [hk], by simp [hk, hm], rfl, rfl, by decide⟩
    · rw [if_neg hm] at hf
      obtain ⟨h1, h2, h3, h4⟩ := flags_five _ hf
      rw [h1, h2, h3, h4, hf]
      exact ⟨by simp [hk], by simp [hm], rfl, rfl, by decide⟩

/-- C36. Byte-level round trip of the envelope: for every packet `p` built by
`NewPacket` with a 6-byte MAC and an absent or 16-byte key (the IV could be drawn,
the payload is shorter than 2^32 bytes, the width of the length field), when the
cipher and Snappy primitives invert each other, `p.Marshal()` returns bytes whose
decoding with the same key finds the MAC of `p` in the bytes 8..14 and the flags of
`p` in the bytes 14..16, selects the cipher of `Marshal` (none without a key, GCM
exactly when there is a key and the mode is GCM, CBC otherwise) and its codec
(Snappy, no zlib), recovers from the bytes after the header exactly the text
`p.Msg.Marshal()` and hands it to the JSON decoder.  For every packet the GCM test
implies the ENCRYPT test, and the zlib test is made before the Snappy test, both
when encoding and when decoding. -/
theorem envelope_bytes_roundtrip (P : Primitives) (hP : P.Lawful) (q : Packet)
    (ap : HardwareAddr) (msg : Message) (k : Key) (mode : Int) (rnd : RandRead)
    (kf : HardwareAddr → Key × Option Error)
    (hap : ap.length = 6) (hk : k = none ∨ k.len = 16)
    (hrnd : k ≠ none → ∃ iv, GenerateIV rnd = .ok iv) (hkf : kf ap = (k, none))
    (hsize : (P.snappyEncode (msg.Marshal P)).length + 16 < 2 ^ 32) :
    (∃ out, (NewPacket ap msg k mode).Marshal P rnd = .ok out ∧
      (out.take 14).drop 8 = ap ∧
      Buffer.ReadUInt16BE out 14 = some (NewPacket ap msg k mode).flags ∧
      (q.Unmarshal P out kf).pkt.ap = ap ∧
      (q.Unmarshal P out kf).pkt.flags = (NewPacket ap msg k mode).flags ∧
      ((q.Unmarshal P out kf).pkt.IsEncrypted = true ↔ k ≠ none) ∧
      ((q.Unmarshal P out kf).pkt.IsGcmEncrypted = true ↔ (k ≠ none ∧ mode = GCM)) ∧
      (q.Unmarshal P out kf).pkt.IsZLib = false ∧
      (q.Unmarshal P out kf).pkt.IsSnappy = true ∧
      (k = none → DecompressSnappy P (out.drop 40) = .ok (msg.Marshal P)) ∧
      (k ≠ none → ∃ c,
        Decrypt P (if mode = GCM then GCM else CBC) ((out.take 32).drop 16) k (out.drop 40)
          (out.take 40) = .ok c ∧
        DecompressSnappy P c = .ok (msg.Marshal P)) ∧
      (q.Unmarshal P out kf).err = (Unmarshal P (msg.Marshal P)).2 ∧
      (q.Unmarshal P out kf).pkt.Msg = (Unmarshal P (msg.Marshal P)).1) ∧
    (NewPacket ap msg k mode).marshalCompress P (msg.Marshal P)
      = CompressSnappy P (msg.Marshal P) ∧
    (∀ (iv data aad : Bytes), Encrypt P mode iv k data aad
      = Encrypt P (if mode = GCM then GCM else CBC) iv k data aad) ∧
    (∀ p : Packet, p.IsGcmEncrypted = true → p.IsEncrypted = true) ∧
    (∀ (p : Packet) (x : Bytes), p.IsZLib = true → p.marshalCompress P x = CompressZLib P x) ∧
    (∀ (p : Packet) (x y : Bytes) (f : List HardwareAddr), p.IsZLib = true →
      DecompressZLib P x = .ok y →
      p.unmarshalPayload P x f = ⟨{ p with Msg := (Unmarshal P y).1 }, (Unmarshal P y).2, f⟩) := by
  obtain ⟨iv, payload, hivl, hout, hplain, henc, q2, hq2a, hq2f, hU⟩ :=
    Marshal_decode P hP q ap msg k mode rnd kf hap hk hrnd hkf hsize
  obtain ⟨t1, t2, t3, t4, t5⟩ := NewPacket_tests ap msg k mode
  have hap' : (NewPacket ap msg k mode).ap.length = 6 := hap
  obtain ⟨hmac, hiv'⟩ := headerBytes_mac_iv (NewPacket ap msg k mode) iv (uint32 payload.length)
    payload hap' hivl
  obtain ⟨hhdr, _⟩ := headerBytes_payload (NewPacket ap msg k mode) iv (uint32 payload.length)
    payload hap' hivl
  have hdrop := headerBytes_drop (NewPacket ap msg k mode) iv (uint32 payload.length) payload
    hap' hivl
  have hfl := headerBytes_read_flags (NewPacket ap msg k mode) iv (uint32 payload.length) payload
    hap'
  have hmod : (NewPacket ap msg k mode).flags % 2 ^ 16 = (NewPacket ap msg k mode).flags :=
    Nat.mod_eq_of_lt t5
  rw [hmod] at hfl
  obtain ⟨c1, c2, c3, c4⟩ := flags_tests_congr
    ({ q2 with Msg := (Unmarshal P (msg.Marshal P)).1 } : Packet) (NewPacket ap msg k mode) hq2f
  refine ⟨⟨_, hout, hmac, hfl, ?_, ?_, ?_, ?_, ?_, ?_, fun hkn => ?_, fun hkn => ?_, ?_, ?_⟩,
    ?_, fun iv2 data aad => ?_, fun p hp => ?_, fun p x hp => ?_, fun p x y f hp hd => ?_⟩
  · rw [hU]; exact hq2a
  · rw [hU]; exact hq2f
  · rw [hU]; show Packet.IsEncrypted _ = true ↔ _; rw [c1]; exact t1
  · rw [hU]; show Packet.IsGcmEncrypted _ = true ↔ _; rw [c2]; exact t2
  · rw [hU]; show Packet.IsZLib _ = false; rw [c3]; exact t3
  · rw [hU]; show Packet.IsSnappy _ = true; rw [c4]; exact t4
  · rw [hdrop, hplain hkn]
    exact hP.snappy _
  · refine ⟨P.snappyEncode (msg.Marshal P), ?_, hP.snappy _⟩
    rw [hdrop, hiv', hhdr]
    exact henc hkn
  · rw [hU]
  · rw [hU]
  · rw [NewPacket_compress]
    rfl
  · unfold Encrypt
    by_cases hm : mode = GCM
    · rw [if_pos hm, if_pos hm, if_pos rfl]
    · have hne : ¬ CBC = GCM := by decide
      rw [if_neg hm, if_neg hm, if_neg hne]
  · simp only [Packet.IsGcmEncrypted, Bool.and_eq_true] at hp
    exact hp.1
  · simp only [Packet.marshalCompress, hp, if_true]
  · simp only [Packet.unmarshalPayload, hp, if_true, hd]

/-- C36 (witness). The reference primitives, the sample MAC and `Noop`, the default
key in the mode CBC and the resolver of the agent. -/
theorem envelope_bytes_roundtrip_witness :
    refPrimitives.Lawful ∧ sampleMac.length = 6 ∧
    (NewPacket sampleMac sampleNoop DefaultKey CBC).Marshal refPrimitives sampleRand
      = .ok sampleCbcBytes ∧
    (∃ out, (NewPacket sampleMac sampleNoop DefaultKey CBC).Marshal refPrimitives sampleRand
        = .ok out ∧
      (out.take 14).drop 8 = sampleMac ∧
      (emptyPacket.Unmarshal refPrimitives out (agentKeyFetcher DefaultKey)).pkt.ap
        = sampleMac) := by
  obtain ⟨out, h1, h2, _, h4, _⟩ :=
    (envelope_bytes_roundtrip refPrimitives refPrimitives_lawful emptyPacket sampleMac sampleNoop
      DefaultKey CBC sampleRand (agentKeyFetcher DefaultKey) (by decide) (Or.inr (by decide))
      (fun _ => ⟨_, rfl⟩) rfl (by decide)).1
  exact ⟨refPrimitives_lawful, by decide, by decide, out, h1, h2, h4⟩

/-! ## Lemmas: the ethernet table of `Request` -/

theorem ifaceStep_ethernet (r : Inform) (i : Interface) :
    (Request.ifaceStep r i).EthernetTable
      = some (r.EthernetTable.getD []
          ++ [⟨i.Name, HardwareAddr.String i.Mac, uint64 i.NumPort⟩]) := by
  unfold Request.ifaceStep
  simp only []
  split
  · split <;> rfl
  · rfl

theorem foldl_ifaceStep_ethernet (ifaces : List Interface) : ∀ (r : Inform)
    (t : List EthernetTableEntry), r.EthernetTable = some t →
    (ifaces.foldl Request.ifaceStep r).EthernetTable
      = some (t ++ ifaces.map
          (fun i => ⟨i.Name, HardwareAddr.String i.Mac, uint64 i.NumPort⟩)) := by
  induction ifaces with
  | nil => intro r t h; simpa using h
  | cons i is ih =>
    intro r t h
    rw [List.foldl_cons, ih (Request.ifaceStep r i) _ (by rw [ifaceStep_ethernet, h])]
    simp

/-- The ethernet table of `Request`: as many zero entries as there are collected
interfaces, from `make`, followed by the entries of the interfaces, from `append`. -/
theorem Request_ethernet (env : HostEnv) (address v : Str) (ifaces : Slice Interface)
    (hnet : env.network = .ok ifaces) :
    (Request env address v).1.EthernetTable
      = some (List.replicate (ifaces.getD []).length EthernetTableEntry.zero
          ++ (ifaces.getD []).map
            (fun i => ⟨i.Name, HardwareAddr.String i.Mac, uint64 i.NumPort⟩)) ∧
    (Request env address v).1.IntfTable = ifaces := by
  have h0 := foldl_ifaceStep_ethernet (ifaces.getD [])
    { Request.startStep env address v with
      IntfTable := ifaces
      EthernetTable := some (List.replicate (ifaces.getD []).length EthernetTableEntry.zero) }
    _ rfl
  have h1 : ∀ (l : List Interface) (r : Inform),
      (l.foldl Request.ifaceStep r).IntfTable = r.IntfTable := by
    intro l
    induction l with
    | nil => intro r; rfl
    | cons i is ih =>
      intro r
      rw [List.foldl_cons, ih]
      unfold Request.ifaceStep
      simp only []
      split
      · split <;> rfl
      · rfl
  have h2 := h1 (ifaces.getD [])
    { Request.startStep env address v with
      IntfTable := ifaces
      EthernetTable := some (List.replicate (ifaces.getD []).length EthernetTableEntry.zero) }
  unfold Request Request.networkStep
  simp only [hnet]
  cases env.sysStats <;> exact ⟨h0, h2⟩

/-- C37 (the code at the failing input). On the sample host `Network()` returns
three interfaces; the ethernet table `Request` builds has six entries, three zero
entries followed by the entries of the three interfaces, so its first entry is not
the one of the first interface of the interface table. -/
theorem Request_ethernet_table_doubled :
    ((Request sampleEnv "http://unifi:8080/inform" "abc").1.IntfTable.getD []).length = 3 ∧
    (Request sampleEnv "http://unifi:8080/inform" "abc").1.EthernetTable
      = some [⟨"", "", 0⟩, ⟨"", "", 0⟩, ⟨"", "", 0⟩,
          ⟨"eth0", "aa:bb:cc:dd:ee:ff", 1⟩, ⟨"eth1", "aa:bb:cc:dd:ee:00", 2⟩,
          ⟨"eth2", "aa:bb:cc:dd:ee:01", 3⟩] ∧
    ((Request sampleEnv "http://unifi:8080/inform" "abc").1.EthernetTable.getD []).length = 6 ∧
    ((Request sampleEnv "http://unifi:8080/inform" "abc").1.EthernetTable.getD [])[0]?
      = some EthernetTableEntry.zero := by
  refine ⟨by decide, by decide, by decide, by decide⟩

/-! ## Lemmas: the DNS servers of the static configurations -/

/-- The loop over the DNS servers leaves at its first turn: index 0 is neither 1
nor 2. -/
theorem dnsLoop_zero (config : NetworkConfig) (servers : List Str) :
    RequestFromPfsense.dnsLoop 0 config servers = config := by
  cases servers with
  | nil => rfl
  | cons ns rest =>
    unfold RequestFromPfsense.dnsLoop
    rw [if_neg (by decide), if_neg (by decide)]

/-- The DNS fields of the two WAN configurations, as a tuple. -/
theorem wanStep_dns (env : HostEnv) (pfsense : pfconf.Configuration)
    (speedtest : Option SpeedTestStatus) (table : PfSenseTranslation) (r : Inform)
    (h : r.ConfigNetworkWan.Dns1 = "" ∧ r.ConfigNetworkWan.Dns2 = "") :
    (RequestFromPfsense.wanStep env pfsense speedtest table r).ConfigNetworkWan.Dns1 = "" ∧
    (RequestFromPfsense.wanStep env pfsense speedtest table r).ConfigNetworkWan.Dns2 = "" ∧
    (RequestFromPfsense.wanStep env pfsense speedtest table r).ConfigNetworkWan2
      = r.ConfigNetworkWan2 := by
  unfold RequestFromPfsense.wanStep
  simp only []
  split
  · split
    · refine ⟨?_, ?_, rfl⟩
      · show (RequestFromPfsense.dnsLoop 0 _ _).Dns1 = ""
        rw [dnsLoop_zero]
      · show (RequestFromPfsense.dnsLoop 0 _ _).Dns2 = ""
        rw [dnsLoop_zero]
    · exact ⟨h.1, h.2, rfl⟩
  · exact ⟨h.1, h.2, rfl⟩

theorem wan2Step_dns (pfsense : pfconf.Configuration) (table : PfSenseTranslation) (r : Inform)
    (h : r.ConfigNetworkWan2.Dns1 = "" ∧ r.ConfigNetworkWan2.Dns2 = "") :
    (RequestFromPfsense.wan2Step pfsense table r).ConfigNetworkWan2.Dns1 = "" ∧
    (RequestFromPfsense.wan2Step pfsense table r).ConfigNetworkWan2.Dns2 = "" ∧
    (RequestFromPfsense.wan2Step pfsense table r).ConfigNetworkWan = r.ConfigNetworkWan := by
  unfold RequestFromPfsense.wan2Step
  simp only []
  split
  · split
    · refine ⟨?_, ?_, rfl⟩
      · show (RequestFromPfsense.dnsLoop 0 _ _).Dns1 = ""
        rw [dnsLoop_zero]
      · show (RequestFromPfsense.dnsLoop 0 _ _).Dns2 = ""
        rw [dnsLoop_zero]
    · exact ⟨h.1, h.2, rfl⟩
  · exact ⟨h.1, h.2, rfl⟩

theorem lanStep_config (table : PfSenseTranslation) (r : Inform) :
    (RequestFromPfsense.lanStep table r).ConfigNetworkWan = r.ConfigNetworkWan ∧
    (RequestFromPfsense.lanStep table r).ConfigNetworkWan2 = r.ConfigNetworkWan2 := by
  unfold RequestFromPfsense.lanStep
  simp only []
  split <;> exact ⟨rfl, rfl⟩

theorem uidStep_config (env : HostEnv) (table : PfSenseTranslation) (r r2 : Inform)
    (h : RequestFromPfsense.uidStep env table r = .ok r2) :
    r2.ConfigNetworkWan = r.ConfigNetworkWan ∧ r2.ConfigNetworkWan2 = r.ConfigNetworkWan2 := by
  unfold RequestFromPfsense.uidStep at h
  split at h
  · split at h
    · exact absurd h (by simp)
    · have h3 := Except.ok.inj h
      subst h3
      exact ⟨rfl, rfl⟩
  · have h3 := Except.ok.inj h
    subst h3
    exact ⟨rfl, rfl⟩

theorem pfsense_startStep_config (env : HostEnv) (address v : Str)
    (speedtest : Option SpeedTestStatus) :
    (RequestFromPfsense.startStep env address v speedtest).ConfigNetworkWan
      = ⟨NetworkConfigDhcp, "", "", "", "", "", ""⟩ ∧
    (RequestFromPfsense.startStep env address v speedtest).ConfigNetworkWan2
      = ⟨NetworkConfigDisabled, "", "", "", "", "", ""⟩ := by
  unfold RequestFromPfsense.startStep RequestFromPfsense.hostStep
  cases speedtest <;> cases env.hostInfo <;> cases env.sysStats <;> exact ⟨rfl, rfl⟩

/-- No `Inform` of `RequestFromPfsense` carries a DNS server in a WAN
configuration, whatever the router configuration lists. -/
theorem RequestFromPfsense_dns (env : HostEnv) (address v : Str)
    (pfsense : pfconf.Configuration) (translation : PfSenseTranslationTable)
    (speedtest : Option SpeedTestStatus) (r : Inform) (e : Option Error)
    (h : RequestFromPfsense env address v pfsense translation speedtest = .ok (r, e)) :
    r.ConfigNetworkWan.Dns1 = "" ∧ r.ConfigNetworkWan.Dns2 = "" ∧
    r.ConfigNetworkWan2.Dns1 = "" ∧ r.ConfigNetworkWan2.Dns2 = "" := by
  obtain ⟨hs1, hs2⟩ := pfsense_startStep_config env address v speedtest
  rcases RequestFromPfsense_ok env address v pfsense translation speedtest r e h with
    ⟨err, hnet, _, hr⟩ | ⟨ifaces, hnet, _, hu⟩
  · rw [hr, hs1, hs2]
    exact ⟨rfl, rfl, rfl, rfl⟩
  · generalize populateInterfaces (ifaces.getD []) pfsense.Interfaces translation = table at hu
    have h0 : ((RequestFromPfsense.startStep env address v speedtest).setTables
        (some []) (some [])).ConfigNetworkWan = ⟨NetworkConfigDhcp, "", "", "", "", "", ""⟩ := hs1
    have h02 : ((RequestFromPfsense.startStep env address v speedtest).setTables
        (some []) (some [])).ConfigNetworkWan2
          = ⟨NetworkConfigDisabled, "", "", "", "", "", ""⟩ := hs2
    generalize (RequestFromPfsense.startStep env address v speedtest).setTables
      (some []) (some []) = r0 at hu h0 h02
    obtain ⟨w1, w2, w3⟩ := wanStep_dns env pfsense speedtest table r0
      (by rw [h0]; exact ⟨rfl, rfl⟩)
    obtain ⟨x1, x2, x3⟩ := wan2Step_dns pfsense table
      (RequestFromPfsense.wanStep env pfsense speedtest table r0)
      (by rw [w3, h02]; exact ⟨rfl, rfl⟩)
    obtain ⟨l1, l2⟩ := lanStep_config table (RequestFromPfsense.wan2Step pfsense table
      (RequestFromPfsense.wanStep env pfsense speedtest table r0))
    obtain ⟨u1, u2⟩ := uidStep_config env table _ r hu
    rw [u1, u2, l1, l2, x3]
    exact ⟨w1, w2, x1, x2⟩

/-- C38 (the code at the failing input). The sample router configuration gives wan a
static address and lists three DNS servers; the static WAN configuration of the
`Inform` has empty `dns1` and `dns2`. -/
theorem static_wan_without_dns :
    samplePfsense.System.DnsServers = some ["1.1.1.1", "8.8.8.8", "9.9.9.9"] ∧
    RequestFromPfsense sampleEnv "http://unifi:8080/inform" "abc" samplePfsense
      sampleTranslation none = .ok (sampleRouterInform, none) ∧
    sampleRouterInform.ConfigNetworkWan
      = ⟨"static", "192.168.1.2", "255.255.255.0", "WANGW", "", "", "eth0"⟩ ∧
    sampleRouterInform.ConfigNetworkWan.Dns1 = "" ∧
    sampleRouterInform.ConfigNetworkWan.Dns2 = "" := by
  refine ⟨rfl, rfl, by decide, by decide, by decide⟩

/-! ## Lemmas: the document of a network configuration -/

/-- C39. For every `NetworkConfig` whose type is none of `dhcp`, `disabled` and
`static` (the empty type included), `MarshalJSON` succeeds and emits the object with
the one member `type`, of value `disabled`, whatever the interface name and the
address fields are; the reference codec renders it `\x7b"type":"disabled"\x7d`.  Hence
`MarshalJSON` fails exactly for a `static` configuration with an empty ip, netmask or
gateway. -/
theorem NetworkConfig_other (n : NetworkConfig) :
    (n.Type_ ≠ "dhcp" → n.Type_ ≠ "disabled" → n.Type_ ≠ "static" →
      n.MarshalJSON = .ok (.obj [("type", JSON.str "disabled")]) ∧
      n.MarshalJSON.map refPrimitives.jsonMarshal
        = .ok ("\x7b\"type\":\"disabled\"\x7d".data.map charByte)) ∧
    ((∃ e, n.MarshalJSON = .error e) ↔
      (n.Type_ = "static" ∧ (n.Ip = "" ∨ n.Netmask = "" ∨ n.Gateway = ""))) := by
  have hother : n.Type_ ≠ "dhcp" → n.Type_ ≠ "disabled" → n.Type_ ≠ "static" →
      n.MarshalJSON = .ok (.obj [("type", JSON.str "disabled")]) := by
    intro h1 h2 h3
    have hc : ¬ (n.Type_ = NetworkConfigDhcp ∨ n.Type_ = NetworkConfigDisabled) := by
      rintro (h | h)
      · exact h1 h
      · exact h2 h
    have hs : ¬ n.Type_ = NetworkConfigStatic := h3
    unfold NetworkConfig.MarshalJSON
    rw [if_neg hc, if_neg hs]
    rfl
  refine ⟨fun h1 h2 h3 => ⟨hother h1 h2 h3, ?_⟩, ?_⟩
  · rw [hother h1 h2 h3]
    decide
  · by_cases hs : n.Type_ = "static"
    · have heq := MarshalJSON_static n hs
      constructor
      · rintro ⟨e, he⟩
        refine ⟨hs, ?_⟩
        by_contra hcon
        have h1 : ¬ n.Ip = "" := fun h => hcon (Or.inl h)
        have h2 : ¬ n.Netmask = "" := fun h => hcon (Or.inr (Or.inl h))
        have h3 : ¬ n.Gateway = "" := fun h => hcon (Or.inr (Or.inr h))
        rw [heq, if_neg h1, if_neg h2, if_neg h3] at he
        exact absurd he (by simp)
      · rintro ⟨_, he⟩
        exact MarshalJSON_static_error n hs he
    · constructor
      · rintro ⟨e, he⟩
        by_cases hd : n.Type_ = "dhcp" ∨ n.Type_ = "disabled"
        · have hc : n.Type_ = NetworkConfigDhcp ∨ n.Type_ = NetworkConfigDisabled := hd
          unfold NetworkConfig.MarshalJSON at he
          rw [if_pos hc] at he
          exact absurd he (by simp)
        · have h1 : n.Type_ ≠ "dhcp" := fun h => hd (Or.inl h)
          have h2 : n.Type_ ≠ "disabled" := fun h => hd (Or.inr h)
          rw [hother h1 h2 hs] at he
          exact absurd he (by simp)
      · rintro ⟨h, _⟩
        exact absurd h hs

/-- C39 (witness). A configuration with the empty type, an address and an interface
name. -/
theorem NetworkConfig_other_witness :
    NetworkConfig.MarshalJSON ⟨"", "1.2.3.4", "255.255.255.0", "1.2.3.1", "1.1.1.1", "", "eth0"⟩
      = .ok (.obj [("type", JSON.str "disabled")]) :=
  ((NetworkConfig_other ⟨"", "1.2.3.4", "255.255.255.0", "1.2.3.1", "1.1.1.1", "", "eth0"⟩).1
    (by decide) (by decide) (by decide)).1

/-! ## Lemmas: the interface and port tables of `RequestFromPfsense` -/

/-- `prepareRealInterface` keeps the router interface and the two names. -/
theorem prepareRealInterface_fields (pfInterface : pfconf.Interface)
    (interfaces : List Interface) (unifiName unifiLabel : Str) :
    (prepareRealInterface pfInterface interfaces unifiName unifiLabel).Pfsense = pfInterface ∧
    (prepareRealInterface pfInterface interfaces unifiName unifiLabel).UnifiName = unifiName := by
  unfold prepareRealInterface
  have h : ∀ (l : List Interface) (t : TranslatedInterface),
      (l.foldl (fun result iface =>
        if iface.Name = pfInterface.If then { result with Physical := iface } else result)
        t).Pfsense = t.Pfsense ∧
      (l.foldl (fun result iface =>
        if iface.Name = pfInterface.If then { result with Physical := iface } else result)
        t).UnifiName = t.UnifiName := by
    intro l
    induction l with
    | nil => intro t; exact ⟨rfl, rfl⟩
    | cons i is ih =>
      intro t
      rw [List.foldl_cons]
      obtain ⟨h1, h2⟩ := ih (if i.Name = pfInterface.If then { t with Physical := i } else t)
      rw [h1, h2]
      split <;> exact ⟨rfl, rfl⟩
  exact h interfaces _

theorem populateInterfaces_eq (p : List Interface) (pfsense : List pfconf.Interface)
    (translation : PfSenseTranslationTable) :
    populateInterfaces p pfsense translation
      = pfsense.foldl (populateStep p translation)
        ⟨TranslatedInterface.zero, TranslatedInterface.zero, TranslatedInterface.zero,
          TranslatedInterface.zero⟩ := rfl

theorem matchedInterface_append (pfs : List pfconf.Interface) (i : pfconf.Interface)
    (select : pfconf.Interface → Bool) :
    matchedInterface (pfs ++ [i]) select
      = if select i = true then i else matchedInterface pfs select := by
  unfold matchedInterface
  rw [List.filter_append, List.getLast?_append]
  by_cases h : select i = true
  · rw [if_pos h, List.filter_cons_of_pos h]
    rfl
  · rw [if_neg h, List.filter_cons_of_neg h]
    rfl

/-- What `populateInterfaces` keeps for wan, wan2 and lan: the router interface the
role selects, under the name `eth0`, `eth2` and `eth1`. -/
theorem populateInterfaces_matched (p : List Interface) (translation : PfSenseTranslationTable)
    (pfs : List pfconf.Interface) :
    (populateInterfaces p pfs translation).Wan.Pfsense
      = matchedInterface pfs (selectsWan translation) ∧
    (populateInterfaces p pfs translation).Wan2.Pfsense
      = matchedInterface pfs (selectsWan2 translation) ∧
    (populateInterfaces p pfs translation).Lan.Pfsense
      = matchedInterface pfs (selectsLan translation) ∧
    ((populateInterfaces p pfs translation).Wan.Pfsense.If ≠ "" →
      (populateInterfaces p pfs translation).Wan.UnifiName = "eth0") ∧
    ((populateInterfaces p pfs translation).Wan2.Pfsense.If ≠ "" →
      (populateInterfaces p pfs translation).Wan2.UnifiName = "eth2") ∧
    ((populateInterfaces p pfs translation).Lan.Pfsense.If ≠ "" →
      (populateInterfaces p pfs translation).Lan.UnifiName = "eth1") := by
  rw [populateInterfaces_eq]
  induction pfs using List.reverseRecOn with
  | nil =>
    refine ⟨rfl, rfl, rfl, fun h => absurd rfl h, fun h => absurd rfl h, fun h => absurd rfl h⟩
  | append_singleton pfs i ih =>
    obtain ⟨i1, i2, i3, i4, i5, i6⟩ := ih
    rw [List.foldl_append, matchedInterface_append, matchedInterface_append,
      matchedInterface_append]
    simp only [List.foldl_cons, List.foldl_nil]
    generalize pfs.foldl (populateStep p translation)
      ⟨TranslatedInterface.zero, TranslatedInterface.zero, TranslatedInterface.zero,
        TranslatedInterface.zero⟩ = t at i1 i2 i3 i4 i5 i6 ⊢
    unfold populateStep
    by_cases hl : i.XMLName.Local = translation.Lan
    · have s1 : selectsLan translation i = true := by simp [selectsLan, hl]
      have s2 : ¬ selectsWan translation i = true := by simp [selectsWan, hl]
      have s3 : ¬ selectsWan2 translation i = true := by simp [selectsWan2, hl]
      rw [if_pos hl, if_pos s1, if_neg s2, if_neg s3]
      refine ⟨i1, i2, ?_, i4, i5, fun _ => ?_⟩
      · exact (prepareRealInterface_fields i p "eth1" "lan").1
      · exact (prepareRealInterface_fields i p "eth1" "lan").2
    · have s1 : ¬ selectsLan translation i = true := by simp [selectsLan, hl]
      rw [if_neg hl, if_neg s1]
      by_cases hw : i.XMLName.Local = translation.Wan
      · have s2 : selectsWan translation i = true := by
          simp only [selectsWan, decide_eq_true_eq]
          exact ⟨hl, hw⟩
        have s3 : ¬ selectsWan2 translation i = true := by simp [selectsWan2, hw]
        rw [if_pos hw, if_pos s2, if_neg s3]
        refine ⟨?_, i2, i3, fun _ => ?_, i5, i6⟩
        · exact (prepareRealInterface_fields i p "eth0" "wan").1
        · exact (prepareRealInterface_fields i p "eth0" "wan").2
      · have s2 : ¬ selectsWan translation i = true := by simp [selectsWan, hw]
        rw [if_neg hw, if_neg s2]
        by_cases hw2 : i.XMLName.Local = translation.Wan2
        · have s3 : selectsWan2 translation i = true := by
            simp only [selectsWan2, decide_eq_true_eq]
            exact ⟨hl, hw, hw2⟩
          rw [if_pos hw2, if_pos s3]
          refine ⟨i1, ?_, i3, i4, fun _ => ?_, i6⟩
          · exact (prepareRealInterface_fields i p "eth2" "wan2").1
          · exact (prepareRealInterface_fields i p "eth2" "wan2").2
        · have s3 : ¬ selectsWan2 translation i = true := by simp [selectsWan2, hw2]
          rw [if_neg hw2, if_neg s3]
          split <;> exact ⟨i1, i2, i3, i4, i5, i6⟩

theorem wanInterface_name (env : HostEnv) (pfsense : pfconf.Configuration)
    (speedtest : Option SpeedTestStatus) (table : PfSenseTranslation) :
    (RequestFromPfsense.wanInterface env pfsense speedtest table).Name = table.Wan.UnifiName := by
  unfold RequestFromPfsense.wanInterface
  cases env.gateway <;> cases speedtest <;>
    by_cases hd : (pfsense.System.DnsServers.getD []).length > 0 <;> simp [hd]

/-- The tables after the wan step. -/
theorem wanStep_tables (env : HostEnv) (pfsense : pfconf.Configuration)
    (speedtest : Option SpeedTestStatus) (table : PfSenseTranslation) (r : Inform)
    (it : List Interface) (pt : List Port) (hi : r.IntfTable = some it)
    (hp : r.PortTable = some pt) :
    ∃ X, (RequestFromPfsense.wanStep env pfsense speedtest table r).IntfTable = some (it ++ X) ∧
      X.map (fun i => i.Name)
        = (if table.Wan.Pfsense.If ≠ "" then [table.Wan.UnifiName] else []) ∧
      (RequestFromPfsense.wanStep env pfsense speedtest table r).PortTable
        = some (pt ++ (if table.Wan.Pfsense.If ≠ "" then [⟨table.Wan.UnifiName, "wan"⟩]
            else [])) := by
  by_cases hc : table.Wan.Pfsense.If ≠ ""
  · have h1 : (RequestFromPfsense.wanStep env pfsense speedtest table r).IntfTable
        = some (r.IntfTable.getD []
          ++ [RequestFromPfsense.wanInterface env pfsense speedtest table]) := by
      unfold RequestFromPfsense.wanStep
      rw [if_pos hc]
      simp only []
      split <;> rfl
    have h2 : (RequestFromPfsense.wanStep env pfsense speedtest table r).PortTable
        = some (r.PortTable.getD []
          ++ [⟨(RequestFromPfsense.wanInterface env pfsense speedtest table).Name, "wan"⟩]) := by
      unfold RequestFromPfsense.wanStep
      rw [if_pos hc]
      simp only []
      split <;> rfl
    rw [if_pos hc, if_pos hc, h1, h2, hi, hp, wanInterface_name]
    exact ⟨_, rfl, by simp [wanInterface_name], rfl⟩
  · have h1 : RequestFromPfsense.wanStep env pfsense speedtest table r = r := by
      unfold RequestFromPfsense.wanStep
      rw [if_neg hc]
    rw [if_neg hc, if_neg hc, h1]
    exact ⟨[], by rw [hi, List.append_nil], rfl, by rw [hp, List.append_nil]⟩

/-- The tables after the wan2 step. -/
theorem wan2Step_tables (pfsense : pfconf.Configuration) (table : PfSenseTranslation)
    (r : Inform) (it : List Interface) (pt : List Port) (hi : r.IntfTable = some it)
    (hp : r.PortTable = some pt) :
    ∃ X, (RequestFromPfsense.wan2Step pfsense table r).IntfTable = some (it ++ X) ∧
      X.map (fun i => i.Name)
        = (if table.Wan2.Pfsense.If ≠ "" then [table.Wan2.UnifiName] else []) ∧
      (RequestFromPfsense.wan2Step pfsense table r).PortTable
        = some (pt ++ (if table.Wan2.Pfsense.If ≠ "" then [⟨table.Wan2.UnifiName, "wan2"⟩]
            else [])) := by
  by_cases hc : table.Wan2.Pfsense.If ≠ ""
  · have h1 : (RequestFromPfsense.wan2Step pfsense table r).IntfTable
        = some (r.IntfTable.getD []
          ++ [table.Wan2.Physical.setName table.Wan2.UnifiName]) := by
      unfold RequestFromPfsense.wan2Step
      rw [if_pos hc]
      simp only []
      split <;> rfl
    have h2 : (RequestFromPfsense.wan2Step pfsense table r).PortTable
        = some (r.PortTable.getD [] ++ [⟨table.Wan2.UnifiName, "wan2"⟩]) := by
      unfold RequestFromPfsense.wan2Step
      rw [if_pos hc]
      simp only []
      split <;> rfl
    rw [if_pos hc, if_pos hc, h1, h2, hi, hp]
    exact ⟨_, rfl, rfl, rfl⟩
  · have h1 : RequestFromPfsense.wan2Step pfsense table r = r := by
      unfold RequestFromPfsense.wan2Step
      rw [if_neg hc]
    rw [if_neg hc, if_neg hc, h1]
    exact ⟨[], by rw [hi, List.append_nil], rfl, by rw [hp, List.append_nil]⟩

/-- The tables after the lan step. -/
theorem lanStep_tables (table : PfSenseTranslation)
    (r : Inform) (it : List Interface) (pt : List Port) (hi : r.IntfTable = some it)
    (hp : r.PortTable = some pt) :
    ∃ X, (RequestFromPfsense.lanStep table r).IntfTable = some (it ++ X) ∧
      X.map (fun i => i.Name)
        = (if table.Lan.Pfsense.If ≠ "" then [table.Lan.UnifiName] else []) ∧
      (RequestFromPfsense.lanStep table r).PortTable
        = some (pt ++ (if table.Lan.Pfsense.If ≠ "" then [⟨table.Lan.UnifiName, "lan"⟩]
            else [])) := by
  by_cases hc : table.Lan.Pfsense.If ≠ ""
  · have h1 : (RequestFromPfsense.lanStep table r).IntfTable
        = some (r.IntfTable.getD [] ++ [table.Lan.Physical.setName table.Lan.UnifiName]) := by
      unfold RequestFromPfsense.lanStep
      rw [if_pos hc]
      rfl
    have h2 : (RequestFromPfsense.lanStep table r).PortTable
        = some (r.PortTable.getD [] ++ [⟨table.Lan.UnifiName, "lan"⟩]) := by
      unfold RequestFromPfsense.lanStep
      rw [if_pos hc]
    rw [if_pos hc, if_pos hc, h1, h2, hi, hp]
    exact ⟨_, rfl, rfl, rfl⟩
  · have h1 : RequestFromPfsense.lanStep table r = r := by
      unfold RequestFromPfsense.lanStep
      rw [if_neg hc]
    rw [if_neg hc, if_neg hc, h1]
    exact ⟨[], by rw [hi, List.append_nil], rfl, by rw [hp, List.append_nil]⟩

/-- The uid step leaves the tables as they are. -/
theorem uidStep_tables (env : HostEnv) (table : PfSenseTranslation) (r r2 : Inform)
    (h : RequestFromPfsense.uidStep env table r = .ok r2) :
    r2.IntfTable = r.IntfTable ∧ r2.PortTable = r.PortTable := by
  unfold RequestFromPfsense.uidStep at h
  split at h
  · split at h
    · exact absurd h (by simp)
    · have h3 := Except.ok.inj h
      subst h3
      exact ⟨rfl, rfl⟩
  · have h3 := Except.ok.inj h
    subst h3
    exact ⟨rfl, rfl⟩

theorem pfsense_startStep_tables (env : HostEnv) (address v : Str)
    (speedtest : Option SpeedTestStatus) :
    (RequestFromPfsense.startStep env address v speedtest).IntfTable = none ∧
    (RequestFromPfsense.startStep env address v speedtest).PortTable = some [] := by
  unfold RequestFromPfsense.startStep RequestFromPfsense.hostStep
  cases speedtest <;> cases env.hostInfo <;> cases env.sysStats <;> exact ⟨rfl, rfl⟩

/-- The tables `RequestFromPfsense` returns when `Network()` succeeded: the entries
of wan, wan2 and lan, in that order, each when the router interface kept for the
role has a device. -/
theorem RequestFromPfsense_tables (env : HostEnv) (address v : Str)
    (pfsense : pfconf.Configuration) (translation : PfSenseTranslationTable)
    (speedtest : Option SpeedTestStatus) (r : Inform) (e : Option Error)
    (h : RequestFromPfsense env address v pfsense translation speedtest = .ok (r, e)) :
    (∀ err, env.network = .error err → r.IntfTable = none ∧ r.PortTable = some []) ∧
    (∀ ifaces, env.network = .ok ifaces →
      ∃ it, r.IntfTable = some it ∧
        it.map (fun i => i.Name)
          = (specRouterPorts pfsense.Interfaces translation).map (fun p => p.IfName) ∧
        r.PortTable = some (specRouterPorts pfsense.Interfaces translation)) := by
  obtain ⟨hs1, hs2⟩ := pfsense_startStep_tables env address v speedtest
  rcases RequestFromPfsense_ok env address v pfsense translation speedtest r e h with
    ⟨err, hnet, _, hr⟩ | ⟨ifaces, hnet, _, hu⟩
  · refine ⟨fun _ _ => ?_, fun ifaces hn => ?_⟩
    · rw [hr]; exact ⟨hs1, hs2⟩
    · rw [hnet] at hn; exact absurd hn (by simp)
  · refine ⟨fun err hn => ?_, fun ifaces2 hn => ?_⟩
    · rw [hnet] at hn; exact absurd hn (by simp)
    rw [hnet] at hn
    have hi : ifaces = ifaces2 := Except.ok.inj hn
    subst hi
    obtain ⟨m1, m2, m3, m4, m5, m6⟩ :=
      populateInterfaces_matched (ifaces.getD []) translation pfsense.Interfaces
    obtain ⟨table, htab⟩ : ∃ t, t = populateInterfaces (ifaces.getD []) pfsense.Interfaces
      translation := ⟨_, rfl⟩
    rw [← htab] at hu m1 m2 m3 m4 m5 m6
    obtain ⟨X1, a1, a2, a3⟩ := wanStep_tables env pfsense speedtest table
      ((RequestFromPfsense.startStep env address v speedtest).setTables (some []) (some []))
      [] [] rfl rfl
    obtain ⟨X2, b1, b2, b3⟩ := wan2Step_tables pfsense table _ _ _ a1 a3
    obtain ⟨X3, c1, c2, c3⟩ := lanStep_tables table _ _ _ b1 b3
    obtain ⟨d1, d2⟩ := uidStep_tables env table _ r hu
    rw [d1, d2, c1, c3]
    have hports : ([] ++ (if table.Wan.Pfsense.If ≠ "" then [(⟨table.Wan.UnifiName, "wan"⟩ : Port)]
          else [])
        ++ (if table.Wan2.Pfsense.If ≠ "" then [(⟨table.Wan2.UnifiName, "wan2"⟩ : Port)] else [])
        ++ (if table.Lan.Pfsense.If ≠ "" then [(⟨table.Lan.UnifiName, "lan"⟩ : Port)] else []))
        = specRouterPorts pfsense.Interfaces translation := by
      have e1 : (if table.Wan.Pfsense.If ≠ "" then [(⟨table.Wan.UnifiName, "wan"⟩ : Port)]
          else []) = (if table.Wan.Pfsense.If ≠ "" then [⟨"eth0", "wan"⟩] else []) := by
        by_cases w : table.Wan.Pfsense.If ≠ ""
        · rw [if_pos w, if_pos w, m4 w]
        · rw [if_neg w, if_neg w]
      have e2 : (if table.Wan2.Pfsense.If ≠ "" then [(⟨table.Wan2.UnifiName, "wan2"⟩ : Port)]
          else []) = (if table.Wan2.Pfsense.If ≠ "" then [⟨"eth2", "wan2"⟩] else []) := by
        by_cases w : table.Wan2.Pfsense.If ≠ ""
        · rw [if_pos w, if_pos w, m5 w]
        · rw [if_neg w, if_neg w]
      have e3 : (if table.Lan.Pfsense.If ≠ "" then [(⟨table.Lan.UnifiName, "lan"⟩ : Port)]
          else []) = (if table.Lan.Pfsense.If ≠ "" then [⟨"eth1", "lan"⟩] else []) := by
        by_cases w : table.Lan.Pfsense.If ≠ ""
        · rw [if_pos w, if_pos w, m6 w]
        · rw [if_neg w, if_neg w]
      unfold specRouterPorts
      rw [← m1, ← m2, ← m3, e1, e2, e3, List.nil_append]
    refine ⟨_, rfl, ?_, by rw [hports]⟩
    rw [← hports]
    simp only [List.map_append, a2, b2, c2, List.nil_append, List.map_nil]
    by_cases w1 : table.Wan.Pfsense.If ≠ "" <;> by_cases w2 : table.Wan2.Pfsense.If ≠ "" <;>
      by_cases w3 : table.Lan.Pfsense.If ≠ "" <;>
      simp [w1, w2, w3]

/-- The interface kept for a role is an interface of the router configuration that
the role selects, when there is one, and the zero interface otherwise. -/
theorem matchedInterface_spec (l : List pfconf.Interface) (select : pfconf.Interface → Bool) :
    ((∃ i ∈ l, select i = true) →
      matchedInterface l select ∈ l ∧ select (matchedInterface l select) = true) ∧
    ((¬ ∃ i ∈ l, select i = true) → matchedInterface l select = pfconf.Interface.zero) := by
  unfold matchedInterface
  constructor
  · rintro ⟨i, hi, hs⟩
    have hne : l.filter select ≠ [] := by
      intro h
      have : i ∈ l.filter select := List.mem_filter.2 ⟨hi, hs⟩
      rw [h] at this
      exact absurd this (by simp)
    rw [List.getLast?_eq_getLast _ hne]
    have hm := List.getLast_mem hne
    exact List.mem_filter.1 hm
  · intro h
    have he : l.filter select = [] := by
      rw [List.filter_eq_nil_iff]
      intro i hi hs
      exact h ⟨i, hi, hs⟩
    rw [he]
    rfl

theorem matchedInterface_device (l : List pfconf.Interface) (select : pfconf.Interface → Bool)
    (hif : ∀ i ∈ l, i.If ≠ "") :
    (matchedInterface l select).If ≠ "" ↔ ∃ i ∈ l, select i = true := by
  obtain ⟨h1, h2⟩ := matchedInterface_spec l select
  constructor
  · intro h
    by_contra hn
    rw [h2 hn] at h
    exact h rfl
  · intro h
    exact hif _ (h1 h).1

/-- C40. In router-config mode, for every router configuration, translation table
and interface list, the interface table and the port table of the produced `Inform`
have the same length and are aligned: entry `i` of the port table names the
interface of entry `i` of the interface table.  When `Network()` succeeded the port
table is made of the entries of wan (`eth0`, `wan`), wan2 (`eth2`, `wan2`) and lan
(`eth1`, `lan`), in that order, each present exactly when the router interface
matched for the role has a device; when every interface of the router configuration
has a device, that is exactly when an interface of the role is in the configuration
(the roles are tried in the order lan, wan, wan2).  The uid entry of the translation
table has no influence on the table.  When `Network()` failed both tables are
empty. -/
theorem router_tables_aligned (env : HostEnv) (address version : Str)
    (pfsense : pfconf.Configuration) (translation : PfSenseTranslationTable)
    (speedtest : Option SpeedTestStatus) :
    (∀ r e, RequestFromPfsense env address version pfsense translation speedtest = .ok (r, e) →
      (r.IntfTable.getD []).length = (r.PortTable.getD []).length ∧
      (∀ i : Nat, ((r.PortTable.getD [])[i]?).map (fun p : Port => p.IfName)
        = ((r.IntfTable.getD [])[i]?).map (fun x : Interface => x.Name)) ∧
      (∀ ifaces, env.network = .ok ifaces →
        r.PortTable = some (specRouterPorts pfsense.Interfaces translation)) ∧
      (∀ err, env.network = .error err → r.IntfTable = none ∧ r.PortTable = some [])) ∧
    ((∀ i ∈ pfsense.Interfaces, i.If ≠ "") →
      ((matchedInterface pfsense.Interfaces (selectsWan translation)).If ≠ "" ↔
        ∃ i ∈ pfsense.Interfaces, i.XMLName.Local ≠ translation.Lan ∧
          i.XMLName.Local = translation.Wan) ∧
      ((matchedInterface pfsense.Interfaces (selectsWan2 translation)).If ≠ "" ↔
        ∃ i ∈ pfsense.Interfaces, i.XMLName.Local ≠ translation.Lan ∧
          i.XMLName.Local ≠ translation.Wan ∧ i.XMLName.Local = translation.Wan2) ∧
      ((matchedInterface pfsense.Interfaces (selectsLan translation)).If ≠ "" ↔
        ∃ i ∈ pfsense.Interfaces, i.XMLName.Local = translation.Lan)) ∧
    (∀ uid, specRouterPorts pfsense.Interfaces
        ⟨translation.Wan, translation.Wan2, translation.Lan, uid⟩
      = specRouterPorts pfsense.Interfaces translation) ∧
    ((∀ ip b, env.ParseIP ip = some b → 4 ≤ b.length) →
      ∃ r e, RequestFromPfsense env address version pfsense translation speedtest
        = .ok (r, e)) := by
  refine ⟨fun r e h => ?_, fun hif => ⟨?_, ?_, ?_⟩, fun uid => rfl,
    RequestFromPfsense_returns env address version pfsense translation speedtest⟩
  · obtain ⟨herr, hok⟩ := RequestFromPfsense_tables env address version pfsense translation
      speedtest r e h
    cases hnet : env.network with
    | error err =>
      obtain ⟨h1, h2⟩ := herr err hnet
      refine ⟨by rw [h1, h2]; rfl, fun i => by rw [h1, h2]; simp, fun ifaces hn => ?_,
        fun _ _ => ⟨h1, h2⟩⟩
      exact absurd hn (by simp)
    | ok ifaces =>
      obtain ⟨it, h1, h2, h3⟩ := hok ifaces hnet
      refine ⟨?_, fun i => ?_, fun _ _ => h3, fun err hn => absurd hn (by simp)⟩
      · rw [h1, h3]
        have := congrArg List.length h2
        simpa using this
      · rw [h1, h3]
        have := congrArg (fun l : List Str => l[i]?) h2
        simpa [List.getElem?_map] using this.symm
  · rw [matchedInterface_device _ _ hif]
    simp [selectsWan]
  · rw [matchedInterface_device _ _ hif]
    simp [selectsWan2]
  · rw [matchedInterface_device _ _ hif]
    simp [selectsLan]

/-- C40 (witness). The sample host in router-config mode: wan and lan are matched,
wan2 is not. -/
theorem router_tables_aligned_witness :
    RequestFromPfsense sampleEnv "http://unifi:8080/inform" "abc" samplePfsense
      sampleTranslation none = .ok (sampleRouterInform, none) ∧
    sampleRouterInform.PortTable = some [⟨"eth0", "wan"⟩, ⟨"eth1", "lan"⟩] ∧
    (sampleRouterInform.IntfTable.getD []).length
      = (sampleRouterInform.PortTable.getD []).length :=
  ⟨rfl,
    (((router_tables_aligned sampleEnv "http://unifi:8080/inform" "abc" samplePfsense
      sampleTranslation none).1 sampleRouterInform none rfl).2.2.1
        (some sampleInterfaces) rfl).trans (by decide),
    ((router_tables_aligned sampleEnv "http://unifi:8080/inform" "abc" samplePfsense
      sampleTranslation none).1 sampleRouterInform none rfl).1⟩

end Ripugw
